import Mathlib

/-! Packet traversal of a BVH4 with eight rays

A shallow embedding of `src/embree.cpp` (the 8-wide mask and float types, the
`BVH4` node references and inner nodes, `BVH4Intersector8Chunk::intersect` and
`Triangle4Intersector8MoellerTrumbore::intersect`) together with theorems about it.

Conventions of the embedding.

* A lane of an `avxf` that holds geometry (origins, directions, vertices, bounds,
  barycentric coordinates) is an exact rational number.
* A lane that holds a ray distance (`tnear`, `tfar`, the traversal registers
  `ray_tnear`, `ray_tfar`, `curDist` and the near-distance stack) is a `Dist`: an
  exact rational or one of the two infinities the code itself loads
  (`pos_inf`, `neg_inf`).  The only place where the code can produce a NaN from such
  values is a product `0 * ±∞`; products therefore return `Option Dist` with `none`
  standing for NaN, and the ordered comparisons of the source are false on `none`.
* A mask `avxb` is a function from the eight lane indices to `Bool`.
* A `NodeRef` is the `size_t` value of the reference (64 bit); memory is a function
  from addresses to nodes and from leaf base addresses to arrays of `Triangle4`.
* The traversal is the instantiation `types = 0x1` (inner nodes of type `Node` only; the
  motion-blur node type is not part of the source).  Its loop is a step machine: one step
  is a pop of the outer loop or one round of the inner loop, `run` iterates the steps with
  a budget, and the assertions of the loop (on the stack pointer and on `cur`) are faults
  of the machine.
* Not part of the source and therefore fields, parameters or modelled from the spec, each
  marked where it is declared: the `avx3f` operations, `Ray8`, the accessors of `Triangle4`,
  `Scene`, `rcp_safe`, and the leaf adapter `LeafIterator8`.
-/

namespace embree

/-! ## Lane values -/

/-- A distance lane: an exact rational, or `neg_inf` / `pos_inf`. -/
inductive Dist where
  | neg_inf : Dist
  | fin (q : ℚ) : Dist
  | pos_inf : Dist
  deriving DecidableEq

namespace Dist

/-- Order on distance lanes: `neg_inf` below and `pos_inf` above every rational. -/
def le : Dist → Dist → Prop
  | neg_inf, _ => True
  | fin _, neg_inf => False
  | fin a, fin b => a ≤ b
  | fin _, pos_inf => True
  | pos_inf, pos_inf => True
  | pos_inf, _ => False

instance : LE Dist := ⟨Dist.le⟩

instance : LT Dist := ⟨fun a b => a ≤ b ∧ ¬ b ≤ a⟩

instance decLe : (a b : Dist) → Decidable (a ≤ b)
  | neg_inf, _ => isTrue trivial
  | fin _, neg_inf => isFalse (fun h => h)
  | fin a, fin b => inferInstanceAs (Decidable (a ≤ b))
  | fin _, pos_inf => isTrue trivial
  | pos_inf, pos_inf => isTrue trivial
  | pos_inf, neg_inf => isFalse (fun h => h)
  | pos_inf, fin _ => isFalse (fun h => h)

instance decLt (a b : Dist) : Decidable (a < b) :=
  inferInstanceAs (Decidable (a ≤ b ∧ ¬ b ≤ a))

instance : LinearOrder Dist where
  le := (· ≤ ·)
  lt := (· < ·)
  le_refl := by
    intro a
    cases a
    · trivial
    · exact (le_refl _ : (_ : ℚ) ≤ _)
    · trivial
  le_trans := by
    intro a b c h₁ h₂
    cases a <;> cases b <;> cases c <;>
      first
        | trivial
        | exact absurd h₁ (fun h => h)
        | exact absurd h₂ (fun h => h)
        | exact (le_trans (show (_ : ℚ) ≤ _ from h₁) (show (_ : ℚ) ≤ _ from h₂) : (_ : ℚ) ≤ _)
  le_antisymm := by
    intro a b h₁ h₂
    cases a <;> cases b <;>
      first
        | rfl
        | exact absurd h₁ (fun h => h)
        | exact absurd h₂ (fun h => h)
        | exact congrArg fin (le_antisymm (show (_ : ℚ) ≤ _ from h₁) (show (_ : ℚ) ≤ _ from h₂))
  le_total := by
    intro a b
    cases a <;> cases b <;>
      first
        | exact Or.inl trivial
        | exact Or.inr trivial
        | exact (le_total _ _ : (_ : ℚ) ≤ _ ∨ (_ : ℚ) ≤ _)
  lt_iff_le_not_le := fun _ _ => Iff.rfl
  decidableLE := decLe
  decidableLT := decLt

/-- Product of a geometry lane with a distance lane; `none` is the NaN of `0 * ±∞`. -/
def mul (a : ℚ) : Dist → Option Dist
  | fin q => some (fin (a * q))
  | pos_inf => if 0 < a then some pos_inf else if a < 0 then some neg_inf else none
  | neg_inf => if 0 < a then some neg_inf else if a < 0 then some pos_inf else none

/-- Ordered comparison `a <= b` (`_CMP_LE_OQ`): false when an operand is NaN. -/
def cmp_le : Option Dist → Option Dist → Bool
  | some x, some y => decide (x ≤ y)
  | _, _ => false

/-- Ordered comparison `a >= b` (`_CMP_GE_OQ`): false when an operand is NaN. -/
def cmp_ge (a b : Option Dist) : Bool := cmp_le b a

end Dist

/-! ## avxb, avxf -/

/-- The 8-wide mask type, one `Bool` per lane (`operator[] const`). -/
abbrev avxb := Fin 8 → Bool

/-- The 8-wide float type holding geometry: exact rationals. -/
abbrev avxf := Fin 8 → ℚ

/-- The 8-wide float type holding ray distances. -/
abbrev avxd := Fin 8 → Dist

/-- The 8-wide int type. -/
abbrev avxi := Fin 8 → Int

/-- The 4-wide float type of the node bounds and triangle blocks. -/
abbrev ssef := Fin 4 → ℚ

/-- Reduction `any` of a mask (`!_mm256_testz_ps(a,a)`). -/
def any (a : avxb) : Bool :=
  a 0 || a 1 || a 2 || a 3 || a 4 || a 5 || a 6 || a 7

/-- Reduction `none` of a mask (`_mm256_testz_ps(a,a) != 0`). -/
def none (a : avxb) : Bool := !(any a)

/-- Reduction `all` of a mask (`movemask == 0xff`). -/
def all (a : avxb) : Bool :=
  a 0 && a 1 && a 2 && a 3 && a 4 && a 5 && a 6 && a 7

/-- Lanewise `select(m, t, f)` (`_mm256_blendv_ps(f, t, m)`). -/
def select {α : Type} (m : avxb) (t f : Fin 8 → α) : Fin 8 → α :=
  fun l => if m l then t l else f l

/-- Masked store `store8f(mask, ptr, f)` (`_mm256_maskstore_ps`), also used for `store8i`. -/
def store8f {α : Type} (mask : avxb) (dst : Fin 8 → α) (f : Fin 8 → α) : Fin 8 → α :=
  fun l => if mask l then f l else dst l

/-- Sign-bit transfer `x ^ signmsk(den)`: the sign of `x` is flipped iff `den` is negative. -/
def xorSgn (x den : ℚ) : ℚ := if den < 0 then -x else x

/-- Exact reciprocal standing for `rcp` (one Newton step in the source). -/
def rcp (a : ℚ) : ℚ := a⁻¹


/-! ## Vectors, ray packets, triangle blocks -/

/-- Struct-of-arrays 3-vector over 8 lanes (`avx3f`). -/
structure avx3f where
  x : avxf
  y : avxf
  z : avxf

/-- Struct-of-arrays 3-vector over 4 lanes (`sse3f`). -/
structure sse3f where
  x : ssef
  y : ssef
  z : ssef

/-- Modelled from the spec: `p0 − ray.org` is the componentwise difference of `avx3f`. -/
def avx3f.sub (a b : avx3f) : avx3f :=
  ⟨fun l => a.x l - b.x l, fun l => a.y l - b.y l, fun l => a.z l - b.z l⟩

/-- Modelled from the spec: `org * rdir` is the componentwise product of `avx3f`. -/
def avx3f.mul (a b : avx3f) : avx3f :=
  ⟨fun l => a.x l * b.x l, fun l => a.y l * b.y l, fun l => a.z l * b.z l⟩

/-- Modelled from the spec: `dot(a,b) = a.x·b.x + a.y·b.y + a.z·b.z` on `avx3f`. -/
def dot (a b : avx3f) : avxf :=
  fun l => a.x l * b.x l + a.y l * b.y l + a.z l * b.z l

/-- Modelled from the spec: `cross(a,b)` on `avx3f`, the vector product. -/
def cross (a b : avx3f) : avx3f :=
  ⟨fun l => a.y l * b.z l - a.z l * b.y l,
   fun l => a.z l * b.x l - a.x l * b.z l,
   fun l => a.x l * b.y l - a.y l * b.x l⟩

/-- Broadcast of entry `i` of a 4-lane vector to all eight lanes (`broadcast8f(v, i)`). -/
def broadcast8f (v : sse3f) (i : Fin 4) : avx3f :=
  ⟨fun _ => v.x i, fun _ => v.y i, fun _ => v.z i⟩

/-- The ray packet `Ray8`: eight rays in struct-of-arrays form. -/
structure Ray8 where
  org : avx3f
  dir : avx3f
  tnear : avxd
  tfar : avxd
  time : avxf
  mask : Fin 8 → Nat
  Ng : avx3f
  u : avxf
  v : avxf
  geomID : avxi
  primID : avxi

/-- The primitive block `Triangle4`: four triangles in struct-of-arrays form, with the
accessors `valid(i)`, `geomID<list>(i)`, `primID<list>(i)` and the per-triangle `mask`. -/
structure Triangle4 where
  v0 : sse3f
  e1 : sse3f
  e2 : sse3f
  Ng : sse3f
  valid : Fin 4 → Bool
  geomID : Fin 4 → Int
  primID : Fin 4 → Int
  mask : Fin 4 → Nat

/-- The `Scene` handle: `get(geomID)->hasIntersectionFilter8()` and the invocation of
`runIntersectionFilter8(valid, geometry, ray, u, v, t, Ng, geomID, primID)`. -/
structure Scene where
  hasIntersectionFilter8 : Int → Bool
  runIntersectionFilter8 : avxb → Ray8 → avxf → avxf → avxf → avx3f → Int → Int → Ray8

/-- The compile-time switches of the triangle intersector. -/
structure Config where
  RTCORE_BACKFACE_CULLING : Bool
  RTCORE_RAY_MASK : Bool
  RTCORE_INTERSECTION_FILTER : Bool

/-! ## Triangle4Intersector8MoellerTrumbore -/

namespace Triangle4Intersector8MoellerTrumbore

/-- The values one loop iteration computes for triangle `i` before it writes. -/
structure Hit where
  valid : avxb
  u : avxf
  v : avxf
  t : avxf
  Ng : avx3f

/-- Mask after the three edge tests of triangle `i` (source lines 827-850). -/
def edgeMask (valid_i : avxb) (ray : Ray8) (tri : Triangle4) (i : Fin 4) : avxb :=
  let valid := valid_i
  let p0 := broadcast8f tri.v0 i
  let e1 := broadcast8f tri.e1 i
  let e2 := broadcast8f tri.e2 i
  let Ng := broadcast8f tri.Ng i
  let C := p0.sub ray.org
  let R := cross ray.dir C
  let den := dot Ng ray.dir
  let absDen : avxf := fun l => |den l|
  let U : avxf := fun l => xorSgn (dot R e2 l) (den l)
  let valid : avxb := fun l => valid l && decide (U l ≥ 0)
  let V : avxf := fun l => xorSgn (dot R e1 l) (den l)
  let valid : avxb := fun l => valid l && decide (V l ≥ 0)
  let W : avxf := fun l => absDen l - U l - V l
  fun l => valid l && decide (W l ≥ 0)

/-- Mask after the depth test (source lines 853-855). -/
def depthMask (valid_i : avxb) (ray : Ray8) (tri : Triangle4) (i : Fin 4) : avxb :=
  let p0 := broadcast8f tri.v0 i
  let Ng := broadcast8f tri.Ng i
  let C := p0.sub ray.org
  let den := dot Ng ray.dir
  let absDen : avxf := fun l => |den l|
  let T : avxf := fun l => xorSgn (dot Ng C l) (den l)
  fun l => edgeMask valid_i ray tri i l &&
    (Dist.cmp_ge (some (Dist.fin (T l))) (Dist.mul (absDen l) (ray.tnear l)) &&
     Dist.cmp_ge (Dist.mul (absDen l) (ray.tfar l)) (some (Dist.fin (T l))))

/-- Mask after the back-face test (source lines 858-865). -/
def cullMask (cfg : Config) (valid_i : avxb) (ray : Ray8) (tri : Triangle4) (i : Fin 4) :
    avxb :=
  let Ng := broadcast8f tri.Ng i
  let den := dot Ng ray.dir
  if cfg.RTCORE_BACKFACE_CULLING then
    fun l => depthMask valid_i ray tri i l && decide (den l > 0)
  else
    fun l => depthMask valid_i ray tri i l && decide (den l ≠ 0)

/-- Mask after the ray-mask test (source lines 868-871), when that test is compiled in. -/
def rayMask (cfg : Config) (valid_i : avxb) (ray : Ray8) (tri : Triangle4) (i : Fin 4) :
    avxb :=
  fun l => cullMask cfg valid_i ray tri i l && decide (tri.mask i &&& ray.mask l ≠ 0)

/-- The mask `valid` at the writeback: after the ray-mask test when `RTCORE_RAY_MASK` is
defined, after the back-face test otherwise. -/
def finalMask (cfg : Config) (valid_i : avxb) (ray : Ray8) (tri : Triangle4) (i : Fin 4) :
    avxb :=
  if cfg.RTCORE_RAY_MASK then rayMask cfg valid_i ray tri i
  else cullMask cfg valid_i ray tri i

/-- Hit information `u`, `v`, `t` of triangle `i` (source lines 874-877). -/
def hitInfo (ray : Ray8) (tri : Triangle4) (i : Fin 4) : avxf × avxf × avxf :=
  let p0 := broadcast8f tri.v0 i
  let e1 := broadcast8f tri.e1 i
  let e2 := broadcast8f tri.e2 i
  let Ng := broadcast8f tri.Ng i
  let C := p0.sub ray.org
  let R := cross ray.dir C
  let den := dot Ng ray.dir
  let absDen : avxf := fun l => |den l|
  let U : avxf := fun l => xorSgn (dot R e2 l) (den l)
  let V : avxf := fun l => xorSgn (dot R e1 l) (den l)
  let T : avxf := fun l => xorSgn (dot Ng C l) (den l)
  let rcpAbsDen : avxf := fun l => rcp (absDen l)
  (fun l => U l * rcpAbsDen l, fun l => V l * rcpAbsDen l, fun l => T l * rcpAbsDen l)

/-- The masked writeback of a hit (source lines 893-900). -/
def update (valid : avxb) (ray : Ray8) (u v t : avxf) (Ng : avx3f) (geomID primID : Int) :
    Ray8 :=
  { ray with
    u := store8f valid ray.u u
    v := store8f valid ray.v v
    tfar := store8f valid ray.tfar (fun l => Dist.fin (t l))
    geomID := store8f valid ray.geomID (fun _ => geomID)
    primID := store8f valid ray.primID (fun _ => primID)
    Ng := ⟨store8f valid ray.Ng.x Ng.x, store8f valid ray.Ng.y Ng.y,
           store8f valid ray.Ng.z Ng.z⟩ }

/-- One iteration of the loop over the triangles of a block, for a triangle with
`tri.valid(i)`: the body of the `for` loop from `avxb valid = valid_i` on, each
`continue` returning the ray as it is. -/
def intersectOne (cfg : Config) (enableIntersectionFilter : Bool) (valid_i : avxb)
    (ray : Ray8) (tri : Triangle4) (i : Fin 4) (scene : Scene) : Ray8 :=
  if none (edgeMask valid_i ray tri i) then ray else
  if none (depthMask valid_i ray tri i) then ray else
  if none (cullMask cfg valid_i ray tri i) then ray else
  if cfg.RTCORE_RAY_MASK && none (rayMask cfg valid_i ray tri i) then ray else
  let valid := finalMask cfg valid_i ray tri i
  let h := hitInfo ray tri i
  let Ng := broadcast8f tri.Ng i
  let geomID := tri.geomID i
  let primID := tri.primID i
  if cfg.RTCORE_INTERSECTION_FILTER && enableIntersectionFilter
      && scene.hasIntersectionFilter8 geomID then
    scene.runIntersectionFilter8 valid ray h.1 h.2.1 h.2.2 Ng geomID primID
  else
    update valid ray h.1 h.2.1 h.2.2 Ng geomID primID

/-- The loop `for (size_t i=0; i<4; i++)` from index `i` on, with `n` iterations left;
it stops at the first triangle that is not `valid`. -/
def intersectFrom (cfg : Config) (enableIntersectionFilter : Bool) (valid_i : avxb)
    (tri : Triangle4) (scene : Scene) : Nat → Nat → Ray8 → Ray8
  | 0, _, ray => ray
  | n + 1, i, ray =>
    if h : i < 4 then
      if !tri.valid ⟨i, h⟩ then ray
      else
        intersectFrom cfg enableIntersectionFilter valid_i tri scene n (i + 1)
          (intersectOne cfg enableIntersectionFilter valid_i ray tri ⟨i, h⟩ scene)
    else ray

/-- The function `Triangle4Intersector8MoellerTrumbore<list, enableIntersectionFilter>::intersect`:
intersects 8 rays with the 4 triangles of a block. -/
def intersect (cfg : Config) (enableIntersectionFilter : Bool) (valid_i : avxb)
    (ray : Ray8) (tri : Triangle4) (scene : Scene) : Ray8 :=
  intersectFrom cfg enableIntersectionFilter valid_i tri scene 4 0 ray

end Triangle4Intersector8MoellerTrumbore

/-! ## BVH4: node references, inner nodes, memory -/

/-- Fused `msub(a,b,c) = a*b - c`. -/
def msub (a b c : ℚ) : ℚ := a * b - c

/-- The function `mini(a, b)` of the `__AVX2__` path on exact lane values.  The source takes
the signed 32-bit integer minimum of the two bit patterns (`_mm256_min_epi32`).  A pattern
with the sign bit clear is a non-negative integer that grows with the value; a pattern with
the sign bit set is a negative integer that grows with the magnitude.  So the result is
the smaller value, unless both values are negative: then it is the larger one.  An exact
zero stands for `+0`. -/
def mini (a b : ℚ) : ℚ := if a < 0 ∧ b < 0 then max a b else min a b

/-- The function `maxi(a, b)` of the `__AVX2__` path on exact lane values
(`_mm256_max_epi32` on the bit patterns): the larger value, unless both values are
negative: then it is the smaller one.  An exact zero stands for `+0`. -/
def maxi (a b : ℚ) : ℚ := if a < 0 ∧ b < 0 then min a b else max a b

/-- The function `mini(a, b)` on distance lanes; `-inf` is a negative value and `+inf` a
positive one. -/
def Dist.mini (a b : Dist) : Dist :=
  if a < Dist.fin 0 ∧ b < Dist.fin 0 then max a b else min a b

/-- The function `maxi(a, b)` on distance lanes. -/
def Dist.maxi (a b : Dist) : Dist :=
  if a < Dist.fin 0 ∧ b < Dist.fin 0 then min a b else max a b

/-- Two lane values that `mini` and `maxi` cannot tell apart from `min` and `max`: they
are equal, or both are negative. -/
def SameOrNeg (x y : ℚ) : Prop := (x < 0 ∧ y < 0) ∨ x = y

/-- A reference `BVH4::NodeRef`: the `size_t` value that points to a node or a list of
primitives. -/
structure NodeRef where
  ptr : Nat
  deriving DecidableEq

/-- An inner node `BVH4::Node`: the bounds of the four children and the four child
references. -/
structure Node where
  lower_x : ssef
  upper_x : ssef
  lower_y : ssef
  upper_y : ssef
  lower_z : ssef
  upper_z : ssef
  children : Fin 4 → NodeRef

/-- The tree `BVH4` with the memory it lives in: `node a` is the `Node` at address `a` and
`prim b j` the `j`-th primitive block of the leaf with base address `b`. -/
structure BVH4 where
  root : NodeRef
  scene : Scene
  node : Nat → Node
  prim : Nat → Nat → Triangle4

namespace BVH4

/-- Number of values of `size_t`. -/
def sizeMod : Nat := 2 ^ 64

/-- Branching width of the tree. -/
def N : Nat := 4

/-- Number of address bits the nodes and primitives are aligned to. -/
def alignment : Nat := 4

/-- Highest address bit. -/
def barrier_mask : Nat := 1 <<< 63

/-- Mask of the alignment bits. -/
def align_mask : Nat := (1 <<< alignment) - 1

/-- Mask of the bits that store the number of items per leaf. -/
def items_mask : Nat := (1 <<< alignment) - 1

/-- Type tag of an inner node. -/
def tyNode : Nat := 0

/-- Type tag of a leaf. -/
def tyLeaf : Nat := 8

/-- The empty node. -/
def emptyNode : NodeRef := ⟨tyLeaf⟩

/-- The invalid node, used as marker in traversal:
`(((size_t)-1) & (~items_mask)) | tyLeaf`. -/
def invalidNode : NodeRef := ⟨((sizeMod - 1) &&& (sizeMod - 1 - items_mask)) ||| tyLeaf⟩

/-- Maximal depth of the BVH: `maxBuildDepth`. -/
def maxBuildDepth : Nat := 32

/-- Maximal depth of the BVH: `maxBuildDepthLeaf`. -/
def maxBuildDepthLeaf : Nat := maxBuildDepth + 16

/-- Maximal depth of the BVH. -/
def maxDepth : Nat := maxBuildDepthLeaf + maxBuildDepthLeaf + maxBuildDepth

/-- Maximal number of primitive blocks in a leaf. -/
def maxLeafBlocks : Nat := items_mask - tyLeaf

end BVH4

namespace NodeRef

/-- The test `isLeaf()`: `ptr & tyLeaf`. -/
def isLeaf (r : NodeRef) : Nat := r.ptr &&& BVH4.tyLeaf

/-- The test `isNode()`: `(ptr & align_mask) == tyNode`. -/
def isNode (r : NodeRef) : Bool := (r.ptr &&& BVH4.align_mask) == BVH4.tyNode

/-- Decoding `leaf(num)`: the base address `ptr & ~align_mask` and the number of items
`(ptr & items_mask) - tyLeaf`, computed in `size_t`. -/
def leaf (r : NodeRef) : Nat × Nat :=
  (r.ptr &&& (BVH4.sizeMod - 1 - BVH4.align_mask),
   ((r.ptr &&& BVH4.items_mask) + BVH4.sizeMod - BVH4.tyLeaf) % BVH4.sizeMod)

end NodeRef

namespace Node

/-- The slab test `Node::intersect8<robust>(i, org, rdir, org_rdir, tnear, tfar, dist)`:
returns the hit mask and `dist`.  The flag `avx2` selects the `__AVX2__` code path: `msub`
against `(bound - org) * rdir` for the clip distances and, in fast mode, the integer
`mini`/`maxi` against `min`/`max`.  `ulp` is the constant of that name. -/
def intersect8 (robust avx2 : Bool) (ulp : ℚ) (node : Node) (i : Fin 4)
    (org rdir org_rdir : avx3f) (tnear tfar : avxd) : avxb × avxf :=
  let lclipMinX : avxf := fun l =>
    if avx2 then msub (node.lower_x i) (rdir.x l) (org_rdir.x l)
    else (node.lower_x i - org.x l) * rdir.x l
  let lclipMinY : avxf := fun l =>
    if avx2 then msub (node.lower_y i) (rdir.y l) (org_rdir.y l)
    else (node.lower_y i - org.y l) * rdir.y l
  let lclipMinZ : avxf := fun l =>
    if avx2 then msub (node.lower_z i) (rdir.z l) (org_rdir.z l)
    else (node.lower_z i - org.z l) * rdir.z l
  let lclipMaxX : avxf := fun l =>
    if avx2 then msub (node.upper_x i) (rdir.x l) (org_rdir.x l)
    else (node.upper_x i - org.x l) * rdir.x l
  let lclipMaxY : avxf := fun l =>
    if avx2 then msub (node.upper_y i) (rdir.y l) (org_rdir.y l)
    else (node.upper_y i - org.y l) * rdir.y l
  let lclipMaxZ : avxf := fun l =>
    if avx2 then msub (node.upper_z i) (rdir.z l) (org_rdir.z l)
    else (node.upper_z i - org.z l) * rdir.z l
  let lnearP : avxf := fun l =>
    max (max (min (lclipMinX l) (lclipMaxX l)) (min (lclipMinY l) (lclipMaxY l)))
      (min (lclipMinZ l) (lclipMaxZ l))
  let lfarP : avxf := fun l =>
    min (min (max (lclipMinX l) (lclipMaxX l)) (max (lclipMinY l) (lclipMaxY l)))
      (max (lclipMinZ l) (lclipMaxZ l))
  if robust then
    let round_down : ℚ := 1 - 2 * ulp
    let round_up : ℚ := 1 + 2 * ulp
    let lhit : avxb := fun l =>
      Dist.cmp_le (Dist.mul round_down (max (Dist.fin (lnearP l)) (tnear l)))
        (Dist.mul round_up (min (Dist.fin (lfarP l)) (tfar l)))
    (lhit, lnearP)
  else if avx2 then
    let lnearPi : avxf := fun l =>
      maxi (maxi (mini (lclipMinX l) (lclipMaxX l)) (mini (lclipMinY l) (lclipMaxY l)))
        (mini (lclipMinZ l) (lclipMaxZ l))
    let lfarPi : avxf := fun l =>
      mini (mini (maxi (lclipMinX l) (lclipMaxX l)) (maxi (lclipMinY l) (lclipMaxY l)))
        (maxi (lclipMinZ l) (lclipMaxZ l))
    let lhit : avxb := fun l =>
      decide (Dist.maxi (Dist.fin (lnearPi l)) (tnear l)
        ≤ Dist.mini (Dist.fin (lfarPi l)) (tfar l))
    (lhit, lnearPi)
  else
    let lhit : avxb := fun l =>
      decide (max (Dist.fin (lnearP l)) (tnear l) ≤ min (Dist.fin (lfarP l)) (tfar l))
    (lhit, lnearP)

end Node

/-! ## BVH4Intersector8Chunk -/

namespace BVH4Intersector8Chunk

/-- Size of the traversal stack: `4*BVH4::maxDepth+1`. -/
def stackSize : Nat := 4 * BVH4.maxDepth + 1

/-- What is fixed for one instantiation of the kernel: the template parameter `robust`,
the code path `__AVX2__`, the constant `ulp`, the lane function of `rcp_safe` (not part of
the source), and the primitive intersector
`PrimitiveIntersector8::intersect(valid, pre, ray, prim, items, scene)`, which receives the
blocks of the leaf as a function of the block index; the `Precalculations` of the
Triangle4 intersector are empty and are left out. -/
structure Kernel where
  robust : Bool
  avx2 : Bool
  ulp : ℚ
  rcp_safe : ℚ → ℚ
  primIntersect : avxb → Ray8 → (Nat → Triangle4) → Nat → Scene → Ray8

/-- The way a run of the traversal can fail.  The first four are the assertions of the
source: `assert(sptr_node < stackEnd)` before a push (line 686), `assert(sptr_node >
stack_node)` before a pop (lines 645, 669), `assert(sptr_node == stack_node)` where the loop
finds `cur == BVH4::invalidNode` (lines 650, 764), and `assert(cur != BVH4::emptyNode)`
before a leaf is intersected (line 769).  The last one is the step budget of the model. -/
inductive Fault where
  | stackOverflow : Fault
  | stackUnderflow : Fault
  | stackNotEmpty : Fault
  | emptyLeaf : Fault
  | outOfFuel : Fault
  deriving DecidableEq

/-- The values loaded before the loop (source lines 623-629). -/
structure Setup where
  org : avx3f
  rdir : avx3f
  org_rdir : avx3f
  ray_tnear : avxd

/-- Where the control is: at the top of the outer loop (the pop), or at the top of the
inner loop with the registers `cur` and `curDist`. -/
inductive Control where
  | pop : Control
  | inner (cur : NodeRef) (curDist : avxd) : Control

/-- The state of the traversal: the ray packet, the register `ray_tfar`, the stack (top
first; its length is `sptr_node - stack_node`) and the control point. -/
structure State where
  ray : Ray8
  ray_tfar : avxd
  stack : List (NodeRef × avxd)
  control : Control

/-- The outcome of one step. -/
inductive Step where
  | next (s : State) : Step
  | done (ray : Ray8) : Step
  | fault (f : Fault) : Step

/-- The loading of the ray (source lines 623-628). -/
def setup (k : Kernel) (valid_i : avxb) (ray : Ray8) : Setup :=
  let valid0 := valid_i
  let rdir : avx3f :=
    ⟨fun l => k.rcp_safe (ray.dir.x l), fun l => k.rcp_safe (ray.dir.y l),
     fun l => k.rcp_safe (ray.dir.z l)⟩
  let org := ray.org
  let org_rdir := org.mul rdir
  let ray_tnear := select valid0 ray.tnear (fun _ => Dist.pos_inf)
  ⟨org, rdir, org_rdir, ray_tnear⟩

/-- The state after the root is pushed (source lines 627, 632-640). -/
def init (k : Kernel) (valid_i : avxb) (bvh : BVH4) (ray : Ray8) : State :=
  let valid0 := valid_i
  let ray_tnear := (setup k valid_i ray).ray_tnear
  let ray_tfar := select valid0 ray.tfar (fun _ => Dist.neg_inf)
  let inf : avxd := fun _ => Dist.pos_inf
  { ray := ray
    ray_tfar := ray_tfar
    stack := [(bvh.root, ray_tnear), (BVH4.invalidNode, inf)]
    control := Control.pop }

/-- The loop over the children of `node` from slot `i` on (source lines 676-707), on the
registers `cur`, `curDist` and the stack.  It stops at the first `emptyNode`. -/
def children (k : Kernel) (su : Setup) (ray_tfar : avxd) (node : Node) :
    List (Fin 4) → NodeRef → avxd → List (NodeRef × avxd) →
      Except Fault (NodeRef × avxd × List (NodeRef × avxd))
  | [], cur, curDist, stack => Except.ok (cur, curDist, stack)
  | i :: is, cur, curDist, stack =>
    let child := node.children i
    if child = BVH4.emptyNode then Except.ok (cur, curDist, stack)
    else
      let r := node.intersect8 k.robust k.avx2 k.ulp i su.org su.rdir su.org_rdir
        su.ray_tnear ray_tfar
      let lhit := r.1
      let lnearP := r.2
      if any lhit then
        if stack.length < stackSize then
          let childDist : avxd := select lhit (fun l => Dist.fin (lnearP l))
            (fun _ => Dist.pos_inf)
          if any (fun l => decide (childDist l < curDist l)) then
            children k su ray_tfar node is child childDist ((cur, curDist) :: stack)
          else
            children k su ray_tfar node is cur curDist ((child, childDist) :: stack)
        else Except.error Fault.stackOverflow
      else children k su ray_tfar node is cur curDist stack

/-- One step of the traversal for the instantiation `types = 0x1`: a pop of the outer loop
(source lines 644-657), or one round of the inner loop: an inner node (lines 662-708) or
the exit of the inner loop with the leaf (lines 758-774).  An assertion that fails ends the
run with the fault of that assertion. -/
def step (k : Kernel) (su : Setup) (bvh : BVH4) (s : State) : Step :=
  match s.control with
  | Control.pop =>
    match s.stack with
    | [] => Step.fault Fault.stackUnderflow
    | (cur, curDist) :: rest =>
      if cur = BVH4.invalidNode then
        if rest.isEmpty then Step.done s.ray else Step.fault Fault.stackNotEmpty
      else if none (fun l => decide (s.ray_tfar l > curDist l)) then
        Step.next { s with stack := rest }
      else Step.next { s with stack := rest, control := Control.inner cur curDist }
  | Control.inner cur curDist =>
    if cur.isNode then
      let node := bvh.node cur.ptr
      match s.stack with
      | [] => Step.fault Fault.stackUnderflow
      | (cur1, curDist1) :: rest =>
        match children k su s.ray_tfar node [0, 1, 2, 3] cur1 curDist1 rest with
        | Except.error f => Step.fault f
        | Except.ok (cur2, curDist2, stack2) =>
          Step.next { s with stack := stack2, control := Control.inner cur2 curDist2 }
    else if cur = BVH4.invalidNode then
      if s.stack.isEmpty then Step.done s.ray else Step.fault Fault.stackNotEmpty
    else if cur = BVH4.emptyNode then Step.fault Fault.emptyLeaf
    else
      let valid_leaf : avxb := fun l => decide (s.ray_tfar l > curDist l)
      let lf := cur.leaf
      let ray1 := k.primIntersect valid_leaf s.ray (bvh.prim lf.1) lf.2 bvh.scene
      Step.next
        { ray := ray1
          ray_tfar := select valid_leaf ray1.tfar s.ray_tfar
          stack := s.stack
          control := Control.pop }

/-- The traversal loop from state `s`, with a budget of `fuel` steps. -/
def run (k : Kernel) (su : Setup) (bvh : BVH4) : Nat → State → Except Fault Ray8
  | 0, _ => Except.error Fault.outOfFuel
  | fuel + 1, s =>
    match step k su bvh s with
    | Step.next s1 => run k su bvh fuel s1
    | Step.done ray => Except.ok ray
    | Step.fault f => Except.error f

/-- The function `BVH4Intersector8Chunk<0x1, robust, PrimitiveIntersector8>::intersect`,
with a budget of `fuel` steps of the loop. -/
def intersect (k : Kernel) (fuel : Nat) (valid_i : avxb) (bvh : BVH4) (ray : Ray8) :
    Except Fault Ray8 :=
  run k (setup k valid_i ray) bvh fuel (init k valid_i bvh ray)

end BVH4Intersector8Chunk

/-- Modelled from the spec: `LeafIterator8<Intersector>::intersect`, the adapter between the
traversal and the block intersector, is not part of the source.  Leaf items are packed
contiguously from the base address and `items` of them are handed to the intersector
in index order, each with the same mask. -/
def LeafIterator8.intersect (inner : avxb → Ray8 → Triangle4 → Scene → Ray8)
    (valid : avxb) (ray : Ray8) (prim : Nat → Triangle4) (items : Nat) (scene : Scene) :
    Ray8 :=
  (List.range items).foldl (fun r j => inner valid r (prim j) scene) ray

/-- The kernel `BVH4Triangle4Intersector8ChunkMoellerNoFilter`
(`BVH4Intersector8Chunk<0x1, false, LeafIterator8<Triangle4Intersector8MoellerTrumbore<LeafMode, false>>>`)
for a given configuration, code path and lane function of `rcp_safe`. -/
def BVH4Triangle4Intersector8ChunkMoellerNoFilter (cfg : Config) (avx2 : Bool)
    (rcp_safe : ℚ → ℚ) : BVH4Intersector8Chunk.Kernel :=
  { robust := false
    avx2 := avx2
    ulp := 0
    rcp_safe := rcp_safe
    primIntersect := LeafIterator8.intersect
      (fun valid ray tri scene =>
        Triangle4Intersector8MoellerTrumbore.intersect cfg false valid ray tri scene) }

/-! ## Vocabulary of the statements -/

/-- The output fields of one lane of a ray packet. -/
structure LaneHit where
  u : ℚ
  v : ℚ
  tfar : Dist
  geomID : Int
  primID : Int
  Ng_x : ℚ
  Ng_y : ℚ
  Ng_z : ℚ
  deriving DecidableEq

/-- The output fields of lane `l` of a ray packet. -/
def Ray8.lane (r : Ray8) (l : Fin 8) : LaneHit :=
  ⟨r.u l, r.v l, r.tfar l, r.geomID l, r.primID l, r.Ng.x l, r.Ng.y l, r.Ng.z l⟩

/-- Two ray packets have the same input fields other than `tfar` in lane `l`. -/
def Ray8.sameInput (r r1 : Ray8) (l : Fin 8) : Prop :=
  r.org.x l = r1.org.x l ∧ r.org.y l = r1.org.y l ∧ r.org.z l = r1.org.z l ∧
  r.dir.x l = r1.dir.x l ∧ r.dir.y l = r1.dir.y l ∧ r.dir.z l = r1.dir.z l ∧
  r.tnear l = r1.tnear l ∧ r.mask l = r1.mask l

namespace Triangle4Intersector8MoellerTrumbore

/-- The lane is accepted for triangle `i` when the test runs with the lane enabled: the
mask at the writeback for the mask `valid_i` that is true in every lane. -/
def accepts (cfg : Config) (ray : Ray8) (tri : Triangle4) (i : Fin 4) (l : Fin 8) : Bool :=
  finalMask cfg (fun _ => true) ray tri i l

/-- The barycentric coordinate `u` the test computes in lane `l` for triangle `i`. -/
def hitU (ray : Ray8) (tri : Triangle4) (i : Fin 4) (l : Fin 8) : ℚ := (hitInfo ray tri i).1 l

/-- The barycentric coordinate `v` the test computes in lane `l` for triangle `i`. -/
def hitV (ray : Ray8) (tri : Triangle4) (i : Fin 4) (l : Fin 8) : ℚ :=
  (hitInfo ray tri i).2.1 l

/-- The distance `t` the test computes in lane `l` for triangle `i`. -/
def hitT (ray : Ray8) (tri : Triangle4) (i : Fin 4) (l : Fin 8) : ℚ :=
  (hitInfo ray tri i).2.2 l

/-- The lane fields the writeback stores for triangle `i` in lane `l`. -/
def hitLane (ray : Ray8) (tri : Triangle4) (i : Fin 4) (l : Fin 8) : LaneHit :=
  ⟨hitU ray tri i l, hitV ray tri i l, Dist.fin (hitT ray tri i l), tri.geomID i,
   tri.primID i, tri.Ng.x i, tri.Ng.y i, tri.Ng.z i⟩

/-- The denominator `den = dot(Ng, ray.dir)` of triangle `i` in lane `l`. -/
def laneDen (ray : Ray8) (tri : Triangle4) (i : Fin 4) (l : Fin 8) : ℚ :=
  dot (broadcast8f tri.Ng i) ray.dir l

/-- The part of the acceptance of lane `l` for triangle `i` that does not look at
`ray.tfar`: the sign test on `den`, the ray mask, the barycentric coordinates and the
lower end of the interval. -/
def nearOK (cfg : Config) (ray : Ray8) (tri : Triangle4) (i : Fin 4) (l : Fin 8) : Prop :=
  (if cfg.RTCORE_BACKFACE_CULLING then laneDen ray tri i l > 0 else laneDen ray tri i l ≠ 0) ∧
  (cfg.RTCORE_RAY_MASK = true → tri.mask i &&& ray.mask l ≠ 0) ∧
  0 ≤ hitU ray tri i l ∧ 0 ≤ hitV ray tri i l ∧ hitU ray tri i l + hitV ray tri i l ≤ 1 ∧
  ray.tnear l ≤ Dist.fin (hitT ray tri i l)

/-- The lane value `F` results from the lane value `h` by testing the lane (enabled iff
`en`) against the triangles in `S`, for the input ray `ray0`: `tfar` does not grow, it is
not beyond any triangle of `S` that passes the tests other than the upper end of the
interval, the lane is either untouched or holds the hit of such a triangle that
was not beyond the previous `tfar`, and it does hold such a hit when there is such a
triangle. -/
structure Improves (cfg : Config) (ray0 : Ray8) (l : Fin 8) (S : Triangle4 → Fin 4 → Prop)
    (en : Bool) (h F : LaneHit) : Prop where
  le : F.tfar ≤ h.tfar
  best : en = true → ∀ tri i, S tri i → nearOK cfg ray0 tri i l →
    F.tfar ≤ Dist.fin (hitT ray0 tri i l)
  attained : F = h ∨ (en = true ∧ ∃ tri i, S tri i ∧ nearOK cfg ray0 tri i l ∧
    Dist.fin (hitT ray0 tri i l) ≤ h.tfar ∧ F = hitLane ray0 tri i l)
  hit : en = true → ∀ tri i, S tri i → nearOK cfg ray0 tri i l →
    Dist.fin (hitT ray0 tri i l) ≤ h.tfar →
    ∃ tri1 i1, S tri1 i1 ∧ nearOK cfg ray0 tri1 i1 l ∧
      Dist.fin (hitT ray0 tri1 i1 l) ≤ h.tfar ∧ F = hitLane ray0 tri1 i1 l

/-- The valid triangles of a block are left-packed. -/
def leftPacked (tri : Triangle4) : Prop :=
  ∀ i j : Fin 4, i ≤ j → tri.valid j = true → tri.valid i = true

end Triangle4Intersector8MoellerTrumbore

namespace Triangle4Intersector8MoellerTrumbore

/-- The indices the loop over a block visits from index `i` on with `n` iterations left:
those before the first triangle that is not valid. -/
def visitedFrom (tri : Triangle4) : Nat → Nat → List (Fin 4)
  | 0, _ => []
  | n + 1, i =>
    if h : i < 4 then
      if !tri.valid ⟨i, h⟩ then [] else ⟨i, h⟩ :: visitedFrom tri n (i + 1)
    else []

/-- The indices of the triangles of a block the loop visits. -/
def visited (tri : Triangle4) : List (Fin 4) := visitedFrom tri 4 0

end Triangle4Intersector8MoellerTrumbore

/-- Triangle `i` of a block is stored in the form the intersector expects for the
vertices `v0`, `v1 = v0 - e1`, `v2 = v0 + e2`: its `Ng` is `cross(e1, e2)`. -/
def Triangle4.normalOK (tri : Triangle4) (i : Fin 4) : Prop :=
  tri.Ng.x i = tri.e1.y i * tri.e2.z i - tri.e1.z i * tri.e2.y i ∧
  tri.Ng.y i = tri.e1.z i * tri.e2.x i - tri.e1.x i * tri.e2.z i ∧
  tri.Ng.z i = tri.e1.x i * tri.e2.y i - tri.e1.y i * tri.e2.x i

/-- The box of child `c` of a node contains the three vertices `v0`, `v1 = v0 - e1`,
`v2 = v0 + e2` of triangle `i` of a block. -/
def Node.contains (node : Node) (c : Fin 4) (tri : Triangle4) (i : Fin 4) : Prop :=
  (node.lower_x c ≤ tri.v0.x i ∧ tri.v0.x i ≤ node.upper_x c ∧
   node.lower_y c ≤ tri.v0.y i ∧ tri.v0.y i ≤ node.upper_y c ∧
   node.lower_z c ≤ tri.v0.z i ∧ tri.v0.z i ≤ node.upper_z c) ∧
  (node.lower_x c ≤ tri.v0.x i - tri.e1.x i ∧ tri.v0.x i - tri.e1.x i ≤ node.upper_x c ∧
   node.lower_y c ≤ tri.v0.y i - tri.e1.y i ∧ tri.v0.y i - tri.e1.y i ≤ node.upper_y c ∧
   node.lower_z c ≤ tri.v0.z i - tri.e1.z i ∧ tri.v0.z i - tri.e1.z i ≤ node.upper_z c) ∧
  (node.lower_x c ≤ tri.v0.x i + tri.e2.x i ∧ tri.v0.x i + tri.e2.x i ≤ node.upper_x c ∧
   node.lower_y c ≤ tri.v0.y i + tri.e2.y i ∧ tri.v0.y i + tri.e2.y i ≤ node.upper_y c ∧
   node.lower_z c ≤ tri.v0.z i + tri.e2.z i ∧ tri.v0.z i + tri.e2.z i ≤ node.upper_z c)

namespace BVH4

/-- Triangle `i` of the block `tri` is a triangle of the tree below the reference `r`:
a valid triangle of one of the blocks of a leaf that is reached from `r` through
children other than `emptyNode`. -/
inductive Beneath (bvh : BVH4) : NodeRef → Triangle4 → Fin 4 → Prop
  | leaf (r : NodeRef) (j : Nat) (i : Fin 4) :
      r.isNode = false → r ≠ invalidNode → j < r.leaf.2 →
      (bvh.prim r.leaf.1 j).valid i = true → Beneath bvh r (bvh.prim r.leaf.1 j) i
  | node (r : NodeRef) (c : Fin 4) (tri : Triangle4) (i : Fin 4) :
      r.isNode = true → (bvh.node r.ptr).children c ≠ emptyNode →
      Beneath bvh ((bvh.node r.ptr).children c) tri i → Beneath bvh r tri i

/-- The subtree at `r` is a finite tree of depth at most `d` in the form the traversal
expects: a leaf is a reference other than `invalidNode` and `emptyNode` (the two values
the traversal asserts never to intersect as a leaf) whose blocks have left-packed valid
triangles with `Ng = cross(e1, e2)`; an inner node has left-packed children, and
each child other than `emptyNode` is again such a subtree and has a box that contains
every triangle stored beneath it. -/
inductive WellFormed (bvh : BVH4) : NodeRef → Nat → Prop
  | leaf (r : NodeRef) (d : Nat) :
      r.isNode = false → r ≠ invalidNode → r ≠ emptyNode →
      (∀ j, j < r.leaf.2 →
        Triangle4Intersector8MoellerTrumbore.leftPacked (bvh.prim r.leaf.1 j) ∧
        ∀ i, (bvh.prim r.leaf.1 j).valid i = true → (bvh.prim r.leaf.1 j).normalOK i) →
      WellFormed bvh r d
  | node (r : NodeRef) (d : Nat) :
      r.isNode = true →
      (∀ c e : Fin 4, c ≤ e → (bvh.node r.ptr).children c = emptyNode →
        (bvh.node r.ptr).children e = emptyNode) →
      (∀ c, (bvh.node r.ptr).children c ≠ emptyNode →
        WellFormed bvh ((bvh.node r.ptr).children c) d) →
      (∀ c, (bvh.node r.ptr).children c ≠ emptyNode →
        ∀ tri i, Beneath bvh ((bvh.node r.ptr).children c) tri i →
          (bvh.node r.ptr).contains c tri i) →
      WellFormed bvh r (d + 1)

end BVH4

namespace BVH4Intersector8Chunk

/-- The entries the traversal still has to process, in the order in which it will take
them: the registers `cur`, `curDist` when the control is in the inner loop, then the
stack from the top. -/
def State.pending (s : State) : List (NodeRef × avxd) :=
  match s.control with
  | Control.pop => s.stack
  | Control.inner cur curDist => (cur, curDist) :: s.stack

/-- The traversal stack is not exhausted on this input: no run of the loop ends in a push
on a full stack. -/
def StackSafe (k : Kernel) (valid_i : avxb) (bvh : BVH4) (ray : Ray8) : Prop :=
  ∀ fuel, intersect k fuel valid_i bvh ray ≠ Except.error Fault.stackOverflow

/-- The children that the loop over the children of `node` pushes or continues with,
from slot list `is` on: those before the first `emptyNode` whose box is hit by some lane,
each with its `childDist`. -/
def hitChildren (k : Kernel) (su : Setup) (ray_tfar : avxd) (node : Node) :
    List (Fin 4) → List (NodeRef × avxd)
  | [] => []
  | i :: is =>
    if node.children i = BVH4.emptyNode then []
    else
      let r := node.intersect8 k.robust k.avx2 k.ulp i su.org su.rdir su.org_rdir
        su.ray_tnear ray_tfar
      if any r.1 then
        (node.children i, select r.1 (fun l => Dist.fin (r.2 l)) (fun _ => Dist.pos_inf)) ::
          hitChildren k su ray_tfar node is
      else hitChildren k su ray_tfar node is

end BVH4Intersector8Chunk

namespace BVH4Intersector8Chunk

/-- The bottom entry of the stack: `invalidNode` with the near distance `inf`. -/
def sentinel : NodeRef × avxd := (BVH4.invalidNode, fun _ => Dist.pos_inf)

end BVH4Intersector8Chunk

namespace BVH4Intersector8Chunk

open Triangle4Intersector8MoellerTrumbore in
/-- What the traversal maintains for an active lane `l` of the input packet `ray0`: the
sentinel is the last pending entry and the others are well-formed subtrees of the tree;
the input fields of the lane are those of `ray0`; the register `ray_tfar` holds the
`tfar` of the lane; the lane is untouched or holds the hit of a triangle of the tree that
is accepted on the input interval; and every triangle of the tree that passes the tests
other than the upper end of the interval is either not closer than `tfar` or lies below a
pending entry whose near distance is not beyond it. -/
structure Inv (cfg : Config) (bvh : BVH4) (ray0 : Ray8) (l : Fin 8) (s : State) : Prop where
  shape : ∃ es, s.pending = es ++ [sentinel] ∧ ∀ e ∈ es,
    (∃ d, BVH4.WellFormed bvh e.1 d) ∧
    ∀ tri i, BVH4.Beneath bvh e.1 tri i → BVH4.Beneath bvh bvh.root tri i
  same : s.ray.sameInput ray0 l
  tfar_eq : s.ray_tfar l = s.ray.tfar l
  attained : s.ray.lane l = ray0.lane l ∨
    ∃ tri i, BVH4.Beneath bvh bvh.root tri i ∧ nearOK cfg ray0 tri i l ∧
      Dist.fin (hitT ray0 tri i l) ≤ ray0.tfar l ∧ s.ray.lane l = hitLane ray0 tri i l
  cover : ∀ tri i, BVH4.Beneath bvh bvh.root tri i → nearOK cfg ray0 tri i l →
    s.ray.tfar l ≤ Dist.fin (hitT ray0 tri i l) ∨
    ∃ e ∈ s.pending, BVH4.Beneath bvh e.1 tri i ∧ e.2 l ≤ Dist.fin (hitT ray0 tri i l)

open Triangle4Intersector8MoellerTrumbore in
/-- What holds of lane `l` of the packet `r` the traversal returns for the input `ray0`:
the lane is untouched or holds the hit of a triangle of the tree that is accepted on the
input interval, and no triangle of the tree that passes the tests other than the upper
end of the interval is closer than the `tfar` of the lane. -/
structure Final (cfg : Config) (bvh : BVH4) (ray0 : Ray8) (l : Fin 8) (r : Ray8) : Prop where
  attained : r.lane l = ray0.lane l ∨
    ∃ tri i, BVH4.Beneath bvh bvh.root tri i ∧ nearOK cfg ray0 tri i l ∧
      Dist.fin (hitT ray0 tri i l) ≤ ray0.tfar l ∧ r.lane l = hitLane ray0 tri i l
  best : ∀ tri i, BVH4.Beneath bvh bvh.root tri i → nearOK cfg ray0 tri i l →
    r.tfar l ≤ Dist.fin (hitT ray0 tri i l)

/-- The measure that decreases with every step of the traversal of a tree with height
function `ht`. -/
def measure (ht : NodeRef → Nat) (s : State) : Nat :=
  2 * (s.pending.map (fun e => 5 ^ ht e.1)).sum +
    (match s.control with
     | Control.pop => 1
     | Control.inner _ _ => 0)

/-- Lane `l` is active, its direction has no zero component, `rcp_safe` returns the
exact reciprocals of the components, and on the `__AVX2__` code path the lane's `tnear` is
not negative (the integer `mini`/`maxi` of the fast slab test order two negative values
the other way round). -/
structure LaneOK (avx2 : Bool) (rcp_safe : ℚ → ℚ) (valid_i : avxb) (ray0 : Ray8)
    (l : Fin 8) : Prop where
  tnear_nonneg : avx2 = true → Dist.fin 0 ≤ ray0.tnear l
  active : valid_i l = true
  dir_x : ray0.dir.x l ≠ 0
  dir_y : ray0.dir.y l ≠ 0
  dir_z : ray0.dir.z l ≠ 0
  rcp_x : rcp_safe (ray0.dir.x l) = (ray0.dir.x l)⁻¹
  rcp_y : rcp_safe (ray0.dir.y l) = (ray0.dir.y l)⁻¹
  rcp_z : rcp_safe (ray0.dir.z l) = (ray0.dir.z l)⁻¹

end BVH4Intersector8Chunk

/-! ## A small scene -/

/-- A block with one valid triangle: `v0 = (0,0,1)`, `v1 = (4,0,1)`, `v2 = (0,4,1)`, stored
as `e1 = v0 - v1`, `e2 = v2 - v0`, `Ng = cross(e1, e2)`. -/
def exTri : Triangle4 :=
  { v0 := ⟨fun _ => 0, fun _ => 0, fun _ => 1⟩
    e1 := ⟨fun _ => -4, fun _ => 0, fun _ => 0⟩
    e2 := ⟨fun _ => 0, fun _ => 4, fun _ => 0⟩
    Ng := ⟨fun _ => 0, fun _ => 0, fun _ => -16⟩
    valid := fun i => decide (i = 0)
    geomID := fun _ => 7
    primID := fun _ => 3
    mask := fun _ => 1 }

/-- An inner node with one child, the leaf at base address 32 with one block; the box of
the child is the bounding box of the triangle of `exTri`. -/
def exNode : Node :=
  { lower_x := fun _ => 0
    upper_x := fun _ => 4
    lower_y := fun _ => 0
    upper_y := fun _ => 4
    lower_z := fun _ => 1
    upper_z := fun _ => 1
    children := fun c => if c = 0 then ⟨41⟩ else BVH4.emptyNode }

/-- A scene without intersection filters. -/
def exScene : Scene :=
  { hasIntersectionFilter8 := fun _ => false
    runIntersectionFilter8 := fun _ ray _ _ _ _ _ _ => ray }

/-- The tree whose root is the inner node `exNode` at address 16. -/
def exBVH : BVH4 :=
  { root := ⟨16⟩
    scene := exScene
    node := fun _ => exNode
    prim := fun _ _ => exTri }

/-- Eight copies of the ray from the origin in direction `(1,1,1)` on `[0, tfar]`, with no
hit recorded (`geomID = primID = -1`).  It meets the triangle of `exTri` at `t = 1`. -/
def exRay (tfar : Dist) : Ray8 :=
  { org := ⟨fun _ => 0, fun _ => 0, fun _ => 0⟩
    dir := ⟨fun _ => 1, fun _ => 1, fun _ => 1⟩
    tnear := fun _ => Dist.fin 0
    tfar := fun _ => tfar
    time := fun _ => 0
    mask := fun _ => 1
    Ng := ⟨fun _ => 0, fun _ => 0, fun _ => 0⟩
    u := fun _ => 0
    v := fun _ => 0
    geomID := fun _ => -1
    primID := fun _ => -1 }

/-- The configuration without back-face culling, ray masks and intersection filters. -/
def exCfg : Config := ⟨false, false, false⟩

/-- The unfiltered Triangle4 kernel for `exCfg`, with exact reciprocals. -/
def exKernel : BVH4Intersector8Chunk.Kernel :=
  BVH4Triangle4Intersector8ChunkMoellerNoFilter exCfg false (fun x => x⁻¹)

/-- The tree whose root is the leaf with the block `exTri`. -/
def exLeafBVH : BVH4 :=
  { root := ⟨41⟩
    scene := exScene
    node := fun _ => exNode
    prim := fun _ _ => exTri }

/-- The block of scenario 1: one valid triangle `v0 = (0,0,1)`, `v1 = (1,0,1)`,
`v2 = (0,1,1)`, stored as `e1 = v0 - v1`, `e2 = v2 - v0`, `Ng = cross(e1, e2) = (0,0,-1)`. -/
def unitTri : Triangle4 :=
  { v0 := ⟨fun _ => 0, fun _ => 0, fun _ => 1⟩
    e1 := ⟨fun _ => -1, fun _ => 0, fun _ => 0⟩
    e2 := ⟨fun _ => 0, fun _ => 1, fun _ => 0⟩
    Ng := ⟨fun _ => 0, fun _ => 0, fun _ => -1⟩
    valid := fun i => decide (i = 0)
    geomID := fun _ => 0
    primID := fun _ => 0
    mask := fun _ => 1 }

/-- The packet of scenario 1: `org = (0.25, 0.25, 0)`, `dir = (0,0,1)`, `tnear = 0`,
`tfar = ∞` in every lane, no hit recorded. -/
def axisRay : Ray8 :=
  { org := ⟨fun _ => 1 / 4, fun _ => 1 / 4, fun _ => 0⟩
    dir := ⟨fun _ => 0, fun _ => 0, fun _ => 1⟩
    tnear := fun _ => Dist.fin 0
    tfar := fun _ => Dist.pos_inf
    time := fun _ => 0
    mask := fun _ => 1
    Ng := ⟨fun _ => 0, fun _ => 0, fun _ => 0⟩
    u := fun _ => 0
    v := fun _ => 0
    geomID := fun _ => -1
    primID := fun _ => -1 }

/-- The block with its four triangles reordered: slot `k` of the result holds the triangle
of slot `σ k`, with its `geomID`, `primID`, validity and mask. -/
def Triangle4.permute (σ : Equiv.Perm (Fin 4)) (tri : Triangle4) : Triangle4 :=
  { v0 := ⟨fun k => tri.v0.x (σ k), fun k => tri.v0.y (σ k), fun k => tri.v0.z (σ k)⟩
    e1 := ⟨fun k => tri.e1.x (σ k), fun k => tri.e1.y (σ k), fun k => tri.e1.z (σ k)⟩
    e2 := ⟨fun k => tri.e2.x (σ k), fun k => tri.e2.y (σ k), fun k => tri.e2.z (σ k)⟩
    Ng := ⟨fun k => tri.Ng.x (σ k), fun k => tri.Ng.y (σ k), fun k => tri.Ng.z (σ k)⟩
    valid := fun k => tri.valid (σ k)
    geomID := fun k => tri.geomID (σ k)
    primID := fun k => tri.primID (σ k)
    mask := fun k => tri.mask (σ k) }

/-- A block with two valid copies of the triangle of scenario 1 that differ in `primID`
only (`10` in slot 0, `11` in slot 1). -/
def tieTri : Triangle4 :=
  { v0 := ⟨fun _ => 0, fun _ => 0, fun _ => 1⟩
    e1 := ⟨fun _ => -1, fun _ => 0, fun _ => 0⟩
    e2 := ⟨fun _ => 0, fun _ => 1, fun _ => 0⟩
    Ng := ⟨fun _ => 0, fun _ => 0, fun _ => -1⟩
    valid := fun i => decide (i = 0 ∨ i = 1)
    geomID := fun _ => 0
    primID := fun i => if i = 0 then 10 else 11
    mask := fun _ => 1 }

/-- The block of scenario 3: two valid coplanar triangles, the one in slot 0 at `z = 2`
(`primID = 20`), the one in slot 1 at `z = 1` (`primID = 21`). -/
def stackTri : Triangle4 :=
  { v0 := ⟨fun _ => 0, fun _ => 0, fun i => if i = 0 then 2 else 1⟩
    e1 := ⟨fun _ => -1, fun _ => 0, fun _ => 0⟩
    e2 := ⟨fun _ => 0, fun _ => 1, fun _ => 0⟩
    Ng := ⟨fun _ => 0, fun _ => 0, fun _ => -1⟩
    valid := fun i => decide (i = 0 ∨ i = 1)
    geomID := fun _ => 0
    primID := fun i => if i = 0 then 20 else 21
    mask := fun _ => 1 }

namespace BVH4Intersector8Chunk

/-- The state of the traversal after `n` steps from state `s`, when none of these steps
ends the traversal or fails. -/
def reach (k : Kernel) (su : Setup) (bvh : BVH4) : Nat → State → Option State
  | 0, s => some s
  | n + 1, s =>
    match step k su bvh s with
    | Step.next s1 => reach k su bvh n s1
    | Step.done _ => Option.none
    | Step.fault _ => Option.none

end BVH4Intersector8Chunk

/-- The block of the degenerate scenario: one valid triangle with `e1 = e2`, so that its
stored `Ng = cross(e1, e2)` is the zero vector. -/
def degTri : Triangle4 :=
  { v0 := ⟨fun _ => 0, fun _ => 0, fun _ => 1⟩
    e1 := ⟨fun _ => 1, fun _ => 0, fun _ => 0⟩
    e2 := ⟨fun _ => 1, fun _ => 0, fun _ => 0⟩
    Ng := ⟨fun _ => 0, fun _ => 0, fun _ => 0⟩
    valid := fun i => decide (i = 0)
    geomID := fun _ => 5
    primID := fun _ => 6
    mask := fun _ => 1 }

/-- Negation of a distance lane. -/
def Dist.neg : Dist → Dist
  | Dist.neg_inf => Dist.pos_inf
  | Dist.fin q => Dist.fin (-q)
  | Dist.pos_inf => Dist.neg_inf

/-- The reversed packet: every ray keeps its origin, runs in the direction `-dir` and
has the interval `[-tfar, -tnear]`. -/
def Ray8.reverse (r : Ray8) : Ray8 :=
  { r with
    dir := ⟨fun l => -r.dir.x l, fun l => -r.dir.y l, fun l => -r.dir.z l⟩
    tnear := fun l => (r.tfar l).neg
    tfar := fun l => (r.tnear l).neg }

/-- A block with one valid triangle: `v0 = (3,0,0)`, `v1 = (0,3,0)`, `v2 = (0,0,3)`, stored
as `e1 = v0 - v1`, `e2 = v2 - v0`, `Ng = cross(e1, e2) = (-9,-9,-9)`.  The ray from the
origin in direction `(1,1,1)` meets it at `t = 1`, and enters its bounding box at `t = 0`. -/
def slantTri : Triangle4 :=
  { v0 := ⟨fun _ => 3, fun _ => 0, fun _ => 0⟩
    e1 := ⟨fun _ => 3, fun _ => -3, fun _ => 0⟩
    e2 := ⟨fun _ => -3, fun _ => 0, fun _ => 3⟩
    Ng := ⟨fun _ => -9, fun _ => -9, fun _ => -9⟩
    valid := fun i => decide (i = 0)
    geomID := fun _ => 7
    primID := fun _ => 3
    mask := fun _ => 1 }

/-- An inner node with one child, the leaf at base address 32 with one block; the box of
the child is the bounding box `[0,3]³` of the triangle of `slantTri`. -/
def slantNode : Node :=
  { lower_x := fun _ => 0
    upper_x := fun _ => 3
    lower_y := fun _ => 0
    upper_y := fun _ => 3
    lower_z := fun _ => 0
    upper_z := fun _ => 3
    children := fun c => if c = 0 then ⟨41⟩ else BVH4.emptyNode }

/-- The tree whose root is the inner node `slantNode` at address 16. -/
def slantBVH : BVH4 :=
  { root := ⟨16⟩
    scene := exScene
    node := fun _ => slantNode
    prim := fun _ _ => slantTri }

/-- Eight rays from the origin in direction `(1,1,1)`, no hit recorded: lane 0 has the
interval `[1, 1]` (`tnear = tfar`), the other lanes have `[0, ∞]`. -/
def pinRay : Ray8 :=
  { org := ⟨fun _ => 0, fun _ => 0, fun _ => 0⟩
    dir := ⟨fun _ => 1, fun _ => 1, fun _ => 1⟩
    tnear := fun l => if l = 0 then Dist.fin 1 else Dist.fin 0
    tfar := fun l => if l = 0 then Dist.fin 1 else Dist.pos_inf
    time := fun _ => 0
    mask := fun _ => 1
    Ng := ⟨fun _ => 0, fun _ => 0, fun _ => 0⟩
    u := fun _ => 0
    v := fun _ => 0
    geomID := fun _ => -1
    primID := fun _ => -1 }

namespace BVH4Intersector8Chunk

/-- The reference a step processes: the register `cur` when the control is in the inner
loop (an inner node whose children are tested, or a leaf that is handed to the primitive
intersector), nothing at a pop of the outer loop. -/
def State.visits (s : State) : List NodeRef :=
  match s.control with
  | Control.pop => []
  | Control.inner cur _ => [cur]

/-- The references processed, in order, by the first `fuel` steps of the loop from state
`s`; a step that ends the traversal or fails an assertion processes nothing. -/
def trace (k : Kernel) (su : Setup) (bvh : BVH4) : Nat → State → List NodeRef
  | 0, _ => []
  | fuel + 1, s =>
    match step k su bvh s with
    | Step.next s1 => s.visits ++ trace k su bvh fuel s1
    | Step.done _ => []
    | Step.fault _ => []

/-- The leaves handed to `PrimitiveIntersector8::intersect`, in order, by the first `fuel`
steps of a call: the processed references that are not inner nodes. -/
def dispatched (k : Kernel) (fuel : Nat) (valid_i : avxb) (bvh : BVH4) (ray : Ray8) :
    List NodeRef :=
  (trace k (setup k valid_i ray) bvh fuel (init k valid_i bvh ray)).filter
    (fun r => !r.isNode)

end BVH4Intersector8Chunk

/-- The empty tree: the root is `invalidNode`. -/
def emptyBVH : BVH4 :=
  { root := BVH4.invalidNode
    scene := exScene
    node := fun _ => exNode
    prim := fun _ _ => exTri }

/-- A primitive intersector that overwrites every output field of every lane it is given,
whatever the mask. -/
def overwriteAll : avxb → Ray8 → (Nat → Triangle4) → Nat → Scene → Ray8 :=
  fun _ ray _ _ _ =>
    { ray with
      tfar := fun _ => Dist.fin 0
      u := fun _ => 1
      v := fun _ => 1
      geomID := fun _ => 99
      primID := fun _ => 99 }

/-- A kernel with the fast slab test and exact reciprocals whose primitive intersector
records no hit: it returns the packet as it is. -/
def noHitKernel : BVH4Intersector8Chunk.Kernel :=
  { robust := false
    avx2 := false
    ulp := 0
    rcp_safe := fun x => x⁻¹
    primIntersect := fun _ ray _ _ _ => ray }

namespace BVH4Intersector8Chunk

/-- The slab test of child `i` of the root node as the traversal calls it when it processes
the root before any hit is recorded: with the registers `org`, `rdir`, `org_rdir`,
`ray_tnear` and `ray_tfar` as loaded from the packet. -/
def rootSlab (k : Kernel) (valid_i : avxb) (bvh : BVH4) (ray : Ray8) (i : Fin 4) :
    avxb × avxf :=
  (bvh.node bvh.root.ptr).intersect8 k.robust k.avx2 k.ulp i (setup k valid_i ray).org
    (setup k valid_i ray).rdir (setup k valid_i ray).org_rdir (setup k valid_i ray).ray_tnear
    (init k valid_i bvh ray).ray_tfar

end BVH4Intersector8Chunk

namespace BVH4Intersector8Chunk

/-- The value `childDist = select(lhit, lnearP, inf)` the loop over the children of `node`
computes for the child in slot `i`. -/
def childDist (k : Kernel) (su : Setup) (ray_tfar : avxd) (node : Node) (i : Fin 4) : avxd :=
  select (node.intersect8 k.robust k.avx2 k.ulp i su.org su.rdir su.org_rdir
      su.ray_tnear ray_tfar).1
    (fun l => Dist.fin ((node.intersect8 k.robust k.avx2 k.ulp i su.org su.rdir
      su.org_rdir su.ray_tnear ray_tfar).2 l))
    (fun _ => Dist.pos_inf)

end BVH4Intersector8Chunk

/-- The node `rowNode` with its four children in the opposite slots: the child in slot `i`
is the leaf at base address `32 + 16*i` and has the box `[7-2i, 8-2i]³`, which the ray from
the origin in direction `(1,1,1)` enters at distance `7-2i`. -/
def rowNodeDesc : Node :=
  { lower_x := fun i => 7 - 2 * (i.val : ℚ)
    upper_x := fun i => 8 - 2 * (i.val : ℚ)
    lower_y := fun i => 7 - 2 * (i.val : ℚ)
    upper_y := fun i => 8 - 2 * (i.val : ℚ)
    lower_z := fun i => 7 - 2 * (i.val : ℚ)
    upper_z := fun i => 8 - 2 * (i.val : ℚ)
    children := fun i => ⟨41 + 16 * i.val⟩ }

/-- The tree whose root is the inner node `rowNodeDesc` at address 16. -/
def rowBVHDesc : BVH4 :=
  { root := ⟨16⟩
    scene := exScene
    node := fun _ => rowNodeDesc
    prim := fun _ _ => exTri }

/-- A block with one valid triangle `v0 = (900,900,900)`, `v1 = (901,900,900)`,
`v2 = (900,901,900)`, stored as `e1 = v0 - v1`, `e2 = v2 - v0`, `Ng = cross(e1, e2)`. -/
def farTri : Triangle4 :=
  { v0 := ⟨fun _ => 900, fun _ => 900, fun _ => 900⟩
    e1 := ⟨fun _ => -1, fun _ => 0, fun _ => 0⟩
    e2 := ⟨fun _ => 0, fun _ => 1, fun _ => 0⟩
    Ng := ⟨fun _ => 0, fun _ => 0, fun _ => -1⟩
    valid := fun i => decide (i = 0)
    geomID := fun _ => 0
    primID := fun _ => 0
    mask := fun _ => 1 }

/-- The inner nodes of the tree `deepBVH`.  The root is at address 16; on each level
`k = 1, …, 85` there are two inner nodes, at the addresses `256k + 16` and `256k + 32`.
The children of the root are the node `272`, two leaves and the node `288`; the children
of a node at address `a` on level `k < 85` are three leaves and the node `a + 256`; on
level 85 all four children are leaves.  The leaf in slot `i` of the node at `a` is the one
at base address `a + 48(i+1)` with one block.  The box of a child is `[d, 1000]³`: `d = 2`
for slot 0 of the root and `d = 3` for its other slots, `d = 2k + 2` for the children of
the node `256k + 16` and `d = 2k + 3` for the children of the node `256k + 32`.  Every
child box lies within the box of its parent. -/
def deepNode (a : Nat) : Node :=
  let d : Fin 4 → ℚ := fun i =>
    if a = 16 then (if i = 0 then 2 else 3)
    else 2 * ((a / 256 : Nat) : ℚ) + 1 + (((a % 256) / 16 : Nat) : ℚ)
  { lower_x := d
    upper_x := fun _ => 1000
    lower_y := d
    upper_y := fun _ => 1000
    lower_z := d
    upper_z := fun _ => 1000
    children := fun i =>
      if a = 16 then
        (if i = 0 then ⟨272⟩ else if i = 3 then ⟨288⟩ else ⟨a + 48 * (i.val + 1) + 9⟩)
      else if i = 3 ∧ a / 256 < 85 then ⟨a + 256⟩
      else ⟨a + 48 * (i.val + 1) + 9⟩ }

/-- A tree of depth 86 (the leaves on the deepest level are 86 edges below the root) whose
leaves all hold the block `farTri`. -/
def deepBVH : BVH4 :=
  { root := ⟨16⟩
    scene := exScene
    node := deepNode
    prim := fun _ _ => farTri }

namespace BVH4Intersector8Chunk

/-- The fault of a run, if it ends in one. -/
def faultOf {α : Type} : Except Fault α → Option Fault
  | Except.error f => some f
  | Except.ok _ => Option.none

end BVH4Intersector8Chunk

/-- The address of an inner node of `deepBVH`: the root for level 0, and for a level
`k ≥ 1` the node `256k + 16` (`w = 0`) or `256k + 32` (`w = 1`). -/
def deepAddr (k w : Nat) : Nat := if k = 0 then 16 else 256 * k + 16 * (w + 1)

namespace Node

end Node

namespace BVH4

end BVH4

namespace BVH4Intersector8Chunk

end BVH4Intersector8Chunk

/-- The point `org + t*dir` of the ray with origin `(ox, oy, oz)` and direction
`(dx, dy, dz)` lies inside the box of child `i` of the node. -/
def Node.inside (node : Node) (i : Fin 4) (ox oy oz dx dy dz t : ℚ) : Prop :=
  (node.lower_x i ≤ ox + t * dx ∧ ox + t * dx ≤ node.upper_x i) ∧
  (node.lower_y i ≤ oy + t * dy ∧ oy + t * dy ≤ node.upper_y i) ∧
  (node.lower_z i ≤ oz + t * dz ∧ oz + t * dz ≤ node.upper_z i)

/-- A node whose child boxes are all `[-3,-1]³`: behind the origin for a ray in direction
`(1,1,1)`, which is inside the box for `t` in `[-3, -1]`. -/
def backNode : Node :=
  { lower_x := fun _ => -3
    upper_x := fun _ => -1
    lower_y := fun _ => -3
    upper_y := fun _ => -1
    lower_z := fun _ => -3
    upper_z := fun _ => -1
    children := fun _ => ⟨41⟩ }

/-! ## Ternary operators of `avxf`, in both build variants

The four fused instructions are not part of the source; they are given here with the
meaning the instruction set documents for them, on exact lane values (no rounding). -/

/-- The instruction `_mm256_fmadd_ps(a, b, c)`: `(a * b) + c` in every lane. -/
def _mm256_fmadd_ps (a b c : avxf) : avxf := fun l => a l * b l + c l

/-- The instruction `_mm256_fmsub_ps(a, b, c)`: `(a * b) - c` in every lane. -/
def _mm256_fmsub_ps (a b c : avxf) : avxf := fun l => a l * b l - c l

/-- The instruction `_mm256_fnmadd_ps(a, b, c)`: `-(a * b) + c` in every lane. -/
def _mm256_fnmadd_ps (a b c : avxf) : avxf := fun l => -(a l * b l) + c l

/-- The instruction `_mm256_fnmsub_ps(a, b, c)`: `-(a * b) - c` in every lane. -/
def _mm256_fnmsub_ps (a b c : avxf) : avxf := fun l => -(a l * b l) - c l

namespace avxf

/-- The operator `madd(a, b, c)`; the flag `avx2` selects the `__AVX2__` variant
(`_mm256_fmadd_ps(a,b,c)`), otherwise `a*b+c`. -/
def madd (avx2 : Bool) (a b c : avxf) : avxf :=
  if avx2 then _mm256_fmadd_ps a b c else fun l => a l * b l + c l

/-- The operator `msub(a, b, c)` on vectors: `_mm256_fmsub_ps(a,b,c)` under `__AVX2__`,
otherwise `a*b-c`. -/
def msub (avx2 : Bool) (a b c : avxf) : avxf :=
  if avx2 then _mm256_fmsub_ps a b c else fun l => a l * b l - c l

/-- The operator `nmadd(a, b, c)`: `_mm256_fnmadd_ps(a,b,c)` under `__AVX2__`, otherwise
`-a*b-c`. -/
def nmadd (avx2 : Bool) (a b c : avxf) : avxf :=
  if avx2 then _mm256_fnmadd_ps a b c else fun l => -a l * b l - c l

/-- The operator `nmsub(a, b, c)`: `_mm256_fnmsub_ps(a,b,c)` under `__AVX2__`, otherwise
`c-a*b`. -/
def nmsub (avx2 : Bool) (a b c : avxf) : avxf :=
  if avx2 then _mm256_fnmsub_ps a b c else fun l => c l - a l * b l

end avxf

/-! ## The register level: masks as eight 32-bit lanes

The struct `avxb` stores a 256-bit register; a lane is "true" when its sign bit is set and
the operators keep every lane at all zeros or all ones.  The instructions used by the
source are given with the meaning the instruction set documents for them; the operators of
`avxb` are then written as in the source, on the stored registers. -/

/-- A 256-bit register (`__m256`, `__m256i`) as bit patterns: eight 32-bit lanes, lane 0
lowest, each a number below `2 ^ 32`.  The casts `_mm256_castps_si256` and
`_mm256_castsi256_ps` do not change the pattern. -/
abbrev m256 := Fin 8 → Nat

/-- A 128-bit register `__m128` as bit patterns: four 32-bit lanes. -/
abbrev m128 := Fin 4 → Nat

/-- The 32-bit pattern `0xFFFFFFFF`. -/
def ones32 : Nat := 2 ^ 32 - 1

/-- The number whose binary digits are the listed bits, lowest first. -/
def packBits : List Bool → Nat
  | [] => 0
  | b :: bs => (if b then 1 else 0) + 2 * packBits bs

/-- The instruction `_mm256_set_epi32(e7, ..., e0)`: lane `i` is `e_i`. -/
def _mm256_set_epi32 (e7 e6 e5 e4 e3 e2 e1 e0 : Nat) : m256 :=
  ![e0 % 2 ^ 32, e1 % 2 ^ 32, e2 % 2 ^ 32, e3 % 2 ^ 32, e4 % 2 ^ 32, e5 % 2 ^ 32,
    e6 % 2 ^ 32, e7 % 2 ^ 32]

/-- The instruction `_mm256_set1_epi32(a)`: every lane is `a`. -/
def _mm256_set1_epi32 (a : Nat) : m256 := fun _ => a % 2 ^ 32

/-- The instruction `_mm256_and_si256(a, b)`: bitwise AND. -/
def _mm256_and_si256 (a b : m256) : m256 := fun l => a l &&& b l

/-- The instruction `_mm256_cmpeq_epi32(a, b)`: a lane is all ones where the lanes of `a`
and `b` are equal, all zeros elsewhere. -/
def _mm256_cmpeq_epi32 (a b : m256) : m256 := fun l => if a l = b l then ones32 else 0

/-- The instruction `_mm256_and_ps(a, b)`: bitwise AND. -/
def _mm256_and_ps (a b : m256) : m256 := fun l => a l &&& b l

/-- The instruction `_mm256_or_ps(a, b)`: bitwise OR. -/
def _mm256_or_ps (a b : m256) : m256 := fun l => a l ||| b l

/-- The instruction `_mm256_xor_ps(a, b)`: bitwise XOR. -/
def _mm256_xor_ps (a b : m256) : m256 := fun l => a l ^^^ b l

/-- The value `_mm256_setzero_ps()`: every lane is `+0.0`, whose pattern is all zeros. -/
def _mm256_setzero_ps : avxf := fun _ => 0

/-- The instruction `_mm256_cmp_ps(a, b, _CMP_EQ_OQ)` on exact lane values (never NaN;
rationals, or distances with the two infinities): a lane is all ones where the lanes of `a`
and `b` are equal, all zeros elsewhere. -/
def _mm256_cmp_ps_EQ_OQ {α : Type} [DecidableEq α] (a b : Fin 8 → α) : m256 :=
  fun l => if a l = b l then ones32 else 0

/-- The instruction `_mm256_movemask_ps(a)`: bit `i` of the result is the sign bit (bit 31)
of lane `i`; the higher bits are zero. -/
def _mm256_movemask_ps (a : m256) : Nat :=
  packBits [(a 0).testBit 31, (a 1).testBit 31, (a 2).testBit 31, (a 3).testBit 31,
    (a 4).testBit 31, (a 5).testBit 31, (a 6).testBit 31, (a 7).testBit 31]

/-- The instruction `_mm256_testz_ps(a, b)`: `1` if the sign bit of every lane of
`a AND b` is zero, else `0`. -/
def _mm256_testz_ps (a b : m256) : Nat :=
  if ∀ l : Fin 8, (a l &&& b l).testBit 31 = false then 1 else 0

/-- The instruction `_mm256_blendv_ps(a, b, mask)`: lane `i` is taken from `b` where the
sign bit of lane `i` of `mask` is set, from `a` elsewhere. -/
def _mm256_blendv_ps {α : Type} (a b : Fin 8 → α) (mask : m256) : Fin 8 → α :=
  fun l => if (mask l).testBit 31 then b l else a l

/-- The instruction `_mm256_castps128_ps256(a)`: the low half is `a`; the high half is
not specified (zero here). -/
def _mm256_castps128_ps256 (a : m128) : m256 :=
  fun l => if h : l.val < 4 then a ⟨l.val, h⟩ else 0

/-- The instruction `_mm256_insertf128_ps(a, b, imm8)`: `a` with the half selected by
bit 0 of `imm8` replaced by `b`. -/
def _mm256_insertf128_ps (a : m256) (b : m128) (imm8 : Nat) : m256 :=
  fun l =>
    if h : l.val < 4 then (if imm8 % 2 = 0 then b ⟨l.val, h⟩ else a l)
    else (if imm8 % 2 = 0 then a l else b ⟨l.val - 4, by omega⟩)

/-- Modelled from the spec: `__popcnt(x)`, the number of set bits of a 32-bit value. -/
def __popcnt (x : Nat) : Nat := ((List.range 32).filter (fun j => x.testBit j)).length

namespace avxb

/-- Canonical lanes: every lane is all zeros (false) or all ones (true). -/
def Canonical (m : m256) : Prop := ∀ l : Fin 8, m l = 0 ∨ m l = ones32

instance (m : m256) : Decidable (Canonical m) := by unfold Canonical; infer_instance

/-- The constructor `avxb(const __m128 a, const __m128 b) : l(a), h(b)`: the two halves of
the union `struct { __m128 l, h; }`. -/
def ofHalves (a b : m128) : m256 :=
  fun l => if h : l.val < 4 then a ⟨l.val, h⟩ else b ⟨l.val - 4, by omega⟩

/-- The constructor `avxb(const int a)` for `0 <= a <= 255`.  The flag `avx2` selects the
`__AVX2__` variant (compare `a & mask` with `mask`, lane `i` of `mask` being `1 << i`);
the other variant reads the halves from the table `_mm_lookupmask_ps`, which is not part
of the source and is a parameter. -/
def ofInt (avx2 : Bool) (lookupmask_ps : Nat → m128) (a : Nat) : m256 :=
  if avx2 then
    let mask := _mm256_set_epi32 0x80 0x40 0x20 0x10 0x8 0x4 0x2 0x1
    let b := _mm256_set1_epi32 a
    let c := _mm256_and_si256 b mask
    _mm256_cmpeq_epi32 c mask
  else
    ofHalves (lookupmask_ps (a &&& 0xF)) (lookupmask_ps (a >>> 4))

/-- The constructor `avxb(const sseb& a, const sseb& b)`:
`_mm256_insertf128_ps(_mm256_castps128_ps256(a), b, 1)`. -/
def ofSseb (a b : m128) : m256 := _mm256_insertf128_ps (_mm256_castps128_ps256 a) b 1

/-- The constructor `avxb(bool a)`: `avxb(sseb(a), sseb(a))`.  The constructor `sseb(bool)`
is not part of the source and is a parameter. -/
def ofBool (sseb : Bool → m128) (a : Bool) : m256 := ofSseb (sseb a) (sseb a)

/-- The constant `avxb(False)`: `_mm256_setzero_ps()`, the all-zero pattern. -/
def ofFalse : m256 := fun _ => 0

/-- The constant `avxb(True)`:
`_mm256_cmp_ps(_mm256_setzero_ps(), _mm256_setzero_ps(), _CMP_EQ_OQ)`. -/
def ofTrue : m256 := _mm256_cmp_ps_EQ_OQ _mm256_setzero_ps _mm256_setzero_ps

/-- The read access `operator[](i) const`: `(_mm256_movemask_ps(m256) >> i) & 1`. -/
def get (m : m256) (i : Nat) : Bool := ((_mm256_movemask_ps m >>> i) &&& 1) != 0

/-- The eight lanes of a stored mask as read by `operator[]`. -/
def lanes (m : m256) : embree.avxb := fun l => get m l.val

/-- The operator `!a`: `_mm256_xor_ps(a, avxb(True))`. -/
def operator_not (a : m256) : m256 := _mm256_xor_ps a ofTrue

/-- The operator `a & b`: `_mm256_and_ps(a, b)`. -/
def operator_and (a b : m256) : m256 := _mm256_and_ps a b

/-- The operator `a | b`: `_mm256_or_ps(a, b)`. -/
def operator_or (a b : m256) : m256 := _mm256_or_ps a b

/-- The operator `a ^ b`: `_mm256_xor_ps(a, b)`. -/
def operator_xor (a b : m256) : m256 := _mm256_xor_ps a b

/-- The operator `a != b` on masks: `_mm256_xor_ps(a, b)`. -/
def operator_ne (a b : m256) : m256 := _mm256_xor_ps a b

/-- The operator `a == b` on masks: `_mm256_xor_ps(_mm256_xor_ps(a,b), avxb(True))`. -/
def operator_eq (a b : m256) : m256 := _mm256_xor_ps (_mm256_xor_ps a b) ofTrue

/-- The function `select(mask, t, f)` on masks: `_mm256_blendv_ps(f, t, mask)`. -/
def select (mask t f : m256) : m256 := _mm256_blendv_ps f t mask

/-- The reduction `reduce_and(a)`: `_mm256_movemask_ps(a) == 0xff`. -/
def reduce_and (a : m256) : Bool := _mm256_movemask_ps a == 0xff

/-- The reduction `reduce_or(a)`: `!_mm256_testz_ps(a,a)`. -/
def reduce_or (a : m256) : Bool := _mm256_testz_ps a a == 0

/-- The reduction `all(a)`: `_mm256_movemask_ps(a) == 0xff`. -/
def all (a : m256) : Bool := _mm256_movemask_ps a == 0xff

/-- The reduction `any(a)`: `!_mm256_testz_ps(a,a)`. -/
def any (a : m256) : Bool := _mm256_testz_ps a a == 0

/-- The reduction `none(a)`: `_mm256_testz_ps(a,a) != 0`. -/
def none (a : m256) : Bool := _mm256_testz_ps a a != 0

/-- The function `movemask(a)`: `_mm256_movemask_ps(a)`. -/
def movemask (a : m256) : Nat := _mm256_movemask_ps a

/-- The function `popcnt(a)`: `__popcnt(_mm256_movemask_ps(a))`. -/
def popcnt (a : m256) : Nat := __popcnt (_mm256_movemask_ps a)

end avxb

/-! ## Selection and masked store of `avxf` at the register level -/

/-- The instruction `_mm256_blend_ps(a, b, imm8)`: lane `i` is taken from `b` where bit `i`
of `imm8` is set, from `a` elsewhere. -/
def _mm256_blend_ps {α : Type} (a b : Fin 8 → α) (imm8 : Nat) : Fin 8 → α :=
  fun l => if imm8.testBit l.val then b l else a l

/-- The instruction `_mm256_maskstore_ps(mem_addr, mask, a)`: lane `i` of `a` is stored
where the sign bit of lane `i` of `mask` is set; the other lanes of the memory stay.  The
eight lanes at `mem_addr` are passed in and returned. -/
def _mm256_maskstore_ps {α : Type} (mem : Fin 8 → α) (mask : m256) (a : Fin 8 → α) :
    Fin 8 → α :=
  fun l => if (mask l).testBit 31 then a l else mem l

namespace avxf

/-- The function `select(const avxb& m, t, f)`: `_mm256_blendv_ps(f, t, m)`, on the stored
mask. -/
def select {α : Type} (m : m256) (t f : Fin 8 → α) : Fin 8 → α := _mm256_blendv_ps f t m

/-- The function `select(const int m, t, f)`.  The flag `workaround` selects the variant
for clang and the Microsoft compiler, `select(avxb(m), t, f)` (with the variant `avx2` of
`avxb(int)`); the other variant is `_mm256_blend_ps(f, t, m)`. -/
def select_int {α : Type} (workaround avx2 : Bool) (lookupmask_ps : Nat → m128) (m : Nat)
    (t f : Fin 8 → α) : Fin 8 → α :=
  if workaround then select (avxb.ofInt avx2 lookupmask_ps m) t f
  else _mm256_blend_ps f t m

/-- The masked store `store8f(mask, ptr, f)`:
`_mm256_maskstore_ps((float*)ptr, (__m256i)mask, f)`; `ptr` stands for the eight lanes at
the address, and the result is their content after the store. -/
def store8f {α : Type} (mask : m256) (ptr f : Fin 8 → α) : Fin 8 → α :=
  _mm256_maskstore_ps ptr mask f

end avxf

/-! ## Lane movements of `avxf` and the transposes -/

/-- The instruction `_mm256_unpacklo_ps(a, b)`: in each 128-bit half the two low lanes of
`a` and `b`, interleaved. -/
def _mm256_unpacklo_ps (a b : avxf) : avxf := ![a 0, b 0, a 1, b 1, a 4, b 4, a 5, b 5]

/-- The instruction `_mm256_unpackhi_ps(a, b)`: in each 128-bit half the two high lanes of
`a` and `b`, interleaved. -/
def _mm256_unpackhi_ps (a b : avxf) : avxf := ![a 2, b 2, a 3, b 3, a 6, b 6, a 7, b 7]

/-- The instruction `_mm256_permute2f128_ps(a, b, imm8)`: the low half of the result is
chosen by bits 3..0 of `imm8`, the high half by bits 7..4.  Of a 4-bit control, the two low
bits choose among the low half of `a` (0), the high half of `a` (1), the low half of `b`
(2) and the high half of `b` (3); bit 3 zeroes the half. -/
def _mm256_permute2f128_ps {α : Type} [Zero α] (a b : Fin 8 → α) (imm8 : Nat) : Fin 8 → α :=
  fun l =>
    let control : Nat := if l.val < 4 then imm8 % 16 else imm8 / 16 % 16
    let j : Fin 4 := ⟨l.val % 4, Nat.mod_lt _ (by decide)⟩
    if control.testBit 3 then 0
    else if control % 4 = 0 then a ⟨j.val, by omega⟩
    else if control % 4 = 1 then a ⟨j.val + 4, by omega⟩
    else if control % 4 = 2 then b ⟨j.val, by omega⟩
    else b ⟨j.val + 4, by omega⟩

/-- The instruction `_mm256_permute_ps(a, imm8)`: in each 128-bit half, lane `j` of the
result is the lane of that half of `a` whose index is given by bits `2j+1..2j` of `imm8`. -/
def _mm256_permute_ps {α : Type} (a : Fin 8 → α) (imm8 : Nat) : Fin 8 → α :=
  fun l => a ⟨4 * (l.val / 4) + imm8 / 4 ^ (l.val % 4) % 4, by omega⟩

/-- The header constant `_MM_SHUFFLE(z, y, x, w)`: `(z << 6) | (y << 4) | (x << 2) | w`. -/
def _MM_SHUFFLE (z y x w : Nat) : Nat := (z <<< 6) ||| (y <<< 4) ||| (x <<< 2) ||| w

namespace avxf

/-- The function `unpacklo(a, b)`: `_mm256_unpacklo_ps(a, b)`. -/
def unpacklo (a b : avxf) : avxf := _mm256_unpacklo_ps a b

/-- The function `unpackhi(a, b)`: `_mm256_unpackhi_ps(a, b)`. -/
def unpackhi (a b : avxf) : avxf := _mm256_unpackhi_ps a b

/-- The function `shuffle<i0,i1>(a, b)`:
`_mm256_permute2f128_ps(a, b, (i1 << 4) | (i0 << 0))`. -/
def shuffle_halves (i0 i1 : Nat) (a b : avxf) : avxf :=
  _mm256_permute2f128_ps a b ((i1 <<< 4) ||| (i0 <<< 0))

/-- The function `shuffle<i0,i1>(a)`:
`_mm256_permute2f128_ps(a, a, (i1 << 4) | (i0 << 0))`. -/
def shuffle_halves_self {α : Type} [Zero α] (i0 i1 : Nat) (a : Fin 8 → α) : Fin 8 → α :=
  _mm256_permute2f128_ps a a ((i1 <<< 4) ||| (i0 <<< 0))

/-- The function `shuffle<i0,i1,i2,i3>(a)`:
`_mm256_permute_ps(a, _MM_SHUFFLE(i3, i2, i1, i0))`. -/
def shuffle_lanes {α : Type} (i0 i1 i2 i3 : Nat) (a : Fin 8 → α) : Fin 8 → α :=
  _mm256_permute_ps a (_MM_SHUFFLE i3 i2 i1 i0)

/-- The four-row `transpose(r0, r1, r2, r3, c0, c1, c2, c3)`; the result lists `c0..c3`. -/
def transpose4 (r0 r1 r2 r3 : avxf) : Fin 4 → avxf :=
  let l02 := unpacklo r0 r2
  let h02 := unpackhi r0 r2
  let l13 := unpacklo r1 r3
  let h13 := unpackhi r1 r3
  let c0 := unpacklo l02 l13
  let c1 := unpackhi l02 l13
  let c2 := unpacklo h02 h13
  let c3 := unpackhi h02 h13
  ![c0, c1, c2, c3]

/-- The four-row `transpose(r0, r1, r2, r3, c0, c1, c2)` with three outputs; the result
lists `c0..c2`. -/
def transpose3 (r0 r1 r2 r3 : avxf) : Fin 3 → avxf :=
  let l02 := unpacklo r0 r2
  let h02 := unpackhi r0 r2
  let l13 := unpacklo r1 r3
  let h13 := unpackhi r1 r3
  let c0 := unpacklo l02 l13
  let c1 := unpackhi l02 l13
  let c2 := unpacklo h02 h13
  ![c0, c1, c2]

/-- The eight-row `transpose(r0, ..., r7, c0, ..., c7)`; the result lists `c0..c7`. -/
def transpose8 (r0 r1 r2 r3 r4 r5 r6 r7 : avxf) : Fin 8 → avxf :=
  let h := transpose4 r0 r1 r2 r3
  let k := transpose4 r4 r5 r6 r7
  let c0 := shuffle_halves 0 2 (h 0) (k 0)
  let c1 := shuffle_halves 0 2 (h 1) (k 1)
  let c2 := shuffle_halves 0 2 (h 2) (k 2)
  let c3 := shuffle_halves 0 2 (h 3) (k 3)
  let c4 := shuffle_halves 1 3 (h 0) (k 0)
  let c5 := shuffle_halves 1 3 (h 1) (k 1)
  let c6 := shuffle_halves 1 3 (h 2) (k 2)
  let c7 := shuffle_halves 1 3 (h 3) (k 3)
  ![c0, c1, c2, c3, c4, c5, c6, c7]

end avxf

/-! ## Horizontal reductions of `avxf` -/

/-- The instruction `_mm256_min_ps(a, b)` on exact lane values (never NaN; rationals, or
distances with the two infinities): the lanewise minimum. -/
def _mm256_min_ps {α : Type} [LinearOrder α] (a b : Fin 8 → α) : Fin 8 → α :=
  fun l => min (a l) (b l)

/-- The instruction `_mm256_max_ps(a, b)` on exact lane values (never NaN; rationals, or
distances with the two infinities): the lanewise maximum. -/
def _mm256_max_ps {α : Type} [LinearOrder α] (a b : Fin 8 → α) : Fin 8 → α :=
  fun l => max (a l) (b l)

/-- The instruction `_mm256_castps256_ps128(a)`: the low four lanes. -/
def _mm256_castps256_ps128 (a : avxf) : ssef := fun j => a ⟨j.val, by omega⟩

/-- The instruction `_mm_cvtss_f32(a)`: lane 0. -/
def _mm_cvtss_f32 (a : ssef) : ℚ := a 0

/-- Modelled from the spec: `__bsf(x)`, the index of the lowest set bit of a non-zero
value (`0` is returned here for `x = 0`, where the instruction leaves the result
undefined). -/
def __bsf (x : Nat) : Nat := ((List.range 64).find? (fun j => x.testBit j)).getD 0

namespace avxf

/-- The function `min(a, b)` on vectors: `_mm256_min_ps(a, b)`. -/
def min {α : Type} [LinearOrder α] (a b : Fin 8 → α) : Fin 8 → α := _mm256_min_ps a b

/-- The function `max(a, b)` on vectors: `_mm256_max_ps(a, b)`. -/
def max {α : Type} [LinearOrder α] (a b : Fin 8 → α) : Fin 8 → α := _mm256_max_ps a b

/-- The operator `a == b` on vectors: `_mm256_cmp_ps(a, b, _CMP_EQ_OQ)`. -/
def operator_eq {α : Type} [DecidableEq α] (a b : Fin 8 → α) : m256 :=
  _mm256_cmp_ps_EQ_OQ a b

/-- The function `extract<0>(a)`: `_mm256_castps256_ps128(a)`. -/
def extract0 (a : avxf) : ssef := _mm256_castps256_ps128 a

/-- The reduction `vreduce_min2(v)`: `min(v, shuffle<1,0,3,2>(v))`. -/
def vreduce_min2 {α : Type} [LinearOrder α] (v : Fin 8 → α) : Fin 8 → α :=
  min v (shuffle_lanes 1 0 3 2 v)

/-- The reduction `vreduce_min4(v)`: `v1 = vreduce_min2(v); min(v1, shuffle<2,3,0,1>(v1))`. -/
def vreduce_min4 {α : Type} [LinearOrder α] (v : Fin 8 → α) : Fin 8 → α :=
  let v1 := vreduce_min2 v
  min v1 (shuffle_lanes 2 3 0 1 v1)

/-- The reduction `vreduce_min(v)`: `v1 = vreduce_min4(v); min(v1, shuffle<1,0>(v1))`. -/
def vreduce_min {α : Type} [LinearOrder α] [Zero α] (v : Fin 8 → α) : Fin 8 → α :=
  let v1 := vreduce_min4 v
  min v1 (shuffle_halves_self 1 0 v1)

/-- The reduction `vreduce_max2(v)`: `max(v, shuffle<1,0,3,2>(v))`. -/
def vreduce_max2 {α : Type} [LinearOrder α] (v : Fin 8 → α) : Fin 8 → α :=
  max v (shuffle_lanes 1 0 3 2 v)

/-- The reduction `vreduce_max4(v)`: `v1 = vreduce_max2(v); max(v1, shuffle<2,3,0,1>(v1))`. -/
def vreduce_max4 {α : Type} [LinearOrder α] (v : Fin 8 → α) : Fin 8 → α :=
  let v1 := vreduce_max2 v
  max v1 (shuffle_lanes 2 3 0 1 v1)

/-- The reduction `vreduce_max(v)`: `v1 = vreduce_max4(v); max(v1, shuffle<1,0>(v1))`. -/
def vreduce_max {α : Type} [LinearOrder α] [Zero α] (v : Fin 8 → α) : Fin 8 → α :=
  let v1 := vreduce_max4 v
  max v1 (shuffle_halves_self 1 0 v1)

/-- The reduction `reduce_min(v)`: `_mm_cvtss_f32(extract<0>(vreduce_min(v)))`. -/
def reduce_min (v : avxf) : ℚ := _mm_cvtss_f32 (extract0 (vreduce_min v))

/-- The reduction `reduce_max(v)`: `_mm_cvtss_f32(extract<0>(vreduce_max(v)))`. -/
def reduce_max (v : avxf) : ℚ := _mm_cvtss_f32 (extract0 (vreduce_max v))

/-- The function `select_min(v)`: `__bsf(movemask(v == vreduce_min(v)))`. -/
def select_min (v : avxf) : Nat := __bsf (avxb.movemask (operator_eq v (vreduce_min v)))

/-- The function `select_max(v)`: `__bsf(movemask(v == vreduce_max(v)))`. -/
def select_max (v : avxf) : Nat := __bsf (avxb.movemask (operator_eq v (vreduce_max v)))

end avxf

/-! ## A scene behind the ray origin -/

/-- An inner node with one child, the leaf at base address 32 with one block; the box of
the child, `[0,4] × [0,4] × [0,2]`, contains the triangle of `exTri`. -/
def thickNode : Node :=
  { lower_x := fun _ => 0
    upper_x := fun _ => 4
    lower_y := fun _ => 0
    upper_y := fun _ => 4
    lower_z := fun _ => 0
    upper_z := fun _ => 2
    children := fun c => if c = 0 then ⟨41⟩ else BVH4.emptyNode }

/-- The tree whose root is the inner node `thickNode` at address 16. -/
def thickBVH : BVH4 :=
  { root := ⟨16⟩
    scene := exScene
    node := fun _ => thickNode
    prim := fun _ _ => exTri }

/-- Eight copies of the ray from `(5,5,9)` in direction `(1,1,2)` on `[-17/4, 0]`, with no
hit recorded.  It meets the triangle of `exTri` at `t = -4`, in the point `(1,1,1)`; the
box of `thickNode` lies behind the origin on every axis (clip distances `-5, -1`,
`-5, -1` and `-9/2, -7/2`). -/
def backRay : Ray8 :=
  { org := ⟨fun _ => 5, fun _ => 5, fun _ => 9⟩
    dir := ⟨fun _ => 1, fun _ => 1, fun _ => 2⟩
    tnear := fun _ => Dist.fin (-17 / 4)
    tfar := fun _ => Dist.fin 0
    time := fun _ => 0
    mask := fun _ => 1
    Ng := ⟨fun _ => 0, fun _ => 0, fun _ => 0⟩
    u := fun _ => 0
    v := fun _ => 0
    geomID := fun _ => -1
    primID := fun _ => -1 }

/-! ## BaseNode: clearing and verifying the children -/

namespace BaseNode

/-- The function `BaseNode::clear()`: every child becomes `emptyNode`. -/
def clear (_children : Fin 4 → NodeRef) : Fin 4 → NodeRef := fun _ => BVH4.emptyNode

/-- The inner loop of `BaseNode::verify()` from index `i` on:
`for (; i<N; i++) if (child(i) != emptyNode) return false;`, followed by the `break`, after
which `true` is returned.  `fuel` bounds the number of rounds. -/
def verifyRest (children : Fin 4 → NodeRef) : Nat → Nat → Bool
  | 0, _ => true
  | fuel + 1, i =>
    if h : i < BVH4.N then
      if children ⟨i, h⟩ ≠ BVH4.emptyNode then false
      else verifyRest children fuel (i + 1)
    else true

/-- The outer loop of `BaseNode::verify()` from index `i` on:
`for (; i<N; i++) if (child(i) == emptyNode) { inner loop; break; }`, then `return true`. -/
def verifyFrom (children : Fin 4 → NodeRef) : Nat → Nat → Bool
  | 0, _ => true
  | fuel + 1, i =>
    if h : i < BVH4.N then
      if children ⟨i, h⟩ = BVH4.emptyNode then verifyRest children (BVH4.N - i) i
      else verifyFrom children fuel (i + 1)
    else true

/-- The function `BaseNode::verify()`. -/
def verify (children : Fin 4 → NodeRef) : Bool := verifyFrom children BVH4.N 0

end BaseNode

/-! ## The reciprocal `rcp` of `avxf` -/

/-- The instruction `_mm256_add_ps(a, b)` on exact lane values. -/
def _mm256_add_ps (a b : avxf) : avxf := fun l => a l + b l

/-- The instruction `_mm256_sub_ps(a, b)` on exact lane values. -/
def _mm256_sub_ps (a b : avxf) : avxf := fun l => a l - b l

/-- The instruction `_mm256_mul_ps(a, b)` on exact lane values. -/
def _mm256_mul_ps (a b : avxf) : avxf := fun l => a l * b l

namespace avxf

/-- The function `rcp(a)`: `r = _mm256_rcp_ps(a)` and the Newton step
`_mm256_sub_ps(_mm256_add_ps(r, r), _mm256_mul_ps(_mm256_mul_ps(r, r), a))`.  The
estimate instruction `_mm256_rcp_ps` is a parameter: the instruction set fixes only its
error bound. -/
def rcp (_mm256_rcp_ps : avxf → avxf) (a : avxf) : avxf :=
  let r := _mm256_rcp_ps a
  _mm256_sub_ps (_mm256_add_ps r r) (_mm256_mul_ps (_mm256_mul_ps r r) a)

end avxf

/-! ## Bit patterns of binary32 and the integer minimum and maximum -/

namespace binary32

/-- The sign bit of a 32-bit pattern. -/
def sign (p : Nat) : Bool := p.testBit 31

/-- The exponent field of a 32-bit pattern (bits 30..23). -/
def exponent (p : Nat) : Nat := p / 2 ^ 23 % 2 ^ 8

/-- The fraction field of a 32-bit pattern (bits 22..0). -/
def fraction (p : Nat) : Nat := p % 2 ^ 23

/-- The pattern is a NaN: the exponent field is all ones and the fraction is not zero. -/
def isNaN (p : Nat) : Bool := exponent p == 255 && fraction p != 0

/-- The magnitude of a finite pattern in units of `2^-149`: the fraction for a subnormal
number, `(2^23 + fraction) * 2^(exponent - 1)` for a normal one. -/
def units (p : Nat) : Nat :=
  if exponent p = 0 then fraction p else (2 ^ 23 + fraction p) * 2 ^ (exponent p - 1)

/-- The magnitude denoted by a pattern that is not a NaN. -/
def magnitude (p : Nat) : Dist :=
  if exponent p = 255 then Dist.pos_inf else Dist.fin ((units p : ℚ) / 2 ^ 149)

/-- The value denoted by a pattern that is not a NaN; both zeros denote `0`. -/
def value (p : Nat) : Dist := if sign p then (magnitude p).neg else magnitude p

end binary32

/-- A 32-bit pattern read as a signed integer (two's complement). -/
def int32 (p : Nat) : Int := if p < 2 ^ 31 then (p : Int) else (p : Int) - 2 ^ 32

/-- The instruction `_mm256_min_epi32(a, b)`: the lanewise minimum of the lanes read as
signed 32-bit integers. -/
def _mm256_min_epi32 (a b : m256) : m256 :=
  fun l => if int32 (a l) ≤ int32 (b l) then a l else b l

/-- The instruction `_mm256_max_epi32(a, b)`: the lanewise maximum of the lanes read as
signed 32-bit integers. -/
def _mm256_max_epi32 (a b : m256) : m256 :=
  fun l => if int32 (a l) ≤ int32 (b l) then b l else a l

namespace avxf

/-- The function `mini(a, b)` on the stored registers:
`_mm256_castsi256_ps(_mm256_min_epi32(_mm256_castps_si256(a), _mm256_castps_si256(b)))`. -/
def mini (a b : m256) : m256 := _mm256_min_epi32 a b

/-- The function `maxi(a, b)` on the stored registers:
`_mm256_castsi256_ps(_mm256_max_epi32(_mm256_castps_si256(a), _mm256_castps_si256(b)))`. -/
def maxi (a b : m256) : m256 := _mm256_max_epi32 a b

end avxf

/-! ## Masked selection of the minimum and maximum lane -/

/-- The value `+0.0` among the lane values of type `Dist`, for the instructions that zero
a half of a register. -/
instance : Zero Dist := ⟨Dist.fin 0⟩

namespace avxf

/-- The function `select_min(valid, v)`: `a = select(valid, v, avxf(pos_inf))`, then
`__bsf(movemask(valid & (a == vreduce_min(a))))`. -/
def select_min_valid (valid : m256) (v : avxd) : Nat :=
  let a : avxd := select valid v (fun _ => Dist.pos_inf)
  __bsf (avxb.movemask (avxb.operator_and valid (operator_eq a (vreduce_min a))))

/-- The function `select_max(valid, v)`: `a = select(valid, v, avxf(neg_inf))`, then
`__bsf(movemask(valid & (a == vreduce_max(a))))`. -/
def select_max_valid (valid : m256) (v : avxd) : Nat :=
  let a : avxd := select valid v (fun _ => Dist.neg_inf)
  __bsf (avxb.movemask (avxb.operator_and valid (operator_eq a (vreduce_max a))))

end avxf

/-! ## The sentinel of the traversal stack -/

namespace BVH4

/-- The references of the tree: the root, and the children of the inner nodes among
them. -/
inductive Reachable (bvh : BVH4) : NodeRef → Prop
  | root : Reachable bvh bvh.root
  | child (r : NodeRef) (i : Fin 4) : Reachable bvh r → r.isNode = true →
      Reachable bvh ((bvh.node r.ptr).children i)

end BVH4

namespace BVH4Intersector8Chunk

/-- What the assertion `assert(sptr_node == stack_node)` tests, as a predicate of the state,
at the two places where the loop finds `cur == BVH4::invalidNode` (source lines 649-650
after the pop of the outer loop, lines 763-764 after the inner loop): `false` when the
state is at one of these places with `cur == invalidNode` and entries are left below
`sptr_node` (the step from such a state is the fault `stackNotEmpty`), `true` otherwise. -/
def State.atBase (s : State) : Bool :=
  match s.control with
  | Control.pop =>
    match s.stack with
    | [] => true
    | (cur, _) :: rest => if cur = BVH4.invalidNode then rest.isEmpty else true
  | Control.inner cur _ =>
    if cur.isNode then true
    else if cur = BVH4.invalidNode then s.stack.isEmpty else true

/-- The reference in slot `j` of `stack_node`, for the slots below `sptr_node` (slot 0 is
the bottom of the stack). -/
def State.slot (s : State) (j : Nat) : Option NodeRef := (s.stack.reverse.get? j).map Prod.fst

/-- The pending entries are references of the tree other than `invalidNode` that satisfy
`Q`, above the sentinel. -/
def Sentinel (bvh : BVH4) (Q : NodeRef → Prop) (s : State) : Prop :=
  ∃ es, s.pending = es ++ [sentinel] ∧
    ∀ e ∈ es, e.1 ≠ BVH4.invalidNode ∧ BVH4.Reachable bvh e.1 ∧ Q e.1

end BVH4Intersector8Chunk

namespace Dist

@[simp] theorem fin_le_fin {a b : ℚ} : fin a ≤ fin b ↔ a ≤ b := Iff.rfl

@[simp] theorem fin_lt_fin {a b : ℚ} : fin a < fin b ↔ a < b := by
  rw [lt_iff_le_not_le, lt_iff_le_not_le]; exact Iff.rfl

@[simp] theorem neg_inf_le (a : Dist) : neg_inf ≤ a := trivial

@[simp] theorem le_pos_inf (a : Dist) : a ≤ pos_inf := by cases a <;> trivial

@[simp] theorem not_lt_neg_inf (a : Dist) : ¬ a < neg_inf := not_lt.mpr (neg_inf_le a)

@[simp] theorem not_pos_inf_lt (a : Dist) : ¬ pos_inf < a := not_lt.mpr (le_pos_inf a)

@[simp] theorem fin_lt_pos_inf (a : ℚ) : fin a < pos_inf := by
  rw [lt_iff_le_not_le]; exact ⟨trivial, fun h => h⟩

@[simp] theorem neg_inf_lt_fin (a : ℚ) : neg_inf < fin a := by
  rw [lt_iff_le_not_le]; exact ⟨trivial, fun h => h⟩

@[simp] theorem neg_inf_lt_pos_inf : neg_inf < pos_inf := by
  rw [lt_iff_le_not_le]; exact ⟨trivial, fun h => h⟩

end Dist

theorem any_iff (a : avxb) : any a = true ↔ ∃ l, a l = true := by
  constructor
  · intro h
    simp only [any, Bool.or_eq_true] at h
    rcases h with ((((((h | h) | h) | h) | h) | h) | h) | h <;> exact ⟨_, h⟩
  · rintro ⟨l, h⟩
    simp only [any, Bool.or_eq_true]
    fin_cases l <;> simp_all

theorem none_iff (a : avxb) : none a = true ↔ ∀ l, a l = false := by
  unfold none
  rw [Bool.not_eq_true', ← Bool.not_eq_true, any_iff]
  simp


namespace Dist

theorem cmp_ge_fin_mul (a T : ℚ) (d : Dist) (ha : 0 < a) :
    cmp_ge (some (fin T)) (mul a d) = true ↔ d ≤ fin (T * a⁻¹) := by
  cases d with
  | neg_inf => simp [cmp_ge, cmp_le, mul, ha]
  | fin q =>
    simp only [cmp_ge, cmp_le, mul, decide_eq_true_eq, fin_le_fin]
    rw [← div_eq_mul_inv, le_div_iff₀ ha, mul_comm]
  | pos_inf =>
    simp only [cmp_ge, cmp_le, mul, ha, if_true, decide_eq_true_eq]
    constructor <;> intro h <;> exact absurd h (fun h => h)

theorem cmp_ge_mul_fin (a T : ℚ) (d : Dist) (ha : 0 < a) :
    cmp_ge (mul a d) (some (fin T)) = true ↔ fin (T * a⁻¹) ≤ d := by
  cases d with
  | neg_inf =>
    simp only [cmp_ge, cmp_le, mul, ha, if_true, decide_eq_true_eq]
    constructor <;> intro h <;> exact absurd h (fun h => h)
  | fin q =>
    simp only [cmp_ge, cmp_le, mul, decide_eq_true_eq, fin_le_fin]
    rw [← div_eq_mul_inv, div_le_iff₀ ha, mul_comm]
  | pos_inf => simp [cmp_ge, cmp_le, mul, ha]

end Dist

/-! ## The triangle test, lane by lane -/

namespace Triangle4Intersector8MoellerTrumbore

theorem update_lane (valid : avxb) (ray : Ray8) (u v t : avxf) (Ng : avx3f)
    (geomID primID : Int) (l : Fin 8) :
    (update valid ray u v t Ng geomID primID).lane l =
      if valid l then ⟨u l, v l, Dist.fin (t l), geomID, primID, Ng.x l, Ng.y l, Ng.z l⟩
      else ray.lane l := by
  by_cases h : valid l = true <;> simp [update, Ray8.lane, store8f, h]

theorem update_sameInput (valid : avxb) (ray : Ray8) (u v t : avxf) (Ng : avx3f)
    (geomID primID : Int) (l : Fin 8) :
    (update valid ray u v t Ng geomID primID).sameInput ray l := by
  simp [update, Ray8.sameInput]

theorem update_of_none (valid : avxb) (ray : Ray8) (u v t : avxf) (Ng : avx3f)
    (geomID primID : Int) (h : ∀ l, valid l = false) :
    update valid ray u v t Ng geomID primID = ray := by
  have hs : ∀ {α : Type} (d f : Fin 8 → α), store8f valid d f = d := by
    intro α d f; funext l; simp [store8f, h l]
  simp [update, hs]

theorem finalMask_le_cull (cfg : Config) (valid_i : avxb) (ray : Ray8) (tri : Triangle4)
    (i : Fin 4) (l : Fin 8) (h : finalMask cfg valid_i ray tri i l = true) :
    cullMask cfg valid_i ray tri i l = true := by
  unfold finalMask at h
  split at h
  · simp only [rayMask, Bool.and_eq_true] at h; exact h.1
  · exact h

theorem cull_le_depth (cfg : Config) (valid_i : avxb) (ray : Ray8) (tri : Triangle4)
    (i : Fin 4) (l : Fin 8) (h : cullMask cfg valid_i ray tri i l = true) :
    depthMask valid_i ray tri i l = true := by
  unfold cullMask at h
  split at h <;> · simp only [Bool.and_eq_true] at h; exact h.1

theorem depth_le_edge (valid_i : avxb) (ray : Ray8) (tri : Triangle4)
    (i : Fin 4) (l : Fin 8) (h : depthMask valid_i ray tri i l = true) :
    edgeMask valid_i ray tri i l = true := by
  simp only [depthMask, Bool.and_eq_true] at h; exact h.1

/-- Without the intersection filter one loop iteration is the masked writeback under the
final mask: the early `continue`s only skip writebacks whose mask is empty. -/
theorem intersectOne_eq_update (cfg : Config) (valid_i : avxb) (ray : Ray8) (tri : Triangle4)
    (i : Fin 4) (scene : Scene) :
    intersectOne cfg false valid_i ray tri i scene =
      update (finalMask cfg valid_i ray tri i) ray (hitInfo ray tri i).1 (hitInfo ray tri i).2.1
        (hitInfo ray tri i).2.2 (broadcast8f tri.Ng i) (tri.geomID i) (tri.primID i) := by
  have key : ∀ m : avxb, none m = true →
      (∀ l, finalMask cfg valid_i ray tri i l = true → m l = true) →
      ray = update (finalMask cfg valid_i ray tri i) ray (hitInfo ray tri i).1
        (hitInfo ray tri i).2.1 (hitInfo ray tri i).2.2 (broadcast8f tri.Ng i) (tri.geomID i)
        (tri.primID i) := by
    intro m hm hle
    rw [update_of_none]
    intro l
    by_contra hl
    rw [Bool.not_eq_false] at hl
    have := (none_iff m).1 hm l
    rw [hle l hl] at this
    exact Bool.noConfusion this
  unfold intersectOne
  split
  · rename_i h
    exact key _ h (fun l hl => depth_le_edge _ _ _ _ _
      (cull_le_depth cfg _ _ _ _ _ (finalMask_le_cull cfg _ _ _ _ _ hl)))
  split
  · rename_i h
    exact key _ h (fun l hl => cull_le_depth cfg _ _ _ _ _ (finalMask_le_cull cfg _ _ _ _ _ hl))
  split
  · rename_i h
    exact key _ h (fun l hl => finalMask_le_cull cfg _ _ _ _ _ hl)
  split
  · rename_i h
    rw [Bool.and_eq_true] at h
    refine key _ h.2 (fun l hl => ?_)
    unfold finalMask at hl
    rw [if_pos h.1] at hl
    exact hl
  · simp

theorem xorSgn_mul_inv_abs (x den : ℚ) : xorSgn x den * |den|⁻¹ = x * den⁻¹ := by
  unfold xorSgn
  split
  · rename_i h
    rw [abs_of_neg h, inv_neg]; ring
  · rename_i h
    rw [abs_of_nonneg (not_lt.1 h)]

/-- The final mask, lane by lane: the lane is enabled, it passes the tests that do not
look at `tfar`, and the distance is not beyond `tfar`. -/
theorem finalMask_iff (cfg : Config) (valid_i : avxb) (ray : Ray8) (tri : Triangle4)
    (i : Fin 4) (l : Fin 8) :
    finalMask cfg valid_i ray tri i l = true ↔
      valid_i l = true ∧ nearOK cfg ray tri i l ∧ Dist.fin (hitT ray tri i l) ≤ ray.tfar l := by
  have hden : laneDen ray tri i l = dot (broadcast8f tri.Ng i) ray.dir l := rfl
  by_cases h0 : laneDen ray tri i l = 0
  · have hc : cullMask cfg valid_i ray tri i l = false := by
      unfold cullMask
      split <;> simp [← hden, h0]
    constructor
    · intro h
      rw [finalMask_le_cull cfg _ _ _ _ _ h] at hc
      exact Bool.noConfusion hc
    · rintro ⟨-, h, -⟩
      unfold nearOK at h
      have := h.1
      split at this
      · rw [h0] at this; exact absurd this (lt_irrefl _)
      · exact absurd h0 this
  · have hpos : 0 < |laneDen ray tri i l| := abs_pos.2 h0
    have hd : depthMask valid_i ray tri i l = true ↔
        valid_i l = true ∧ 0 ≤ hitU ray tri i l ∧ 0 ≤ hitV ray tri i l ∧
          hitU ray tri i l + hitV ray tri i l ≤ 1 ∧
          ray.tnear l ≤ Dist.fin (hitT ray tri i l) ∧
          Dist.fin (hitT ray tri i l) ≤ ray.tfar l := by
      simp only [depthMask, edgeMask, Bool.and_eq_true, decide_eq_true_eq, ← hden,
        Dist.cmp_ge_fin_mul _ _ _ hpos, Dist.cmp_ge_mul_fin _ _ _ hpos, hitU, hitV, hitT,
        hitInfo, rcp, ge_iff_le]
      have e1 : ∀ x : ℚ, 0 ≤ x ↔ 0 ≤ x * |laneDen ray tri i l|⁻¹ := fun x =>
        (mul_nonneg_iff_of_pos_right (inv_pos.2 hpos)).symm
      have e2 : ∀ x y : ℚ, 0 ≤ |laneDen ray tri i l| - x - y ↔
          x * |laneDen ray tri i l|⁻¹ + y * |laneDen ray tri i l|⁻¹ ≤ 1 := by
        intro x y
        rw [← add_mul, ← div_eq_mul_inv, div_le_one hpos]
        constructor <;> intro h <;> linarith
      rw [e1 (xorSgn _ _), e1 (xorSgn (dot (cross ray.dir _) (broadcast8f tri.e1 i) l) _), e2]
      tauto
    unfold finalMask nearOK
    by_cases hb : cfg.RTCORE_BACKFACE_CULLING = true <;>
    by_cases hm : cfg.RTCORE_RAY_MASK = true <;>
    simp only [hb, hm, rayMask, cullMask, Bool.and_eq_true, decide_eq_true_eq, hd, ← hden,
      if_true, if_false, Bool.false_eq_true, ne_eq, gt_iff_lt, true_implies, false_implies,
      IsEmpty.forall_iff] <;>
    tauto

theorem sameInput_refl (r : Ray8) (l : Fin 8) : r.sameInput r l := by
  simp [Ray8.sameInput]

theorem sameInput_trans {r r1 r2 : Ray8} {l : Fin 8} (h : r.sameInput r1 l)
    (h1 : r1.sameInput r2 l) : r.sameInput r2 l := by
  obtain ⟨a1, a2, a3, a4, a5, a6, a7, a8⟩ := h
  obtain ⟨b1, b2, b3, b4, b5, b6, b7, b8⟩ := h1
  exact ⟨a1.trans b1, a2.trans b2, a3.trans b3, a4.trans b4, a5.trans b5, a6.trans b6,
    a7.trans b7, a8.trans b8⟩

theorem hitLane_congr {r r1 : Ray8} {l : Fin 8} (h : r.sameInput r1 l) (tri : Triangle4)
    (i : Fin 4) : hitLane r tri i l = hitLane r1 tri i l := by
  obtain ⟨a1, a2, a3, a4, a5, a6, -, -⟩ := h
  simp only [hitLane, hitU, hitV, hitT, hitInfo, dot, cross, broadcast8f, avx3f.sub, rcp,
    a1, a2, a3, a4, a5, a6]

theorem hitT_congr {r r1 : Ray8} {l : Fin 8} (h : r.sameInput r1 l) (tri : Triangle4)
    (i : Fin 4) : hitT r tri i l = hitT r1 tri i l := by
  have := hitLane_congr h tri i
  simp only [hitLane, LaneHit.mk.injEq, Dist.fin.injEq] at this
  exact this.2.2.1

theorem nearOK_congr (cfg : Config) {r r1 : Ray8} {l : Fin 8} (h : r.sameInput r1 l)
    (tri : Triangle4) (i : Fin 4) : nearOK cfg r tri i l ↔ nearOK cfg r1 tri i l := by
  have hl := hitLane_congr h tri i
  simp only [hitLane, LaneHit.mk.injEq, Dist.fin.injEq] at hl
  obtain ⟨a1, a2, a3, a4, a5, a6, a7, a8⟩ := h
  have hd : laneDen r tri i l = laneDen r1 tri i l := by
    simp only [laneDen, dot, broadcast8f, a4, a5, a6]
  simp only [nearOK, hd, a7, a8, hl.1, hl.2.1, hl.2.2.1]

theorem Improves.comp {cfg : Config} {ray0 : Ray8} {l : Fin 8}
    {S1 S2 : Triangle4 → Fin 4 → Prop} {en : Bool} {h F1 F2 : LaneHit}
    (a : Improves cfg ray0 l S1 en h F1) (b : Improves cfg ray0 l S2 en F1 F2) :
    Improves cfg ray0 l (fun tri i => S1 tri i ∨ S2 tri i) en h F2 := by
  have later : ∀ tri1 i1, S1 tri1 i1 → nearOK cfg ray0 tri1 i1 l →
      Dist.fin (hitT ray0 tri1 i1 l) ≤ h.tfar → F1 = hitLane ray0 tri1 i1 l →
      ∃ tri2 i2, (S1 tri2 i2 ∨ S2 tri2 i2) ∧ nearOK cfg ray0 tri2 i2 l ∧
        Dist.fin (hitT ray0 tri2 i2 l) ≤ h.tfar ∧ F2 = hitLane ray0 tri2 i2 l := by
    intro tri1 i1 hS1 hok1 hle1 hF1
    rcases b.attained with hb | ⟨-, tri2, i2, hS2, hok2, hle2, hF2⟩
    · exact ⟨tri1, i1, Or.inl hS1, hok1, hle1, hb.trans hF1⟩
    · exact ⟨tri2, i2, Or.inr hS2, hok2, le_trans hle2 a.le, hF2⟩
  refine ⟨le_trans b.le a.le, ?_, ?_, ?_⟩
  · intro hen tri i hS hok
    rcases hS with hS | hS
    · exact le_trans b.le (a.best hen tri i hS hok)
    · exact b.best hen tri i hS hok
  · rcases b.attained with hb | ⟨hen, tri, i, hS, hok, hle, hF⟩
    · rw [hb]
      rcases a.attained with ha | ⟨hen, tri, i, hS, hok, hle, hF⟩
      · exact Or.inl ha
      · exact Or.inr ⟨hen, tri, i, Or.inl hS, hok, hle, hF⟩
    · exact Or.inr ⟨hen, tri, i, Or.inr hS, hok, le_trans hle a.le, hF⟩
  · intro hen tri i hS hok hle
    rcases hS with hS | hS
    · obtain ⟨tri1, i1, hS1, hok1, hle1, hF1⟩ := a.hit hen tri i hS hok hle
      exact later tri1 i1 hS1 hok1 hle1 hF1
    · by_cases hc : Dist.fin (hitT ray0 tri i l) ≤ F1.tfar
      · obtain ⟨tri2, i2, hS2, hok2, hle2, hF2⟩ := b.hit hen tri i hS hok hc
        exact ⟨tri2, i2, Or.inr hS2, hok2, le_trans hle2 a.le, hF2⟩
      · rcases a.attained with ha | ⟨-, tri1, i1, hS1, hok1, hle1, hF1⟩
        · rw [ha] at hc; exact absurd hle hc
        · exact later tri1 i1 hS1 hok1 hle1 hF1

theorem Improves.nil (cfg : Config) (ray0 : Ray8) (l : Fin 8) (en : Bool) (h : LaneHit) :
    Improves cfg ray0 l (fun _ _ => False) en h h :=
  ⟨le_refl _, fun _ _ _ hS _ => hS.elim, Or.inl rfl, fun _ _ _ hS _ _ => hS.elim⟩

theorem Improves.congr {cfg : Config} {ray0 : Ray8} {l : Fin 8}
    {S1 S2 : Triangle4 → Fin 4 → Prop} {en : Bool} {h F : LaneHit}
    (a : Improves cfg ray0 l S1 en h F) (hS : ∀ tri i, S1 tri i ↔ S2 tri i) :
    Improves cfg ray0 l S2 en h F := by
  have : S1 = S2 := by funext tri i; exact propext (hS tri i)
  rw [← this]; exact a

theorem Improves.eq_of_disabled {cfg : Config} {ray0 : Ray8} {l : Fin 8}
    {S : Triangle4 → Fin 4 → Prop} {h F : LaneHit}
    (a : Improves cfg ray0 l S false h F) : F = h := by
  rcases a.attained with h1 | ⟨h1, -⟩
  · exact h1
  · exact Bool.noConfusion h1

/-- One loop iteration without the intersection filter, seen from lane `l`. -/
theorem intersectOne_lane (cfg : Config) (valid_i : avxb) (ray : Ray8) (tri : Triangle4)
    (i : Fin 4) (scene : Scene) (l : Fin 8) :
    (intersectOne cfg false valid_i ray tri i scene).lane l =
      if finalMask cfg valid_i ray tri i l = true then hitLane ray tri i l else ray.lane l := by
  rw [intersectOne_eq_update, update_lane]
  rfl

theorem intersectOne_sameInput (cfg : Config) (valid_i : avxb) (ray : Ray8) (tri : Triangle4)
    (i : Fin 4) (scene : Scene) (l : Fin 8) :
    (intersectOne cfg false valid_i ray tri i scene).sameInput ray l := by
  rw [intersectOne_eq_update]
  exact update_sameInput _ _ _ _ _ _ _ _ _

theorem intersectOne_improves (cfg : Config) (valid_i : avxb) (ray ray0 : Ray8)
    (tri : Triangle4) (i : Fin 4) (scene : Scene) (l : Fin 8) (hs : ray.sameInput ray0 l) :
    Improves cfg ray0 l (fun tri1 i1 => tri1 = tri ∧ i1 = i) (valid_i l) (ray.lane l)
      ((intersectOne cfg false valid_i ray tri i scene).lane l) := by
  rw [intersectOne_lane]
  have hT := hitT_congr hs tri i
  have hL := hitLane_congr hs tri i
  have hN := nearOK_congr cfg hs tri i
  by_cases hm : finalMask cfg valid_i ray tri i l = true
  · rw [if_pos hm]
    obtain ⟨hv, hok, hle⟩ := (finalMask_iff cfg valid_i ray tri i l).1 hm
    refine ⟨?_, ?_, ?_, ?_⟩
    · exact hle
    · rintro - tri1 i1 ⟨rfl, rfl⟩ -
      rw [← hT]; exact le_refl _
    · refine Or.inr ⟨hv, tri, i, ⟨rfl, rfl⟩, hN.1 hok, ?_, hL⟩
      rw [← hT]; exact hle
    · intro _ _ _ _ _ _
      refine ⟨tri, i, ⟨rfl, rfl⟩, hN.1 hok, ?_, hL⟩
      rw [← hT]; exact hle
  · rw [if_neg hm]
    have hno : valid_i l = true → nearOK cfg ray0 tri i l →
        ¬ Dist.fin (hitT ray0 tri i l) ≤ (ray.lane l).tfar := by
      intro hv hok hle
      apply hm
      rw [finalMask_iff]
      refine ⟨hv, hN.2 hok, ?_⟩
      rw [hT]; exact hle
    refine ⟨le_refl _, ?_, Or.inl rfl, ?_⟩
    · rintro hv tri1 i1 ⟨rfl, rfl⟩ hok
      exact le_of_lt (not_le.1 (hno hv hok))
    · rintro hv tri1 i1 ⟨rfl, rfl⟩ hok hle
      exact absurd hle (hno hv hok)

end Triangle4Intersector8MoellerTrumbore

namespace Triangle4Intersector8MoellerTrumbore

theorem intersectFrom_sameInput (cfg : Config) (valid_i : avxb) (tri : Triangle4)
    (scene : Scene) (l : Fin 8) :
    ∀ (n i : Nat) (ray : Ray8),
      (intersectFrom cfg false valid_i tri scene n i ray).sameInput ray l := by
  intro n
  induction n with
  | zero => intro i ray; exact sameInput_refl _ _
  | succ n ih =>
    intro i ray
    unfold intersectFrom
    split
    · split
      · exact sameInput_refl _ _
      · exact sameInput_trans (ih _ _) (intersectOne_sameInput _ _ _ _ _ _ _)
    · exact sameInput_refl _ _

theorem intersectFrom_improves (cfg : Config) (valid_i : avxb) (ray0 : Ray8) (tri : Triangle4)
    (scene : Scene) (l : Fin 8) :
    ∀ (n i : Nat) (ray : Ray8), ray.sameInput ray0 l →
      Improves cfg ray0 l (fun tri1 i1 => tri1 = tri ∧ i1 ∈ visitedFrom tri n i) (valid_i l)
        (ray.lane l) ((intersectFrom cfg false valid_i tri scene n i ray).lane l) := by
  intro n
  induction n with
  | zero =>
    intro i ray _
    exact (Improves.nil cfg ray0 l _ _).congr (by simp [visitedFrom])
  | succ n ih =>
    intro i ray hs
    unfold intersectFrom visitedFrom
    split
    · rename_i hi
      split
      · exact (Improves.nil cfg ray0 l _ _).congr (by simp)
      · have h1 := intersectOne_improves cfg valid_i ray ray0 tri ⟨i, hi⟩ scene l hs
        have h2 := ih (i + 1) _
          (sameInput_trans (intersectOne_sameInput cfg valid_i ray tri ⟨i, hi⟩ scene l) hs)
        refine (h1.comp h2).congr ?_
        intro tri1 i1
        simp only [List.mem_cons]
        tauto
    · exact (Improves.nil cfg ray0 l _ _).congr (by simp)

/-- The block intersector without the intersection filter, seen from lane `l`. -/
theorem intersect_improves (cfg : Config) (valid_i : avxb) (ray ray0 : Ray8) (tri : Triangle4)
    (scene : Scene) (l : Fin 8) (hs : ray.sameInput ray0 l) :
    Improves cfg ray0 l (fun tri1 i1 => tri1 = tri ∧ i1 ∈ visited tri) (valid_i l)
      (ray.lane l) ((intersect cfg false valid_i ray tri scene).lane l) :=
  intersectFrom_improves cfg valid_i ray0 tri scene l 4 0 ray hs

theorem intersect_sameInput (cfg : Config) (valid_i : avxb) (ray : Ray8) (tri : Triangle4)
    (scene : Scene) (l : Fin 8) :
    (intersect cfg false valid_i ray tri scene).sameInput ray l :=
  intersectFrom_sameInput cfg valid_i tri scene l 4 0 ray

theorem valid_of_mem_visited (tri : Triangle4) (i : Fin 4) (h : i ∈ visited tri) :
    tri.valid i = true := by
  revert h
  simp only [visited, visitedFrom]
  cases h0 : tri.valid 0 <;> cases h1 : tri.valid 1 <;> cases h2 : tri.valid 2 <;>
    cases h3 : tri.valid 3 <;> fin_cases i <;> simp_all

theorem mem_visited_of_leftPacked (tri : Triangle4) (hp : leftPacked tri) (i : Fin 4)
    (h : tri.valid i = true) : i ∈ visited tri := by
  have h0 : tri.valid 0 = true := hp 0 i (Fin.zero_le _) h
  have h1 : 1 ≤ i → tri.valid 1 = true := fun hi => hp 1 i hi h
  have h2 : 2 ≤ i → tri.valid 2 = true := fun hi => hp 2 i hi h
  simp only [visited, visitedFrom]
  fin_cases i
  · simp_all
  · have := h1 (by decide); simp_all
  · have := h1 (by decide); have := h2 (by decide); simp_all
  · have := h1 (by decide); have := h2 (by decide); simp_all

end Triangle4Intersector8MoellerTrumbore

/-! ## The leaf adapter, lane by lane -/

namespace LeafIterator8

open Triangle4Intersector8MoellerTrumbore in
theorem leaf_sameInput (cfg : Config) (valid : avxb) (prim : Nat → Triangle4)
    (scene : Scene) (l : Fin 8) (items : Nat) (ray : Ray8) :
    (LeafIterator8.intersect
      (fun valid ray tri scene =>
        Triangle4Intersector8MoellerTrumbore.intersect cfg false valid ray tri scene)
      valid ray prim items scene).sameInput ray l := by
  induction items with
  | zero => simp [LeafIterator8.intersect, sameInput_refl]
  | succ n ih =>
    simp only [LeafIterator8.intersect, List.range_succ, List.foldl_append, List.foldl_cons,
      List.foldl_nil] at ih ⊢
    exact sameInput_trans (Triangle4Intersector8MoellerTrumbore.intersect_sameInput _ _ _ _ _ _) ih

open Triangle4Intersector8MoellerTrumbore in
/-- The leaf adapter over the unfiltered block intersector, seen from lane `l`. -/
theorem leaf_improves (cfg : Config) (valid : avxb) (ray0 : Ray8) (prim : Nat → Triangle4)
    (scene : Scene) (l : Fin 8) (items : Nat) (ray : Ray8) (hs : ray.sameInput ray0 l) :
    Improves cfg ray0 l (fun tri i => ∃ j, j < items ∧ tri = prim j ∧ i ∈ visited tri)
      (valid l) (ray.lane l)
      ((LeafIterator8.intersect
        (fun valid ray tri scene =>
          Triangle4Intersector8MoellerTrumbore.intersect cfg false valid ray tri scene)
        valid ray prim items scene).lane l) := by
  induction items with
  | zero =>
    exact (Improves.nil cfg ray0 l _ _).congr (by simp)
  | succ n ih =>
    have hs1 := sameInput_trans (leaf_sameInput cfg valid prim scene l n ray) hs
    simp only [LeafIterator8.intersect, List.range_succ, List.foldl_append, List.foldl_cons,
      List.foldl_nil] at ih hs1 ⊢
    have h2 := Triangle4Intersector8MoellerTrumbore.intersect_improves cfg valid _ ray0
      (prim n) scene l hs1
    refine (ih.comp h2).congr ?_
    intro tri i
    constructor
    · rintro (⟨j, hj, rfl, hi⟩ | ⟨rfl, hi⟩)
      · exact ⟨j, Nat.lt_succ_of_lt hj, rfl, hi⟩
      · exact ⟨n, Nat.lt_succ_self n, rfl, hi⟩
    · rintro ⟨j, hj, rfl, hi⟩
      rcases Nat.lt_succ_iff_lt_or_eq.1 hj with h | h
      · exact Or.inl ⟨j, h, rfl, hi⟩
      · subst h; exact Or.inr ⟨rfl, hi⟩

end LeafIterator8

/-! ## Geometry of the triangle test and of the slab test -/

namespace Triangle4Intersector8MoellerTrumbore

theorem hitU_eq (ray : Ray8) (tri : Triangle4) (i : Fin 4) (l : Fin 8) :
    hitU ray tri i l =
      dot (cross ray.dir ((broadcast8f tri.v0 i).sub ray.org)) (broadcast8f tri.e2 i) l *
        (laneDen ray tri i l)⁻¹ := by
  simp only [hitU, hitInfo, rcp]
  exact xorSgn_mul_inv_abs _ _

theorem hitV_eq (ray : Ray8) (tri : Triangle4) (i : Fin 4) (l : Fin 8) :
    hitV ray tri i l =
      dot (cross ray.dir ((broadcast8f tri.v0 i).sub ray.org)) (broadcast8f tri.e1 i) l *
        (laneDen ray tri i l)⁻¹ := by
  simp only [hitV, hitInfo, rcp]
  exact xorSgn_mul_inv_abs _ _

theorem hitT_eq (ray : Ray8) (tri : Triangle4) (i : Fin 4) (l : Fin 8) :
    hitT ray tri i l =
      dot (broadcast8f tri.Ng i) ((broadcast8f tri.v0 i).sub ray.org) l *
        (laneDen ray tri i l)⁻¹ := by
  simp only [hitT, hitInfo, rcp]
  exact xorSgn_mul_inv_abs _ _

/-- The Möller–Trumbore identity: when `Ng = cross(e1, e2)` and `den ≠ 0`, the computed
`t`, `u`, `v` satisfy `org + t*dir = v0 + u*(v1 - v0) + v*(v2 - v0)` with `v1 = v0 - e1`
and `v2 = v0 + e2`. -/
theorem hit_point (ray : Ray8) (tri : Triangle4) (i : Fin 4) (l : Fin 8)
    (hN : tri.normalOK i) (hden : laneDen ray tri i l ≠ 0) :
    ray.org.x l + hitT ray tri i l * ray.dir.x l =
        tri.v0.x i + hitU ray tri i l * (-tri.e1.x i) + hitV ray tri i l * tri.e2.x i ∧
    ray.org.y l + hitT ray tri i l * ray.dir.y l =
        tri.v0.y i + hitU ray tri i l * (-tri.e1.y i) + hitV ray tri i l * tri.e2.y i ∧
    ray.org.z l + hitT ray tri i l * ray.dir.z l =
        tri.v0.z i + hitU ray tri i l * (-tri.e1.z i) + hitV ray tri i l * tri.e2.z i := by
  obtain ⟨nx, ny, nz⟩ := hN
  rw [hitU_eq, hitV_eq, hitT_eq]
  have hd : laneDen ray tri i l =
      tri.Ng.x i * ray.dir.x l + tri.Ng.y i * ray.dir.y l + tri.Ng.z i * ray.dir.z l := rfl
  generalize laneDen ray tri i l = den at hden hd ⊢
  simp only [dot, cross, broadcast8f, avx3f.sub]
  rw [nx, ny, nz] at hd ⊢
  refine ⟨?_, ?_, ?_⟩ <;> field_simp <;> rw [hd] <;> ring

theorem nearOK_den_ne (cfg : Config) (ray : Ray8) (tri : Triangle4) (i : Fin 4) (l : Fin 8)
    (h : nearOK cfg ray tri i l) : laneDen ray tri i l ≠ 0 := by
  have := h.1
  split at this
  · exact ne_of_gt this
  · exact this

end Triangle4Intersector8MoellerTrumbore

theorem convex_between (lo up a b c u v : ℚ) (hu : 0 ≤ u) (hv : 0 ≤ v) (huv : u + v ≤ 1)
    (ha : lo ≤ a ∧ a ≤ up) (hb : lo ≤ a - b ∧ a - b ≤ up) (hc : lo ≤ a + c ∧ a + c ≤ up) :
    lo ≤ a + u * (-b) + v * c ∧ a + u * (-b) + v * c ≤ up := by
  have hw : 0 ≤ 1 - u - v := by linarith
  constructor
  · nlinarith [mul_nonneg hw (sub_nonneg.2 ha.1), mul_nonneg hu (sub_nonneg.2 hb.1),
      mul_nonneg hv (sub_nonneg.2 hc.1)]
  · nlinarith [mul_nonneg hw (sub_nonneg.2 ha.2), mul_nonneg hu (sub_nonneg.2 hb.2),
      mul_nonneg hv (sub_nonneg.2 hc.2)]

theorem slab_axis (lo up o d t : ℚ) (hd : d ≠ 0) (h1 : lo ≤ o + t * d) (h2 : o + t * d ≤ up) :
    min ((lo - o) * d⁻¹) ((up - o) * d⁻¹) ≤ t ∧ t ≤ max ((lo - o) * d⁻¹) ((up - o) * d⁻¹) := by
  rcases lt_or_gt_of_ne hd with hneg | hpos
  · constructor
    · refine le_trans (min_le_right _ _) ?_
      rw [← div_eq_mul_inv, div_le_iff_of_neg hneg]; linarith
    · refine le_trans ?_ (le_max_left _ _)
      rw [← div_eq_mul_inv, le_div_iff_of_neg hneg]; linarith
  · constructor
    · refine le_trans (min_le_left _ _) ?_
      rw [← div_eq_mul_inv, div_le_iff₀ hpos]; linarith
    · refine le_trans ?_ (le_max_right _ _)
      rw [← div_eq_mul_inv, le_div_iff₀ hpos]; linarith

namespace Node

theorem clip_eq (avx2 : Bool) (lo o rd ord d : ℚ) (hr : rd = d⁻¹) (ho : ord = o * rd) :
    (if avx2 = true then msub lo rd ord else (lo - o) * rd) = (lo - o) * d⁻¹ := by
  subst hr ho
  cases avx2
  · simp
  · simp only [msub, if_true]; ring

end Node

/-! ## The integer minimum and maximum of the `__AVX2__` code path -/

/-- The relation is reflexive. -/
theorem SameOrNeg.refl (x : ℚ) : SameOrNeg x x := Or.inr rfl

/-- The relation is transitive. -/
theorem SameOrNeg.trans {x y z : ℚ} (h1 : SameOrNeg x y) (h2 : SameOrNeg y z) :
    SameOrNeg x z := by
  rcases h1 with ⟨a, b⟩ | rfl
  · rcases h2 with ⟨_, d⟩ | rfl
    · exact Or.inl ⟨a, d⟩
    · exact Or.inl ⟨a, b⟩
  · exact h2

/-- The integer minimum is the minimum up to the relation. -/
theorem mini_sameOrNeg (a b : ℚ) : SameOrNeg (mini a b) (min a b) := by
  unfold mini
  split_ifs with h
  · exact Or.inl ⟨max_lt h.1 h.2, lt_of_le_of_lt (min_le_left _ _) h.1⟩
  · exact Or.inr rfl

/-- The integer maximum is the maximum up to the relation. -/
theorem maxi_sameOrNeg (a b : ℚ) : SameOrNeg (maxi a b) (max a b) := by
  unfold maxi
  split_ifs with h
  · exact Or.inl ⟨lt_of_le_of_lt (min_le_left _ _) h.1, max_lt h.1 h.2⟩
  · exact Or.inr rfl

/-- The minimum respects the relation. -/
theorem SameOrNeg.of_min {a a1 b b1 : ℚ} (ha : SameOrNeg a a1) (hb : SameOrNeg b b1) :
    SameOrNeg (min a b) (min a1 b1) := by
  rcases ha with ⟨h1, h2⟩ | rfl
  · exact Or.inl ⟨lt_of_le_of_lt (min_le_left _ _) h1, lt_of_le_of_lt (min_le_left _ _) h2⟩
  · rcases hb with ⟨h1, h2⟩ | rfl
    · exact Or.inl ⟨lt_of_le_of_lt (min_le_right _ _) h1,
        lt_of_le_of_lt (min_le_right _ _) h2⟩
    · exact Or.inr rfl

/-- The maximum respects the relation. -/
theorem SameOrNeg.of_max {a a1 b b1 : ℚ} (ha : SameOrNeg a a1) (hb : SameOrNeg b b1) :
    SameOrNeg (max a b) (max a1 b1) := by
  rcases ha with ⟨h1, h2⟩ | rfl
  · rcases hb with ⟨h3, h4⟩ | rfl
    · exact Or.inl ⟨max_lt h1 h3, max_lt h2 h4⟩
    · by_cases hb0 : b < 0
      · exact Or.inl ⟨max_lt h1 hb0, max_lt h2 hb0⟩
      · have hb1 : 0 ≤ b := not_lt.1 hb0
        rw [max_eq_right (le_trans (le_of_lt h1) hb1),
          max_eq_right (le_trans (le_of_lt h2) hb1)]
        exact Or.inr rfl
  · rcases hb with ⟨h3, h4⟩ | rfl
    · by_cases ha0 : a < 0
      · exact Or.inl ⟨max_lt ha0 h3, max_lt ha0 h4⟩
      · have ha1 : 0 ≤ a := not_lt.1 ha0
        rw [max_eq_left (le_trans (le_of_lt h3) ha1),
          max_eq_left (le_trans (le_of_lt h4) ha1)]
        exact Or.inr rfl
    · exact Or.inr rfl

/-- The integer minimum of related values is related to the minimum. -/
theorem SameOrNeg.of_mini {a a1 b b1 : ℚ} (ha : SameOrNeg a a1) (hb : SameOrNeg b b1) :
    SameOrNeg (mini a b) (min a1 b1) :=
  (mini_sameOrNeg a b).trans (ha.of_min hb)

/-- The integer maximum of related values is related to the maximum. -/
theorem SameOrNeg.of_maxi {a a1 b b1 : ℚ} (ha : SameOrNeg a a1) (hb : SameOrNeg b b1) :
    SameOrNeg (maxi a b) (max a1 b1) :=
  (maxi_sameOrNeg a b).trans (ha.of_max hb)

/-- Against a non-negative `tnear` the integer maximum is the maximum, and it does not
tell related values apart. -/
theorem Dist.maxi_of_nonneg {x y : ℚ} (h : SameOrNeg x y) (tn : Dist)
    (htn : Dist.fin 0 ≤ tn) :
    Dist.maxi (Dist.fin x) tn = max (Dist.fin y) tn ∧ Dist.fin 0 ≤ max (Dist.fin y) tn := by
  have hn : ¬ (Dist.fin x < Dist.fin 0 ∧ tn < Dist.fin 0) := fun hh => not_lt.2 htn hh.2
  unfold Dist.maxi
  rw [if_neg hn]
  refine ⟨?_, le_trans htn (le_max_right _ _)⟩
  rcases h with ⟨h1, h2⟩ | rfl
  · rw [max_eq_right (le_trans (le_of_lt (Dist.fin_lt_fin.2 h1)) htn),
      max_eq_right (le_trans (le_of_lt (Dist.fin_lt_fin.2 h2)) htn)]
  · rfl

/-- A non-negative value is below the integer minimum of `x` and `tfar` exactly when it is
below the minimum of a related `y` and `tfar`. -/
theorem Dist.le_mini_iff {x y : ℚ} (h : SameOrNeg x y) (tf c : Dist)
    (hc : Dist.fin 0 ≤ c) :
    c ≤ Dist.mini (Dist.fin x) tf ↔ c ≤ min (Dist.fin y) tf := by
  unfold Dist.mini
  split_ifs with hb
  · have h1 : ¬ c ≤ max (Dist.fin x) tf :=
      not_le.2 (lt_of_lt_of_le (max_lt hb.1 hb.2) hc)
    have h2 : ¬ c ≤ min (Dist.fin y) tf :=
      not_le.2 (lt_of_lt_of_le (lt_of_le_of_lt (min_le_right _ _) hb.2) hc)
    exact ⟨fun h => absurd h h1, fun h => absurd h h2⟩
  · rcases h with ⟨h1, h2⟩ | rfl
    · have h3 : ¬ c ≤ min (Dist.fin x) tf :=
        not_le.2 (lt_of_lt_of_le (lt_of_le_of_lt (min_le_left _ _) (Dist.fin_lt_fin.2 h1)) hc)
      have h4 : ¬ c ≤ min (Dist.fin y) tf :=
        not_le.2 (lt_of_lt_of_le (lt_of_le_of_lt (min_le_left _ _) (Dist.fin_lt_fin.2 h2)) hc)
      exact ⟨fun h => absurd h h3, fun h => absurd h h4⟩
    · exact Iff.rfl

/-- The integer form of the slab test against the floating-point form on the same six
clip distances: the near distances agree unless both are negative, and for `tnear >= 0`
the two comparisons agree. -/
theorem slab_sameOrNeg (x0 x1 y0 y1 z0 z1 : ℚ) (tn tf : Dist) :
    SameOrNeg (maxi (maxi (mini x0 x1) (mini y0 y1)) (mini z0 z1))
      (max (max (min x0 x1) (min y0 y1)) (min z0 z1)) ∧
    (Dist.fin 0 ≤ tn →
      (Dist.maxi (Dist.fin (maxi (maxi (mini x0 x1) (mini y0 y1)) (mini z0 z1))) tn
          ≤ Dist.mini (Dist.fin (mini (mini (maxi x0 x1) (maxi y0 y1)) (maxi z0 z1))) tf ↔
        max (Dist.fin (max (max (min x0 x1) (min y0 y1)) (min z0 z1))) tn
          ≤ min (Dist.fin (min (min (max x0 x1) (max y0 y1)) (max z0 z1))) tf)) := by
  have hn := SameOrNeg.of_maxi
    (SameOrNeg.of_maxi (mini_sameOrNeg x0 x1) (mini_sameOrNeg y0 y1)) (mini_sameOrNeg z0 z1)
  have hf := SameOrNeg.of_mini
    (SameOrNeg.of_mini (maxi_sameOrNeg x0 x1) (maxi_sameOrNeg y0 y1)) (maxi_sameOrNeg z0 z1)
  refine ⟨hn, fun htn => ?_⟩
  obtain ⟨h1, h2⟩ := Dist.maxi_of_nonneg hn tn htn
  rw [h1]
  exact Dist.le_mini_iff hf tf _ h2

namespace Node

/-- The two fast paths of the slab test on the same clip distances: the `dist` of the
`__AVX2__` path is that of the other path unless both are negative, and in a lane with
`tnear >= 0` both paths report the same `lhit`. -/
theorem intersect8_fast_paths (ulp : ℚ) (node : Node) (i : Fin 4)
    (org rdir org_rdir : avx3f) (tnear tfar : avxd) (l : Fin 8)
    (hox : org_rdir.x l = org.x l * rdir.x l) (hoy : org_rdir.y l = org.y l * rdir.y l)
    (hoz : org_rdir.z l = org.z l * rdir.z l) :
    SameOrNeg ((node.intersect8 false true ulp i org rdir org_rdir tnear tfar).2 l)
      ((node.intersect8 false false ulp i org rdir org_rdir tnear tfar).2 l) ∧
    (Dist.fin 0 ≤ tnear l →
      (node.intersect8 false true ulp i org rdir org_rdir tnear tfar).1 l =
        (node.intersect8 false false ulp i org rdir org_rdir tnear tfar).1 l) := by
  have cx := clip_eq true (node.lower_x i) (org.x l) (rdir.x l) (org_rdir.x l)
    (rdir.x l)⁻¹ (inv_inv _).symm hox
  have cy := clip_eq true (node.lower_y i) (org.y l) (rdir.y l) (org_rdir.y l)
    (rdir.y l)⁻¹ (inv_inv _).symm hoy
  have cz := clip_eq true (node.lower_z i) (org.z l) (rdir.z l) (org_rdir.z l)
    (rdir.z l)⁻¹ (inv_inv _).symm hoz
  have dx := clip_eq true (node.upper_x i) (org.x l) (rdir.x l) (org_rdir.x l)
    (rdir.x l)⁻¹ (inv_inv _).symm hox
  have dy := clip_eq true (node.upper_y i) (org.y l) (rdir.y l) (org_rdir.y l)
    (rdir.y l)⁻¹ (inv_inv _).symm hoy
  have dz := clip_eq true (node.upper_z i) (org.z l) (rdir.z l) (org_rdir.z l)
    (rdir.z l)⁻¹ (inv_inv _).symm hoz
  rw [inv_inv] at cx cy cz dx dy dz
  simp only [if_true] at cx cy cz dx dy dz
  simp only [intersect8, Bool.false_eq_true, if_false, if_true, cx, cy, cz, dx, dy, dz]
  obtain ⟨hn, hh⟩ := slab_sameOrNeg ((node.lower_x i - org.x l) * rdir.x l)
    ((node.upper_x i - org.x l) * rdir.x l) ((node.lower_y i - org.y l) * rdir.y l)
    ((node.upper_y i - org.y l) * rdir.y l) ((node.lower_z i - org.z l) * rdir.z l)
    ((node.upper_z i - org.z l) * rdir.z l) (tnear l) (tfar l)
  exact ⟨hn, fun htn => decide_eq_decide.2 (hh htn)⟩

/-- The fast slab test in one lane, for a point `org + t*dir` of the ray inside the box
of child `c`: `dist` is not beyond `t`, and the lane is hit as soon as `t` lies within
`[tnear, tfar]`; on the `__AVX2__` code path for a lane whose `tnear` is not negative. -/
theorem intersect8_of_inside (avx2 : Bool) (ulp : ℚ) (node : Node) (c : Fin 4)
    (org rdir org_rdir : avx3f) (tnear tfar : avxd) (l : Fin 8) (dx dy dz t : ℚ)
    (hdx : dx ≠ 0) (hdy : dy ≠ 0) (hdz : dz ≠ 0)
    (hrx : rdir.x l = dx⁻¹) (hry : rdir.y l = dy⁻¹) (hrz : rdir.z l = dz⁻¹)
    (hox : org_rdir.x l = org.x l * rdir.x l) (hoy : org_rdir.y l = org.y l * rdir.y l)
    (hoz : org_rdir.z l = org.z l * rdir.z l)
    (hx : node.lower_x c ≤ org.x l + t * dx ∧ org.x l + t * dx ≤ node.upper_x c)
    (hy : node.lower_y c ≤ org.y l + t * dy ∧ org.y l + t * dy ≤ node.upper_y c)
    (hz : node.lower_z c ≤ org.z l + t * dz ∧ org.z l + t * dz ≤ node.upper_z c)
    (htn : tnear l ≤ Dist.fin t) (hnn : avx2 = true → Dist.fin 0 ≤ tnear l) :
    (node.intersect8 false avx2 ulp c org rdir org_rdir tnear tfar).2 l ≤ t ∧
    (Dist.fin t ≤ tfar l →
      (node.intersect8 false avx2 ulp c org rdir org_rdir tnear tfar).1 l = true) := by
  have sx := slab_axis _ _ _ _ _ hdx hx.1 hx.2
  have sy := slab_axis _ _ _ _ _ hdy hy.1 hy.2
  have sz := slab_axis _ _ _ _ _ hdz hz.1 hz.2
  have hfloat : (node.intersect8 false false ulp c org rdir org_rdir tnear tfar).2 l ≤ t ∧
      (Dist.fin t ≤ tfar l →
        (node.intersect8 false false ulp c org rdir org_rdir tnear tfar).1 l = true) := by
    rw [← hrx] at sx
    rw [← hry] at sy
    rw [← hrz] at sz
    simp only [intersect8, Bool.false_eq_true, if_false, decide_eq_true_eq]
    have hn := max_le (max_le sx.1 sy.1) sz.1
    have hf := le_min (le_min sx.2 sy.2) sz.2
    refine ⟨hn, fun htf => ?_⟩
    exact le_trans (max_le (Dist.fin_le_fin.2 hn) htn) (le_min (Dist.fin_le_fin.2 hf) htf)
  cases avx2
  · exact hfloat
  · have h0 : Dist.fin 0 ≤ tnear l := hnn rfl
    obtain ⟨hrel, hhit⟩ := intersect8_fast_paths ulp node c org rdir org_rdir tnear tfar l
      hox hoy hoz
    refine ⟨?_, fun htf => ?_⟩
    · rcases hrel with ⟨h1, -⟩ | h1
      · exact le_trans (le_of_lt h1) (Dist.fin_le_fin.1 (le_trans h0 htn))
      · rw [h1]
        exact hfloat.1
    · rw [hhit h0]
      exact hfloat.2 htf

end Node

/-! ## The loop over the children of a node -/

namespace BVH4Intersector8Chunk

theorem any_childDist_lt_inf (lhit : avxb) (lnearP : avxf) (h : any lhit = true) :
    any (fun l => decide (select lhit (fun l => Dist.fin (lnearP l)) (fun _ => Dist.pos_inf) l <
      (fun _ => Dist.pos_inf) l)) = true := by
  obtain ⟨l, hl⟩ := (any_iff _).1 h
  exact (any_iff _).2 ⟨l, by simp [select, hl]⟩

/-- The loop over the children keeps the sentinel at the bottom and adds exactly the hit
children to the pending entries; it can only fail by a push on a full stack. -/
theorem children_spec (k : Kernel) (su : Setup) (ray_tfar : avxd) (node : Node) :
    ∀ (is : List (Fin 4)) (cur : NodeRef) (curDist : avxd) (stack es : List (NodeRef × avxd)),
      (cur, curDist) :: stack = es ++ [sentinel] →
      (children k su ray_tfar node is cur curDist stack = Except.error Fault.stackOverflow) ∨
      ∃ cur1 curDist1 stack1 es1,
        children k su ray_tfar node is cur curDist stack = Except.ok (cur1, curDist1, stack1) ∧
        (cur1, curDist1) :: stack1 = es1 ++ [sentinel] ∧
        List.Perm es1 (hitChildren k su ray_tfar node is ++ es) := by
  intro is
  induction is with
  | nil =>
    intro cur curDist stack es h
    exact Or.inr ⟨cur, curDist, stack, es, rfl, h, by simp [hitChildren]⟩
  | cons i is ih =>
    intro cur curDist stack es h
    unfold children hitChildren
    by_cases hc : node.children i = BVH4.emptyNode
    · simp only [hc, if_true]
      exact Or.inr ⟨cur, curDist, stack, es, rfl, h, by simp⟩
    · simp only [hc, if_false]
      by_cases ha : any (node.intersect8 k.robust k.avx2 k.ulp i su.org su.rdir su.org_rdir
          su.ray_tnear ray_tfar).1 = true
      · simp only [ha, if_true]
        by_cases hl : stack.length < stackSize
        · simp only [hl, if_true]
          split
          · rcases ih (node.children i) _ ((cur, curDist) :: stack) (_ :: es)
              (by rw [h]; rfl) with h1 | ⟨cur1, curDist1, stack1, es1, h1, h2, h3⟩
            · exact Or.inl h1
            · refine Or.inr ⟨cur1, curDist1, stack1, es1, h1, h2, ?_⟩
              exact h3.trans List.perm_middle
          · rename_i hns
            cases es with
            | nil =>
              exfalso
              simp only [List.nil_append, List.cons.injEq, sentinel, Prod.mk.injEq] at h
              obtain ⟨⟨-, hd⟩, -⟩ := h
              apply hns
              rw [hd]
              exact any_childDist_lt_inf _ _ ha
            | cons e es0 =>
              simp only [List.cons_append, List.cons.injEq] at h
              obtain ⟨he, hst⟩ := h
              rcases ih cur curDist ((node.children i, _) :: stack) (e :: (_ :: es0))
                (by rw [he, hst]; rfl) with h1 | ⟨cur1, curDist1, stack1, es1, h1, h2, h3⟩
              · exact Or.inl h1
              · refine Or.inr ⟨cur1, curDist1, stack1, es1, h1, h2, ?_⟩
                refine h3.trans ?_
                refine List.perm_middle.trans ?_
                refine (List.Perm.cons _ List.perm_middle).trans ?_
                exact (List.Perm.swap _ _ _).trans (List.Perm.cons _ List.perm_middle.symm)
        · simp only [hl, if_false]
          exact Or.inl trivial
      · simp only [ha, Bool.false_eq_true, if_false]
        exact ih cur curDist stack es h

theorem mem_hitChildren (k : Kernel) (su : Setup) (ray_tfar : avxd) (node : Node) :
    ∀ (is : List (Fin 4)) (e : NodeRef × avxd), e ∈ hitChildren k su ray_tfar node is →
      ∃ i ∈ is, node.children i ≠ BVH4.emptyNode ∧ e.1 = node.children i := by
  intro is
  induction is with
  | nil => intro e h; simp [hitChildren] at h
  | cons i is ih =>
    intro e h
    unfold hitChildren at h
    by_cases hc : node.children i = BVH4.emptyNode
    · simp [hc] at h
    · simp only [hc, if_false] at h
      split at h
      · rcases List.mem_cons.1 h with h | h
        · exact ⟨i, List.mem_cons_self _ _, hc, by rw [h]⟩
        · obtain ⟨j, hj, h1, h2⟩ := ih e h
          exact ⟨j, List.mem_cons_of_mem _ hj, h1, h2⟩
      · obtain ⟨j, hj, h1, h2⟩ := ih e h
        exact ⟨j, List.mem_cons_of_mem _ hj, h1, h2⟩

theorem length_hitChildren (k : Kernel) (su : Setup) (ray_tfar : avxd) (node : Node) :
    ∀ (is : List (Fin 4)), (hitChildren k su ray_tfar node is).length ≤ is.length := by
  intro is
  induction is with
  | nil => simp [hitChildren]
  | cons i is ih =>
    unfold hitChildren
    split
    · simp
    · simp only []
      split
      · simp only [List.length_cons]; omega
      · simp only [List.length_cons]; omega

/-- A child whose box is hit in lane `l` is among the hit children, with the near
distance of lane `l`, provided the loop reaches it. -/
theorem hitChildren_lane (k : Kernel) (su : Setup) (ray_tfar : avxd) (node : Node)
    (hp : ∀ c e : Fin 4, c ≤ e → node.children c = BVH4.emptyNode →
      node.children e = BVH4.emptyNode) (l : Fin 8) :
    ∀ (is : List (Fin 4)), List.Pairwise (· ≤ ·) is → ∀ i ∈ is,
      node.children i ≠ BVH4.emptyNode →
      (node.intersect8 k.robust k.avx2 k.ulp i su.org su.rdir su.org_rdir
        su.ray_tnear ray_tfar).1 l = true →
      ∃ d : avxd, (node.children i, d) ∈ hitChildren k su ray_tfar node is ∧
        d l = Dist.fin ((node.intersect8 k.robust k.avx2 k.ulp i su.org su.rdir su.org_rdir
          su.ray_tnear ray_tfar).2 l) := by
  intro is
  induction is with
  | nil => intro _ i hi; simp at hi
  | cons i0 is ih =>
    intro hs i hi hc hl
    have h0 : node.children i0 ≠ BVH4.emptyNode := by
      rcases List.mem_cons.1 hi with h | h
      · rw [← h]; exact hc
      · exact fun h0 => hc (hp i0 i (List.rel_of_pairwise_cons hs h) h0)
    unfold hitChildren
    simp only [h0, if_false]
    rcases List.mem_cons.1 hi with h | h
    · subst h
      have ha := (any_iff _).2 ⟨l, hl⟩
      simp only [ha, if_true]
      exact ⟨_, List.mem_cons_self _ _, by simp [select, hl]⟩
    · obtain ⟨d, hd, hd1⟩ := ih (List.Pairwise.of_cons hs) i h hc hl
      split
      · exact ⟨d, List.mem_cons_of_mem _ hd, hd1⟩
      · exact ⟨d, hd, hd1⟩

end BVH4Intersector8Chunk

/-! ## Well-formed trees -/

namespace BVH4

theorem invalidNode_isNode : invalidNode.isNode = false := by decide

theorem WellFormed.ne_invalid {bvh : BVH4} {r : NodeRef} {d : Nat} (h : WellFormed bvh r d) :
    r ≠ invalidNode := by
  cases h with
  | leaf _ _ _ h2 _ _ => exact h2
  | node _ _ h1 _ _ _ =>
    intro h
    rw [h, invalidNode_isNode] at h1
    exact Bool.noConfusion h1

theorem emptyNode_isNode : emptyNode.isNode = false := by decide

theorem WellFormed.ne_empty {bvh : BVH4} {r : NodeRef} {d : Nat} (h : WellFormed bvh r d) :
    r ≠ emptyNode := by
  cases h with
  | leaf _ _ _ _ h3 _ => exact h3
  | node _ _ h1 _ _ _ =>
    intro h
    rw [h, emptyNode_isNode] at h1
    exact Bool.noConfusion h1

theorem Beneath.not_invalid {bvh : BVH4} {tri : Triangle4} {i : Fin 4}
    (h : Beneath bvh invalidNode tri i) : False := by
  generalize hr : invalidNode = r at h
  cases h with
  | leaf _ _ _ _ h2 _ _ => exact h2 hr.symm
  | node _ _ _ _ h1 _ _ =>
    rw [← hr, invalidNode_isNode] at h1
    exact Bool.noConfusion h1

theorem Beneath.of_node {bvh : BVH4} {r : NodeRef} {tri : Triangle4} {i : Fin 4}
    (h : Beneath bvh r tri i) (hn : r.isNode = true) :
    ∃ c, (bvh.node r.ptr).children c ≠ emptyNode ∧
      Beneath bvh ((bvh.node r.ptr).children c) tri i := by
  cases h with
  | leaf _ _ _ h1 _ _ _ => rw [hn] at h1; exact Bool.noConfusion h1
  | node _ c _ _ _ h2 h3 => exact ⟨c, h2, h3⟩

theorem Beneath.of_leaf {bvh : BVH4} {r : NodeRef} {tri : Triangle4} {i : Fin 4}
    (h : Beneath bvh r tri i) (hn : r.isNode = false) :
    ∃ j, j < r.leaf.2 ∧ tri = bvh.prim r.leaf.1 j ∧ tri.valid i = true := by
  cases h with
  | leaf _ j _ _ _ h3 h4 => exact ⟨j, h3, rfl, h4⟩
  | node _ _ _ _ h1 _ _ => rw [hn] at h1; exact Bool.noConfusion h1

theorem WellFormed.normalOK {bvh : BVH4} {r : NodeRef} {tri : Triangle4} {i : Fin 4}
    (hb : Beneath bvh r tri i) : ∀ {d : Nat}, WellFormed bvh r d → tri.normalOK i := by
  induction hb with
  | leaf r j i h1 _ h3 h4 =>
    intro d hw
    cases hw with
    | leaf _ _ _ _ _ hl => exact (hl j h3).2 i h4
    | node _ _ hn _ _ _ => rw [hn] at h1; exact Bool.noConfusion h1
  | node r c tri i h1 h2 _ ih =>
    intro d hw
    cases hw with
    | leaf _ _ hn _ _ _ => rw [hn] at h1; exact Bool.noConfusion h1
    | node _ _ _ _ hc _ => exact ih (hc c h2)

theorem WellFormed.leaf_blocks {bvh : BVH4} {r : NodeRef} {d : Nat} (hw : WellFormed bvh r d)
    (hn : r.isNode = false) (j : Nat) (hj : j < r.leaf.2) :
    Triangle4Intersector8MoellerTrumbore.leftPacked (bvh.prim r.leaf.1 j) := by
  cases hw with
  | leaf _ _ _ _ _ hl => exact (hl j hj).1
  | node _ _ h1 _ _ _ => rw [hn] at h1; exact Bool.noConfusion h1

/-- A well-formed tree has a height function that decreases from a node to its children. -/
theorem exists_height (bvh : BVH4) :
    ∃ ht : NodeRef → Nat, ∀ r d, WellFormed bvh r d → r.isNode = true →
      ∀ c, (bvh.node r.ptr).children c ≠ emptyNode →
        ht ((bvh.node r.ptr).children c) < ht r := by
  classical
  refine ⟨fun r => if h : ∃ d, WellFormed bvh r d then Nat.find h else 0, ?_⟩
  intro r d hw hn c hc
  have hr : ∃ d, WellFormed bvh r d := ⟨d, hw⟩
  have hm := Nat.find_spec hr
  simp only [dif_pos hr]
  generalize Nat.find hr = m at hm
  cases hm with
  | leaf _ _ h1 _ _ _ => rw [hn] at h1; exact Bool.noConfusion h1
  | node _ m1 _ _ hch _ =>
    have hcw : ∃ d, WellFormed bvh ((bvh.node r.ptr).children c) d := ⟨m1, hch c hc⟩
    simp only [dif_pos hcw]
    exact Nat.lt_succ_of_le (Nat.find_min' hcw (hch c hc))

end BVH4

theorem sum_pow_lt {α : Type} (f : α → Nat) (h : Nat) (L : List α) (hl : L.length ≤ 4)
    (hf : ∀ e ∈ L, f e < h) : (L.map (fun e => 5 ^ f e)).sum < 5 ^ h := by
  cases h with
  | zero =>
    cases L with
    | nil => simp
    | cons e L => exact absurd (hf e (List.mem_cons_self _ _)) (Nat.not_lt_zero _)
  | succ h1 =>
    have hb : ∀ x ∈ L.map (fun e => 5 ^ f e), x ≤ 5 ^ h1 := by
      intro x hx
      obtain ⟨e, he, rfl⟩ := List.mem_map.1 hx
      exact Nat.pow_le_pow_right (by decide) (Nat.lt_succ_iff.1 (hf e he))
    have h1' := List.sum_le_card_nsmul _ _ hb
    simp only [List.length_map, smul_eq_mul] at h1'
    have h2 : L.length * 5 ^ h1 ≤ 4 * 5 ^ h1 := Nat.mul_le_mul_right _ hl
    have h3 : 0 < 5 ^ h1 := Nat.pow_pos (by decide)
    rw [pow_succ]
    omega

/-! ## The traversal, step by step -/

namespace BVH4Intersector8Chunk

open Triangle4Intersector8MoellerTrumbore

theorem Inv.final {cfg : Config} {bvh : BVH4} {ray0 : Ray8} {l : Fin 8} {s : State}
    (hI : Inv cfg bvh ray0 l s) (hp : s.pending = [sentinel]) :
    Final cfg bvh ray0 l s.ray := by
  refine ⟨hI.attained, ?_⟩
  intro tri i hb hok
  rcases hI.cover tri i hb hok with h | ⟨e, he, hbe, -⟩
  · exact h
  · rw [hp, List.mem_singleton] at he
    rw [he] at hbe
    exact (BVH4.Beneath.not_invalid hbe).elim

theorem Inv.tfar_le {cfg : Config} {bvh : BVH4} {ray0 : Ray8} {l : Fin 8} {s : State}
    (hI : Inv cfg bvh ray0 l s) : s.ray.tfar l ≤ ray0.tfar l := by
  rcases hI.attained with h | ⟨tri, i, -, -, hle, h⟩
  · have : (s.ray.lane l).tfar = (ray0.lane l).tfar := by rw [h]
    exact le_of_eq this
  · have : (s.ray.lane l).tfar = (hitLane ray0 tri i l).tfar := by rw [h]
    exact le_trans (le_of_eq this) hle

/-- A step at the pop of the outer loop. -/
theorem step_pop (cfg : Config) (k : Kernel) (su : Setup) (bvh : BVH4) (ray0 : Ray8)
    (l : Fin 8) (ht : NodeRef → Nat) (ray : Ray8) (ray_tfar : avxd)
    (stack : List (NodeRef × avxd))
    (hI : Inv cfg bvh ray0 l ⟨ray, ray_tfar, stack, Control.pop⟩) :
    (step k su bvh ⟨ray, ray_tfar, stack, Control.pop⟩ = Step.done ray ∧
      Final cfg bvh ray0 l ray) ∨
    ∃ s1, step k su bvh ⟨ray, ray_tfar, stack, Control.pop⟩ = Step.next s1 ∧
      Inv cfg bvh ray0 l s1 ∧ measure ht s1 < measure ht ⟨ray, ray_tfar, stack, Control.pop⟩ := by
  obtain ⟨es, hes, hwf⟩ := hI.shape
  simp only [State.pending] at hes
  cases es with
  | nil =>
    left
    simp only [List.nil_append] at hes
    subst hes
    refine ⟨by simp [step, sentinel], hI.final rfl⟩
  | cons e es0 =>
    right
    obtain ⟨cur, curDist⟩ := e
    simp only [List.cons_append] at hes
    subst hes
    have hne : cur ≠ BVH4.invalidNode := by
      obtain ⟨⟨d, hw⟩, -⟩ := hwf (cur, curDist) (List.mem_cons_self _ _)
      exact hw.ne_invalid
    simp only [step, hne, if_false]
    by_cases hcull : none (fun l => decide (ray_tfar l > curDist l)) = true
    · simp only [hcull, if_true]
      refine ⟨_, rfl, ⟨⟨es0, rfl, fun e he => hwf e (List.mem_cons_of_mem _ he)⟩, hI.same,
        hI.tfar_eq, hI.attained, ?_⟩, ?_⟩
      · intro tri i hb hok
        rcases hI.cover tri i hb hok with h | ⟨e, he, hbe, hle⟩
        · exact Or.inl h
        · simp only [State.pending] at he
          rcases List.mem_cons.1 he with h | h
          · left
            have h1 := (none_iff _).1 hcull l
            simp only [decide_eq_false_iff_not, gt_iff_lt, not_lt] at h1
            have h2 : ray.tfar l = ray_tfar l := hI.tfar_eq.symm
            simp only [] at h2 ⊢
            rw [h2]
            subst h
            exact le_trans h1 hle
          · exact Or.inr ⟨e, h, hbe, hle⟩
      · simp only [measure, State.pending, List.map_cons, List.sum_cons]
        have : 0 < 5 ^ ht cur := Nat.pow_pos (by decide)
        omega
    · simp only [hcull, Bool.false_eq_true, if_false]
      refine ⟨_, rfl, ⟨⟨(cur, curDist) :: es0, rfl, hwf⟩, hI.same, hI.tfar_eq, hI.attained,
        ?_⟩, ?_⟩
      · intro tri i hb hok
        exact hI.cover tri i hb hok
      · simp only [measure, State.pending, List.map_cons, List.sum_cons]
        omega

end BVH4Intersector8Chunk

namespace BVH4Intersector8Chunk

open Triangle4Intersector8MoellerTrumbore

theorem step_inner_leaf (k : Kernel) (su : Setup) (bvh : BVH4) (ray : Ray8) (ray_tfar : avxd)
    (stack : List (NodeRef × avxd)) (cur : NodeRef) (curDist : avxd)
    (hn : cur.isNode = false) (hinv : cur ≠ BVH4.invalidNode)
    (hemp : cur ≠ BVH4.emptyNode) :
    step k su bvh ⟨ray, ray_tfar, stack, Control.inner cur curDist⟩ =
      Step.next
        { ray := k.primIntersect (fun l => decide (ray_tfar l > curDist l)) ray
            (bvh.prim cur.leaf.1) cur.leaf.2 bvh.scene
          ray_tfar := select (fun l => decide (ray_tfar l > curDist l))
            (k.primIntersect (fun l => decide (ray_tfar l > curDist l)) ray
              (bvh.prim cur.leaf.1) cur.leaf.2 bvh.scene).tfar ray_tfar
          stack := stack
          control := Control.pop } := by
  unfold step
  simp only []
  rw [if_neg (by rw [hn]; exact Bool.false_ne_true), if_neg hinv, if_neg hemp]

/-- The inner loop that ends with the sentinel in `cur` and an empty stack ends the
traversal. -/
theorem step_inner_invalid (k : Kernel) (su : Setup) (bvh : BVH4) (ray : Ray8)
    (ray_tfar : avxd) (curDist : avxd) :
    step k su bvh ⟨ray, ray_tfar, [], Control.inner BVH4.invalidNode curDist⟩ =
      Step.done ray := by
  unfold step
  simp only []
  rw [if_neg (by rw [BVH4.invalidNode_isNode]; exact Bool.false_ne_true)]
  exact (if_pos trivial).trans rfl

end BVH4Intersector8Chunk

namespace BVH4Intersector8Chunk

open Triangle4Intersector8MoellerTrumbore

/-- The state after a leaf, for a primitive intersector whose effect on lane `l` is that
of testing the triangles of the leaf. -/
theorem leaf_inv (cfg : Config) (bvh : BVH4) (ray0 : Ray8) (l : Fin 8) (ht : NodeRef → Nat)
    (ray : Ray8) (ray_tfar : avxd) (es0 : List (NodeRef × avxd)) (cur : NodeRef)
    (curDist : avxd) (hn : cur.isNode = false) (hinv : cur ≠ BVH4.invalidNode)
    (hI : Inv cfg bvh ray0 l
      ⟨ray, ray_tfar, es0 ++ [sentinel], Control.inner cur curDist⟩)
    (hwf : ∀ e ∈ (cur, curDist) :: es0, (∃ d, BVH4.WellFormed bvh e.1 d) ∧
      ∀ tri i, BVH4.Beneath bvh e.1 tri i → BVH4.Beneath bvh bvh.root tri i)
    (ray1 : Ray8)
    (himp : Improves cfg ray0 l
      (fun tri i => ∃ j, j < cur.leaf.2 ∧ tri = bvh.prim cur.leaf.1 j ∧ i ∈ visited tri)
      (decide (ray_tfar l > curDist l)) (ray.lane l) (ray1.lane l))
    (hsame : ray1.sameInput ray l) :
    Inv cfg bvh ray0 l
      ⟨ray1, select (fun l => decide (ray_tfar l > curDist l)) ray1.tfar ray_tfar,
        es0 ++ [sentinel], Control.pop⟩ ∧
    measure ht ⟨ray1, select (fun l => decide (ray_tfar l > curDist l)) ray1.tfar ray_tfar,
        es0 ++ [sentinel], Control.pop⟩ <
      measure ht ⟨ray, ray_tfar, es0 ++ [sentinel], Control.inner cur curDist⟩ := by
  obtain ⟨⟨d, hw⟩, hroot⟩ := hwf (cur, curDist) (List.mem_cons_self _ _)
  have hlane : (ray1.lane l).tfar = ray1.tfar l := rfl
  have hlane0 : (ray.lane l).tfar = ray.tfar l := rfl
  have hteq : ray_tfar l = ray.tfar l := hI.tfar_eq
  refine ⟨⟨⟨es0, rfl, fun e he => hwf e (List.mem_cons_of_mem _ he)⟩,
    sameInput_trans hsame hI.same, ?_, ?_, ?_⟩, ?_⟩
  · show select (fun l => decide (ray_tfar l > curDist l)) ray1.tfar ray_tfar l = ray1.tfar l
    unfold select
    by_cases hv : ray_tfar l > curDist l
    · rw [if_pos (decide_eq_true hv)]
    · rw [if_neg (by
        show ¬ decide (ray_tfar l > curDist l) = true
        rw [decide_eq_false hv]; exact Bool.false_ne_true)]
      rw [decide_eq_false hv] at himp
      rw [hteq, ← hlane, himp.eq_of_disabled]
      rfl
  · show ray1.lane l = ray0.lane l ∨ _
    rcases himp.attained with h | ⟨-, tri, i, ⟨j, hj, rfl, hi⟩, hok, hle, h⟩
    · rw [h]; exact hI.attained
    · refine Or.inr ⟨_, i, hroot _ i ?_, hok, le_trans hle hI.tfar_le, h⟩
      exact BVH4.Beneath.leaf cur j i hn hinv hj (valid_of_mem_visited _ _ hi)
  · intro tri i hb hok
    show ray1.tfar l ≤ _ ∨ _
    rcases hI.cover tri i hb hok with h | ⟨e, he, hbe, hle⟩
    · exact Or.inl (le_trans himp.le h)
    · rcases List.mem_cons.1 he with h | h
      · left
        subst h
        obtain ⟨j, hj, rfl, hi⟩ := hbe.of_leaf hn
        by_cases hv : ray_tfar l > curDist l
        · rw [decide_eq_true hv] at himp
          refine himp.best rfl _ i ⟨j, hj, rfl, ?_⟩ hok
          exact mem_visited_of_leftPacked _ (hw.leaf_blocks hn j hj) i hi
        · rw [not_lt] at hv
          refine le_trans himp.le ?_
          rw [hlane0, ← hteq]
          exact le_trans hv hle
      · exact Or.inr ⟨e, h, hbe, hle⟩
  · simp only [measure, State.pending, List.map_cons, List.sum_cons]
    have : 0 < 5 ^ ht cur := Nat.pow_pos (by decide)
    omega

theorem primIntersect_noFilter (cfg : Config) (avx2 : Bool) (rcp_safe : ℚ → ℚ) :
    (BVH4Triangle4Intersector8ChunkMoellerNoFilter cfg avx2 rcp_safe).primIntersect =
      LeafIterator8.intersect
        (fun valid ray tri scene =>
          Triangle4Intersector8MoellerTrumbore.intersect cfg false valid ray tri scene) := rfl

/-- A step at the exit of the inner loop: the end of the traversal or a leaf. -/
theorem step_leaf (cfg : Config) (avx2 : Bool) (rcp_safe : ℚ → ℚ) (su : Setup) (bvh : BVH4)
    (ray0 : Ray8) (l : Fin 8) (ht : NodeRef → Nat) (ray : Ray8) (ray_tfar : avxd)
    (stack : List (NodeRef × avxd)) (cur : NodeRef) (curDist : avxd)
    (hn : cur.isNode = false)
    (hI : Inv cfg bvh ray0 l ⟨ray, ray_tfar, stack, Control.inner cur curDist⟩) :
    (step (BVH4Triangle4Intersector8ChunkMoellerNoFilter cfg avx2 rcp_safe) su bvh
        ⟨ray, ray_tfar, stack, Control.inner cur curDist⟩ = Step.done ray ∧
      Final cfg bvh ray0 l ray) ∨
    ∃ s1, step (BVH4Triangle4Intersector8ChunkMoellerNoFilter cfg avx2 rcp_safe) su bvh
        ⟨ray, ray_tfar, stack, Control.inner cur curDist⟩ = Step.next s1 ∧
      Inv cfg bvh ray0 l s1 ∧
      measure ht s1 < measure ht ⟨ray, ray_tfar, stack, Control.inner cur curDist⟩ := by
  obtain ⟨es, hes, hwf⟩ := hI.shape
  simp only [State.pending] at hes
  by_cases hinv : cur = BVH4.invalidNode
  · left
    cases es with
    | nil =>
      simp only [List.nil_append] at hes
      have hst : stack = [] := List.tail_eq_of_cons_eq hes
      subst hinv hst
      refine ⟨step_inner_invalid _ _ _ _ _ _, hI.final ?_⟩
      simp only [State.pending]
      exact hes
    | cons e es0 =>
      exfalso
      simp only [List.cons_append, List.cons.injEq] at hes
      obtain ⟨⟨d, hw⟩, -⟩ := hwf e (List.mem_cons_self _ _)
      rw [← hes.1] at hw
      exact hw.ne_invalid hinv
  · right
    cases es with
    | nil =>
      exact (hinv (congrArg Prod.fst (List.head_eq_of_cons_eq hes))).elim
    | cons e es0 =>
      simp only [List.cons_append, List.cons.injEq] at hes
      obtain ⟨he, hst⟩ := hes
      subst he hst
      have hemp : cur ≠ BVH4.emptyNode := by
        obtain ⟨⟨d, hw⟩, -⟩ := hwf (cur, curDist) (List.mem_cons_self _ _)
        exact hw.ne_empty
      rw [step_inner_leaf _ _ _ _ _ _ _ _ hn hinv hemp, primIntersect_noFilter]
      have key := leaf_inv cfg bvh ray0 l ht ray ray_tfar es0 cur curDist hn hinv hI hwf _
        (LeafIterator8.leaf_improves cfg (fun l => decide (ray_tfar l > curDist l)) ray0
          (bvh.prim cur.leaf.1) bvh.scene l cur.leaf.2 ray hI.same)
        (LeafIterator8.leaf_sameInput cfg (fun l => decide (ray_tfar l > curDist l))
          (bvh.prim cur.leaf.1) bvh.scene l cur.leaf.2 ray)
      exact ⟨_, rfl, key⟩

end BVH4Intersector8Chunk

namespace BVH4Intersector8Chunk

open Triangle4Intersector8MoellerTrumbore

/-- The slab test of the traversal in an active lane, for a child whose box contains a
triangle that passes the tests other than the upper end of the interval: the near distance
is not beyond the hit, and the lane hits the box unless `ray_tfar` is closer than the hit. -/
theorem box_of_triangle (cfg : Config) (avx2 : Bool) (rcp_safe : ℚ → ℚ) (valid_i : avxb)
    (ray0 : Ray8) (l : Fin 8) (hL : LaneOK avx2 rcp_safe valid_i ray0 l) (node : Node) (c : Fin 4)
    (tri : Triangle4) (i : Fin 4) (ray_tfar : avxd)
    (hok : nearOK cfg ray0 tri i l) (hN : tri.normalOK i) (hc : node.contains c tri i) :
    (node.intersect8 false avx2 0 c
        (setup (BVH4Triangle4Intersector8ChunkMoellerNoFilter cfg avx2 rcp_safe) valid_i ray0).org
        (setup (BVH4Triangle4Intersector8ChunkMoellerNoFilter cfg avx2 rcp_safe) valid_i ray0).rdir
        (setup (BVH4Triangle4Intersector8ChunkMoellerNoFilter cfg avx2 rcp_safe) valid_i
          ray0).org_rdir
        (setup (BVH4Triangle4Intersector8ChunkMoellerNoFilter cfg avx2 rcp_safe) valid_i
          ray0).ray_tnear ray_tfar).2 l ≤ hitT ray0 tri i l ∧
    (Dist.fin (hitT ray0 tri i l) ≤ ray_tfar l →
      (node.intersect8 false avx2 0 c
        (setup (BVH4Triangle4Intersector8ChunkMoellerNoFilter cfg avx2 rcp_safe) valid_i ray0).org
        (setup (BVH4Triangle4Intersector8ChunkMoellerNoFilter cfg avx2 rcp_safe) valid_i ray0).rdir
        (setup (BVH4Triangle4Intersector8ChunkMoellerNoFilter cfg avx2 rcp_safe) valid_i
          ray0).org_rdir
        (setup (BVH4Triangle4Intersector8ChunkMoellerNoFilter cfg avx2 rcp_safe) valid_i
          ray0).ray_tnear ray_tfar).1 l = true) := by
  obtain ⟨px, py, pz⟩ := hit_point ray0 tri i l hN (nearOK_den_ne cfg ray0 tri i l hok)
  obtain ⟨-, -, hu, hv, huv, htn⟩ := hok
  obtain ⟨⟨a1, a2, a3, a4, a5, a6⟩, ⟨b1, b2, b3, b4, b5, b6⟩, ⟨c1, c2, c3, c4, c5, c6⟩⟩ := hc
  have qx := convex_between _ _ _ _ _ _ _ hu hv huv ⟨a1, a2⟩ ⟨b1, b2⟩ ⟨c1, c2⟩
  have qy := convex_between _ _ _ _ _ _ _ hu hv huv ⟨a3, a4⟩ ⟨b3, b4⟩ ⟨c3, c4⟩
  have qz := convex_between _ _ _ _ _ _ _ hu hv huv ⟨a5, a6⟩ ⟨b5, b6⟩ ⟨c5, c6⟩
  rw [← px] at qx
  rw [← py] at qy
  rw [← pz] at qz
  refine Node.intersect8_of_inside avx2 0 node c _ _ _ _ ray_tfar l (ray0.dir.x l)
    (ray0.dir.y l) (ray0.dir.z l) (hitT ray0 tri i l) hL.dir_x hL.dir_y hL.dir_z
    hL.rcp_x hL.rcp_y hL.rcp_z rfl rfl rfl qx qy qz ?_ ?_
  · show select valid_i ray0.tnear (fun _ => Dist.pos_inf) l ≤ _
    unfold select
    rw [if_pos hL.active]
    exact htn
  · intro h
    show Dist.fin 0 ≤ select valid_i ray0.tnear (fun _ => Dist.pos_inf) l
    unfold select
    rw [if_pos hL.active]
    exact hL.tnear_nonneg h

theorem step_inner_node_ok (k : Kernel) (su : Setup) (bvh : BVH4) (ray : Ray8)
    (ray_tfar : avxd) (rest stack2 : List (NodeRef × avxd)) (cur cur1 cur2 : NodeRef)
    (curDist curDist1 curDist2 : avxd) (hn : cur.isNode = true)
    (h : children k su ray_tfar (bvh.node cur.ptr) [0, 1, 2, 3] cur1 curDist1 rest =
      Except.ok (cur2, curDist2, stack2)) :
    step k su bvh ⟨ray, ray_tfar, (cur1, curDist1) :: rest, Control.inner cur curDist⟩ =
      Step.next ⟨ray, ray_tfar, stack2, Control.inner cur2 curDist2⟩ := by
  unfold step
  simp only []
  rw [if_pos hn, h]

theorem step_inner_node_error (k : Kernel) (su : Setup) (bvh : BVH4) (ray : Ray8)
    (ray_tfar : avxd) (rest : List (NodeRef × avxd)) (cur cur1 : NodeRef)
    (curDist curDist1 : avxd) (f : Fault) (hn : cur.isNode = true)
    (h : children k su ray_tfar (bvh.node cur.ptr) [0, 1, 2, 3] cur1 curDist1 rest =
      Except.error f) :
    step k su bvh ⟨ray, ray_tfar, (cur1, curDist1) :: rest, Control.inner cur curDist⟩ =
      Step.fault f := by
  unfold step
  simp only []
  rw [if_pos hn, h]

end BVH4Intersector8Chunk
namespace BVH4Intersector8Chunk

open Triangle4Intersector8MoellerTrumbore

/-- A round of the inner loop on an inner node. -/
theorem step_node (cfg : Config) (avx2 : Bool) (rcp_safe : ℚ → ℚ) (valid_i : avxb)
    (bvh : BVH4) (ray0 : Ray8) (l : Fin 8) (ht : NodeRef → Nat)
    (hL : LaneOK avx2 rcp_safe valid_i ray0 l)
    (hht : ∀ r d, BVH4.WellFormed bvh r d → r.isNode = true →
      ∀ c, (bvh.node r.ptr).children c ≠ BVH4.emptyNode →
        ht ((bvh.node r.ptr).children c) < ht r)
    (ray : Ray8) (ray_tfar : avxd) (stack : List (NodeRef × avxd)) (cur : NodeRef)
    (curDist : avxd) (hn : cur.isNode = true)
    (hI : Inv cfg bvh ray0 l ⟨ray, ray_tfar, stack, Control.inner cur curDist⟩) :
    step (BVH4Triangle4Intersector8ChunkMoellerNoFilter cfg avx2 rcp_safe)
        (setup (BVH4Triangle4Intersector8ChunkMoellerNoFilter cfg avx2 rcp_safe) valid_i ray0)
        bvh ⟨ray, ray_tfar, stack, Control.inner cur curDist⟩ =
      Step.fault Fault.stackOverflow ∨
    ∃ s1, step (BVH4Triangle4Intersector8ChunkMoellerNoFilter cfg avx2 rcp_safe)
        (setup (BVH4Triangle4Intersector8ChunkMoellerNoFilter cfg avx2 rcp_safe) valid_i ray0)
        bvh ⟨ray, ray_tfar, stack, Control.inner cur curDist⟩ = Step.next s1 ∧
      Inv cfg bvh ray0 l s1 ∧
      measure ht s1 < measure ht ⟨ray, ray_tfar, stack, Control.inner cur curDist⟩ := by
  obtain ⟨es, hes, hwf⟩ := hI.shape
  have hteq : ray_tfar l = ray.tfar l := hI.tfar_eq
  have hcover := hI.cover
  have hsame := hI.same
  have hatt := hI.attained
  simp only [State.pending] at hes hcover
  clear hI
  cases es with
  | nil =>
    exfalso
    have h1 : cur = BVH4.invalidNode := congrArg Prod.fst (List.head_eq_of_cons_eq hes)
    rw [h1, BVH4.invalidNode_isNode] at hn
    exact Bool.noConfusion hn
  | cons e es0 =>
    simp only [List.cons_append, List.cons.injEq] at hes
    obtain ⟨he, hst⟩ := hes
    subst he
    obtain ⟨cur1, curDist1, rest, hrest⟩ :
        ∃ cur1 curDist1 rest, (cur1, curDist1) :: rest = es0 ++ [sentinel] := by
      cases es0 with
      | nil => exact ⟨_, _, [], rfl⟩
      | cons a b => exact ⟨a.1, a.2, b ++ [sentinel], rfl⟩
    rw [← hrest] at hst
    subst hst
    obtain ⟨⟨d, hw⟩, hroot⟩ := hwf (cur, curDist) (List.mem_cons_self _ _)
    have hw1 : BVH4.WellFormed bvh cur d := hw
    have hw2 : BVH4.WellFormed bvh cur d := hw
    have hroot1 : ∀ tri i, BVH4.Beneath bvh cur tri i → BVH4.Beneath bvh bvh.root tri i := hroot
    clear hw hroot
    cases hw2 with
    | leaf _ _ h1 _ _ _ => rw [hn] at h1; exact Bool.noConfusion h1
    | node _ d1 _ hpack hchild hcont =>
    rcases children_spec (BVH4Triangle4Intersector8ChunkMoellerNoFilter cfg avx2 rcp_safe)
        (setup (BVH4Triangle4Intersector8ChunkMoellerNoFilter cfg avx2 rcp_safe) valid_i ray0)
        ray_tfar (bvh.node cur.ptr) [0, 1, 2, 3] cur1 curDist1 rest es0 hrest
      with herr | ⟨cur2, curDist2, stack2, es1, hok, hshape, hperm⟩
    · exact Or.inl (step_inner_node_error _ _ _ _ _ _ _ _ _ _ _ hn herr)
    · right
      refine ⟨_, step_inner_node_ok _ _ _ _ _ _ _ _ _ _ _ _ _ hn hok, ⟨⟨es1, hshape, ?_⟩,
        hsame, hteq, hatt, ?_⟩, ?_⟩
      · intro e he
        rcases List.mem_append.1 (hperm.mem_iff.1 he) with h | h
        · obtain ⟨c, -, hc, hec⟩ := mem_hitChildren _ _ _ _ _ e h
          rw [hec]
          exact ⟨⟨d1, hchild c hc⟩, fun tri i hb =>
            hroot1 tri i (BVH4.Beneath.node cur c tri i hn hc hb)⟩
        · exact hwf e (List.mem_cons_of_mem _ h)
      · intro tri i hb hok1
        simp only [State.pending]
        rcases hcover tri i hb hok1 with h | ⟨e, he, hbe, hle⟩
        · exact Or.inl h
        · rcases List.mem_cons.1 he with h | h
          · subst h
            obtain ⟨c, hc, hbc⟩ := BVH4.Beneath.of_node hbe hn
            have hN := BVH4.WellFormed.normalOK hbc (hchild c hc)
            have hbox := box_of_triangle cfg avx2 rcp_safe valid_i ray0 l hL
              (bvh.node cur.ptr) c tri i ray_tfar hok1 hN (hcont c hc tri i hbc)
            by_cases hle2 : Dist.fin (hitT ray0 tri i l) ≤ ray_tfar l
            · right
              obtain ⟨dd, hmem, hdd⟩ := hitChildren_lane
                (BVH4Triangle4Intersector8ChunkMoellerNoFilter cfg avx2 rcp_safe)
                (setup (BVH4Triangle4Intersector8ChunkMoellerNoFilter cfg avx2 rcp_safe)
                  valid_i ray0)
                ray_tfar (bvh.node cur.ptr) hpack l [0, 1, 2, 3] (by decide) c
                (by fin_cases c <;> simp) hc (hbox.2 hle2)
              refine ⟨((bvh.node cur.ptr).children c, dd), ?_, hbc, ?_⟩
              · rw [hshape]
                exact List.mem_append_left _
                  (hperm.mem_iff.2 (List.mem_append_left _ hmem))
              · show dd l ≤ _
                rw [hdd]
                exact Dist.fin_le_fin.2 hbox.1
            · left
              rw [← hteq]
              exact le_of_lt (not_le.1 hle2)
          · right
            refine ⟨e, ?_, hbe, hle⟩
            rw [hshape]
            rw [hrest] at h
            rcases List.mem_append.1 h with h | h
            · exact List.mem_append_left _ (hperm.mem_iff.2 (List.mem_append_right _ h))
            · exact List.mem_append_right _ h
      · simp only [measure, State.pending]
        rw [hshape, hrest]
        simp only [List.map_cons, List.map_append, List.sum_cons, List.sum_append]
        have hs := (hperm.map (fun e : NodeRef × avxd => 5 ^ ht e.1)).sum_eq
        simp only [List.map_append, List.sum_append] at hs
        have hlt := sum_pow_lt (fun e : NodeRef × avxd => ht e.1) (ht cur)
          (hitChildren (BVH4Triangle4Intersector8ChunkMoellerNoFilter cfg avx2 rcp_safe)
            (setup (BVH4Triangle4Intersector8ChunkMoellerNoFilter cfg avx2 rcp_safe)
              valid_i ray0) ray_tfar (bvh.node cur.ptr) [0, 1, 2, 3])
          (length_hitChildren _ _ _ _ _)
          (by
            intro e he
            obtain ⟨c, -, hc, hec⟩ := mem_hitChildren _ _ _ _ _ e he
            show ht e.1 < ht cur
            rw [hec]
            exact hht cur _ hw1 hn c hc)
        beta_reduce at hlt
        rw [hs]
        simp only [List.map_nil, List.sum_nil]
        omega

end BVH4Intersector8Chunk
namespace BVH4Intersector8Chunk

open Triangle4Intersector8MoellerTrumbore

/-- Every step from a state that satisfies the invariant either is a push on a full
stack, or ends the traversal with the final property, or leads to a state that
satisfies the invariant and has a smaller measure. -/
theorem step_inv (cfg : Config) (avx2 : Bool) (rcp_safe : ℚ → ℚ) (valid_i : avxb)
    (bvh : BVH4) (ray0 : Ray8) (l : Fin 8) (ht : NodeRef → Nat)
    (hL : LaneOK avx2 rcp_safe valid_i ray0 l)
    (hht : ∀ r d, BVH4.WellFormed bvh r d → r.isNode = true →
      ∀ c, (bvh.node r.ptr).children c ≠ BVH4.emptyNode →
        ht ((bvh.node r.ptr).children c) < ht r)
    (s : State) (hI : Inv cfg bvh ray0 l s) :
    step (BVH4Triangle4Intersector8ChunkMoellerNoFilter cfg avx2 rcp_safe)
        (setup (BVH4Triangle4Intersector8ChunkMoellerNoFilter cfg avx2 rcp_safe) valid_i ray0)
        bvh s = Step.fault Fault.stackOverflow ∨
    (∃ r, step (BVH4Triangle4Intersector8ChunkMoellerNoFilter cfg avx2 rcp_safe)
        (setup (BVH4Triangle4Intersector8ChunkMoellerNoFilter cfg avx2 rcp_safe) valid_i ray0)
        bvh s = Step.done r ∧ Final cfg bvh ray0 l r) ∨
    ∃ s1, step (BVH4Triangle4Intersector8ChunkMoellerNoFilter cfg avx2 rcp_safe)
        (setup (BVH4Triangle4Intersector8ChunkMoellerNoFilter cfg avx2 rcp_safe) valid_i ray0)
        bvh s = Step.next s1 ∧ Inv cfg bvh ray0 l s1 ∧ measure ht s1 < measure ht s := by
  obtain ⟨ray, ray_tfar, stack, control⟩ := s
  cases control with
  | pop =>
    rcases step_pop cfg _ _ bvh ray0 l ht ray ray_tfar stack hI with h | h
    · exact Or.inr (Or.inl ⟨ray, h⟩)
    · exact Or.inr (Or.inr h)
  | inner cur curDist =>
    by_cases hn : cur.isNode = true
    · rcases step_node cfg avx2 rcp_safe valid_i bvh ray0 l ht hL hht ray ray_tfar stack cur
        curDist hn hI with h | h
      · exact Or.inl h
      · exact Or.inr (Or.inr h)
    · rw [Bool.not_eq_true] at hn
      rcases step_leaf cfg avx2 rcp_safe _ bvh ray0 l ht ray ray_tfar stack cur curDist hn hI
        with h | h
      · exact Or.inr (Or.inl ⟨ray, h⟩)
      · exact Or.inr (Or.inr h)

theorem run_succ (k : Kernel) (su : Setup) (bvh : BVH4) (n : Nat) (s : State) :
    run k su bvh (n + 1) s =
      match step k su bvh s with
      | Step.next s1 => run k su bvh n s1
      | Step.done ray => Except.ok ray
      | Step.fault f => Except.error f := rfl

/-- From a state that satisfies the invariant the traversal ends, within as many steps as
the measure says, with the final property, unless it pushes on a full stack. -/
theorem run_inv (cfg : Config) (avx2 : Bool) (rcp_safe : ℚ → ℚ) (valid_i : avxb)
    (bvh : BVH4) (ray0 : Ray8) (l : Fin 8) (ht : NodeRef → Nat)
    (hL : LaneOK avx2 rcp_safe valid_i ray0 l)
    (hht : ∀ r d, BVH4.WellFormed bvh r d → r.isNode = true →
      ∀ c, (bvh.node r.ptr).children c ≠ BVH4.emptyNode →
        ht ((bvh.node r.ptr).children c) < ht r) :
    ∀ (n : Nat) (s : State), Inv cfg bvh ray0 l s → measure ht s ≤ n →
      (∀ m, run (BVH4Triangle4Intersector8ChunkMoellerNoFilter cfg avx2 rcp_safe)
        (setup (BVH4Triangle4Intersector8ChunkMoellerNoFilter cfg avx2 rcp_safe) valid_i ray0)
        bvh m s ≠ Except.error Fault.stackOverflow) →
      ∃ r, run (BVH4Triangle4Intersector8ChunkMoellerNoFilter cfg avx2 rcp_safe)
        (setup (BVH4Triangle4Intersector8ChunkMoellerNoFilter cfg avx2 rcp_safe) valid_i ray0)
        bvh (n + 1) s = Except.ok r ∧ Final cfg bvh ray0 l r := by
  intro n
  induction n with
  | zero =>
    intro s hI hm hsafe
    rcases step_inv cfg avx2 rcp_safe valid_i bvh ray0 l ht hL hht s hI with
      h | ⟨r, h, hf⟩ | ⟨s1, h, -, hlt⟩
    · exact absurd (by rw [run_succ, h]) (hsafe 1)
    · exact ⟨r, by rw [run_succ, h], hf⟩
    · omega
  | succ n ih =>
    intro s hI hm hsafe
    rcases step_inv cfg avx2 rcp_safe valid_i bvh ray0 l ht hL hht s hI with
      h | ⟨r, h, hf⟩ | ⟨s1, h, hI1, hlt⟩
    · exact absurd (by rw [run_succ, h]) (hsafe 1)
    · exact ⟨r, by rw [run_succ, h], hf⟩
    · obtain ⟨r, hr, hf⟩ := ih s1 hI1 (by omega) (by
        intro m hm1
        apply hsafe (m + 1)
        rw [run_succ, h]
        exact hm1)
      exact ⟨r, by rw [run_succ, h]; exact hr, hf⟩

/-- The initial state satisfies the invariant. -/
theorem init_inv (cfg : Config) (k : Kernel) (valid_i : avxb) (bvh : BVH4) (ray0 : Ray8)
    (l : Fin 8) (d : Nat) (hw : BVH4.WellFormed bvh bvh.root d) (hv : valid_i l = true) :
    Inv cfg bvh ray0 l (init k valid_i bvh ray0) := by
  refine ⟨⟨[(bvh.root, (setup k valid_i ray0).ray_tnear)], rfl, ?_⟩, sameInput_refl _ _, ?_,
    Or.inl rfl, ?_⟩
  · intro e he
    rw [List.mem_singleton] at he
    subst he
    exact ⟨⟨d, hw⟩, fun _ _ h => h⟩
  · show select valid_i ray0.tfar (fun _ => Dist.neg_inf) l = ray0.tfar l
    unfold select
    rw [if_pos hv]
  · intro tri i hb hok
    right
    refine ⟨(bvh.root, (setup k valid_i ray0).ray_tnear), List.mem_cons_self _ _, hb, ?_⟩
    show select valid_i ray0.tnear (fun _ => Dist.pos_inf) l ≤ _
    unfold select
    rw [if_pos hv]
    exact hok.2.2.2.2.2

end BVH4Intersector8Chunk

/-! ## The small scene is well-formed -/

theorem exBVH_beneath_leaf (tri : Triangle4) (i : Fin 4)
    (h : BVH4.Beneath exBVH ⟨41⟩ tri i) : tri = exTri ∧ i = 0 := by
  obtain ⟨j, -, rfl, hv⟩ := BVH4.Beneath.of_leaf h (by decide)
  exact ⟨rfl, of_decide_eq_true hv⟩

theorem exBVH_wellFormed : BVH4.WellFormed exBVH exBVH.root 1 := by
  refine BVH4.WellFormed.node ⟨16⟩ 0 (by decide) (by decide) ?_ ?_
  · intro c hc
    have h0 : exNode.children c = ⟨41⟩ := by
      revert hc; fin_cases c <;> decide
    show BVH4.WellFormed exBVH (exNode.children c) 0
    rw [h0]
    refine BVH4.WellFormed.leaf ⟨41⟩ 0 (by decide) (by decide) (by decide) ?_
    intro j _
    refine ⟨?_, ?_⟩
    · show Triangle4Intersector8MoellerTrumbore.leftPacked exTri
      unfold Triangle4Intersector8MoellerTrumbore.leftPacked
      decide
    · intro i _
      show exTri.normalOK i
      norm_num [Triangle4.normalOK, exTri]
  · intro c hc tri i hb
    have h0 : exNode.children c = ⟨41⟩ := by
      revert hc; fin_cases c <;> decide
    have hb1 : BVH4.Beneath exBVH ⟨41⟩ tri i := by rw [← h0]; exact hb
    obtain ⟨rfl, rfl⟩ := exBVH_beneath_leaf tri i hb1
    show exNode.contains c exTri 0
    norm_num [Node.contains, exNode, exTri]

theorem exRay_laneOK (tfar : Dist) (l : Fin 8) :
    BVH4Intersector8Chunk.LaneOK false (fun x => x⁻¹) (fun _ => true) (exRay tfar) l :=
  ⟨fun h => Bool.noConfusion h, rfl, one_ne_zero, one_ne_zero, one_ne_zero, rfl, rfl, rfl⟩

namespace BVH4Intersector8Chunk

/-- A run that ends regularly ends the same way, or is out of fuel, for every budget. -/
theorem run_ok_unique (k : Kernel) (su : Setup) (bvh : BVH4) (r : Ray8) :
    ∀ (n m : Nat) (s : State), run k su bvh n s = Except.ok r →
      run k su bvh m s = Except.ok r ∨ run k su bvh m s = Except.error Fault.outOfFuel := by
  intro n
  induction n with
  | zero => intro m s h; exact Except.noConfusion h
  | succ n ih =>
    intro m s h
    cases m with
    | zero => exact Or.inr rfl
    | succ m =>
      rw [run_succ] at h ⊢
      cases hs : step k su bvh s with
      | next s1 => rw [hs] at h; exact ih m s1 h
      | done ray => rw [hs] at h; exact Or.inl h
      | fault f => rw [hs] at h; exact Except.noConfusion h

/-- An input on which some run ends regularly does not exhaust the stack. -/
theorem stackSafe_of_ok (k : Kernel) (valid_i : avxb) (bvh : BVH4) (ray : Ray8) (n : Nat)
    (h : (intersect k n valid_i bvh ray).toBool = true) : StackSafe k valid_i bvh ray := by
  intro m hm
  cases hr : intersect k n valid_i bvh ray with
  | error f => rw [hr] at h; exact Bool.noConfusion h
  | ok r =>
    rcases run_ok_unique k _ bvh r n m _ hr with h1 | h1
    · exact Except.noConfusion (h1.symm.trans hm)
    · have h2 := h1.symm.trans hm
      injection h2 with h3
      exact Fault.noConfusion h3

end BVH4Intersector8Chunk

/-! ## The nearest hit: C2 -/

namespace Triangle4Intersector8MoellerTrumbore

theorem accepts_iff (cfg : Config) (ray : Ray8) (tri : Triangle4) (i : Fin 4) (l : Fin 8) :
    accepts cfg ray tri i l = true ↔
      nearOK cfg ray tri i l ∧ Dist.fin (hitT ray tri i l) ≤ ray.tfar l := by
  unfold accepts
  rw [finalMask_iff]
  simp

end Triangle4Intersector8MoellerTrumbore

namespace BVH4Intersector8Chunk

open Triangle4Intersector8MoellerTrumbore

/-- On a well-formed tree whose stack is not exhausted the traversal returns, and the
packet it returns has the final property in an active lane whose direction has no zero
component. -/
theorem intersect_final (cfg : Config) (avx2 : Bool) (rcp_safe : ℚ → ℚ) (valid_i : avxb)
    (bvh : BVH4) (ray : Ray8) (l : Fin 8) (d : Nat)
    (hw : BVH4.WellFormed bvh bvh.root d)
    (hL : LaneOK avx2 rcp_safe valid_i ray l)
    (hsafe : StackSafe (BVH4Triangle4Intersector8ChunkMoellerNoFilter cfg avx2 rcp_safe)
      valid_i bvh ray) :
    ∃ fuel r,
      intersect (BVH4Triangle4Intersector8ChunkMoellerNoFilter cfg avx2 rcp_safe) fuel valid_i
        bvh ray = Except.ok r ∧ Final cfg bvh ray l r := by
  obtain ⟨ht, hht⟩ := BVH4.exists_height bvh
  obtain ⟨r, hr, hf⟩ := run_inv cfg avx2 rcp_safe valid_i bvh ray l ht hL hht _ _
    (init_inv cfg _ valid_i bvh ray l d hw hL.active) (le_refl _) hsafe
  exact ⟨_, r, hr, hf⟩

end BVH4Intersector8Chunk

/-- The nearest hit.  In exact arithmetic, on a well-formed BVH4 (finite, acyclic,
left-packed children and blocks, every child box containing the triangles stored beneath it,
`Ng = cross(e1,e2)`) whose traversal stack is not exhausted, and for an active lane `l` whose
direction has no zero component, for which `rcp_safe` is the exact reciprocal and, on the
`__AVX2__` code path, whose `tnear` is not negative: the traversal with the
unfiltered Triangle4 intersector returns, and the `tfar` of lane `l` it returns is the
minimum of the input `tfar` and of the distances of the triangles of the tree that the
Triangle4 test accepts for the lane on the input interval: it is not beyond any of them,
and it is one of them. -/
theorem tfar_is_minimum (cfg : Config) (avx2 : Bool) (rcp_safe : ℚ → ℚ) (valid_i : avxb)
    (bvh : BVH4) (ray : Ray8) (l : Fin 8) (d : Nat)
    (hw : BVH4.WellFormed bvh bvh.root d)
    (hL : BVH4Intersector8Chunk.LaneOK avx2 rcp_safe valid_i ray l)
    (hsafe : BVH4Intersector8Chunk.StackSafe
      (BVH4Triangle4Intersector8ChunkMoellerNoFilter cfg avx2 rcp_safe) valid_i bvh ray) :
    ∃ fuel r,
      BVH4Intersector8Chunk.intersect
        (BVH4Triangle4Intersector8ChunkMoellerNoFilter cfg avx2 rcp_safe) fuel valid_i
        bvh ray = Except.ok r ∧
      r.tfar l ≤ ray.tfar l ∧
      (∀ tri i, BVH4.Beneath bvh bvh.root tri i →
        Triangle4Intersector8MoellerTrumbore.accepts cfg ray tri i l = true →
        r.tfar l ≤ Dist.fin (Triangle4Intersector8MoellerTrumbore.hitT ray tri i l)) ∧
      (r.tfar l = ray.tfar l ∨
        ∃ tri i, BVH4.Beneath bvh bvh.root tri i ∧
          Triangle4Intersector8MoellerTrumbore.accepts cfg ray tri i l = true ∧
          r.tfar l = Dist.fin (Triangle4Intersector8MoellerTrumbore.hitT ray tri i l)) := by
  obtain ⟨fuel, r, hr, hf⟩ :=
    BVH4Intersector8Chunk.intersect_final cfg avx2 rcp_safe valid_i bvh ray l d hw hL hsafe
  refine ⟨fuel, r, hr, ?_, ?_, ?_⟩
  · rcases hf.attained with h | ⟨tri, i, -, -, hle, h⟩
    · exact le_of_eq (congrArg LaneHit.tfar h)
    · exact le_trans (le_of_eq (congrArg LaneHit.tfar h)) hle
  · intro tri i hb ha
    exact hf.best tri i hb ((Triangle4Intersector8MoellerTrumbore.accepts_iff _ _ _ _ _).1 ha).1
  · rcases hf.attained with h | ⟨tri, i, hb, hok, hle, h⟩
    · exact Or.inl (congrArg LaneHit.tfar h)
    · exact Or.inr ⟨tri, i, hb,
        (Triangle4Intersector8MoellerTrumbore.accepts_iff _ _ _ _ _).2 ⟨hok, hle⟩,
        congrArg LaneHit.tfar h⟩

/-- The nearest hit on the small scene: the ray of lane 0 meets the triangle at `t = 1` within
`[0, 10]`. -/
theorem tfar_is_minimum_example :
    BVH4.WellFormed exBVH exBVH.root 1 ∧
    BVH4Intersector8Chunk.LaneOK false (fun x => x⁻¹) (fun _ => true) (exRay (Dist.fin 10)) 0 ∧
    BVH4Intersector8Chunk.StackSafe
      (BVH4Triangle4Intersector8ChunkMoellerNoFilter exCfg false (fun x => x⁻¹))
      (fun _ => true) exBVH (exRay (Dist.fin 10)) ∧
    ∃ fuel r,
      BVH4Intersector8Chunk.intersect
        (BVH4Triangle4Intersector8ChunkMoellerNoFilter exCfg false (fun x => x⁻¹)) fuel
        (fun _ => true) exBVH (exRay (Dist.fin 10)) = Except.ok r ∧
      r.tfar 0 ≤ (exRay (Dist.fin 10)).tfar 0 ∧
      (∀ tri i, BVH4.Beneath exBVH exBVH.root tri i →
        Triangle4Intersector8MoellerTrumbore.accepts exCfg (exRay (Dist.fin 10)) tri i 0 = true →
        r.tfar 0 ≤ Dist.fin
          (Triangle4Intersector8MoellerTrumbore.hitT (exRay (Dist.fin 10)) tri i 0)) ∧
      (r.tfar 0 = (exRay (Dist.fin 10)).tfar 0 ∨
        ∃ tri i, BVH4.Beneath exBVH exBVH.root tri i ∧
          Triangle4Intersector8MoellerTrumbore.accepts exCfg (exRay (Dist.fin 10)) tri i 0
            = true ∧
          r.tfar 0 = Dist.fin
            (Triangle4Intersector8MoellerTrumbore.hitT (exRay (Dist.fin 10)) tri i 0)) :=
  ⟨exBVH_wellFormed, exRay_laneOK _ _,
    BVH4Intersector8Chunk.stackSafe_of_ok _ _ _ _ 10 (by decide!),
    tfar_is_minimum exCfg false (fun x => x⁻¹) (fun _ => true) exBVH (exRay (Dist.fin 10)) 0 1
      exBVH_wellFormed (exRay_laneOK _ _)
      (BVH4Intersector8Chunk.stackSafe_of_ok _ _ _ _ 10 (by decide!))⟩
theorem ok_of_toOption_map {α β : Type} (e : Except BVH4Intersector8Chunk.Fault α) (f : α → β)
    (b : β) (h : e.toOption.map f = some b) : ∃ r, e = Except.ok r ∧ f r = b := by
  cases e with
  | error x => exact Option.noConfusion h
  | ok r => exact ⟨r, rfl, Option.some.inj h⟩

namespace BVH4Intersector8Chunk

/-- A step that continues either leaves the packet and `ray_tfar` alone or is a leaf:
the packet is handed to the primitive intersector with the mask `ray_tfar > curDist`, and
`ray_tfar` is reloaded from the packet in the lanes of that mask. -/
theorem step_next_cases (k : Kernel) (su : Setup) (bvh : BVH4) (s s1 : State)
    (h : step k su bvh s = Step.next s1) :
    (s1.ray = s.ray ∧ s1.ray_tfar = s.ray_tfar) ∨
    ∃ (curDist : avxd) (prim : Nat → Triangle4) (items : Nat),
      s1.ray = k.primIntersect (fun l => decide (s.ray_tfar l > curDist l)) s.ray prim items
        bvh.scene ∧
      s1.ray_tfar = select (fun l => decide (s.ray_tfar l > curDist l)) s1.ray.tfar
        s.ray_tfar := by
  obtain ⟨ray, ray_tfar, stack, control⟩ := s
  cases control with
  | pop =>
    unfold step at h
    simp only [] at h
    split at h
    · exact Step.noConfusion h
    · split at h
      · split at h <;> exact Step.noConfusion h
      · split at h <;>
        · injection h with h
          subst h
          exact Or.inl ⟨rfl, rfl⟩
  | inner cur curDist =>
    unfold step at h
    simp only [] at h
    split at h
    · split at h
      · exact Step.noConfusion h
      · split at h
        · exact Step.noConfusion h
        · injection h with h
          subst h
          exact Or.inl ⟨rfl, rfl⟩
    · split at h
      · split at h <;> exact Step.noConfusion h
      · split at h
        · exact Step.noConfusion h
        · injection h with h
          subst h
          exact Or.inr ⟨curDist, _, _, rfl, rfl⟩

/-- A step that ends the traversal returns the packet of the state. -/
theorem step_done_ray (k : Kernel) (su : Setup) (bvh : BVH4) (s : State) (r : Ray8)
    (h : step k su bvh s = Step.done r) : r = s.ray := by
  obtain ⟨ray, ray_tfar, stack, control⟩ := s
  cases control with
  | pop =>
    unfold step at h
    simp only [] at h
    split at h
    · exact Step.noConfusion h
    · split at h
      · split at h
        · injection h with h; exact h.symm
        · exact Step.noConfusion h
      · split at h <;> exact Step.noConfusion h
  | inner cur curDist =>
    unfold step at h
    simp only [] at h
    split at h
    · split at h
      · exact Step.noConfusion h
      · split at h <;> exact Step.noConfusion h
    · split at h
      · split at h
        · injection h with h; exact h.symm
        · exact Step.noConfusion h
      · split at h <;> exact Step.noConfusion h

/-- A property of the packet and of `ray_tfar` that every leaf preserves holds of every
packet the traversal returns. -/
theorem run_preserves (k : Kernel) (su : Setup) (bvh : BVH4) (P : Ray8 → avxd → Prop)
    (hleaf : ∀ (ray : Ray8) (ray_tfar curDist : avxd) (prim : Nat → Triangle4) (items : Nat),
      P ray ray_tfar →
      P (k.primIntersect (fun l => decide (ray_tfar l > curDist l)) ray prim items bvh.scene)
        (select (fun l => decide (ray_tfar l > curDist l))
          (k.primIntersect (fun l => decide (ray_tfar l > curDist l)) ray prim items
            bvh.scene).tfar ray_tfar)) :
    ∀ (n : Nat) (s : State) (r : Ray8), P s.ray s.ray_tfar →
      run k su bvh n s = Except.ok r → ∃ rt, P r rt := by
  intro n
  induction n with
  | zero => intro s r _ h; exact Except.noConfusion h
  | succ n ih =>
    intro s r hP h
    rw [run_succ] at h
    cases hs : step k su bvh s with
    | next s1 =>
      rw [hs] at h
      refine ih s1 r ?_ h
      rcases step_next_cases k su bvh s s1 hs with ⟨h1, h2⟩ | ⟨curDist, prim, items, h1, h2⟩
      · rw [h1, h2]; exact hP
      · rw [h2, h1]; exact hleaf _ _ _ _ _ hP
    | done ray =>
      rw [hs] at h
      injection h with h
      rw [← h, step_done_ray k su bvh s ray hs]
      exact ⟨_, hP⟩
    | fault f => rw [hs] at h; exact Except.noConfusion h

end BVH4Intersector8Chunk
/-! ## Frame and monotonicity: C3, C4, C5 -/

namespace BVH4Intersector8Chunk

open Triangle4Intersector8MoellerTrumbore

/-- A property of the packet and of `ray_tfar` that every leaf preserves holds in every
state the traversal reaches, whether or not the traversal ends. -/
theorem reach_preserves (k : Kernel) (su : Setup) (bvh : BVH4) (P : Ray8 → avxd → Prop)
    (hleaf : ∀ (ray : Ray8) (ray_tfar curDist : avxd) (prim : Nat → Triangle4) (items : Nat),
      P ray ray_tfar →
      P (k.primIntersect (fun l => decide (ray_tfar l > curDist l)) ray prim items bvh.scene)
        (select (fun l => decide (ray_tfar l > curDist l))
          (k.primIntersect (fun l => decide (ray_tfar l > curDist l)) ray prim items
            bvh.scene).tfar ray_tfar)) :
    ∀ (n : Nat) (s s1 : State), P s.ray s.ray_tfar →
      reach k su bvh n s = some s1 → P s1.ray s1.ray_tfar := by
  intro n
  induction n with
  | zero =>
    intro s s1 hP h
    injection h with h
    rw [← h]; exact hP
  | succ n ih =>
    intro s s1 hP h
    unfold reach at h
    cases hs : step k su bvh s with
    | next s2 =>
      rw [hs] at h
      refine ih s2 s1 ?_ h
      rcases step_next_cases k su bvh s s2 hs with ⟨h1, h2⟩ | ⟨curDist, prim, items, h1, h2⟩
      · rw [h1, h2]; exact hP
      · rw [h2, h1]; exact hleaf _ _ _ _ _ hP
    | done ray => rw [hs] at h; exact Option.noConfusion h
    | fault f => rw [hs] at h; exact Option.noConfusion h

/-- The leaf adapter over the unfiltered block intersector, seen from one lane, relative
to the packet it is given. -/
theorem primIntersect_improves (cfg : Config) (avx2 : Bool) (rcp_safe : ℚ → ℚ) (valid : avxb)
    (ray : Ray8) (prim : Nat → Triangle4) (items : Nat) (scene : Scene) (l : Fin 8) :
    Improves cfg ray l (fun tri i => ∃ j, j < items ∧ tri = prim j ∧ i ∈ visited tri)
      (valid l) (ray.lane l)
      (((BVH4Triangle4Intersector8ChunkMoellerNoFilter cfg avx2 rcp_safe).primIntersect valid
        ray prim items scene).lane l) := by
  rw [primIntersect_noFilter]
  exact LeafIterator8.leaf_improves cfg valid ray prim scene l items ray (sameInput_refl _ _)

/-- The unfiltered kernel preserves, at every leaf, an inactive lane together with its
`ray_tfar = -inf`. -/
theorem leaf_keeps_inactive (cfg : Config) (avx2 : Bool) (rcp_safe : ℚ → ℚ) (bvh : BVH4)
    (ray : Ray8) (l : Fin 8) (ray1 : Ray8) (ray_tfar curDist : avxd) (prim : Nat → Triangle4)
    (items : Nat) (hP : ray1.lane l = ray.lane l ∧ ray_tfar l = Dist.neg_inf) :
    ((BVH4Triangle4Intersector8ChunkMoellerNoFilter cfg avx2 rcp_safe).primIntersect
        (fun l => decide (ray_tfar l > curDist l)) ray1 prim items bvh.scene).lane l =
      ray.lane l ∧
    select (fun l => decide (ray_tfar l > curDist l))
      ((BVH4Triangle4Intersector8ChunkMoellerNoFilter cfg avx2 rcp_safe).primIntersect
        (fun l => decide (ray_tfar l > curDist l)) ray1 prim items bvh.scene).tfar ray_tfar l =
      Dist.neg_inf := by
  have himp := primIntersect_improves cfg avx2 rcp_safe
    (fun l => decide (ray_tfar l > curDist l)) ray1 prim items bvh.scene l
  have hf : decide (ray_tfar l > curDist l) = false := by
    rw [hP.2]; exact decide_eq_false (Dist.not_lt_neg_inf _)
  rw [hf] at himp
  refine ⟨by rw [himp.eq_of_disabled]; exact hP.1, ?_⟩
  unfold select
  rw [if_neg (by
    show ¬ decide (ray_tfar l > curDist l) = true
    rw [hf]; exact Bool.false_ne_true)]
  exact hP.2

/-- The unfiltered kernel preserves, at every leaf, that the lane is untouched or holds a
finite `tfar` not above the `tfar` on entry. -/
theorem leaf_keeps_hit (cfg : Config) (avx2 : Bool) (rcp_safe : ℚ → ℚ) (bvh : BVH4)
    (ray : Ray8) (l : Fin 8) (ray1 : Ray8) (ray_tfar curDist : avxd) (prim : Nat → Triangle4)
    (items : Nat)
    (hP : ray1.lane l = ray.lane l ∨
      ∃ t : ℚ, ray1.tfar l = Dist.fin t ∧ Dist.fin t ≤ ray.tfar l) :
    ((BVH4Triangle4Intersector8ChunkMoellerNoFilter cfg avx2 rcp_safe).primIntersect
        (fun l => decide (ray_tfar l > curDist l)) ray1 prim items bvh.scene).lane l =
      ray.lane l ∨
    ∃ t : ℚ,
      ((BVH4Triangle4Intersector8ChunkMoellerNoFilter cfg avx2 rcp_safe).primIntersect
        (fun l => decide (ray_tfar l > curDist l)) ray1 prim items bvh.scene).tfar l =
        Dist.fin t ∧ Dist.fin t ≤ ray.tfar l := by
  have himp := primIntersect_improves cfg avx2 rcp_safe
    (fun l => decide (ray_tfar l > curDist l)) ray1 prim items bvh.scene l
  have hle : ray1.tfar l ≤ ray.tfar l := by
    rcases hP with h1 | ⟨t, h1, h2⟩
    · exact le_of_eq (congrArg LaneHit.tfar h1)
    · rw [h1]; exact h2
  rcases himp.attained with h1 | ⟨-, tri, i, -, -, h2, h3⟩
  · rcases hP with hp | ⟨t, ht, hle1⟩
    · exact Or.inl (h1.trans hp)
    · exact Or.inr ⟨t, (congrArg LaneHit.tfar h1).trans ht, hle1⟩
  · exact Or.inr ⟨_, congrArg LaneHit.tfar h3, le_trans h2 hle⟩

end BVH4Intersector8Chunk

/-- C3. For every BVH4, every ray packet and every lane `l` that is not set in `valid_i`:
in every state the traversal with the unfiltered Triangle4 intersector reaches, and in
every packet it returns, lane `l` has the output fields `u`, `v`, `tfar`, `geomID`,
`primID`, `Ng.x`, `Ng.y`, `Ng.z` of the input packet. -/
theorem C3_inactive_lane_unchanged (cfg : Config) (avx2 : Bool) (rcp_safe : ℚ → ℚ)
    (valid_i : avxb) (bvh : BVH4) (ray : Ray8) (l : Fin 8) (hv : valid_i l = false) :
    (∀ n s, BVH4Intersector8Chunk.reach
        (BVH4Triangle4Intersector8ChunkMoellerNoFilter cfg avx2 rcp_safe)
        (BVH4Intersector8Chunk.setup
          (BVH4Triangle4Intersector8ChunkMoellerNoFilter cfg avx2 rcp_safe) valid_i ray)
        bvh n
        (BVH4Intersector8Chunk.init
          (BVH4Triangle4Intersector8ChunkMoellerNoFilter cfg avx2 rcp_safe) valid_i bvh ray)
        = some s → s.ray.lane l = ray.lane l) ∧
    (∀ fuel r, BVH4Intersector8Chunk.intersect
        (BVH4Triangle4Intersector8ChunkMoellerNoFilter cfg avx2 rcp_safe) fuel valid_i bvh ray =
        Except.ok r → r.lane l = ray.lane l) := by
  have h0 : (BVH4Intersector8Chunk.init
      (BVH4Triangle4Intersector8ChunkMoellerNoFilter cfg avx2 rcp_safe) valid_i bvh ray).ray.lane
        l = ray.lane l ∧
      (BVH4Intersector8Chunk.init
        (BVH4Triangle4Intersector8ChunkMoellerNoFilter cfg avx2 rcp_safe) valid_i bvh
        ray).ray_tfar l = Dist.neg_inf := by
    refine ⟨rfl, ?_⟩
    show select valid_i ray.tfar (fun _ => Dist.neg_inf) l = Dist.neg_inf
    unfold select
    rw [if_neg (by rw [hv]; exact Bool.false_ne_true)]
  constructor
  · intro n s h
    exact (BVH4Intersector8Chunk.reach_preserves _ _ bvh
      (fun r1 rt => r1.lane l = ray.lane l ∧ rt l = Dist.neg_inf)
      (fun ray1 ray_tfar curDist prim items hP =>
        BVH4Intersector8Chunk.leaf_keeps_inactive cfg avx2 rcp_safe bvh ray l ray1 ray_tfar
          curDist prim items hP)
      n _ s h0 h).1
  · intro fuel r h
    obtain ⟨rt, hP⟩ := BVH4Intersector8Chunk.run_preserves _ _ bvh
      (fun r1 rt => r1.lane l = ray.lane l ∧ rt l = Dist.neg_inf)
      (fun ray1 ray_tfar curDist prim items hP =>
        BVH4Intersector8Chunk.leaf_keeps_inactive cfg avx2 rcp_safe bvh ray l ray1 ray_tfar
          curDist prim items hP)
      fuel _ r h0 h
    exact hP.1

/-- C3 on the small scene with lane 0 switched off: the traversal returns, lane 0 keeps
its fields, while lane 1 of the same returned packet records the hit. -/
theorem C3_inactive_lane_unchanged_witness :
    (fun l : Fin 8 => decide (l ≠ 0)) 0 = false ∧
    ∃ r, BVH4Intersector8Chunk.intersect
        (BVH4Triangle4Intersector8ChunkMoellerNoFilter exCfg false (fun x => x⁻¹)) 10
        (fun l => decide (l ≠ 0)) exBVH (exRay (Dist.fin 10)) = Except.ok r ∧
      r.geomID 1 = 7 ∧ r.lane 0 = (exRay (Dist.fin 10)).lane 0 := by
  obtain ⟨r, hr, h⟩ := ok_of_toOption_map
    (BVH4Intersector8Chunk.intersect
      (BVH4Triangle4Intersector8ChunkMoellerNoFilter exCfg false (fun x => x⁻¹)) 10
      (fun l => decide (l ≠ 0)) exBVH (exRay (Dist.fin 10)))
    (fun r => r.geomID 1) 7 (by decide!)
  exact ⟨rfl, r, hr, h,
    (C3_inactive_lane_unchanged exCfg false (fun x => x⁻¹) (fun l => decide (l ≠ 0)) exBVH
      (exRay (Dist.fin 10)) 0 rfl).2 10 r hr⟩

/-- C4. In exact arithmetic, for every BVH4, every ray packet and every lane: in every
state the traversal with the unfiltered Triangle4 intersector reaches, and in every packet
it returns, the `tfar` of the lane is not above the `tfar` on entry; and the same holds
for a single call of the unfiltered `Triangle4Intersector8MoellerTrumbore::intersect`. -/
theorem C4_tfar_monotone (cfg : Config) (avx2 : Bool) (rcp_safe : ℚ → ℚ)
    (valid_i : avxb) (bvh : BVH4) (ray : Ray8) (tri : Triangle4) (scene : Scene) (l : Fin 8) :
    (∀ n s, BVH4Intersector8Chunk.reach
        (BVH4Triangle4Intersector8ChunkMoellerNoFilter cfg avx2 rcp_safe)
        (BVH4Intersector8Chunk.setup
          (BVH4Triangle4Intersector8ChunkMoellerNoFilter cfg avx2 rcp_safe) valid_i ray)
        bvh n
        (BVH4Intersector8Chunk.init
          (BVH4Triangle4Intersector8ChunkMoellerNoFilter cfg avx2 rcp_safe) valid_i bvh ray)
        = some s → s.ray.tfar l ≤ ray.tfar l) ∧
    (∀ fuel r, BVH4Intersector8Chunk.intersect
        (BVH4Triangle4Intersector8ChunkMoellerNoFilter cfg avx2 rcp_safe) fuel valid_i bvh ray =
        Except.ok r → r.tfar l ≤ ray.tfar l) ∧
    (Triangle4Intersector8MoellerTrumbore.intersect cfg false valid_i ray tri scene).tfar l ≤
      ray.tfar l := by
  have hleaf : ∀ (ray1 : Ray8) (ray_tfar curDist : avxd) (prim : Nat → Triangle4)
      (items : Nat), ray1.tfar l ≤ ray.tfar l →
      ((BVH4Triangle4Intersector8ChunkMoellerNoFilter cfg avx2 rcp_safe).primIntersect
        (fun l => decide (ray_tfar l > curDist l)) ray1 prim items bvh.scene).tfar l ≤
        ray.tfar l := by
    intro ray1 ray_tfar curDist prim items hP
    exact le_trans (BVH4Intersector8Chunk.primIntersect_improves cfg avx2 rcp_safe
      (fun l => decide (ray_tfar l > curDist l)) ray1 prim items bvh.scene l).le hP
  refine ⟨?_, ?_, ?_⟩
  · intro n s h
    exact BVH4Intersector8Chunk.reach_preserves _ _ bvh (fun r1 _ => r1.tfar l ≤ ray.tfar l)
      hleaf n _ s (le_refl _) h
  · intro fuel r h
    obtain ⟨rt, hP⟩ := BVH4Intersector8Chunk.run_preserves _ _ bvh
      (fun r1 _ => r1.tfar l ≤ ray.tfar l) hleaf fuel _ r (le_refl _) h
    exact hP
  · exact (Triangle4Intersector8MoellerTrumbore.intersect_improves cfg valid_i ray ray tri
      scene l (Triangle4Intersector8MoellerTrumbore.sameInput_refl _ _)).le

/-- C4 on the small scene: the traversal returns a packet whose `tfar` in lane 0 is `1`,
below the `10` on entry. -/
theorem C4_tfar_monotone_witness :
    ∃ r, BVH4Intersector8Chunk.intersect
        (BVH4Triangle4Intersector8ChunkMoellerNoFilter exCfg false (fun x => x⁻¹)) 10
        (fun _ => true) exBVH (exRay (Dist.fin 10)) = Except.ok r ∧
      r.tfar 0 = Dist.fin 1 ∧ r.tfar 0 ≤ (exRay (Dist.fin 10)).tfar 0 := by
  obtain ⟨r, hr, h⟩ := ok_of_toOption_map
    (BVH4Intersector8Chunk.intersect
      (BVH4Triangle4Intersector8ChunkMoellerNoFilter exCfg false (fun x => x⁻¹)) 10
      (fun _ => true) exBVH (exRay (Dist.fin 10)))
    (fun r => r.tfar 0) (Dist.fin 1) (by decide!)
  exact ⟨r, hr, h,
    (C4_tfar_monotone exCfg false (fun x => x⁻¹) (fun _ => true) exBVH (exRay (Dist.fin 10))
      exTri exScene 0).2.1 10 r hr⟩

/-- C5, as stated, fails: on the tree whose root is the leaf with the block `exTri`, the
ray with `tfar = 1` meets the triangle at `t = 1`; the depth test `absDen*tfar >= T` accepts
it, `geomID` of lane 0 changes from `-1` to `7`, and `tfar` stays `1`: it is not strictly
less than on entry. -/
theorem C5_counterexample :
    ∃ r, BVH4Intersector8Chunk.intersect
        (BVH4Triangle4Intersector8ChunkMoellerNoFilter exCfg false (fun x => x⁻¹)) 10
        (fun _ => true) exLeafBVH (exRay (Dist.fin 1)) = Except.ok r ∧
      r.geomID 0 ≠ (exRay (Dist.fin 1)).geomID 0 ∧
      ¬ r.tfar 0 < (exRay (Dist.fin 1)).tfar 0 := by
  obtain ⟨r, hr, h⟩ := ok_of_toOption_map
    (BVH4Intersector8Chunk.intersect
      (BVH4Triangle4Intersector8ChunkMoellerNoFilter exCfg false (fun x => x⁻¹)) 10
      (fun _ => true) exLeafBVH (exRay (Dist.fin 1)))
    (fun r => (r.geomID 0, r.tfar 0)) (7, Dist.fin 1) (by decide!)
  have h1 : r.geomID 0 = 7 := congrArg Prod.fst h
  have h2 : r.tfar 0 = Dist.fin 1 := congrArg Prod.snd h
  refine ⟨r, hr, ?_, ?_⟩
  · rw [h1]; decide
  · rw [h2]; exact lt_irrefl _

/-- C5, amended. For every BVH4, every ray packet and every lane: if the `geomID` of the
lane in a state that the traversal with the unfiltered Triangle4 intersector reaches, or
in a packet that it returns, differs from the `geomID` on entry, then the `tfar` of the
lane is a finite distance that is less than or equal to the `tfar` on entry. -/
theorem C5_hit_consistency (cfg : Config) (avx2 : Bool) (rcp_safe : ℚ → ℚ)
    (valid_i : avxb) (bvh : BVH4) (ray : Ray8) (l : Fin 8) :
    (∀ n s, BVH4Intersector8Chunk.reach
        (BVH4Triangle4Intersector8ChunkMoellerNoFilter cfg avx2 rcp_safe)
        (BVH4Intersector8Chunk.setup
          (BVH4Triangle4Intersector8ChunkMoellerNoFilter cfg avx2 rcp_safe) valid_i ray)
        bvh n
        (BVH4Intersector8Chunk.init
          (BVH4Triangle4Intersector8ChunkMoellerNoFilter cfg avx2 rcp_safe) valid_i bvh ray)
        = some s → s.ray.geomID l ≠ ray.geomID l →
      ∃ t : ℚ, s.ray.tfar l = Dist.fin t ∧ Dist.fin t ≤ ray.tfar l) ∧
    (∀ fuel r, BVH4Intersector8Chunk.intersect
        (BVH4Triangle4Intersector8ChunkMoellerNoFilter cfg avx2 rcp_safe) fuel valid_i bvh ray =
        Except.ok r → r.geomID l ≠ ray.geomID l →
      ∃ t : ℚ, r.tfar l = Dist.fin t ∧ Dist.fin t ≤ ray.tfar l) := by
  constructor
  · intro n s h hg
    rcases BVH4Intersector8Chunk.reach_preserves _ _ bvh
      (fun r1 _ => r1.lane l = ray.lane l ∨
        ∃ t : ℚ, r1.tfar l = Dist.fin t ∧ Dist.fin t ≤ ray.tfar l)
      (fun ray1 ray_tfar curDist prim items hP =>
        BVH4Intersector8Chunk.leaf_keeps_hit cfg avx2 rcp_safe bvh ray l ray1 ray_tfar
          curDist prim items hP)
      n _ s (Or.inl rfl) h with h1 | h1
    · exact absurd (congrArg LaneHit.geomID h1) hg
    · exact h1
  · intro fuel r h hg
    obtain ⟨rt, hP⟩ := BVH4Intersector8Chunk.run_preserves _ _ bvh
      (fun r1 _ => r1.lane l = ray.lane l ∨
        ∃ t : ℚ, r1.tfar l = Dist.fin t ∧ Dist.fin t ≤ ray.tfar l)
      (fun ray1 ray_tfar curDist prim items hP =>
        BVH4Intersector8Chunk.leaf_keeps_hit cfg avx2 rcp_safe bvh ray l ray1 ray_tfar
          curDist prim items hP)
      fuel _ r (Or.inl rfl) h
    rcases hP with h1 | h1
    · exact absurd (congrArg LaneHit.geomID h1) hg
    · exact h1

/-- C5 amended, on the tree whose root is the leaf: the traversal returns, `geomID` of
lane 0 changes and `tfar` is `1`, equal to the `tfar` on entry. -/
theorem C5_hit_consistency_witness :
    ∃ r, BVH4Intersector8Chunk.intersect
        (BVH4Triangle4Intersector8ChunkMoellerNoFilter exCfg false (fun x => x⁻¹)) 10
        (fun _ => true) exLeafBVH (exRay (Dist.fin 1)) = Except.ok r ∧
      r.geomID 0 ≠ (exRay (Dist.fin 1)).geomID 0 ∧
      ∃ t : ℚ, r.tfar 0 = Dist.fin t ∧ Dist.fin t ≤ (exRay (Dist.fin 1)).tfar 0 := by
  obtain ⟨r, hr, h⟩ := ok_of_toOption_map
    (BVH4Intersector8Chunk.intersect
      (BVH4Triangle4Intersector8ChunkMoellerNoFilter exCfg false (fun x => x⁻¹)) 10
      (fun _ => true) exLeafBVH (exRay (Dist.fin 1)))
    (fun r => r.geomID 0) 7 (by decide!)
  have hg : r.geomID 0 ≠ (exRay (Dist.fin 1)).geomID 0 := by
    rw [h]; decide
  exact ⟨r, hr, hg,
    (C5_hit_consistency exCfg false (fun x => x⁻¹) (fun _ => true) exLeafBVH
      (exRay (Dist.fin 1)) 0).2 10 r hr hg⟩

/-! ## The triangle test: C6, C7, C8 -/

namespace Triangle4Intersector8MoellerTrumbore

/-- When `Ng = cross(e1, e2)` and `den ≠ 0`, a solution `t`, `u`, `v` of
`org + t*dir = v0 + u*(v1 - v0) + v*(v2 - v0)` is what the test computes. -/
theorem hit_unique (ray : Ray8) (tri : Triangle4) (i : Fin 4) (l : Fin 8)
    (hN : tri.normalOK i) (hden : laneDen ray tri i l ≠ 0) (t u v : ℚ)
    (hx : ray.org.x l + t * ray.dir.x l = tri.v0.x i + u * (-tri.e1.x i) + v * tri.e2.x i)
    (hy : ray.org.y l + t * ray.dir.y l = tri.v0.y i + u * (-tri.e1.y i) + v * tri.e2.y i)
    (hz : ray.org.z l + t * ray.dir.z l = tri.v0.z i + u * (-tri.e1.z i) + v * tri.e2.z i) :
    hitU ray tri i l = u ∧ hitV ray tri i l = v ∧ hitT ray tri i l = t := by
  obtain ⟨nx, ny, nz⟩ := hN
  rw [hitU_eq, hitV_eq, hitT_eq]
  have hd : laneDen ray tri i l =
      tri.Ng.x i * ray.dir.x l + tri.Ng.y i * ray.dir.y l + tri.Ng.z i * ray.dir.z l := rfl
  generalize laneDen ray tri i l = den at hden hd ⊢
  simp only [dot, cross, broadcast8f, avx3f.sub]
  have v0x : tri.v0.x i = ray.org.x l + t * ray.dir.x l + u * tri.e1.x i - v * tri.e2.x i := by
    linarith
  have v0y : tri.v0.y i = ray.org.y l + t * ray.dir.y l + u * tri.e1.y i - v * tri.e2.y i := by
    linarith
  have v0z : tri.v0.z i = ray.org.z l + t * ray.dir.z l + u * tri.e1.z i - v * tri.e2.z i := by
    linarith
  rw [v0x, v0y, v0z]
  rw [nx, ny, nz] at hd ⊢
  refine ⟨?_, ?_, ?_⟩ <;> rw [mul_inv_eq_iff_eq_mul₀ hden, hd] <;> ring

end Triangle4Intersector8MoellerTrumbore

/-- C6. In exact arithmetic, for every Triangle4 block, every ray packet and every lane:
whenever a lane is in the mask under which the hit of a triangle is written (or handed to
the intersection filter), the barycentric coordinates computed for it satisfy `u >= 0`,
`v >= 0`, `u + v <= 1`; and after a call of the unfiltered intersector on the block every
lane either has all its output fields untouched or holds `u >= 0`, `v >= 0`, `u + v <= 1`. -/
theorem C6_barycentric_bounds (cfg : Config) (valid_i : avxb) (ray : Ray8) (tri : Triangle4)
    (scene : Scene) (l : Fin 8) :
    (∀ i, Triangle4Intersector8MoellerTrumbore.finalMask cfg valid_i ray tri i l = true →
      0 ≤ Triangle4Intersector8MoellerTrumbore.hitU ray tri i l ∧
      0 ≤ Triangle4Intersector8MoellerTrumbore.hitV ray tri i l ∧
      Triangle4Intersector8MoellerTrumbore.hitU ray tri i l +
        Triangle4Intersector8MoellerTrumbore.hitV ray tri i l ≤ 1) ∧
    ((Triangle4Intersector8MoellerTrumbore.intersect cfg false valid_i ray tri scene).lane l =
        ray.lane l ∨
      (0 ≤ (Triangle4Intersector8MoellerTrumbore.intersect cfg false valid_i ray tri scene).u l ∧
       0 ≤ (Triangle4Intersector8MoellerTrumbore.intersect cfg false valid_i ray tri scene).v l ∧
       (Triangle4Intersector8MoellerTrumbore.intersect cfg false valid_i ray tri scene).u l +
        (Triangle4Intersector8MoellerTrumbore.intersect cfg false valid_i ray tri scene).v l
          ≤ 1)) := by
  constructor
  · intro i h
    obtain ⟨-, hok, -⟩ :=
      (Triangle4Intersector8MoellerTrumbore.finalMask_iff cfg valid_i ray tri i l).1 h
    exact ⟨hok.2.2.1, hok.2.2.2.1, hok.2.2.2.2.1⟩
  · have himp := Triangle4Intersector8MoellerTrumbore.intersect_improves cfg valid_i ray ray
      tri scene l (Triangle4Intersector8MoellerTrumbore.sameInput_refl _ _)
    rcases himp.attained with h | ⟨-, tri1, i, -, hok, -, h⟩
    · exact Or.inl h
    · right
      have hu := congrArg LaneHit.u h
      have hv := congrArg LaneHit.v h
      simp only [Ray8.lane, Triangle4Intersector8MoellerTrumbore.hitLane] at hu hv
      rw [hu, hv]
      exact ⟨hok.2.2.1, hok.2.2.2.1, hok.2.2.2.2.1⟩

/-- C6 on scenario 1: lane 0 is in the write mask of the triangle, with `u = v = 1/4`. -/
theorem C6_barycentric_bounds_witness :
    Triangle4Intersector8MoellerTrumbore.finalMask exCfg (fun _ => true) axisRay unitTri 0 0
      = true ∧
    Triangle4Intersector8MoellerTrumbore.hitU axisRay unitTri 0 0 = 1 / 4 ∧
    Triangle4Intersector8MoellerTrumbore.hitV axisRay unitTri 0 0 = 1 / 4 ∧
    (0 ≤ Triangle4Intersector8MoellerTrumbore.hitU axisRay unitTri 0 0 ∧
      0 ≤ Triangle4Intersector8MoellerTrumbore.hitV axisRay unitTri 0 0 ∧
      Triangle4Intersector8MoellerTrumbore.hitU axisRay unitTri 0 0 +
        Triangle4Intersector8MoellerTrumbore.hitV axisRay unitTri 0 0 ≤ 1) :=
  ⟨by decide!, by decide!, by decide!,
    (C6_barycentric_bounds exCfg (fun _ => true) axisRay unitTri exScene 0).1 0 (by decide!)⟩

/-- C7. In exact arithmetic, for a triangle with vertices `v0`, `v1`, `v2` stored in a block
as `e1 = v0 - v1`, `e2 = v2 - v0`, `Ng = cross(e1, e2)`, and for a lane that the test accepts
for that triangle: the values the unfiltered loop iteration records in the lane satisfy
`org + t*dir = v0 + u*(v1 - v0) + v*(v2 - v0)`, where `t` is the recorded `tfar`. -/
theorem C7_hit_point (cfg : Config) (valid_i : avxb) (ray : Ray8) (tri : Triangle4)
    (i : Fin 4) (scene : Scene) (l : Fin 8) (v1x v1y v1z v2x v2y v2z : ℚ)
    (he1 : tri.e1.x i = tri.v0.x i - v1x ∧ tri.e1.y i = tri.v0.y i - v1y ∧
      tri.e1.z i = tri.v0.z i - v1z)
    (he2 : tri.e2.x i = v2x - tri.v0.x i ∧ tri.e2.y i = v2y - tri.v0.y i ∧
      tri.e2.z i = v2z - tri.v0.z i)
    (hN : tri.normalOK i)
    (hacc : Triangle4Intersector8MoellerTrumbore.finalMask cfg valid_i ray tri i l = true) :
    ∃ t : ℚ,
      (Triangle4Intersector8MoellerTrumbore.intersectOne cfg false valid_i ray tri i scene).tfar l
        = Dist.fin t ∧
      ray.org.x l + t * ray.dir.x l = tri.v0.x i +
        (Triangle4Intersector8MoellerTrumbore.intersectOne cfg false valid_i ray tri i scene).u l
          * (v1x - tri.v0.x i) +
        (Triangle4Intersector8MoellerTrumbore.intersectOne cfg false valid_i ray tri i scene).v l
          * (v2x - tri.v0.x i) ∧
      ray.org.y l + t * ray.dir.y l = tri.v0.y i +
        (Triangle4Intersector8MoellerTrumbore.intersectOne cfg false valid_i ray tri i scene).u l
          * (v1y - tri.v0.y i) +
        (Triangle4Intersector8MoellerTrumbore.intersectOne cfg false valid_i ray tri i scene).v l
          * (v2y - tri.v0.y i) ∧
      ray.org.z l + t * ray.dir.z l = tri.v0.z i +
        (Triangle4Intersector8MoellerTrumbore.intersectOne cfg false valid_i ray tri i scene).u l
          * (v1z - tri.v0.z i) +
        (Triangle4Intersector8MoellerTrumbore.intersectOne cfg false valid_i ray tri i scene).v l
          * (v2z - tri.v0.z i) := by
  have hl := Triangle4Intersector8MoellerTrumbore.intersectOne_lane cfg valid_i ray tri i
    scene l
  rw [if_pos hacc] at hl
  have hu := congrArg LaneHit.u hl
  have hv := congrArg LaneHit.v hl
  have ht := congrArg LaneHit.tfar hl
  simp only [Ray8.lane, Triangle4Intersector8MoellerTrumbore.hitLane] at hu hv ht
  obtain ⟨-, hok, -⟩ :=
    (Triangle4Intersector8MoellerTrumbore.finalMask_iff cfg valid_i ray tri i l).1 hacc
  obtain ⟨px, py, pz⟩ := Triangle4Intersector8MoellerTrumbore.hit_point ray tri i l hN
    (Triangle4Intersector8MoellerTrumbore.nearOK_den_ne cfg ray tri i l hok)
  refine ⟨_, ht, ?_, ?_, ?_⟩
  · rw [hu, hv, px, he1.1, he2.1]; ring
  · rw [hu, hv, py, he1.2.1, he2.2.1]; ring
  · rw [hu, hv, pz, he1.2.2, he2.2.2]; ring
/-- C7 on scenario 1: `v0=(0,0,1)`, `v1=(1,0,1)`, `v2=(0,1,1)`, `org=(0.25,0.25,0)`,
`dir=(0,0,1)` gives `t = 1`, `u = v = 0.25`, `Ng = (0,0,-1)`. -/
theorem C7_hit_point_witness :
    Triangle4Intersector8MoellerTrumbore.finalMask exCfg (fun _ => true) axisRay unitTri 0 0
      = true ∧
    (Triangle4Intersector8MoellerTrumbore.intersectOne exCfg false (fun _ => true) axisRay
      unitTri 0 exScene).lane 0 = ⟨1 / 4, 1 / 4, Dist.fin 1, 0, 0, 0, 0, -1⟩ ∧
    ∃ t : ℚ,
      (Triangle4Intersector8MoellerTrumbore.intersectOne exCfg false (fun _ => true) axisRay
        unitTri 0 exScene).tfar 0 = Dist.fin t ∧
      axisRay.org.x 0 + t * axisRay.dir.x 0 = unitTri.v0.x 0 +
        (Triangle4Intersector8MoellerTrumbore.intersectOne exCfg false (fun _ => true) axisRay
          unitTri 0 exScene).u 0 * (1 - unitTri.v0.x 0) +
        (Triangle4Intersector8MoellerTrumbore.intersectOne exCfg false (fun _ => true) axisRay
          unitTri 0 exScene).v 0 * (0 - unitTri.v0.x 0) ∧
      axisRay.org.y 0 + t * axisRay.dir.y 0 = unitTri.v0.y 0 +
        (Triangle4Intersector8MoellerTrumbore.intersectOne exCfg false (fun _ => true) axisRay
          unitTri 0 exScene).u 0 * (0 - unitTri.v0.y 0) +
        (Triangle4Intersector8MoellerTrumbore.intersectOne exCfg false (fun _ => true) axisRay
          unitTri 0 exScene).v 0 * (1 - unitTri.v0.y 0) ∧
      axisRay.org.z 0 + t * axisRay.dir.z 0 = unitTri.v0.z 0 +
        (Triangle4Intersector8MoellerTrumbore.intersectOne exCfg false (fun _ => true) axisRay
          unitTri 0 exScene).u 0 * (1 - unitTri.v0.z 0) +
        (Triangle4Intersector8MoellerTrumbore.intersectOne exCfg false (fun _ => true) axisRay
          unitTri 0 exScene).v 0 * (1 - unitTri.v0.z 0) :=
  ⟨by decide!, by decide!,
    C7_hit_point exCfg (fun _ => true) axisRay unitTri 0 exScene 0 1 0 1 0 1 1
      ⟨by decide!, by decide!, by decide!⟩ ⟨by decide!, by decide!, by decide!⟩
      ⟨by decide!, by decide!, by decide!⟩ (by decide!)⟩

/-- C8. In exact arithmetic with back-face culling and ray masking disabled, for a
triangle stored as `e1 = v0 - v1`, `e2 = v2 - v0`, `Ng = cross(e1, e2)` and a lane enabled in
`valid_i`: if `dot(Ng, dir)` is non-zero and there are `t` in `[tnear, tfar]` and `u >= 0`,
`v >= 0` with `u + v <= 1` such that `org + t*dir = v0 + u*(v1 - v0) + v*(v2 - v0)`, then the
lane is in the mask under which the hit of the triangle is written, and the unfiltered
loop iteration records `t` as the `tfar` of the lane. -/
theorem C8_no_geometric_hit_missed (cfg : Config) (valid_i : avxb) (ray : Ray8)
    (tri : Triangle4) (i : Fin 4) (scene : Scene) (l : Fin 8)
    (v1x v1y v1z v2x v2y v2z t u v : ℚ)
    (hb : cfg.RTCORE_BACKFACE_CULLING = false) (hm : cfg.RTCORE_RAY_MASK = false)
    (he1 : tri.e1.x i = tri.v0.x i - v1x ∧ tri.e1.y i = tri.v0.y i - v1y ∧
      tri.e1.z i = tri.v0.z i - v1z)
    (he2 : tri.e2.x i = v2x - tri.v0.x i ∧ tri.e2.y i = v2y - tri.v0.y i ∧
      tri.e2.z i = v2z - tri.v0.z i)
    (hN : tri.normalOK i) (hvalid : valid_i l = true)
    (hden : Triangle4Intersector8MoellerTrumbore.laneDen ray tri i l ≠ 0)
    (htn : ray.tnear l ≤ Dist.fin t) (htf : Dist.fin t ≤ ray.tfar l)
    (hu : 0 ≤ u) (hv : 0 ≤ v) (huv : u + v ≤ 1)
    (hx : ray.org.x l + t * ray.dir.x l =
      tri.v0.x i + u * (v1x - tri.v0.x i) + v * (v2x - tri.v0.x i))
    (hy : ray.org.y l + t * ray.dir.y l =
      tri.v0.y i + u * (v1y - tri.v0.y i) + v * (v2y - tri.v0.y i))
    (hz : ray.org.z l + t * ray.dir.z l =
      tri.v0.z i + u * (v1z - tri.v0.z i) + v * (v2z - tri.v0.z i)) :
    Triangle4Intersector8MoellerTrumbore.finalMask cfg valid_i ray tri i l = true ∧
    (Triangle4Intersector8MoellerTrumbore.intersectOne cfg false valid_i ray tri i scene).tfar l
      = Dist.fin t := by
  obtain ⟨hU, hV, hT⟩ := Triangle4Intersector8MoellerTrumbore.hit_unique ray tri i l hN hden
    t u v (by rw [hx, he1.1, he2.1]; ring) (by rw [hy, he1.2.1, he2.2.1]; ring)
    (by rw [hz, he1.2.2, he2.2.2]; ring)
  have hacc : Triangle4Intersector8MoellerTrumbore.finalMask cfg valid_i ray tri i l = true := by
    rw [Triangle4Intersector8MoellerTrumbore.finalMask_iff]
    refine ⟨hvalid, ⟨?_, ?_, ?_, ?_, ?_, ?_⟩, ?_⟩
    · rw [hb]; exact hden
    · intro h; rw [hm] at h; exact Bool.noConfusion h
    · rw [hU]; exact hu
    · rw [hV]; exact hv
    · rw [hU, hV]; exact huv
    · rw [hT]; exact htn
    · rw [hT]; exact htf
  refine ⟨hacc, ?_⟩
  have hl := Triangle4Intersector8MoellerTrumbore.intersectOne_lane cfg valid_i ray tri i
    scene l
  rw [if_pos hacc] at hl
  have ht := congrArg LaneHit.tfar hl
  simp only [Ray8.lane, Triangle4Intersector8MoellerTrumbore.hitLane] at ht
  rw [ht, hT]

/-- C8 on scenario 1: the point `(0.25, 0.25, 1) = v0 + 0.25*(v1 - v0) + 0.25*(v2 - v0)` lies
on the ray at `t = 1`, and lane 0 is accepted. -/
theorem C8_no_geometric_hit_missed_witness :
    Triangle4Intersector8MoellerTrumbore.laneDen axisRay unitTri 0 0 ≠ 0 ∧
    Triangle4Intersector8MoellerTrumbore.finalMask exCfg (fun _ => true) axisRay unitTri 0 0
      = true ∧
    (Triangle4Intersector8MoellerTrumbore.intersectOne exCfg false (fun _ => true) axisRay
      unitTri 0 exScene).tfar 0 = Dist.fin 1 :=
  ⟨by decide!,
    C8_no_geometric_hit_missed exCfg (fun _ => true) axisRay unitTri 0 exScene 0
      1 0 1 0 1 1 1 (1 / 4) (1 / 4) rfl rfl
      ⟨by decide!, by decide!, by decide!⟩ ⟨by decide!, by decide!, by decide!⟩
      ⟨by decide!, by decide!, by decide!⟩ rfl (by decide!) (by decide!) (by decide!)
      (by decide!) (by decide!) (by decide!) (by decide!) (by decide!) (by decide!)⟩

/-! ## The loop over a block: C9, C10 -/

namespace Triangle4Intersector8MoellerTrumbore

/-- The unfiltered block intersector on a left-packed block, seen from an enabled lane:
the triangles tested are the valid triangles of the block. -/
theorem block_improves (cfg : Config) (valid_i : avxb) (ray : Ray8) (tri : Triangle4)
    (scene : Scene) (l : Fin 8) (hp : leftPacked tri) (hv : valid_i l = true) :
    Improves cfg ray l (fun tri1 i1 => tri1 = tri ∧ tri.valid i1 = true) true (ray.lane l)
      ((intersect cfg false valid_i ray tri scene).lane l) := by
  have h := intersect_improves cfg valid_i ray ray tri scene l (sameInput_refl _ _)
  rw [hv] at h
  refine h.congr ?_
  intro tri1 i1
  constructor
  · rintro ⟨rfl, hi⟩
    exact ⟨rfl, valid_of_mem_visited _ _ hi⟩
  · rintro ⟨rfl, hi⟩
    exact ⟨rfl, mem_visited_of_leftPacked _ hp _ hi⟩

end Triangle4Intersector8MoellerTrumbore

/-- C9. In exact arithmetic with no intersection filter, for a block whose valid triangles
are left-packed and a lane enabled in `valid_i`: after the block intersector the `tfar` of
the lane is the minimum of the input `tfar` and of the distances of the valid triangles
that are accepted for the lane in isolation on the input interval (it is not beyond any of
them and it is one of them); if some triangle is accepted, the lane holds the `u`, `v`,
`tfar`, `geomID`, `primID`, `Ng` of an accepted triangle, whose distance is then that
minimum; if none is accepted, the lane is untouched. -/
theorem C9_block_nearest (cfg : Config) (valid_i : avxb) (ray : Ray8) (tri : Triangle4)
    (scene : Scene) (l : Fin 8)
    (hp : Triangle4Intersector8MoellerTrumbore.leftPacked tri) (hv : valid_i l = true) :
    (Triangle4Intersector8MoellerTrumbore.intersect cfg false valid_i ray tri scene).tfar l ≤
      ray.tfar l ∧
    (∀ k, tri.valid k = true →
      Triangle4Intersector8MoellerTrumbore.accepts cfg ray tri k l = true →
      (Triangle4Intersector8MoellerTrumbore.intersect cfg false valid_i ray tri scene).tfar l ≤
        Dist.fin (Triangle4Intersector8MoellerTrumbore.hitT ray tri k l)) ∧
    ((Triangle4Intersector8MoellerTrumbore.intersect cfg false valid_i ray tri scene).tfar l =
        ray.tfar l ∨
      ∃ k, tri.valid k = true ∧
        Triangle4Intersector8MoellerTrumbore.accepts cfg ray tri k l = true ∧
        (Triangle4Intersector8MoellerTrumbore.intersect cfg false valid_i ray tri scene).tfar l =
          Dist.fin (Triangle4Intersector8MoellerTrumbore.hitT ray tri k l)) ∧
    ((∃ k, tri.valid k = true ∧
        Triangle4Intersector8MoellerTrumbore.accepts cfg ray tri k l = true) →
      ∃ k, tri.valid k = true ∧
        Triangle4Intersector8MoellerTrumbore.accepts cfg ray tri k l = true ∧
        (Triangle4Intersector8MoellerTrumbore.intersect cfg false valid_i ray tri scene).lane l =
          Triangle4Intersector8MoellerTrumbore.hitLane ray tri k l) ∧
    ((¬ ∃ k, tri.valid k = true ∧
        Triangle4Intersector8MoellerTrumbore.accepts cfg ray tri k l = true) →
      (Triangle4Intersector8MoellerTrumbore.intersect cfg false valid_i ray tri scene).lane l =
        ray.lane l) := by
  have h := Triangle4Intersector8MoellerTrumbore.block_improves cfg valid_i ray tri scene l
    hp hv
  refine ⟨h.le, ?_, ?_, ?_, ?_⟩
  · intro k hk ha
    exact h.best rfl tri k ⟨rfl, hk⟩
      ((Triangle4Intersector8MoellerTrumbore.accepts_iff _ _ _ _ _).1 ha).1
  · rcases h.attained with h1 | ⟨-, tri1, k, ⟨rfl, hk⟩, hok, hle, h1⟩
    · exact Or.inl (congrArg LaneHit.tfar h1)
    · exact Or.inr ⟨k, hk,
        (Triangle4Intersector8MoellerTrumbore.accepts_iff _ _ _ _ _).2 ⟨hok, hle⟩,
        congrArg LaneHit.tfar h1⟩
  · rintro ⟨k, hk, ha⟩
    obtain ⟨hok, hle⟩ := (Triangle4Intersector8MoellerTrumbore.accepts_iff _ _ _ _ _).1 ha
    obtain ⟨tri1, k1, ⟨rfl, hk1⟩, hok1, hle1, h1⟩ := h.hit rfl tri k ⟨rfl, hk⟩ hok hle
    exact ⟨k1, hk1,
      (Triangle4Intersector8MoellerTrumbore.accepts_iff _ _ _ _ _).2 ⟨hok1, hle1⟩, h1⟩
  · intro hno
    rcases h.attained with h1 | ⟨-, tri1, k, ⟨rfl, hk⟩, hok, hle, -⟩
    · exact h1
    · exact absurd ⟨k, hk,
        (Triangle4Intersector8MoellerTrumbore.accepts_iff _ _ _ _ _).2 ⟨hok, hle⟩⟩ hno

/-- C9 on the block with two copies of the triangle of scenario 1: the lane ends with
`tfar = 1`, the distance of both, and holds the hit of an accepted triangle. -/
theorem C9_block_nearest_witness :
    Triangle4Intersector8MoellerTrumbore.leftPacked tieTri ∧
    (Triangle4Intersector8MoellerTrumbore.intersect exCfg false (fun _ => true) axisRay tieTri
      exScene).tfar 0 = Dist.fin 1 ∧
    (∃ k, tieTri.valid k = true ∧
      Triangle4Intersector8MoellerTrumbore.accepts exCfg axisRay tieTri k 0 = true ∧
      (Triangle4Intersector8MoellerTrumbore.intersect exCfg false (fun _ => true) axisRay tieTri
        exScene).lane 0 = Triangle4Intersector8MoellerTrumbore.hitLane axisRay tieTri k 0) :=
  ⟨by unfold Triangle4Intersector8MoellerTrumbore.leftPacked; decide, by decide!,
    (C9_block_nearest exCfg (fun _ => true) axisRay tieTri exScene 0
      (by unfold Triangle4Intersector8MoellerTrumbore.leftPacked; decide) rfl).2.2.2.1
      ⟨0, by decide, by decide!⟩⟩
namespace Triangle4Intersector8MoellerTrumbore

theorem hitLane_permute (σ : Equiv.Perm (Fin 4)) (ray : Ray8) (tri : Triangle4) (k : Fin 4)
    (l : Fin 8) : hitLane ray (tri.permute σ) k l = hitLane ray tri (σ k) l := rfl

theorem hitT_permute (σ : Equiv.Perm (Fin 4)) (ray : Ray8) (tri : Triangle4) (k : Fin 4)
    (l : Fin 8) : hitT ray (tri.permute σ) k l = hitT ray tri (σ k) l := rfl

theorem nearOK_permute (cfg : Config) (σ : Equiv.Perm (Fin 4)) (ray : Ray8) (tri : Triangle4)
    (k : Fin 4) (l : Fin 8) :
    nearOK cfg ray (tri.permute σ) k l ↔ nearOK cfg ray tri (σ k) l := Iff.rfl

/-- What the unfiltered block intersector does to an enabled lane on a left-packed block is
determined by the set of valid triangles up to the choice among triangles accepted at the
same distance: two results for the same set of triangles have the same `tfar`, and are
equal when no two accepted triangles of the set have the same distance. -/
theorem improves_unique (cfg : Config) (ray : Ray8) (l : Fin 8) (tri : Triangle4)
    (h F G : LaneHit)
    (a : Improves cfg ray l (fun tri1 i1 => tri1 = tri ∧ tri.valid i1 = true) true h F)
    (hG_le : G.tfar ≤ h.tfar)
    (hG_best : ∀ k, tri.valid k = true → nearOK cfg ray tri k l →
      G.tfar ≤ Dist.fin (hitT ray tri k l))
    (hG_att : G = h ∨ ∃ k, tri.valid k = true ∧ nearOK cfg ray tri k l ∧
      Dist.fin (hitT ray tri k l) ≤ h.tfar ∧ G = hitLane ray tri k l)
    (hG_hit : ∀ k, tri.valid k = true → nearOK cfg ray tri k l →
      Dist.fin (hitT ray tri k l) ≤ h.tfar →
      ∃ k1, tri.valid k1 = true ∧ nearOK cfg ray tri k1 l ∧
        Dist.fin (hitT ray tri k1 l) ≤ h.tfar ∧ G = hitLane ray tri k1 l) :
    G.tfar = F.tfar ∧
    ((∀ j k, tri.valid j = true → tri.valid k = true → nearOK cfg ray tri j l →
        nearOK cfg ray tri k l → Dist.fin (hitT ray tri j l) ≤ h.tfar →
        Dist.fin (hitT ray tri k l) ≤ h.tfar →
        hitT ray tri j l = hitT ray tri k l → j = k) → G = F) := by
  have htf : G.tfar = F.tfar := by
    apply le_antisymm
    · rcases a.attained with h1 | ⟨-, tri1, k, ⟨rfl, hk⟩, hok, -, h1⟩
      · rw [h1]; exact hG_le
      · rw [h1]; exact hG_best k hk hok
    · rcases hG_att with h1 | ⟨k, hk, hok, -, h1⟩
      · rw [h1]; exact a.le
      · rw [h1]; exact a.best rfl tri k ⟨rfl, hk⟩ hok
  refine ⟨htf, ?_⟩
  intro hties
  by_cases hex : ∃ k, tri.valid k = true ∧ nearOK cfg ray tri k l ∧
      Dist.fin (hitT ray tri k l) ≤ h.tfar
  · obtain ⟨k, hk, hok, hle⟩ := hex
    obtain ⟨tri1, k1, ⟨rfl, hk1⟩, hok1, hle1, hF⟩ := a.hit rfl tri k ⟨rfl, hk⟩ hok hle
    obtain ⟨k2, hk2, hok2, hle2, hG⟩ := hG_hit k hk hok hle
    have e : Dist.fin (hitT ray tri1 k2 l) = Dist.fin (hitT ray tri1 k1 l) := by
      have := htf
      rw [hF, hG] at this
      exact this
    have e1 : hitT ray tri1 k2 l = hitT ray tri1 k1 l := Dist.fin.inj e
    have := hties k2 k1 hk2 hk1 hok2 hok1 hle2 hle1 e1
    rw [hG, hF, this]
  · have hF : F = h := by
      rcases a.attained with h1 | ⟨-, tri1, k, ⟨rfl, hk⟩, hok, hle, -⟩
      · exact h1
      · exact absurd ⟨k, hk, hok, hle⟩ hex
    have hG : G = h := by
      rcases hG_att with h1 | ⟨k, hk, hok, hle, -⟩
      · exact h1
      · exact absurd ⟨k, hk, hok, hle⟩ hex
    rw [hF, hG]

end Triangle4Intersector8MoellerTrumbore

/-- C10, as stated, fails: the block `tieTri` holds two valid triangles that lane 0 meets at
the same distance `t = 1`; the depth test `absDen*tfar >= T` lets the later one overwrite
the earlier one, so the block records `primID = 11` and the block with the two triangles
exchanged records `primID = 10`. -/
theorem C10_counterexample :
    (Triangle4Intersector8MoellerTrumbore.intersect exCfg false (fun _ => true) axisRay tieTri
      exScene).primID 0 = 11 ∧
    (Triangle4Intersector8MoellerTrumbore.intersect exCfg false (fun _ => true) axisRay
      (tieTri.permute (Equiv.swap 0 1)) exScene).primID 0 = 10 ∧
    (Triangle4Intersector8MoellerTrumbore.intersect exCfg false (fun _ => true) axisRay
      (tieTri.permute (Equiv.swap 0 1)) exScene).lane 0 ≠
    (Triangle4Intersector8MoellerTrumbore.intersect exCfg false (fun _ => true) axisRay tieTri
      exScene).lane 0 := by
  refine ⟨by decide!, by decide!, by decide!⟩

/-- C10, amended. For a block and a permutation of its four triangles (with their
`geomID`, `primID`, validity) such that the valid triangles are left-packed before and
after, and for every ray packet, mask and lane: the unfiltered block intersector produces
the same `tfar` in the lane for the permuted block as for the original block; and it
produces identical values in every output field of the lane when no two different valid
triangles of the block are accepted for the lane at the same distance. -/
theorem C10_permutation_invariance (cfg : Config) (valid_i : avxb) (ray : Ray8)
    (tri : Triangle4) (scene : Scene) (l : Fin 8) (σ : Equiv.Perm (Fin 4))
    (hp : Triangle4Intersector8MoellerTrumbore.leftPacked tri)
    (hq : Triangle4Intersector8MoellerTrumbore.leftPacked (tri.permute σ)) :
    (Triangle4Intersector8MoellerTrumbore.intersect cfg false valid_i ray (tri.permute σ)
        scene).tfar l =
      (Triangle4Intersector8MoellerTrumbore.intersect cfg false valid_i ray tri scene).tfar l ∧
    ((∀ j k, tri.valid j = true → tri.valid k = true →
        Triangle4Intersector8MoellerTrumbore.accepts cfg ray tri j l = true →
        Triangle4Intersector8MoellerTrumbore.accepts cfg ray tri k l = true →
        Triangle4Intersector8MoellerTrumbore.hitT ray tri j l =
          Triangle4Intersector8MoellerTrumbore.hitT ray tri k l → j = k) →
      (Triangle4Intersector8MoellerTrumbore.intersect cfg false valid_i ray (tri.permute σ)
          scene).lane l =
        (Triangle4Intersector8MoellerTrumbore.intersect cfg false valid_i ray tri scene).lane
          l) := by
  by_cases hv : valid_i l = true
  · have a := Triangle4Intersector8MoellerTrumbore.block_improves cfg valid_i ray tri scene l
      hp hv
    have b := Triangle4Intersector8MoellerTrumbore.block_improves cfg valid_i ray
      (tri.permute σ) scene l hq hv
    have hval : ∀ k, (tri.permute σ).valid (σ.symm k) = tri.valid k := by
      intro k
      show tri.valid (σ (σ.symm k)) = tri.valid k
      rw [Equiv.apply_symm_apply]
    have key := Triangle4Intersector8MoellerTrumbore.improves_unique cfg ray l tri
      (ray.lane l) _ _ a b.le
      (by
        intro k hk hok
        have := b.best rfl (tri.permute σ) (σ.symm k) ⟨rfl, (hval k).trans hk⟩
          (by
            rw [Triangle4Intersector8MoellerTrumbore.nearOK_permute, Equiv.apply_symm_apply]
            exact hok)
        rw [Triangle4Intersector8MoellerTrumbore.hitT_permute, Equiv.apply_symm_apply] at this
        exact this)
      (by
        rcases b.attained with h1 | ⟨-, tri1, k, ⟨rfl, hk⟩, hok, hle, h1⟩
        · exact Or.inl h1
        · exact Or.inr ⟨σ k, hk, hok, hle, h1⟩)
      (by
        intro k hk hok hle
        obtain ⟨tri1, k1, ⟨rfl, hk1⟩, hok1, hle1, h1⟩ :=
          b.hit rfl (tri.permute σ) (σ.symm k) ⟨rfl, (hval k).trans hk⟩
            (by
              rw [Triangle4Intersector8MoellerTrumbore.nearOK_permute,
                Equiv.apply_symm_apply]
              exact hok)
            (by
              rw [Triangle4Intersector8MoellerTrumbore.hitT_permute, Equiv.apply_symm_apply]
              exact hle)
        exact ⟨σ k1, hk1, hok1, hle1, h1⟩)
    refine ⟨key.1, ?_⟩
    intro hties
    apply key.2
    intro j k hj hk hokj hokk hlej hlek e
    exact hties j k hj hk
      ((Triangle4Intersector8MoellerTrumbore.accepts_iff _ _ _ _ _).2 ⟨hokj, hlej⟩)
      ((Triangle4Intersector8MoellerTrumbore.accepts_iff _ _ _ _ _).2 ⟨hokk, hlek⟩) e
  · rw [Bool.not_eq_true] at hv
    have a := Triangle4Intersector8MoellerTrumbore.intersect_improves cfg valid_i ray ray tri
      scene l (Triangle4Intersector8MoellerTrumbore.sameInput_refl _ _)
    have b := Triangle4Intersector8MoellerTrumbore.intersect_improves cfg valid_i ray ray
      (tri.permute σ) scene l (Triangle4Intersector8MoellerTrumbore.sameInput_refl _ _)
    rw [hv] at a b
    have ha := a.eq_of_disabled
    have hb := b.eq_of_disabled
    exact ⟨(congrArg LaneHit.tfar hb).trans (congrArg LaneHit.tfar ha).symm, fun _ =>
      hb.trans ha.symm⟩

/-- C10 amended, on the block of scenario 3 and the exchange of its two triangles: both
orders are left-packed, the two triangles are met at different distances, and both orders
give lane 0 the hit at `z = 1` with `primID = 21`. -/
theorem C10_permutation_invariance_witness :
    Triangle4Intersector8MoellerTrumbore.leftPacked stackTri ∧
    Triangle4Intersector8MoellerTrumbore.leftPacked (stackTri.permute (Equiv.swap 0 1)) ∧
    (∀ j k, stackTri.valid j = true → stackTri.valid k = true →
        Triangle4Intersector8MoellerTrumbore.accepts exCfg axisRay stackTri j 0 = true →
        Triangle4Intersector8MoellerTrumbore.accepts exCfg axisRay stackTri k 0 = true →
        Triangle4Intersector8MoellerTrumbore.hitT axisRay stackTri j 0 =
          Triangle4Intersector8MoellerTrumbore.hitT axisRay stackTri k 0 → j = k) ∧
    (Triangle4Intersector8MoellerTrumbore.intersect exCfg false (fun _ => true) axisRay
      stackTri exScene).primID 0 = 21 ∧
    (Triangle4Intersector8MoellerTrumbore.intersect exCfg false (fun _ => true) axisRay
        (stackTri.permute (Equiv.swap 0 1)) exScene).tfar 0 =
      (Triangle4Intersector8MoellerTrumbore.intersect exCfg false (fun _ => true) axisRay
        stackTri exScene).tfar 0 ∧
    (Triangle4Intersector8MoellerTrumbore.intersect exCfg false (fun _ => true) axisRay
        (stackTri.permute (Equiv.swap 0 1)) exScene).lane 0 =
      (Triangle4Intersector8MoellerTrumbore.intersect exCfg false (fun _ => true) axisRay
        stackTri exScene).lane 0 :=
  ⟨by unfold Triangle4Intersector8MoellerTrumbore.leftPacked; decide,
    by unfold Triangle4Intersector8MoellerTrumbore.leftPacked; decide,
    by decide!, by decide!,
    (C10_permutation_invariance exCfg (fun _ => true) axisRay stackTri exScene 0
      (Equiv.swap 0 1)
      (by unfold Triangle4Intersector8MoellerTrumbore.leftPacked; decide)
      (by unfold Triangle4Intersector8MoellerTrumbore.leftPacked; decide)).1,
    (C10_permutation_invariance exCfg (fun _ => true) axisRay stackTri exScene 0
      (Equiv.swap 0 1)
      (by unfold Triangle4Intersector8MoellerTrumbore.leftPacked; decide)
      (by unfold Triangle4Intersector8MoellerTrumbore.leftPacked; decide)).2 (by decide!)⟩

/-! ## Parallel rays and reversed rays: C11, C12 -/

namespace Triangle4Intersector8MoellerTrumbore

/-- When the intersection filter is not invoked for triangle `i`, the loop iteration is the
one of the instantiation without filter. -/
theorem intersectOne_noFilter (cfg : Config) (eif : Bool) (valid_i : avxb) (ray : Ray8)
    (tri : Triangle4) (i : Fin 4) (scene : Scene)
    (hf : (cfg.RTCORE_INTERSECTION_FILTER && eif &&
      scene.hasIntersectionFilter8 (tri.geomID i)) = false) :
    intersectOne cfg eif valid_i ray tri i scene = intersectOne cfg false valid_i ray tri i scene := by
  unfold intersectOne
  simp only [hf, Bool.and_false, Bool.false_and, Bool.false_eq_true, if_false]

/-- A lane with `den = 0` fails the test on `den`, with and without back-face culling. -/
theorem cullMask_of_den_zero (cfg : Config) (valid_i : avxb) (ray : Ray8) (tri : Triangle4)
    (i : Fin 4) (l : Fin 8) (hden : laneDen ray tri i l = 0) :
    cullMask cfg valid_i ray tri i l = false := by
  have hd : dot (broadcast8f tri.Ng i) ray.dir l = 0 := hden
  unfold cullMask
  split <;> simp [hd]

end Triangle4Intersector8MoellerTrumbore

open Triangle4Intersector8MoellerTrumbore in
/-- C11. For every triangle `i` of a block and every lane `l` with
`den = dot(Ng, dir) = 0`, in every configuration (with and without back-face culling, ray
mask, intersection filter): the mask after the test on `den` and the mask at the writeback
(which is also the mask handed to an intersection filter) are false in lane `l`; when no
filter is invoked, the loop iteration for the triangle leaves every field of the lane as it
was; and the whole call of the unfiltered `intersect` leaves the output fields of the lane
as they were when every triangle the loop visits has `den = 0` in that lane. -/
theorem C11_parallel_rejected (cfg : Config) (eif : Bool) (valid_i : avxb) (ray : Ray8)
    (tri : Triangle4) (i : Fin 4) (scene : Scene) (l : Fin 8)
    (hden : laneDen ray tri i l = 0) :
    cullMask cfg valid_i ray tri i l = false ∧
    finalMask cfg valid_i ray tri i l = false ∧
    ((cfg.RTCORE_INTERSECTION_FILTER && eif &&
        scene.hasIntersectionFilter8 (tri.geomID i)) = false →
      (intersectOne cfg eif valid_i ray tri i scene).lane l = ray.lane l ∧
      (intersectOne cfg eif valid_i ray tri i scene).sameInput ray l ∧
      (intersectOne cfg eif valid_i ray tri i scene).time l = ray.time l) ∧
    ((∀ j ∈ visited tri, laneDen ray tri j l = 0) →
      (intersect cfg false valid_i ray tri scene).lane l = ray.lane l) := by
  have hc := cullMask_of_den_zero cfg valid_i ray tri i l hden
  have hm : finalMask cfg valid_i ray tri i l = false := by
    cases h : finalMask cfg valid_i ray tri i l
    · rfl
    · rw [finalMask_le_cull cfg _ _ _ _ _ h] at hc
      exact Bool.noConfusion hc
  refine ⟨hc, hm, ?_, ?_⟩
  · intro hf
    rw [intersectOne_noFilter cfg eif valid_i ray tri i scene hf]
    refine ⟨?_, intersectOne_sameInput cfg valid_i ray tri i scene l, ?_⟩
    · rw [intersectOne_lane, if_neg (by rw [hm]; exact Bool.false_ne_true)]
    · rw [intersectOne_eq_update]
      rfl
  · intro hall
    rcases (intersect_improves cfg valid_i ray ray tri scene l
      (sameInput_refl _ _)).attained with h | ⟨-, tri1, i1, ⟨rfl, hi1⟩, hok, -, -⟩
    · exact h
    · exact absurd (hall i1 hi1) (nearOK_den_ne cfg ray tri1 i1 l hok)

/-- C11 on the degenerate block `degTri` (`e1 = e2`, `Ng = 0`) and the packet of scenario 1,
with and without back-face culling: lane 0 is rejected and the call writes nothing. -/
theorem C11_parallel_rejected_witness :
    Triangle4Intersector8MoellerTrumbore.laneDen axisRay degTri 0 0 = 0 ∧
    Triangle4Intersector8MoellerTrumbore.finalMask ⟨true, false, false⟩ (fun _ => true) axisRay
      degTri 0 0 = false ∧
    Triangle4Intersector8MoellerTrumbore.finalMask ⟨false, false, false⟩ (fun _ => true) axisRay
      degTri 0 0 = false ∧
    (Triangle4Intersector8MoellerTrumbore.intersect ⟨true, false, false⟩ false (fun _ => true)
      axisRay degTri exScene).lane 0 = axisRay.lane 0 ∧
    (Triangle4Intersector8MoellerTrumbore.intersect ⟨false, false, false⟩ false (fun _ => true)
      axisRay degTri exScene).lane 0 = axisRay.lane 0 := by
  have hd : Triangle4Intersector8MoellerTrumbore.laneDen axisRay degTri 0 0 = 0 := by
    simp [Triangle4Intersector8MoellerTrumbore.laneDen, dot, broadcast8f, degTri, axisRay]
  have hall : ∀ j ∈ Triangle4Intersector8MoellerTrumbore.visited degTri,
      Triangle4Intersector8MoellerTrumbore.laneDen axisRay degTri j 0 = 0 := by
    intro j _
    simp [Triangle4Intersector8MoellerTrumbore.laneDen, dot, broadcast8f, degTri, axisRay]
  exact ⟨hd,
    (C11_parallel_rejected ⟨true, false, false⟩ false (fun _ => true) axisRay degTri 0 exScene 0
      hd).2.1,
    (C11_parallel_rejected ⟨false, false, false⟩ false (fun _ => true) axisRay degTri 0 exScene 0
      hd).2.1,
    (C11_parallel_rejected ⟨true, false, false⟩ false (fun _ => true) axisRay degTri 0 exScene 0
      hd).2.2.2 hall,
    (C11_parallel_rejected ⟨false, false, false⟩ false (fun _ => true) axisRay degTri 0 exScene 0
      hd).2.2.2 hall⟩

theorem Dist.neg_le_swap (a b : Dist) : a.neg ≤ b.neg ↔ b ≤ a := by
  cases a <;> cases b <;>
    first
      | exact ⟨fun _ => trivial, fun _ => trivial⟩
      | exact ⟨fun h => absurd h (fun h => h), fun h => absurd h (fun h => h)⟩
      | exact (neg_le_neg_iff : (-_ : ℚ) ≤ -_ ↔ _)

namespace Triangle4Intersector8MoellerTrumbore

theorem laneDen_reverse (ray : Ray8) (tri : Triangle4) (i : Fin 4) (l : Fin 8) :
    laneDen ray.reverse tri i l = -laneDen ray tri i l := by
  simp only [laneDen, dot, broadcast8f, Ray8.reverse]
  ring

theorem hitU_reverse (ray : Ray8) (tri : Triangle4) (i : Fin 4) (l : Fin 8) :
    hitU ray.reverse tri i l = hitU ray tri i l := by
  rw [hitU_eq, hitU_eq, laneDen_reverse, inv_neg]
  simp only [dot, cross, broadcast8f, avx3f.sub, Ray8.reverse]
  ring

theorem hitV_reverse (ray : Ray8) (tri : Triangle4) (i : Fin 4) (l : Fin 8) :
    hitV ray.reverse tri i l = hitV ray tri i l := by
  rw [hitV_eq, hitV_eq, laneDen_reverse, inv_neg]
  simp only [dot, cross, broadcast8f, avx3f.sub, Ray8.reverse]
  ring

theorem hitT_reverse (ray : Ray8) (tri : Triangle4) (i : Fin 4) (l : Fin 8) :
    hitT ray.reverse tri i l = -hitT ray tri i l := by
  rw [hitT_eq, hitT_eq, laneDen_reverse, inv_neg]
  simp only [dot, broadcast8f, avx3f.sub, Ray8.reverse]
  ring

/-- Without back-face culling the reversed ray is accepted exactly when the ray is. -/
theorem finalMask_reverse (cfg : Config) (hb : cfg.RTCORE_BACKFACE_CULLING = false)
    (valid_i : avxb) (ray : Ray8) (tri : Triangle4) (i : Fin 4) (l : Fin 8) :
    finalMask cfg valid_i ray.reverse tri i l = finalMask cfg valid_i ray tri i l := by
  have h1 : ray.reverse.tnear l ≤ Dist.fin (hitT ray.reverse tri i l) ↔
      Dist.fin (hitT ray tri i l) ≤ ray.tfar l := by
    rw [hitT_reverse]
    exact Dist.neg_le_swap (ray.tfar l) (Dist.fin (hitT ray tri i l))
  have h2 : Dist.fin (hitT ray.reverse tri i l) ≤ ray.reverse.tfar l ↔
      ray.tnear l ≤ Dist.fin (hitT ray tri i l) := by
    rw [hitT_reverse]
    exact Dist.neg_le_swap (Dist.fin (hitT ray tri i l)) (ray.tnear l)
  have hm : ray.reverse.mask l = ray.mask l := rfl
  rw [Bool.eq_iff_iff, finalMask_iff, finalMask_iff]
  simp only [nearOK, hb, Bool.false_eq_true, if_false, laneDen_reverse, hitU_reverse,
    hitV_reverse, h1, h2, hm, ne_eq, neg_eq_zero]
  tauto

end Triangle4Intersector8MoellerTrumbore

open Triangle4Intersector8MoellerTrumbore in
/-- C12. In exact arithmetic, for every triangle `i` of a block, every lane `l` and every
mask: with back-face culling disabled the lane is accepted for the reversed ray
`(org, -dir, [-tfar, -tnear])` if and only if it is accepted for the ray
`(org, dir, [tnear, tfar])`, and for an accepted lane the test computes the same `u` and
`v` and the negated `t`, which is what the loop iteration writes to the lane; with back-face
culling enabled no lane is accepted for both the ray and its reversal. -/
theorem C12_reversal (cfg : Config) (valid_i : avxb) (ray : Ray8) (tri : Triangle4)
    (i : Fin 4) (scene : Scene) (l : Fin 8) :
    (cfg.RTCORE_BACKFACE_CULLING = false →
      finalMask cfg valid_i ray.reverse tri i l = finalMask cfg valid_i ray tri i l ∧
      (finalMask cfg valid_i ray tri i l = true →
        hitU ray.reverse tri i l = hitU ray tri i l ∧
        hitV ray.reverse tri i l = hitV ray tri i l ∧
        hitT ray.reverse tri i l = -hitT ray tri i l ∧
        (intersectOne cfg false valid_i ray.reverse tri i scene).u l =
          (intersectOne cfg false valid_i ray tri i scene).u l ∧
        (intersectOne cfg false valid_i ray.reverse tri i scene).v l =
          (intersectOne cfg false valid_i ray tri i scene).v l ∧
        (intersectOne cfg false valid_i ray.reverse tri i scene).tfar l =
          ((intersectOne cfg false valid_i ray tri i scene).tfar l).neg)) ∧
    (cfg.RTCORE_BACKFACE_CULLING = true →
      ¬ (finalMask cfg valid_i ray tri i l = true ∧
         finalMask cfg valid_i ray.reverse tri i l = true)) := by
  constructor
  · intro hb
    have hm := finalMask_reverse cfg hb valid_i ray tri i l
    refine ⟨hm, fun ha => ?_⟩
    have hr : finalMask cfg valid_i ray.reverse tri i l = true := by rw [hm]; exact ha
    have e1 := intersectOne_lane cfg valid_i ray tri i scene l
    have e2 := intersectOne_lane cfg valid_i ray.reverse tri i scene l
    rw [if_pos ha] at e1
    rw [if_pos hr] at e2
    refine ⟨hitU_reverse ray tri i l, hitV_reverse ray tri i l, hitT_reverse ray tri i l,
      ?_, ?_, ?_⟩
    · have a1 := congrArg LaneHit.u e1
      have a2 := congrArg LaneHit.u e2
      simp only [Ray8.lane, hitLane] at a1 a2
      rw [a1, a2, hitU_reverse]
    · have a1 := congrArg LaneHit.v e1
      have a2 := congrArg LaneHit.v e2
      simp only [Ray8.lane, hitLane] at a1 a2
      rw [a1, a2, hitV_reverse]
    · have a1 := congrArg LaneHit.tfar e1
      have a2 := congrArg LaneHit.tfar e2
      simp only [Ray8.lane, hitLane] at a1 a2
      rw [a1, a2, hitT_reverse]
      rfl
  · rintro hb ⟨h1, h2⟩
    have d1 := ((finalMask_iff cfg valid_i ray tri i l).1 h1).2.1.1
    have d2 := ((finalMask_iff cfg valid_i ray.reverse tri i l).1 h2).2.1.1
    rw [if_pos hb] at d1 d2
    rw [laneDen_reverse] at d2
    linarith

/-- C12 on the block and the packet of scenario 1: without culling the triangle at `t = 1`
is accepted for the reversed ray `(org, -dir, [-∞, 0])` and the iteration writes `t = -1`
with the same `u`; with culling the ray itself is culled (`den < 0`), its reversal is
accepted, and so not both are. -/
theorem C12_reversal_witness :
    Triangle4Intersector8MoellerTrumbore.finalMask exCfg (fun _ => true) axisRay unitTri 0 0
      = true ∧
    Triangle4Intersector8MoellerTrumbore.finalMask exCfg (fun _ => true) axisRay.reverse
      unitTri 0 0 = true ∧
    (Triangle4Intersector8MoellerTrumbore.intersectOne exCfg false (fun _ => true)
      axisRay.reverse unitTri 0 exScene).tfar 0 = Dist.fin (-1) ∧
    (Triangle4Intersector8MoellerTrumbore.intersectOne exCfg false (fun _ => true)
      axisRay.reverse unitTri 0 exScene).u 0 =
      (Triangle4Intersector8MoellerTrumbore.intersectOne exCfg false (fun _ => true)
        axisRay unitTri 0 exScene).u 0 ∧
    Triangle4Intersector8MoellerTrumbore.finalMask ⟨true, false, false⟩ (fun _ => true)
      axisRay.reverse unitTri 0 0 = true ∧
    ¬ (Triangle4Intersector8MoellerTrumbore.finalMask ⟨true, false, false⟩ (fun _ => true)
        axisRay unitTri 0 0 = true ∧
       Triangle4Intersector8MoellerTrumbore.finalMask ⟨true, false, false⟩ (fun _ => true)
        axisRay.reverse unitTri 0 0 = true) := by
  have ha : Triangle4Intersector8MoellerTrumbore.finalMask exCfg (fun _ => true) axisRay
      unitTri 0 0 = true := by decide!
  have h := (C12_reversal exCfg (fun _ => true) axisRay unitTri 0 exScene 0).1 rfl
  refine ⟨ha, by rw [h.1]; exact ha, by decide!, (h.2 ha).2.2.2.1, by decide!,
    (C12_reversal ⟨true, false, false⟩ (fun _ => true) axisRay unitTri 0 exScene 0).2 rfl⟩

/-! ## Degenerate intervals and the empty tree: C13, C14 -/

theorem slantBVH_wellFormed : BVH4.WellFormed slantBVH slantBVH.root 1 := by
  refine BVH4.WellFormed.node ⟨16⟩ 0 (by decide) (by decide) ?_ ?_
  · intro c hc
    have h0 : slantNode.children c = ⟨41⟩ := by
      revert hc; fin_cases c <;> decide
    show BVH4.WellFormed slantBVH (slantNode.children c) 0
    rw [h0]
    refine BVH4.WellFormed.leaf ⟨41⟩ 0 (by decide) (by decide) (by decide) ?_
    intro j _
    refine ⟨?_, ?_⟩
    · show Triangle4Intersector8MoellerTrumbore.leftPacked slantTri
      unfold Triangle4Intersector8MoellerTrumbore.leftPacked
      decide
    · intro i _
      show slantTri.normalOK i
      norm_num [Triangle4.normalOK, slantTri]
  · intro c hc tri i hb
    have h0 : slantNode.children c = ⟨41⟩ := by
      revert hc; fin_cases c <;> decide
    have hb1 : BVH4.Beneath slantBVH ⟨41⟩ tri i := by rw [← h0]; exact hb
    obtain ⟨j, -, rfl, hv⟩ := BVH4.Beneath.of_leaf hb1 (by decide)
    have hi : i = 0 := of_decide_eq_true hv
    subst hi
    show slantNode.contains c slantTri 0
    norm_num [Node.contains, slantNode, slantTri]

namespace BVH4Intersector8Chunk

open Triangle4Intersector8MoellerTrumbore

/-- The pop of the sentinel from the bottom of the stack ends the traversal. -/
theorem step_pop_invalid (k : Kernel) (su : Setup) (bvh : BVH4) (ray : Ray8)
    (ray_tfar curDist : avxd) :
    step k su bvh ⟨ray, ray_tfar, [(BVH4.invalidNode, curDist)], Control.pop⟩ =
      Step.done ray := by
  unfold step
  simp only []
  exact (if_pos trivial).trans rfl

/-- The pop of `invalidNode` from above the bottom of the stack fails the assertion
`sptr_node == stack_node`. -/
theorem step_pop_invalid_fault (k : Kernel) (su : Setup) (bvh : BVH4) (ray : Ray8)
    (ray_tfar curDist : avxd) (rest : List (NodeRef × avxd)) (hst : rest.isEmpty = false) :
    step k su bvh ⟨ray, ray_tfar, (BVH4.invalidNode, curDist) :: rest, Control.pop⟩ =
      Step.fault Fault.stackNotEmpty := by
  unfold step
  simp only []
  refine (if_pos trivial).trans ?_
  rw [hst]
  rfl

/-- The pop of an entry that no lane can improve on drops the entry. -/
theorem step_pop_cull (k : Kernel) (su : Setup) (bvh : BVH4) (ray : Ray8)
    (ray_tfar curDist : avxd) (cur : NodeRef) (rest : List (NodeRef × avxd))
    (hinv : cur ≠ BVH4.invalidNode)
    (hc : none (fun l => decide (ray_tfar l > curDist l)) = true) :
    step k su bvh ⟨ray, ray_tfar, (cur, curDist) :: rest, Control.pop⟩ =
      Step.next ⟨ray, ray_tfar, rest, Control.pop⟩ := by
  unfold step
  simp only []
  rw [if_neg hinv, if_pos hc]

/-- When no active lane has `tnear < tfar` and the root is not `invalidNode`, the root is
culled at the first pop, the traversal ends with the pop of the sentinel, and returns the
packet as it was. -/
theorem intersect_of_empty_intervals (k : Kernel) (valid_i : avxb) (bvh : BVH4) (ray : Ray8)
    (hr : bvh.root ≠ BVH4.invalidNode)
    (h : ∀ m, valid_i m = true → ray.tfar m ≤ ray.tnear m) (fuel : Nat) :
    intersect k (fuel + 2) valid_i bvh ray = Except.ok ray := by
  have hc : none (fun l => decide (select valid_i ray.tfar (fun _ => Dist.neg_inf) l >
      (setup k valid_i ray).ray_tnear l)) = true := by
    rw [none_iff]
    intro m
    show decide (select valid_i ray.tfar (fun _ => Dist.neg_inf) m >
      select valid_i ray.tnear (fun _ => Dist.pos_inf) m) = false
    apply decide_eq_false
    unfold select
    by_cases hv : valid_i m = true
    · rw [if_pos hv, if_pos hv]; exact not_lt.2 (h m hv)
    · rw [if_neg hv, if_neg hv]; exact Dist.not_lt_neg_inf _
  unfold intersect
  rw [run_succ]
  have h1 : step k (setup k valid_i ray) bvh (init k valid_i bvh ray) =
      Step.next ⟨ray, select valid_i ray.tfar (fun _ => Dist.neg_inf),
        [(BVH4.invalidNode, fun _ => Dist.pos_inf)], Control.pop⟩ :=
    step_pop_cull k _ bvh ray _ _ bvh.root _ hr hc
  rw [h1]
  show run k _ bvh (fuel + 1) _ = _
  rw [run_succ, step_pop_invalid]

/-- When no active lane has `tnear < tfar`, no leaf is handed to the primitive intersector,
whatever the root is. -/
theorem dispatched_of_empty_intervals (k : Kernel) (valid_i : avxb) (bvh : BVH4) (ray : Ray8)
    (h : ∀ m, valid_i m = true → ray.tfar m ≤ ray.tnear m) (fuel : Nat) :
    dispatched k fuel valid_i bvh ray = [] := by
  have hc : none (fun l => decide (select valid_i ray.tfar (fun _ => Dist.neg_inf) l >
      (setup k valid_i ray).ray_tnear l)) = true := by
    rw [none_iff]
    intro m
    show decide (select valid_i ray.tfar (fun _ => Dist.neg_inf) m >
      select valid_i ray.tnear (fun _ => Dist.pos_inf) m) = false
    apply decide_eq_false
    unfold select
    by_cases hv : valid_i m = true
    · rw [if_pos hv, if_pos hv]; exact not_lt.2 (h m hv)
    · rw [if_neg hv, if_neg hv]; exact Dist.not_lt_neg_inf _
  unfold dispatched
  cases fuel with
  | zero => rfl
  | succ n =>
    unfold trace
    by_cases hr : bvh.root = BVH4.invalidNode
    · have hs : step k (setup k valid_i ray) bvh (init k valid_i bvh ray) =
          Step.fault Fault.stackNotEmpty := by
        show step k _ bvh ⟨ray, _, (bvh.root, _) :: _, Control.pop⟩ = _
        rw [hr]
        exact step_pop_invalid_fault _ _ _ _ _ _ _ rfl
      rw [hs]
      rfl
    · have h1 : step k (setup k valid_i ray) bvh (init k valid_i bvh ray) =
          Step.next ⟨ray, select valid_i ray.tfar (fun _ => Dist.neg_inf),
            [(BVH4.invalidNode, fun _ => Dist.pos_inf)], Control.pop⟩ :=
        step_pop_cull k _ bvh ray _ _ bvh.root _ hr hc
      rw [h1]
      cases n with
      | zero => rfl
      | succ m =>
        show List.filter _ ([] ++ trace k _ bvh (m + 1) _) = []
        unfold trace
        rw [step_pop_invalid]
        rfl

/-- The unfiltered kernel preserves, at every leaf, that the lane has the input fields of
the packet on entry, a `tfar` not above the one on entry, and output fields that are
untouched or those of a triangle that the test accepts on the packet on entry. -/
theorem leaf_keeps_accepted (cfg : Config) (avx2 : Bool) (rcp_safe : ℚ → ℚ) (bvh : BVH4)
    (ray : Ray8) (l : Fin 8) (ray1 : Ray8) (ray_tfar curDist : avxd) (prim : Nat → Triangle4)
    (items : Nat)
    (hP : ray1.sameInput ray l ∧ ray1.tfar l ≤ ray.tfar l ∧
      (ray1.lane l = ray.lane l ∨
        ∃ tri i, accepts cfg ray tri i l = true ∧ ray1.lane l = hitLane ray tri i l)) :
    ((BVH4Triangle4Intersector8ChunkMoellerNoFilter cfg avx2 rcp_safe).primIntersect
        (fun l => decide (ray_tfar l > curDist l)) ray1 prim items bvh.scene).sameInput ray l ∧
    ((BVH4Triangle4Intersector8ChunkMoellerNoFilter cfg avx2 rcp_safe).primIntersect
        (fun l => decide (ray_tfar l > curDist l)) ray1 prim items bvh.scene).tfar l ≤
      ray.tfar l ∧
    (((BVH4Triangle4Intersector8ChunkMoellerNoFilter cfg avx2 rcp_safe).primIntersect
        (fun l => decide (ray_tfar l > curDist l)) ray1 prim items bvh.scene).lane l =
        ray.lane l ∨
      ∃ tri i, accepts cfg ray tri i l = true ∧
        ((BVH4Triangle4Intersector8ChunkMoellerNoFilter cfg avx2 rcp_safe).primIntersect
          (fun l => decide (ray_tfar l > curDist l)) ray1 prim items bvh.scene).lane l =
          hitLane ray tri i l) := by
  obtain ⟨hs, hle, hat⟩ := hP
  have himp := primIntersect_improves cfg avx2 rcp_safe
    (fun l => decide (ray_tfar l > curDist l)) ray1 prim items bvh.scene l
  have hsame : ((BVH4Triangle4Intersector8ChunkMoellerNoFilter cfg avx2 rcp_safe).primIntersect
      (fun l => decide (ray_tfar l > curDist l)) ray1 prim items bvh.scene).sameInput ray1 l := by
    rw [primIntersect_noFilter]
    exact LeafIterator8.leaf_sameInput cfg _ prim bvh.scene l items ray1
  refine ⟨sameInput_trans hsame hs, le_trans himp.le hle, ?_⟩
  rcases himp.attained with h1 | ⟨-, tri, i, -, hok, h2, h3⟩
  · rcases hat with hp | ⟨tri, i, ha, hp⟩
    · exact Or.inl (h1.trans hp)
    · exact Or.inr ⟨tri, i, ha, h1.trans hp⟩
  · refine Or.inr ⟨tri, i, ?_, ?_⟩
    · rw [accepts_iff]
      refine ⟨(nearOK_congr cfg hs tri i).1 hok, ?_⟩
      rw [← hitT_congr hs tri i]
      exact le_trans h2 hle
    · rw [h3]; exact hitLane_congr hs tri i

/-- What the preserved property says of a lane with `tnear = tfar`. -/
theorem pinned_of_accepted (cfg : Config) (ray r1 : Ray8) (l : Fin 8)
    (hpin : ray.tnear l = ray.tfar l)
    (hP : r1.lane l = ray.lane l ∨
        ∃ tri i, accepts cfg ray tri i l = true ∧ r1.lane l = hitLane ray tri i l) :
    r1.tfar l = ray.tfar l ∧
    (r1.lane l = ray.lane l ∨
      ∃ tri i, accepts cfg ray tri i l = true ∧
        Dist.fin (hitT ray tri i l) = ray.tfar l ∧ r1.lane l = hitLane ray tri i l) := by
  rcases hP with h | ⟨tri, i, ha, h⟩
  · exact ⟨congrArg LaneHit.tfar h, Or.inl h⟩
  · obtain ⟨hok, hle⟩ := (accepts_iff cfg ray tri i l).1 ha
    have ht : Dist.fin (hitT ray tri i l) = ray.tfar l :=
      le_antisymm hle (by rw [← hpin]; exact hok.2.2.2.2.2)
    exact ⟨(congrArg LaneHit.tfar h).trans ht, Or.inr ⟨tri, i, ha, ht, h⟩⟩

end BVH4Intersector8Chunk

/-- C13, as stated, fails: on the well-formed tree `slantBVH` (one inner node, one leaf,
one triangle) every lane of `pinRay` is active and lane 0 has `tnear = tfar = 1`; lane 1
keeps the root alive, the box of the leaf is entered at distance `0 < 1`, the leaf is
entered with lane 0 enabled, the closed depth test accepts the triangle at `t = 1`, and
the traversal returns with `geomID = 7`, `primID = 3` written to lane 0. -/
theorem C13_counterexample :
    BVH4.WellFormed slantBVH slantBVH.root 1 ∧
    pinRay.tnear 0 = pinRay.tfar 0 ∧
    ∃ r, BVH4Intersector8Chunk.intersect
        (BVH4Triangle4Intersector8ChunkMoellerNoFilter exCfg false (fun x => x⁻¹)) 10
        (fun _ => true) slantBVH pinRay = Except.ok r ∧
      r.geomID 0 = 7 ∧ r.primID 0 = 3 ∧ r.lane 0 ≠ pinRay.lane 0 := by
  obtain ⟨r, hr, h⟩ := ok_of_toOption_map
    (BVH4Intersector8Chunk.intersect
      (BVH4Triangle4Intersector8ChunkMoellerNoFilter exCfg false (fun x => x⁻¹)) 10
      (fun _ => true) slantBVH pinRay)
    (fun r => (r.geomID 0, r.primID 0)) (7, 3) (by decide!)
  have h1 : r.geomID 0 = 7 := congrArg Prod.fst h
  have h2 : r.primID 0 = 3 := congrArg Prod.snd h
  refine ⟨slantBVH_wellFormed, rfl, r, hr, h1, h2, ?_⟩
  intro hl
  have := congrArg LaneHit.geomID hl
  simp only [Ray8.lane] at this
  rw [h1] at this
  exact absurd this (by decide)

open Triangle4Intersector8MoellerTrumbore in
/-- C13, amended. For every BVH4, every ray packet and every lane `l` with
`tnear = tfar` on entry: in every state the traversal with the unfiltered Triangle4
intersector reaches, and in every packet it returns, the `tfar` of the lane is the one on
entry, and the output fields of the lane are those on entry or those of a triangle that the
test accepts on the packet on entry and meets exactly at the distance `tnear = tfar`; and
when `tfar ≤ tnear` holds in every active lane, the traversal (with any primitive
intersector) hands no leaf to the primitive intersector and, for a root other than
`invalidNode`, returns the packet as it was after at most two steps. -/
theorem C13_pinned_lane (cfg : Config) (avx2 : Bool) (rcp_safe : ℚ → ℚ)
    (valid_i : avxb) (bvh : BVH4) (ray : Ray8) (l : Fin 8)
    (hpin : ray.tnear l = ray.tfar l) :
    (∀ n s, BVH4Intersector8Chunk.reach
        (BVH4Triangle4Intersector8ChunkMoellerNoFilter cfg avx2 rcp_safe)
        (BVH4Intersector8Chunk.setup
          (BVH4Triangle4Intersector8ChunkMoellerNoFilter cfg avx2 rcp_safe) valid_i ray)
        bvh n
        (BVH4Intersector8Chunk.init
          (BVH4Triangle4Intersector8ChunkMoellerNoFilter cfg avx2 rcp_safe) valid_i bvh ray)
        = some s →
      s.ray.tfar l = ray.tfar l ∧
      (s.ray.lane l = ray.lane l ∨
        ∃ tri i, accepts cfg ray tri i l = true ∧
          Dist.fin (hitT ray tri i l) = ray.tfar l ∧ s.ray.lane l = hitLane ray tri i l)) ∧
    (∀ fuel r, BVH4Intersector8Chunk.intersect
        (BVH4Triangle4Intersector8ChunkMoellerNoFilter cfg avx2 rcp_safe) fuel valid_i bvh ray =
        Except.ok r →
      r.tfar l = ray.tfar l ∧
      (r.lane l = ray.lane l ∨
        ∃ tri i, accepts cfg ray tri i l = true ∧
          Dist.fin (hitT ray tri i l) = ray.tfar l ∧ r.lane l = hitLane ray tri i l)) ∧
    ((∀ m, valid_i m = true → ray.tfar m ≤ ray.tnear m) →
      ∀ (k : BVH4Intersector8Chunk.Kernel) (fuel : Nat),
        BVH4Intersector8Chunk.dispatched k fuel valid_i bvh ray = [] ∧
        (bvh.root ≠ BVH4.invalidNode →
          BVH4Intersector8Chunk.intersect k (fuel + 2) valid_i bvh ray = Except.ok ray)) := by
  refine ⟨?_, ?_, ?_⟩
  · intro n s h
    exact BVH4Intersector8Chunk.pinned_of_accepted cfg ray s.ray l hpin
      (BVH4Intersector8Chunk.reach_preserves _ _ bvh
        (fun r1 _ => r1.sameInput ray l ∧ r1.tfar l ≤ ray.tfar l ∧
          (r1.lane l = ray.lane l ∨
            ∃ tri i, accepts cfg ray tri i l = true ∧ r1.lane l = hitLane ray tri i l))
        (fun ray1 ray_tfar curDist prim items hP =>
          BVH4Intersector8Chunk.leaf_keeps_accepted cfg avx2 rcp_safe bvh ray l ray1 ray_tfar
            curDist prim items hP)
        n _ s ⟨sameInput_refl _ _, le_refl _, Or.inl rfl⟩ h).2.2
  · intro fuel r h
    obtain ⟨rt, hP⟩ := BVH4Intersector8Chunk.run_preserves _ _ bvh
      (fun r1 _ => r1.sameInput ray l ∧ r1.tfar l ≤ ray.tfar l ∧
        (r1.lane l = ray.lane l ∨
          ∃ tri i, accepts cfg ray tri i l = true ∧ r1.lane l = hitLane ray tri i l))
      (fun ray1 ray_tfar curDist prim items hP =>
        BVH4Intersector8Chunk.leaf_keeps_accepted cfg avx2 rcp_safe bvh ray l ray1 ray_tfar
          curDist prim items hP)
      fuel _ r ⟨sameInput_refl _ _, le_refl _, Or.inl rfl⟩ h
    exact BVH4Intersector8Chunk.pinned_of_accepted cfg ray r l hpin hP.2.2
  · intro hall k fuel
    exact ⟨BVH4Intersector8Chunk.dispatched_of_empty_intervals k valid_i bvh ray hall fuel,
      fun hroot =>
        BVH4Intersector8Chunk.intersect_of_empty_intervals k valid_i bvh ray hroot hall fuel⟩

/-- C13 amended, on the scene of the counterexample: the traversal returns, lane 0 keeps
`tfar = 1` while it holds the hit that is met at `t = 1`; and with lane 0 as the only active
lane the same packet is returned as it was. -/
theorem C13_pinned_lane_witness :
    pinRay.tnear 0 = pinRay.tfar 0 ∧
    (∃ r, BVH4Intersector8Chunk.intersect
        (BVH4Triangle4Intersector8ChunkMoellerNoFilter exCfg false (fun x => x⁻¹)) 10
        (fun _ => true) slantBVH pinRay = Except.ok r ∧
      r.geomID 0 = 7 ∧ r.tfar 0 = pinRay.tfar 0) ∧
    BVH4Intersector8Chunk.intersect
        (BVH4Triangle4Intersector8ChunkMoellerNoFilter exCfg false (fun x => x⁻¹)) 10
        (fun m => decide (m = 0)) slantBVH pinRay = Except.ok pinRay := by
  obtain ⟨r, hr, h⟩ := ok_of_toOption_map
    (BVH4Intersector8Chunk.intersect
      (BVH4Triangle4Intersector8ChunkMoellerNoFilter exCfg false (fun x => x⁻¹)) 10
      (fun _ => true) slantBVH pinRay)
    (fun r => r.geomID 0) 7 (by decide!)
  refine ⟨rfl, ⟨r, hr, h,
    ((C13_pinned_lane exCfg false (fun x => x⁻¹) (fun _ => true) slantBVH pinRay 0 rfl).2.1
      10 r hr).1⟩, ?_⟩
  refine ((C13_pinned_lane exCfg false (fun x => x⁻¹) (fun m => decide (m = 0)) slantBVH
    pinRay 0 rfl).2.2 ?_ _ 8).2 (by decide)
  intro m hm
  have : m = 0 := of_decide_eq_true hm
  subst this
  exact le_refl _

/-- A root `invalidNode` is found by the first pop one slot above the bottom of the stack:
the assertion `sptr_node == stack_node` fails, the run ends there for every budget, and no
reference has been processed. -/
theorem invalid_root_fault (k : BVH4Intersector8Chunk.Kernel) (valid_i : avxb) (bvh : BVH4)
    (ray : Ray8) (hroot : bvh.root = BVH4.invalidNode) :
    BVH4Intersector8Chunk.step k (BVH4Intersector8Chunk.setup k valid_i ray) bvh
      (BVH4Intersector8Chunk.init k valid_i bvh ray) =
        BVH4Intersector8Chunk.Step.fault BVH4Intersector8Chunk.Fault.stackNotEmpty ∧
    (∀ fuel, BVH4Intersector8Chunk.intersect k (fuel + 1) valid_i bvh ray =
      Except.error BVH4Intersector8Chunk.Fault.stackNotEmpty) ∧
    (∀ fuel, BVH4Intersector8Chunk.dispatched k fuel valid_i bvh ray = []) := by
  have hs : BVH4Intersector8Chunk.step k (BVH4Intersector8Chunk.setup k valid_i ray) bvh
      (BVH4Intersector8Chunk.init k valid_i bvh ray) =
      BVH4Intersector8Chunk.Step.fault BVH4Intersector8Chunk.Fault.stackNotEmpty := by
    show BVH4Intersector8Chunk.step k _ bvh
      ⟨ray, _, (bvh.root, _) :: _, BVH4Intersector8Chunk.Control.pop⟩ = _
    rw [hroot]
    exact BVH4Intersector8Chunk.step_pop_invalid_fault _ _ _ _ _ _ _ rfl
  refine ⟨hs, ?_, ?_⟩
  · intro fuel
    unfold BVH4Intersector8Chunk.intersect
    rw [BVH4Intersector8Chunk.run_succ, hs]
  · intro fuel
    unfold BVH4Intersector8Chunk.dispatched
    cases fuel with
    | zero => rfl
    | succ n =>
      unfold BVH4Intersector8Chunk.trace
      rw [hs]
      rfl

/-- Claim C14, on the code as written.  For every kernel (every primitive intersector, also
one that would overwrite every lane), every mask, every ray packet and every BVH4 whose
root is `invalidNode` (any scene, nodes and primitives): no leaf is handed to the primitive
intersector, but the call does not return the packet: the first pop finds
`cur == invalidNode` with `sptr_node = stack_node + 1`, and the assertion
`sptr_node == stack_node` of source line 650 fails, for every budget of steps. -/
theorem C14_empty_tree_assertion (k : BVH4Intersector8Chunk.Kernel) (valid_i : avxb)
    (ray : Ray8) (scene : Scene) (node : Nat → Node) (prim : Nat → Nat → Triangle4) :
    (∀ fuel, BVH4Intersector8Chunk.intersect k (fuel + 1) valid_i
      ⟨BVH4.invalidNode, scene, node, prim⟩ ray =
        Except.error BVH4Intersector8Chunk.Fault.stackNotEmpty) ∧
    (∀ fuel, BVH4Intersector8Chunk.dispatched k fuel valid_i
      ⟨BVH4.invalidNode, scene, node, prim⟩ ray = []) ∧
    BVH4Intersector8Chunk.faultOf (BVH4Intersector8Chunk.intersect
      ⟨false, false, 0, fun x => x⁻¹, overwriteAll⟩ 10 (fun _ => true) emptyBVH
      (exRay (Dist.fin 10))) = some BVH4Intersector8Chunk.Fault.stackNotEmpty :=
  ⟨(invalid_root_fault k valid_i ⟨BVH4.invalidNode, scene, node, prim⟩ ray rfl).2.1,
    (invalid_root_fault k valid_i ⟨BVH4.invalidNode, scene, node, prim⟩ ray rfl).2.2,
    by decide!⟩

/-! ## The order of the leaves: C15 -/

namespace Node

/-- The slab test in a lane with `tnear = +inf` and `tfar = -inf` reports no hit, in fast
mode and, for `|ulp| < 1/2`, in robust mode. -/
theorem intersect8_inactive (robust avx2 : Bool) (ulp : ℚ) (node : Node) (i : Fin 4)
    (org rdir org_rdir : avx3f) (tnear tfar : avxd) (l : Fin 8)
    (hn : tnear l = Dist.pos_inf) (hf : tfar l = Dist.neg_inf)
    (hu : robust = true → -(1 / 2) < ulp ∧ ulp < 1 / 2) :
    (node.intersect8 robust avx2 ulp i org rdir org_rdir tnear tfar).1 l = false := by
  have h1 : ∀ x : ℚ, max (Dist.fin x) Dist.pos_inf = Dist.pos_inf :=
    fun x => max_eq_right (Dist.le_pos_inf _)
  have h2 : ∀ x : ℚ, min (Dist.fin x) Dist.neg_inf = Dist.neg_inf :=
    fun x => min_eq_right (Dist.neg_inf_le _)
  cases robust with
  | false =>
    cases avx2 with
    | false =>
      simp only [intersect8, Bool.false_eq_true, if_false, hn, hf, h1, h2]
      exact decide_eq_false (fun h => h)
    | true =>
      have h3 : ∀ x : ℚ, Dist.maxi (Dist.fin x) Dist.pos_inf = Dist.pos_inf := by
        intro x
        unfold Dist.maxi
        rw [if_neg (fun h => Dist.not_pos_inf_lt _ h.2), h1]
      have h4 : ∀ y : ℚ, Dist.mini (Dist.fin y) Dist.neg_inf < Dist.pos_inf := by
        intro y
        unfold Dist.mini
        split_ifs
        · exact max_lt (Dist.fin_lt_pos_inf _) Dist.neg_inf_lt_pos_inf
        · exact lt_of_le_of_lt (min_le_left _ _) (Dist.fin_lt_pos_inf _)
      simp only [intersect8, Bool.false_eq_true, if_false, if_true, hn, hf, h3]
      exact decide_eq_false (not_le.2 (h4 _))
  | true =>
    obtain ⟨u1, u2⟩ := hu rfl
    have p1 : (0 : ℚ) < 1 - 2 * ulp := by linarith
    have p2 : (0 : ℚ) < 1 + 2 * ulp := by linarith
    simp only [intersect8, if_true, hn, hf, h1, h2, Dist.mul, p1, p2, Dist.cmp_le]
    exact decide_eq_false (fun h => h)

end Node

namespace BVH4Intersector8Chunk

end BVH4Intersector8Chunk
namespace BVH4Intersector8Chunk

end BVH4Intersector8Chunk
theorem error_of_faultOf {α : Type} (e : Except BVH4Intersector8Chunk.Fault α)
    (f : BVH4Intersector8Chunk.Fault) (h : BVH4Intersector8Chunk.faultOf e = some f) :
    e = Except.error f := by
  cases e with
  | error x => exact congrArg Except.error (Option.some.inj h)
  | ok r => exact Option.noConfusion h

namespace BVH4Intersector8Chunk

/-- A run that stops on a failed assertion stops on it for every larger budget. -/
theorem run_fault_mono (k : Kernel) (su : Setup) (bvh : BVH4) (f : Fault)
    (hf : f ≠ Fault.outOfFuel) :
    ∀ (n : Nat) (s : State), run k su bvh n s = Except.error f →
      ∀ m, run k su bvh (n + m) s = Except.error f := by
  intro n
  induction n with
  | zero =>
    intro s h
    injection h with h
    exact absurd h.symm hf
  | succ n ih =>
    intro s h m
    rw [Nat.add_right_comm, run_succ]
    rw [run_succ] at h
    cases hs : step k su bvh s with
    | next s1 => rw [hs] at h; exact ih s1 h m
    | done r => rw [hs] at h; exact Except.noConfusion h
    | fault f1 => rw [hs] at h; exact h

end BVH4Intersector8Chunk

/-- Every triangle of `deepBVH` is the one of the block `farTri`. -/
theorem deepBVH_beneath (r : NodeRef) (tri : Triangle4) (i : Fin 4)
    (h : BVH4.Beneath deepBVH r tri i) : tri = farTri ∧ i = 0 := by
  induction h with
  | leaf r j i _ _ _ hv => exact ⟨rfl, of_decide_eq_true hv⟩
  | node r c tri i _ _ _ ih => exact ih

/-- The inner nodes of `deepBVH`, level by level: the address is that of an inner node,
no child is `emptyNode`, every child is a leaf with one block or, above level 85, an inner
node of the next level, and the lower corner of every child box is below the triangle. -/
theorem deepNode_facts : ∀ (k : Fin 86) (w : Fin 2),
    (⟨deepAddr k.val w.val⟩ : NodeRef).isNode = true ∧
    ∀ c : Fin 4,
      (deepNode (deepAddr k.val w.val)).children c ≠ BVH4.emptyNode ∧
      ((((deepNode (deepAddr k.val w.val)).children c).isNode = false ∧
          (deepNode (deepAddr k.val w.val)).children c ≠ BVH4.invalidNode) ∨
        (k.val < 85 ∧ ∃ w1 : Fin 2,
          (deepNode (deepAddr k.val w.val)).children c = ⟨deepAddr (k.val + 1) w1.val⟩)) ∧
      (deepNode (deepAddr k.val w.val)).lower_x c ≤ 900 ∧
      (deepNode (deepAddr k.val w.val)).lower_y c ≤ 900 ∧
      (deepNode (deepAddr k.val w.val)).lower_z c ≤ 900 ∧
      (deepNode (deepAddr k.val w.val)).upper_x c = 1000 ∧
      (deepNode (deepAddr k.val w.val)).upper_y c = 1000 ∧
      (deepNode (deepAddr k.val w.val)).upper_z c = 1000 := by
  decide!

theorem deepBVH_wellFormed_level : ∀ (n k : Nat), k + n = 85 → ∀ w : Fin 2,
    BVH4.WellFormed deepBVH ⟨deepAddr k w.val⟩ (n + 1) := by
  intro n
  induction n with
  | zero =>
    intro k hk w
    have hk85 : k = 85 := by omega
    subst hk85
    obtain ⟨h1, h2⟩ := deepNode_facts ⟨85, by decide⟩ w
    refine BVH4.WellFormed.node _ 0 h1 (fun c e _ hc => absurd hc (h2 c).1) ?_ ?_
    · intro c _
      rcases (h2 c).2.1 with ⟨a, b⟩ | ⟨a, -⟩
      · refine BVH4.WellFormed.leaf _ 0 a b (h2 c).1 ?_
        intro j _
        refine ⟨?_, ?_⟩
        · show Triangle4Intersector8MoellerTrumbore.leftPacked farTri
          unfold Triangle4Intersector8MoellerTrumbore.leftPacked
          decide
        · intro i _
          show farTri.normalOK i
          norm_num [Triangle4.normalOK, farTri]
      · exact absurd a (lt_irrefl _)
    · intro c _ tri i hb
      obtain ⟨rfl, rfl⟩ := deepBVH_beneath _ tri i hb
      obtain ⟨-, -, b1, b2, b3, b4, b5, b6⟩ := h2 c
      show (deepNode (deepAddr 85 w.val)).contains c farTri 0
      unfold Node.contains
      rw [b4, b5, b6]
      norm_num [farTri]
      exact ⟨⟨b1, b2, b3⟩, ⟨by linarith, b2, b3⟩, ⟨b1, by linarith, b3⟩⟩
  | succ n ih =>
    intro k hk w
    have hk85 : k < 86 := by omega
    obtain ⟨h1, h2⟩ := deepNode_facts ⟨k, hk85⟩ w
    refine BVH4.WellFormed.node _ (n + 1) h1 (fun c e _ hc => absurd hc (h2 c).1) ?_ ?_
    · intro c _
      rcases (h2 c).2.1 with ⟨a, b⟩ | ⟨-, w1, hw1⟩
      · refine BVH4.WellFormed.leaf _ (n + 1) a b (h2 c).1 ?_
        intro j _
        refine ⟨?_, ?_⟩
        · show Triangle4Intersector8MoellerTrumbore.leftPacked farTri
          unfold Triangle4Intersector8MoellerTrumbore.leftPacked
          decide
        · intro i _
          show farTri.normalOK i
          norm_num [Triangle4.normalOK, farTri]
      · show BVH4.WellFormed deepBVH ((deepNode (deepAddr k w.val)).children c) (n + 1)
        rw [hw1]
        exact ih (k + 1) (by omega) w1
    · intro c _ tri i hb
      obtain ⟨rfl, rfl⟩ := deepBVH_beneath _ tri i hb
      obtain ⟨-, -, b1, b2, b3, b4, b5, b6⟩ := h2 c
      show (deepNode (deepAddr k w.val)).contains c farTri 0
      unfold Node.contains
      rw [b4, b5, b6]
      norm_num [farTri]
      exact ⟨⟨b1, b2, b3⟩, ⟨by linarith, b2, b3⟩, ⟨b1, by linarith, b3⟩⟩

theorem deepBVH_wellFormed : BVH4.WellFormed deepBVH deepBVH.root 86 :=
  deepBVH_wellFormed_level 85 0 rfl 0

/-- C16 fails on the code: `deepBVH` is a well-formed tree of depth 86, below
`BVH4::maxDepth = 128` (left-packed children, nested boxes that bound the triangles), and
for the packet whose only active lane 0 is the ray from the origin in direction `(1,1,1)`
on `[0, ∞]` the traversal expands the root and then, level by level, the two inner nodes
of each level, each time after the pop of the next entry and with all four children pushed
behind it.  Each expansion leaves three more entries on a stack of
`stackSize = 4*maxDepth + 1 = 513` entries; in step 172 the fourth push of the
expansion of node `256·85 + 32` finds the stack full and the assertion
`sptr_node < stackEnd` fails, for every budget of at least 172 steps. -/
theorem C16_stack_overflow :
    BVH4.WellFormed deepBVH deepBVH.root 86 ∧ 86 ≤ BVH4.maxDepth ∧
    BVH4Intersector8Chunk.stackSize = 4 * 128 + 1 ∧
    (∀ fuel, 172 ≤ fuel →
      BVH4Intersector8Chunk.intersect exKernel fuel (fun m => decide (m = 0)) deepBVH
        (exRay Dist.pos_inf) = Except.error BVH4Intersector8Chunk.Fault.stackOverflow) ∧
    ¬ BVH4Intersector8Chunk.StackSafe exKernel (fun m => decide (m = 0)) deepBVH
        (exRay Dist.pos_inf) := by
  have h172 : BVH4Intersector8Chunk.intersect exKernel 172 (fun m => decide (m = 0)) deepBVH
      (exRay Dist.pos_inf) = Except.error BVH4Intersector8Chunk.Fault.stackOverflow :=
    error_of_faultOf _ _ (by decide!)
  refine ⟨deepBVH_wellFormed, by decide, by decide, ?_, fun hs => hs 172 h172⟩
  intro fuel hf
  obtain ⟨m, rfl⟩ : ∃ m, fuel = 172 + m := ⟨fuel - 172, by omega⟩
  exact BVH4Intersector8Chunk.run_fault_mono _ _ _ _ (by decide) 172 _ h172 m

/-! ## Termination: C17 -/

namespace BVH4

end BVH4

namespace BVH4Intersector8Chunk

end BVH4Intersector8Chunk
namespace BVH4Intersector8Chunk

end BVH4Intersector8Chunk
namespace BVH4Intersector8Chunk

end BVH4Intersector8Chunk

/-! ## The slab test: C19, C20 -/

/-- One axis of the slab test, both ways: for `lo ≤ up` and `d ≠ 0` the point `o + t*d`
lies in `[lo, up]` exactly when `t` lies between the two clip distances. -/
theorem slab_axis_iff (lo up o d t : ℚ) (hd : d ≠ 0) (hlu : lo ≤ up) :
    (lo ≤ o + t * d ∧ o + t * d ≤ up) ↔
      min ((lo - o) * d⁻¹) ((up - o) * d⁻¹) ≤ t ∧ t ≤ max ((lo - o) * d⁻¹) ((up - o) * d⁻¹) := by
  constructor
  · rintro ⟨h1, h2⟩
    exact slab_axis lo up o d t hd h1 h2
  · rintro ⟨h1, h2⟩
    rcases lt_or_gt_of_ne hd with hneg | hpos
    · have hle : (up - o) * d⁻¹ ≤ (lo - o) * d⁻¹ := by
        rw [← div_eq_mul_inv, ← div_eq_mul_inv, div_le_div_right_of_neg hneg]
        linarith
      rw [min_eq_right hle] at h1
      rw [max_eq_left hle] at h2
      rw [← div_eq_mul_inv, div_le_iff_of_neg hneg] at h1
      rw [← div_eq_mul_inv, le_div_iff_of_neg hneg] at h2
      constructor <;> linarith
    · have hle : (lo - o) * d⁻¹ ≤ (up - o) * d⁻¹ := by
        rw [← div_eq_mul_inv, ← div_eq_mul_inv, div_le_div_iff_of_pos_right hpos]
        linarith
      rw [min_eq_left hle] at h1
      rw [max_eq_right hle] at h2
      rw [← div_eq_mul_inv, div_le_iff₀ hpos] at h1
      rw [← div_eq_mul_inv, le_div_iff₀ hpos] at h2
      constructor <;> linarith

theorem Dist.fin_max (a b : ℚ) : max (Dist.fin a) (Dist.fin b) = Dist.fin (max a b) := by
  have hm : Monotone Dist.fin := fun _ _ h => Dist.fin_le_fin.2 h
  exact hm.map_max.symm

theorem Dist.fin_min (a b : ℚ) : min (Dist.fin a) (Dist.fin b) = Dist.fin (min a b) := by
  have hm : Monotone Dist.fin := fun _ _ h => Dist.fin_le_fin.2 h
  exact hm.map_min.symm

/-- The fast slab test on the code path without `__AVX2__`.  In exact arithmetic, for every
child box with `lower ≤ upper` componentwise, every lane whose direction components
`dx, dy, dz` are non-zero, with `rdir` their exact reciprocals, and finite `tnear = a`,
`tfar = b`: the fast slab test reports a hit in the lane if and only if some `t` with
`a ≤ t ≤ b` has `org + t*dir` inside the box; `dist` is the maximum over the three axes of
the entry distance of the axis (the smaller of the two clip distances), no point of the
line inside the box has a smaller parameter, and when the line meets the box the point at
`dist` lies inside the box: `dist` is the parameter at which the unclipped line enters. -/
theorem slab_test_exact (ulp : ℚ) (node : Node) (i : Fin 4)
    (org rdir org_rdir : avx3f) (tnear tfar : avxd) (l : Fin 8) (dx dy dz a b : ℚ)
    (hbx : node.lower_x i ≤ node.upper_x i) (hby : node.lower_y i ≤ node.upper_y i)
    (hbz : node.lower_z i ≤ node.upper_z i)
    (hdx : dx ≠ 0) (hdy : dy ≠ 0) (hdz : dz ≠ 0)
    (hrx : rdir.x l = dx⁻¹) (hry : rdir.y l = dy⁻¹) (hrz : rdir.z l = dz⁻¹)
    (htn : tnear l = Dist.fin a) (htf : tfar l = Dist.fin b) :
    ((node.intersect8 false false ulp i org rdir org_rdir tnear tfar).1 l = true ↔
      ∃ t, a ≤ t ∧ t ≤ b ∧ node.inside i (org.x l) (org.y l) (org.z l) dx dy dz t) ∧
    (node.intersect8 false false ulp i org rdir org_rdir tnear tfar).2 l =
      max (max
        (min ((node.lower_x i - org.x l) * dx⁻¹) ((node.upper_x i - org.x l) * dx⁻¹))
        (min ((node.lower_y i - org.y l) * dy⁻¹) ((node.upper_y i - org.y l) * dy⁻¹)))
        (min ((node.lower_z i - org.z l) * dz⁻¹) ((node.upper_z i - org.z l) * dz⁻¹)) ∧
    (∀ t, node.inside i (org.x l) (org.y l) (org.z l) dx dy dz t →
      (node.intersect8 false false ulp i org rdir org_rdir tnear tfar).2 l ≤ t) ∧
    ((∃ t, node.inside i (org.x l) (org.y l) (org.z l) dx dy dz t) →
      node.inside i (org.x l) (org.y l) (org.z l) dx dy dz
        ((node.intersect8 false false ulp i org rdir org_rdir tnear tfar).2 l)) := by
  have hin : ∀ t, node.inside i (org.x l) (org.y l) (org.z l) dx dy dz t ↔
      max (max
        (min ((node.lower_x i - org.x l) * dx⁻¹) ((node.upper_x i - org.x l) * dx⁻¹))
        (min ((node.lower_y i - org.y l) * dy⁻¹) ((node.upper_y i - org.y l) * dy⁻¹)))
        (min ((node.lower_z i - org.z l) * dz⁻¹) ((node.upper_z i - org.z l) * dz⁻¹)) ≤ t ∧
      t ≤ min (min
        (max ((node.lower_x i - org.x l) * dx⁻¹) ((node.upper_x i - org.x l) * dx⁻¹))
        (max ((node.lower_y i - org.y l) * dy⁻¹) ((node.upper_y i - org.y l) * dy⁻¹)))
        (max ((node.lower_z i - org.z l) * dz⁻¹) ((node.upper_z i - org.z l) * dz⁻¹)) := by
    intro t
    unfold Node.inside
    rw [slab_axis_iff _ _ _ _ t hdx hbx, slab_axis_iff _ _ _ _ t hdy hby,
      slab_axis_iff _ _ _ _ t hdz hbz, max_le_iff, max_le_iff, le_min_iff, le_min_iff]
    tauto
  simp only [Node.intersect8, Bool.false_eq_true, if_false, hrx, hry, hrz,
    decide_eq_true_eq, htn, htf, Dist.fin_max, Dist.fin_min, Dist.fin_le_fin]
  refine ⟨?_, trivial, fun t ht => ((hin t).1 ht).1, ?_⟩
  · constructor
    · intro h
      refine ⟨max _ a, le_max_right _ _, le_trans h (min_le_right _ _), (hin _).2 ⟨?_, ?_⟩⟩
      · exact le_max_left _ _
      · exact le_trans h (min_le_left _ _)
    · rintro ⟨t, h1, h2, h3⟩
      obtain ⟨h4, h5⟩ := (hin t).1 h3
      exact le_trans (max_le h4 h1) (le_min h5 h2)
  · rintro ⟨t, ht⟩
    obtain ⟨h4, h5⟩ := (hin t).1 ht
    exact (hin _).2 ⟨le_refl _, le_trans h4 h5⟩

/-- The fast slab test on the box `[0,3]³` of `slantNode`, the ray from the origin in direction `(1,1,1)`
and the interval `[1, 2]`: the lane is hit, with `dist = 0`, and the point at `t = 1` lies
inside the box. -/
theorem slab_test_exact_example :
    (slantNode.intersect8 false false 0 0 ⟨fun _ => 0, fun _ => 0, fun _ => 0⟩
      ⟨fun _ => 1, fun _ => 1, fun _ => 1⟩ ⟨fun _ => 0, fun _ => 0, fun _ => 0⟩
      (fun _ => Dist.fin 1) (fun _ => Dist.fin 2)).1 0 = true ∧
    (slantNode.intersect8 false false 0 0 ⟨fun _ => 0, fun _ => 0, fun _ => 0⟩
      ⟨fun _ => 1, fun _ => 1, fun _ => 1⟩ ⟨fun _ => 0, fun _ => 0, fun _ => 0⟩
      (fun _ => Dist.fin 1) (fun _ => Dist.fin 2)).2 0 = 0 ∧
    ∃ t : ℚ, 1 ≤ t ∧ t ≤ 2 ∧ slantNode.inside 0 0 0 0 1 1 1 t := by
  have h := slab_test_exact 0 slantNode 0 ⟨fun _ => 0, fun _ => 0, fun _ => 0⟩
    ⟨fun _ => 1, fun _ => 1, fun _ => 1⟩ ⟨fun _ => 0, fun _ => 0, fun _ => 0⟩
    (fun _ => Dist.fin 1) (fun _ => Dist.fin 2) 0 1 1 1 1 2
    (by decide!) (by decide!) (by decide!) one_ne_zero one_ne_zero one_ne_zero
    (by norm_num) (by norm_num) (by norm_num) rfl rfl
  have hhit : (slantNode.intersect8 false false 0 0 ⟨fun _ => 0, fun _ => 0, fun _ => 0⟩
      ⟨fun _ => 1, fun _ => 1, fun _ => 1⟩ ⟨fun _ => 0, fun _ => 0, fun _ => 0⟩
      (fun _ => Dist.fin 1) (fun _ => Dist.fin 2)).1 0 = true := by decide!
  exact ⟨hhit, by decide!, h.1.1 hhit⟩

/-- Scaling the two sides of `A ≤ B` by `round_down ≤ 1 ≤ round_up` keeps the comparison
when `A` is not negative. -/
theorem Dist.cmp_le_scaled (rd ru : ℚ) (A B : Dist) (h0 : 0 < rd) (h1 : rd ≤ 1) (h2 : 1 ≤ ru)
    (hA : Dist.fin 0 ≤ A) (hAB : A ≤ B) :
    Dist.cmp_le (Dist.mul rd A) (Dist.mul ru B) = true := by
  have h3 : 0 < ru := lt_of_lt_of_le one_pos h2
  cases A with
  | neg_inf => exact absurd hA (fun h => h)
  | pos_inf =>
    cases B with
    | neg_inf => exact absurd hAB (fun h => h)
    | fin y => exact absurd hAB (fun h => h)
    | pos_inf =>
      simp only [Dist.mul, h0, h3, if_true, Dist.cmp_le]
      exact decide_eq_true (le_refl _)
  | fin x =>
    have hx : 0 ≤ x := Dist.fin_le_fin.1 hA
    cases B with
    | neg_inf => exact absurd hAB (fun h => h)
    | pos_inf =>
      simp only [Dist.mul, h3, if_true, Dist.cmp_le]
      exact decide_eq_true (Dist.le_pos_inf _)
    | fin y =>
      have hxy : x ≤ y := Dist.fin_le_fin.1 hAB
      simp only [Dist.mul, Dist.cmp_le]
      refine decide_eq_true (Dist.fin_le_fin.2 ?_)
      nlinarith [mul_nonneg (sub_nonneg.2 h1) hx, mul_nonneg (sub_nonneg.2 h2) (le_trans hx hxy)]

/-- C19, as stated, fails: with `ulp = 1/8` (positive, below `1/2`), the box `[-3,-1]³`, the
ray from the origin in direction `(1,1,1)` and the interval `[-10, -2]`, the fast test
reports a hit in lane 0 (`max(-3,-10) = -3 ≤ -2 = min(-1,-2)`) and the robust test does
not (`(1 - 2·ulp)·(-3) = -9/4 > -5/2 = (1 + 2·ulp)·(-2)`): for negative distances the two
factors narrow the accepted set. -/
theorem C19_counterexample :
    (0 : ℚ) < 1 / 8 ∧ (1 / 8 : ℚ) < 1 / 2 ∧
    (backNode.intersect8 false false (1 / 8) 0 ⟨fun _ => 0, fun _ => 0, fun _ => 0⟩
      ⟨fun _ => 1, fun _ => 1, fun _ => 1⟩ ⟨fun _ => 0, fun _ => 0, fun _ => 0⟩
      (fun _ => Dist.fin (-10)) (fun _ => Dist.fin (-2))).1 0 = true ∧
    (backNode.intersect8 true false (1 / 8) 0 ⟨fun _ => 0, fun _ => 0, fun _ => 0⟩
      ⟨fun _ => 1, fun _ => 1, fun _ => 1⟩ ⟨fun _ => 0, fun _ => 0, fun _ => 0⟩
      (fun _ => Dist.fin (-10)) (fun _ => Dist.fin (-2))).1 0 = false := by
  refine ⟨by norm_num, by norm_num, by decide!, by decide!⟩

/-- C19, amended. In exact arithmetic with `0 < ulp < 1/2`, for every child box, every ray
and every `tnear`, `tfar`, on both code paths: the robust and the fast slab test return the
same `dist` (on the `__AVX2__` code path, where the fast test takes the integer `mini` and
`maxi`: unless both are negative), and every lane with `tnear ≥ 0` for which the fast test
reports a hit is also reported as a hit by the robust test. -/
theorem C19_robust_widens (avx2 : Bool) (ulp : ℚ) (node : Node) (i : Fin 4)
    (org rdir org_rdir : avx3f) (tnear tfar : avxd) (l : Fin 8)
    (hu0 : 0 < ulp) (hu1 : ulp < 1 / 2) :
    (avx2 = false → (node.intersect8 true avx2 ulp i org rdir org_rdir tnear tfar).2 =
      (node.intersect8 false avx2 ulp i org rdir org_rdir tnear tfar).2) ∧
    SameOrNeg ((node.intersect8 false avx2 ulp i org rdir org_rdir tnear tfar).2 l)
      ((node.intersect8 true avx2 ulp i org rdir org_rdir tnear tfar).2 l) ∧
    (Dist.fin 0 ≤ tnear l →
      (node.intersect8 false avx2 ulp i org rdir org_rdir tnear tfar).1 l = true →
      (node.intersect8 true avx2 ulp i org rdir org_rdir tnear tfar).1 l = true) := by
  cases avx2
  · refine ⟨fun _ => rfl, SameOrNeg.refl _, ?_⟩
    intro hn hf
    simp only [Node.intersect8, Bool.false_eq_true, if_false, decide_eq_true_eq] at hf
    simp only [Node.intersect8, if_true]
    exact Dist.cmp_le_scaled _ _ _ _ (by linarith) (by linarith) (by linarith)
      (le_trans hn (le_max_right _ _)) hf
  · refine ⟨fun h => Bool.noConfusion h, ?_, ?_⟩
    · simp only [Node.intersect8, Bool.false_eq_true, if_false, if_true]
      exact (slab_sameOrNeg _ _ _ _ _ _ (tnear l) (tfar l)).1
    · intro hn hf
      simp only [Node.intersect8, Bool.false_eq_true, if_false, if_true,
        decide_eq_true_eq] at hf
      simp only [Node.intersect8, if_true]
      exact Dist.cmp_le_scaled _ _ _ _ (by linarith) (by linarith) (by linarith)
        (le_trans hn (le_max_right _ _))
        (((slab_sameOrNeg _ _ _ _ _ _ (tnear l) (tfar l)).2 hn).1 hf)

/-- C19 amended, on the box `[0,3]³` with `ulp = 1/8`, the ray from the origin in direction
`(1,1,1)` and the interval `[1, 2]`: the fast test and the robust test both report lane 0,
with the same `dist`. -/
theorem C19_robust_widens_witness :
    Dist.fin 0 ≤ (fun _ : Fin 8 => Dist.fin 1) 0 ∧
    (slantNode.intersect8 false false (1 / 8) 0 ⟨fun _ => 0, fun _ => 0, fun _ => 0⟩
      ⟨fun _ => 1, fun _ => 1, fun _ => 1⟩ ⟨fun _ => 0, fun _ => 0, fun _ => 0⟩
      (fun _ => Dist.fin 1) (fun _ => Dist.fin 2)).1 0 = true ∧
    (slantNode.intersect8 true false (1 / 8) 0 ⟨fun _ => 0, fun _ => 0, fun _ => 0⟩
      ⟨fun _ => 1, fun _ => 1, fun _ => 1⟩ ⟨fun _ => 0, fun _ => 0, fun _ => 0⟩
      (fun _ => Dist.fin 1) (fun _ => Dist.fin 2)).1 0 = true := by
  have hn : Dist.fin 0 ≤ (fun _ : Fin 8 => Dist.fin 1) 0 := Dist.fin_le_fin.2 zero_le_one
  have hf : (slantNode.intersect8 false false (1 / 8) 0 ⟨fun _ => 0, fun _ => 0, fun _ => 0⟩
      ⟨fun _ => 1, fun _ => 1, fun _ => 1⟩ ⟨fun _ => 0, fun _ => 0, fun _ => 0⟩
      (fun _ => Dist.fin 1) (fun _ => Dist.fin 2)).1 0 = true := by decide!
  exact ⟨hn, hf,
    (C19_robust_widens false (1 / 8) slantNode 0 ⟨fun _ => 0, fun _ => 0, fun _ => 0⟩
      ⟨fun _ => 1, fun _ => 1, fun _ => 1⟩ ⟨fun _ => 0, fun _ => 0, fun _ => 0⟩
      (fun _ => Dist.fin 1) (fun _ => Dist.fin 2) 0 (by norm_num) (by norm_num)).2.2 hn hf⟩

/-- C20. For every kernel (fast slab test, or robust with `|ulp| < 1/2`), every BVH4 and
packet and every lane `l` that is not set in `valid_i`: the traversal loads
`ray_tnear = +inf` and `ray_tfar = -inf` for the lane; with such values `Node::intersect8`
reports no hit in the lane, for every node, child, origin and reciprocal direction, in
fast mode and in robust mode; and in every state the traversal reaches `ray_tfar` of the
lane is still `-inf`, so that every slab test of the traversal misses in the lane and the
mask `ray_tfar > curDist` (`valid_node`, `valid_leaf`) is false in the lane for every
`curDist`. -/
theorem C20_inactive_lane_culled (k : BVH4Intersector8Chunk.Kernel) (valid_i : avxb)
    (bvh : BVH4) (ray : Ray8) (l : Fin 8) (hv : valid_i l = false)
    (hu : k.robust = true → -(1 / 2) < k.ulp ∧ k.ulp < 1 / 2) :
    (BVH4Intersector8Chunk.setup k valid_i ray).ray_tnear l = Dist.pos_inf ∧
    (BVH4Intersector8Chunk.init k valid_i bvh ray).ray_tfar l = Dist.neg_inf ∧
    (∀ (robust avx2 : Bool) (ulp : ℚ) (node : Node) (i : Fin 4) (org rdir org_rdir : avx3f)
        (tnear tfar : avxd),
      tnear l = Dist.pos_inf → tfar l = Dist.neg_inf →
      (robust = true → -(1 / 2) < ulp ∧ ulp < 1 / 2) →
      (node.intersect8 robust avx2 ulp i org rdir org_rdir tnear tfar).1 l = false) ∧
    (∀ n s, BVH4Intersector8Chunk.reach k (BVH4Intersector8Chunk.setup k valid_i ray) bvh n
        (BVH4Intersector8Chunk.init k valid_i bvh ray) = some s →
      s.ray_tfar l = Dist.neg_inf ∧
      (∀ (node : Node) (i : Fin 4),
        (node.intersect8 k.robust k.avx2 k.ulp i
          (BVH4Intersector8Chunk.setup k valid_i ray).org
          (BVH4Intersector8Chunk.setup k valid_i ray).rdir
          (BVH4Intersector8Chunk.setup k valid_i ray).org_rdir
          (BVH4Intersector8Chunk.setup k valid_i ray).ray_tnear s.ray_tfar).1 l = false) ∧
      (∀ curDist : avxd, decide (s.ray_tfar l > curDist l) = false)) := by
  have hnv : ¬ (valid_i l = true) := by rw [hv]; exact Bool.false_ne_true
  have h1 : (BVH4Intersector8Chunk.setup k valid_i ray).ray_tnear l = Dist.pos_inf := by
    show select valid_i ray.tnear (fun _ => Dist.pos_inf) l = Dist.pos_inf
    unfold select
    rw [if_neg hnv]
  have h2 : (BVH4Intersector8Chunk.init k valid_i bvh ray).ray_tfar l = Dist.neg_inf := by
    show select valid_i ray.tfar (fun _ => Dist.neg_inf) l = Dist.neg_inf
    unfold select
    rw [if_neg hnv]
  refine ⟨h1, h2, ?_, ?_⟩
  · intro robust avx2 ulp node i org rdir org_rdir tnear tfar hn hf hul
    exact Node.intersect8_inactive robust avx2 ulp node i org rdir org_rdir tnear tfar l hn hf
      hul
  · intro n s hs
    have h3 : s.ray_tfar l = Dist.neg_inf :=
      BVH4Intersector8Chunk.reach_preserves k _ bvh (fun _ rt => rt l = Dist.neg_inf)
        (fun ray1 rt cd prim items hP => by
          show select (fun l => decide (rt l > cd l)) _ rt l = Dist.neg_inf
          unfold select
          rw [if_neg (by
            show ¬ (decide (rt l > cd l) = true)
            rw [hP]
            exact fun h => Dist.not_lt_neg_inf _ (of_decide_eq_true h))]
          exact hP)
        n _ s h2 hs
    refine ⟨h3, fun node i => ?_, fun cd => ?_⟩
    · exact Node.intersect8_inactive _ _ _ node i _ _ _ _ _ l h1 h3 hu
    · rw [h3]
      exact decide_eq_false (Dist.not_lt_neg_inf _)

/-- C20 on the small scene with lane 0 switched off, after the two steps that bring the
traversal to the leaf: the register `ray_tfar` of lane 0 is `-inf`, the slab test of the
root (fast, and robust with `ulp = 1/8`) misses in lane 0, and it hits in the active
lane 1. -/
theorem C20_inactive_lane_culled_witness :
    (fun m : Fin 8 => decide (m ≠ 0)) 0 = false ∧
    (∃ s, BVH4Intersector8Chunk.reach exKernel
        (BVH4Intersector8Chunk.setup exKernel (fun m => decide (m ≠ 0)) (exRay (Dist.fin 10)))
        exBVH 2
        (BVH4Intersector8Chunk.init exKernel (fun m => decide (m ≠ 0)) exBVH
          (exRay (Dist.fin 10))) = some s ∧
      s.ray_tfar 0 = Dist.neg_inf ∧ s.ray_tfar 1 = Dist.fin 10) ∧
    (BVH4Intersector8Chunk.rootSlab exKernel (fun m => decide (m ≠ 0)) exBVH
      (exRay (Dist.fin 10)) 0).1 0 = false ∧
    (BVH4Intersector8Chunk.rootSlab exKernel (fun m => decide (m ≠ 0)) exBVH
      (exRay (Dist.fin 10)) 0).1 1 = true ∧
    (BVH4Intersector8Chunk.rootSlab ⟨true, false, 1 / 8, fun x => x⁻¹, fun _ r _ _ _ => r⟩
      (fun m => decide (m ≠ 0)) exBVH (exRay (Dist.fin 10)) 0).1 0 = false := by
  have h := C20_inactive_lane_culled exKernel (fun m => decide (m ≠ 0)) exBVH
    (exRay (Dist.fin 10)) 0 rfl (fun h => Bool.noConfusion h)
  have hr := C20_inactive_lane_culled ⟨true, false, 1 / 8, fun x => x⁻¹, fun _ r _ _ _ => r⟩
    (fun m => decide (m ≠ 0)) exBVH (exRay (Dist.fin 10)) 0 rfl
    (fun _ => ⟨by norm_num, by norm_num⟩)
  have hs : ∃ s, BVH4Intersector8Chunk.reach exKernel
      (BVH4Intersector8Chunk.setup exKernel (fun m => decide (m ≠ 0)) (exRay (Dist.fin 10)))
      exBVH 2
      (BVH4Intersector8Chunk.init exKernel (fun m => decide (m ≠ 0)) exBVH
        (exRay (Dist.fin 10))) = some s ∧ s.ray_tfar 1 = Dist.fin 10 := by
    have : (BVH4Intersector8Chunk.reach exKernel
        (BVH4Intersector8Chunk.setup exKernel (fun m => decide (m ≠ 0)) (exRay (Dist.fin 10)))
        exBVH 2
        (BVH4Intersector8Chunk.init exKernel (fun m => decide (m ≠ 0)) exBVH
          (exRay (Dist.fin 10)))).map (fun s => s.ray_tfar 1) = some (Dist.fin 10) := by
      decide!
    cases hq : BVH4Intersector8Chunk.reach exKernel
        (BVH4Intersector8Chunk.setup exKernel (fun m => decide (m ≠ 0)) (exRay (Dist.fin 10)))
        exBVH 2
        (BVH4Intersector8Chunk.init exKernel (fun m => decide (m ≠ 0)) exBVH
          (exRay (Dist.fin 10))) with
    | none => rw [hq] at this; exact Option.noConfusion this
    | some s => rw [hq] at this; exact ⟨s, rfl, Option.some.inj this⟩
  obtain ⟨s, hs1, hs2⟩ := hs
  refine ⟨rfl, ⟨s, hs1, (h.2.2.2 2 s hs1).1, hs2⟩, ?_, by decide!, ?_⟩
  · exact h.2.2.1 _ _ _ _ _ _ _ _ _ _ h.1 h.2.1 (fun h => Bool.noConfusion h)
  · exact hr.2.2.1 _ _ _ _ _ _ _ _ _ _ hr.1 hr.2.1 (fun _ => ⟨by norm_num, by norm_num⟩)

/-! ## Ternary operators: the two build variants -/

/-- Claim C21.  The fallback variants compute `madd = a*b + c`, `msub = a*b - c`,
`nmadd = -a*b - c` and `nmsub = c - a*b` in every lane, and the `__AVX2__` variants of
`madd` and `msub` compute the same values; but the `__AVX2__` variant of `nmadd` computes
`c - a*b` and that of `nmsub` computes `-a*b - c`, so the two variants of `nmadd` (and of
`nmsub`) differ: with all lanes of `a`, `b`, `c` equal to `1` the fallback `nmadd` gives `-2`
and the `__AVX2__` one `0`, the fallback `nmsub` gives `0` and the `__AVX2__` one `-2`. -/
theorem C21_ternary_variants :
    (∀ (a b c : avxf) (l : Fin 8),
      avxf.madd false a b c l = a l * b l + c l ∧
      avxf.msub false a b c l = a l * b l - c l ∧
      avxf.nmadd false a b c l = -a l * b l - c l ∧
      avxf.nmsub false a b c l = c l - a l * b l ∧
      avxf.madd true a b c l = a l * b l + c l ∧
      avxf.msub true a b c l = a l * b l - c l ∧
      avxf.nmadd true a b c l = c l - a l * b l ∧
      avxf.nmsub true a b c l = -a l * b l - c l ∧
      avxf.msub true a b c l = embree.msub (a l) (b l) (c l)) ∧
    (∀ l : Fin 8,
      avxf.nmadd false (fun _ => 1) (fun _ => 1) (fun _ => 1) l = -2 ∧
      avxf.nmadd true (fun _ => 1) (fun _ => 1) (fun _ => 1) l = 0 ∧
      avxf.nmsub false (fun _ => 1) (fun _ => 1) (fun _ => 1) l = 0 ∧
      avxf.nmsub true (fun _ => 1) (fun _ => 1) (fun _ => 1) l = -2) := by
  refine ⟨fun a b c l => ⟨rfl, rfl, rfl, rfl, rfl, rfl, ?_, ?_, rfl⟩, fun l => ?_⟩
  · show -(a l * b l) + c l = c l - a l * b l
    ring
  · show -(a l * b l) - c l = -a l * b l - c l
    ring
  · refine ⟨?_, ?_, ?_, ?_⟩
    · show (-1 : ℚ) * 1 - 1 = -2
      norm_num
    · show -((1 : ℚ) * 1) + 1 = 0
      norm_num
    · show (1 : ℚ) - 1 * 1 = 0
      norm_num
    · show -((1 : ℚ) * 1) - 1 = -2
      norm_num

/-! ## Masks at the register level -/

/-- Bit `i` of `packBits bs` is the `i`-th listed bit. -/
theorem testBit_packBits (bs : List Bool) (i : Nat) :
    (packBits bs).testBit i = bs.getD i false := by
  induction bs generalizing i with
  | nil => simp [packBits]
  | cons b bs ih =>
    cases i with
    | zero =>
      rw [Nat.testBit_zero]
      cases b <;> simp [packBits, Nat.add_mul_mod_self_left]
    | succ i =>
      rw [Nat.testBit_succ]
      have h : packBits (b :: bs) / 2 = packBits bs := by
        cases b
        · simp [packBits]
        · simp only [packBits, if_true]
          omega
      rw [h, ih]
      simp

/-- The number `packBits bs` is below `2 ^ bs.length`. -/
theorem packBits_lt (bs : List Bool) : packBits bs < 2 ^ bs.length := by
  induction bs with
  | nil => simp [packBits]
  | cons b bs ih =>
    have h : packBits (b :: bs) ≤ 1 + 2 * packBits bs := by
      cases b <;> simp [packBits]
    rw [List.length_cons, pow_succ]
    omega

/-- The result of `_mm256_movemask_ps` is below 256. -/
theorem movemask_ps_lt (a : m256) : _mm256_movemask_ps a < 256 := by
  unfold _mm256_movemask_ps
  refine lt_of_lt_of_le (packBits_lt _) (le_of_eq ?_)
  simp only [List.length_cons, List.length_nil]
  norm_num

/-- Bit `i` of `_mm256_movemask_ps(a)` is the sign bit of lane `i`. -/
theorem testBit_movemask_ps (a : m256) (i : Fin 8) :
    (_mm256_movemask_ps a).testBit i.val = (a i).testBit 31 := by
  unfold _mm256_movemask_ps
  rw [testBit_packBits]
  fin_cases i <;> rfl

/-- The read access `operator[]` returns the sign bit of the lane. -/
theorem avxb.get_eq_sign (m : m256) (i : Fin 8) : avxb.get m i.val = (m i).testBit 31 := by
  rw [← testBit_movemask_ps]
  unfold avxb.get Nat.testBit
  rw [Nat.and_comm]

/-- Sign bit of the two canonical patterns. -/
theorem sign_ite_ones32 (c : Bool) : (if c then ones32 else 0).testBit 31 = c := by
  cases c <;> decide

/-- Lanes of `avxb(a)`: all ones where the bit of `a` is set, all zeros elsewhere, in both
variants, when the table entry `k` is the canonical mask of the four bits of `k`. -/
theorem avxb.ofInt_lane (avx2 : Bool) (lookupmask_ps : Nat → m128)
    (htab : ∀ k, k < 16 → ∀ j : Fin 4,
      lookupmask_ps k j = if k.testBit j.val then ones32 else 0)
    (a : Nat) (ha : a ≤ 255) (l : Fin 8) :
    avxb.ofInt avx2 lookupmask_ps a l = if a.testBit l.val then ones32 else 0 := by
  cases avx2
  · show avxb.ofHalves (lookupmask_ps (a &&& 0xF)) (lookupmask_ps (a >>> 4)) l = _
    unfold avxb.ofHalves
    by_cases h : l.val < 4
    · rw [dif_pos h, htab _ (Nat.lt_succ_of_le Nat.and_le_right)]
      have hb : (a &&& 0xF).testBit l.val = a.testBit l.val := by
        rw [Nat.testBit_and]
        have : Nat.testBit 0xF l.val = true := by
          have h4 := l.val
          interval_cases hl : l.val <;> decide
        rw [this, Bool.and_true]
      show (if (a &&& 0xF).testBit l.val = true then ones32 else 0) = _
      rw [hb]
    · rw [dif_neg h]
      have hlt : a >>> 4 < 16 := by
        rw [Nat.shiftRight_eq_div_pow]
        omega
      rw [htab _ hlt]
      show (if (a >>> 4).testBit (l.val - 4) = true then ones32 else 0) = _
      rw [Nat.testBit_shiftRight]
      have : 4 + (l.val - 4) = l.val := by omega
      rw [this]
  · show (if (a % 2 ^ 32) &&& _mm256_set_epi32 0x80 0x40 0x20 0x10 0x8 0x4 0x2 0x1 l
        = _mm256_set_epi32 0x80 0x40 0x20 0x10 0x8 0x4 0x2 0x1 l then ones32 else 0) = _
    have hm : _mm256_set_epi32 0x80 0x40 0x20 0x10 0x8 0x4 0x2 0x1 l = 2 ^ l.val := by
      fin_cases l <;> rfl
    have ha32 : a % 2 ^ 32 = a := Nat.mod_eq_of_lt (by omega)
    rw [hm, ha32, Nat.and_two_pow]
    have hpos : 0 < 2 ^ l.val := Nat.two_pow_pos _
    cases hb : a.testBit l.val
    · have : ¬ (false.toNat * 2 ^ l.val = 2 ^ l.val) := by
        simp only [Bool.toNat_false, zero_mul]
        omega
      rw [if_neg this]
      rfl
    · have : true.toNat * 2 ^ l.val = 2 ^ l.val := by simp
      rw [if_pos this]
      rfl

/-- Claim C22.  For `0 <= a <= 255` the mask `avxb(a)` (either variant; the lookup table
holding in entry `k` the canonical mask of the four bits of `k`) has lane `i` true exactly
when bit `i` of `a` is set, `movemask(avxb(a)) = a`, every mask `m` with canonical lanes
satisfies `avxb(movemask(m)) = m`, and the two constructions give the same register. -/
theorem C22_mask_of_int (avx2 : Bool) (lookupmask_ps : Nat → m128)
    (htab : ∀ k, k < 16 → ∀ j : Fin 4,
      lookupmask_ps k j = if k.testBit j.val then ones32 else 0)
    (a : Nat) (ha : a ≤ 255) :
    (∀ i : Fin 8, avxb.get (avxb.ofInt avx2 lookupmask_ps a) i.val = a.testBit i.val) ∧
    avxb.movemask (avxb.ofInt avx2 lookupmask_ps a) = a ∧
    (∀ m : m256, avxb.Canonical m →
      avxb.ofInt avx2 lookupmask_ps (avxb.movemask m) = m) ∧
    avxb.ofInt true lookupmask_ps a = avxb.ofInt false lookupmask_ps a := by
  have hlane : ∀ i : Fin 8,
      avxb.get (avxb.ofInt avx2 lookupmask_ps a) i.val = a.testBit i.val := by
    intro i
    rw [avxb.get_eq_sign, avxb.ofInt_lane avx2 lookupmask_ps htab a ha, sign_ite_ones32]
  refine ⟨hlane, ?_, ?_, ?_⟩
  · apply Nat.eq_of_testBit_eq
    intro j
    by_cases hj : j < 8
    · have h := hlane ⟨j, hj⟩
      rw [avxb.get_eq_sign] at h
      show (_mm256_movemask_ps _).testBit j = _
      rw [testBit_movemask_ps _ ⟨j, hj⟩]
      exact h
    · have hpow : 2 ^ 8 ≤ 2 ^ j := Nat.pow_le_pow_right (by decide) (by omega)
      have h1 : (avxb.movemask (avxb.ofInt avx2 lookupmask_ps a)).testBit j = false :=
        Nat.testBit_lt_two_pow (lt_of_lt_of_le (movemask_ps_lt _) hpow)
      have h2 : a.testBit j = false :=
        Nat.testBit_lt_two_pow (lt_of_lt_of_le (by omega : a < 2 ^ 8) hpow)
      rw [h1, h2]
  · intro m hm
    funext l
    show avxb.ofInt avx2 lookupmask_ps (_mm256_movemask_ps m) l = m l
    rw [avxb.ofInt_lane avx2 lookupmask_ps htab _
      (Nat.le_of_lt_succ (movemask_ps_lt m))]
    show (if (_mm256_movemask_ps m).testBit l.val = true then ones32 else 0) = m l
    rw [testBit_movemask_ps]
    rcases hm l with h | h <;> rw [h] <;> decide
  · funext l
    rw [avxb.ofInt_lane true lookupmask_ps htab a ha,
      avxb.ofInt_lane false lookupmask_ps htab a ha]

/-- Witness for C22: `a = 0xA5` in the lookup-table variant, with the canonical table. -/
theorem C22_mask_of_int_witness :
    (∀ i : Fin 8, avxb.get (avxb.ofInt false
      (fun k j => if k.testBit j.val then ones32 else 0) 0xA5) i.val
        = Nat.testBit 0xA5 i.val) ∧
    avxb.movemask (avxb.ofInt false
      (fun k j => if k.testBit j.val then ones32 else 0) 0xA5) = 0xA5 ∧
    (∀ m : m256, avxb.Canonical m →
      avxb.ofInt false (fun k j => if k.testBit j.val then ones32 else 0)
        (avxb.movemask m) = m) ∧
    avxb.ofInt true (fun k j => if k.testBit j.val then ones32 else 0) 0xA5
      = avxb.ofInt false (fun k j => if k.testBit j.val then ones32 else 0) 0xA5 :=
  C22_mask_of_int false (fun k j => if k.testBit j.val then ones32 else 0)
    (fun _ _ _ => rfl) 0xA5 (by decide)

/-- The reduction `all` on lanes is the conjunction of the lanes. -/
theorem all_iff (a : avxb) : all a = true ↔ ∀ l, a l = true := by
  unfold all
  simp only [Bool.and_eq_true]
  constructor
  · rintro ⟨⟨⟨⟨⟨⟨⟨h0, h1⟩, h2⟩, h3⟩, h4⟩, h5⟩, h6⟩, h7⟩ l
    fin_cases l <;> assumption
  · intro h
    exact ⟨⟨⟨⟨⟨⟨⟨h 0, h 1⟩, h 2⟩, h 3⟩, h 4⟩, h 5⟩, h 6⟩, h 7⟩

/-- Eight packed bits give `0xff` exactly when all of them are set. -/
theorem packBits_eq_255 (b0 b1 b2 b3 b4 b5 b6 b7 : Bool) :
    packBits [b0, b1, b2, b3, b4, b5, b6, b7] = 255 ↔
      (b0 = true ∧ b1 = true ∧ b2 = true ∧ b3 = true ∧ b4 = true ∧ b5 = true ∧
        b6 = true ∧ b7 = true) := by
  have h : ∀ c0 c1 c2 c3 c4 c5 c6 c7 : Bool,
      (packBits [c0, c1, c2, c3, c4, c5, c6, c7] == 255)
        = (c0 && c1 && c2 && c3 && c4 && c5 && c6 && c7) := by
    decide
  rw [← beq_iff_eq, h]
  simp only [Bool.and_eq_true, and_assoc]

/-- The set bits of eight packed bits are counted by `__popcnt`. -/
theorem popcnt_packBits (b0 b1 b2 b3 b4 b5 b6 b7 : Bool) :
    __popcnt (packBits [b0, b1, b2, b3, b4, b5, b6, b7]) =
      (if b0 then 1 else 0) + (if b1 then 1 else 0) + (if b2 then 1 else 0) +
      (if b3 then 1 else 0) + (if b4 then 1 else 0) + (if b5 then 1 else 0) +
      (if b6 then 1 else 0) + (if b7 then 1 else 0) := by
  revert b0 b1 b2 b3 b4 b5 b6 b7
  decide

/-- The instruction `_mm256_testz_ps(a, a)` returns zero exactly when some lane has its
sign bit set. -/
theorem testz_ps_self (a : m256) :
    _mm256_testz_ps a a = 0 ↔ ∃ i : Fin 8, (a i).testBit 31 = true := by
  unfold _mm256_testz_ps
  simp only [Nat.and_self]
  by_cases h : ∀ l : Fin 8, (a l).testBit 31 = false
  · rw [if_pos h]
    constructor
    · intro h1
      exact absurd h1 (by decide)
    · rintro ⟨i, hi⟩
      rw [h i] at hi
      exact absurd hi (by decide)
  · rw [if_neg h]
    push_neg at h
    obtain ⟨i, hi⟩ := h
    exact ⟨fun _ => ⟨i, by simpa using hi⟩, fun _ => rfl⟩

/-- The register-level `any` is the disjunction of the lanes. -/
theorem avxb.any_register_iff (m : m256) :
    avxb.any m = true ↔ ∃ i : Fin 8, avxb.get m i.val = true := by
  unfold avxb.any
  rw [beq_iff_eq, testz_ps_self]
  simp only [avxb.get_eq_sign]

/-- The register-level `all` is the conjunction of the lanes. -/
theorem avxb.all_register_iff (m : m256) :
    avxb.all m = true ↔ ∀ i : Fin 8, avxb.get m i.val = true := by
  unfold avxb.all _mm256_movemask_ps
  rw [beq_iff_eq, packBits_eq_255]
  simp only [avxb.get_eq_sign]
  constructor
  · rintro ⟨h0, h1, h2, h3, h4, h5, h6, h7⟩ i
    fin_cases i <;> assumption
  · intro h
    exact ⟨h 0, h 1, h 2, h 3, h 4, h 5, h 6, h 7⟩

/-- Claim C23.  For every stored mask `m`, read through `operator[]`: `any(m)` holds iff
some lane is true, `all(m)` holds iff every lane is true, which is `movemask(m) = 0xFF`,
`none(m) = !any(m)`, `reduce_or = any`, `reduce_and = all`, and `popcnt(m)` is the number of
true lanes, the number of set bits of `movemask(m)`.  The three reductions are those of the
lanes (the functions `any`, `all`, `none` used by the traversal). -/
theorem C23_mask_reductions (m : m256) :
    (avxb.any m = true ↔ ∃ i : Fin 8, avxb.get m i.val = true) ∧
    (avxb.all m = true ↔ ∀ i : Fin 8, avxb.get m i.val = true) ∧
    (avxb.all m = true ↔ avxb.movemask m = 0xFF) ∧
    avxb.none m = !avxb.any m ∧
    avxb.reduce_or m = avxb.any m ∧
    avxb.reduce_and m = avxb.all m ∧
    avxb.popcnt m = (Finset.univ.filter (fun i : Fin 8 => avxb.get m i.val = true)).card ∧
    avxb.popcnt m
      = ((List.range 32).filter (fun j => (avxb.movemask m).testBit j)).length ∧
    avxb.any m = embree.any (avxb.lanes m) ∧
    avxb.all m = embree.all (avxb.lanes m) ∧
    avxb.none m = embree.none (avxb.lanes m) := by
  have hnone : avxb.none m = !avxb.any m := by
    unfold avxb.none avxb.any
    cases h : _mm256_testz_ps m m == 0 <;> simp [bne, h]
  have hany : avxb.any m = embree.any (avxb.lanes m) := by
    rw [Bool.eq_iff_iff, avxb.any_register_iff, embree.any_iff]
    rfl
  have hall : avxb.all m = embree.all (avxb.lanes m) := by
    rw [Bool.eq_iff_iff, avxb.all_register_iff, embree.all_iff]
    rfl
  have hor : avxb.reduce_or m = avxb.any m := by
    unfold avxb.reduce_or avxb.any
    rfl
  have hand : avxb.reduce_and m = avxb.all m := by
    unfold avxb.reduce_and avxb.all
    rfl
  have hbits : avxb.popcnt m
      = ((List.range 32).filter (fun j => (avxb.movemask m).testBit j)).length := by
    unfold avxb.popcnt avxb.movemask __popcnt
    rfl
  refine ⟨avxb.any_register_iff m, avxb.all_register_iff m, ?_, hnone, hor, hand, ?_, hbits, hany, hall, ?_⟩
  · unfold avxb.all avxb.movemask
    exact beq_iff_eq
  · unfold avxb.popcnt _mm256_movemask_ps
    rw [popcnt_packBits, Finset.card_filter, Fin.sum_univ_eight]
    simp only [avxb.get_eq_sign]
  · rw [hnone, hany]
    rfl

/-- Every lane of `avxb(True)` is all ones. -/
theorem avxb.ofTrue_lane (l : Fin 8) : avxb.ofTrue l = ones32 := by
  show (if _mm256_setzero_ps l = _mm256_setzero_ps l then ones32 else 0) = ones32
  exact if_pos rfl

/-- A canonical lane is determined by its sign bit. -/
theorem avxb.lane_of_sign {m : m256} (hm : avxb.Canonical m) (l : Fin 8) :
    m l = if (m l).testBit 31 then ones32 else 0 := by
  rcases hm l with h | h <;> rw [h] <;> decide

/-- Claim C24.  Canonical-lane invariant of `avxb`: when every lane of the operands is all
zeros or all ones, every lane of `!a`, `a & b`, `a | b`, `a ^ b`, `a == b`, `a != b` and
`select(mask, t, f)` is again all zeros or all ones, and the lanes read by `operator[]` are
the lanewise NOT, AND, OR, XOR, equality, inequality and choice of the operand lanes (for
`select` the selecting mask need not be canonical); the
masks built by `avxb(int)` (either variant, canonical table), `avxb(bool)` (canonical
`sseb(bool)`), `avxb(False)` and `avxb(True)` are canonical, with the expected lanes. -/
theorem C24_canonical_lanes (avx2 : Bool) (lookupmask_ps : Nat → m128) (sseb : Bool → m128)
    (htab : ∀ k, k < 16 → ∀ j : Fin 4,
      lookupmask_ps k j = if k.testBit j.val then ones32 else 0)
    (hsseb : ∀ (c : Bool) (j : Fin 4), sseb c j = if c then ones32 else 0)
    (a b mask t f : m256) (ha : avxb.Canonical a) (hb : avxb.Canonical b)
    (ht : avxb.Canonical t) (hf : avxb.Canonical f) :
    (avxb.Canonical (avxb.operator_not a) ∧
      ∀ i : Fin 8, avxb.get (avxb.operator_not a) i.val = !avxb.get a i.val) ∧
    (avxb.Canonical (avxb.operator_and a b) ∧
      ∀ i : Fin 8, avxb.get (avxb.operator_and a b) i.val
        = (avxb.get a i.val && avxb.get b i.val)) ∧
    (avxb.Canonical (avxb.operator_or a b) ∧
      ∀ i : Fin 8, avxb.get (avxb.operator_or a b) i.val
        = (avxb.get a i.val || avxb.get b i.val)) ∧
    (avxb.Canonical (avxb.operator_xor a b) ∧
      ∀ i : Fin 8, avxb.get (avxb.operator_xor a b) i.val
        = (avxb.get a i.val != avxb.get b i.val)) ∧
    (avxb.Canonical (avxb.operator_eq a b) ∧
      ∀ i : Fin 8, avxb.get (avxb.operator_eq a b) i.val
        = (avxb.get a i.val == avxb.get b i.val)) ∧
    (avxb.Canonical (avxb.operator_ne a b) ∧
      ∀ i : Fin 8, avxb.get (avxb.operator_ne a b) i.val
        = (avxb.get a i.val != avxb.get b i.val)) ∧
    (avxb.Canonical (avxb.select mask t f) ∧
      ∀ i : Fin 8, avxb.get (avxb.select mask t f) i.val
        = if avxb.get mask i.val then avxb.get t i.val else avxb.get f i.val) ∧
    (∀ n, n ≤ 255 → avxb.Canonical (avxb.ofInt avx2 lookupmask_ps n)) ∧
    (∀ c : Bool, avxb.Canonical (avxb.ofBool sseb c) ∧
      ∀ i : Fin 8, avxb.get (avxb.ofBool sseb c) i.val = c) ∧
    (avxb.Canonical avxb.ofFalse ∧ ∀ i : Fin 8, avxb.get avxb.ofFalse i.val = false) ∧
    (avxb.Canonical avxb.ofTrue ∧ ∀ i : Fin 8, avxb.get avxb.ofTrue i.val = true) := by
  have hbool : ∀ (c : Bool) (l : Fin 8), avxb.ofBool sseb c l = if c then ones32 else 0 := by
    intro c l
    show _mm256_insertf128_ps (_mm256_castps128_ps256 (sseb c)) (sseb c) 1 l = _
    unfold _mm256_insertf128_ps _mm256_castps128_ps256
    by_cases h : l.val < 4
    · simp only [h, dite_true]
      rw [if_neg (by decide), hsseb]
    · simp only [h, dite_false]
      rw [if_neg (by decide), hsseb]
  refine ⟨⟨?_, ?_⟩, ⟨?_, ?_⟩, ⟨?_, ?_⟩, ⟨?_, ?_⟩, ⟨?_, ?_⟩, ⟨?_, ?_⟩, ⟨?_, ?_⟩, ?_, ?_,
    ⟨?_, ?_⟩, ⟨?_, ?_⟩⟩
  · intro l
    show a l ^^^ avxb.ofTrue l = 0 ∨ a l ^^^ avxb.ofTrue l = ones32
    rw [avxb.ofTrue_lane]
    rcases ha l with h | h <;> rw [h] <;> decide
  · intro l
    rw [avxb.get_eq_sign, avxb.get_eq_sign]
    show (a l ^^^ avxb.ofTrue l).testBit 31 = !(a l).testBit 31
    rw [avxb.ofTrue_lane]
    rcases ha l with h | h <;> rw [h] <;> decide
  · intro l
    show a l &&& b l = 0 ∨ a l &&& b l = ones32
    rcases ha l with h | h <;> rcases hb l with h' | h' <;> rw [h, h'] <;> decide
  · intro l
    rw [avxb.get_eq_sign, avxb.get_eq_sign, avxb.get_eq_sign]
    show (a l &&& b l).testBit 31 = ((a l).testBit 31 && (b l).testBit 31)
    rcases ha l with h | h <;> rcases hb l with h' | h' <;> rw [h, h'] <;> decide
  · intro l
    show a l ||| b l = 0 ∨ a l ||| b l = ones32
    rcases ha l with h | h <;> rcases hb l with h' | h' <;> rw [h, h'] <;> decide
  · intro l
    rw [avxb.get_eq_sign, avxb.get_eq_sign, avxb.get_eq_sign]
    show (a l ||| b l).testBit 31 = ((a l).testBit 31 || (b l).testBit 31)
    rcases ha l with h | h <;> rcases hb l with h' | h' <;> rw [h, h'] <;> decide
  · intro l
    show a l ^^^ b l = 0 ∨ a l ^^^ b l = ones32
    rcases ha l with h | h <;> rcases hb l with h' | h' <;> rw [h, h'] <;> decide
  · intro l
    rw [avxb.get_eq_sign, avxb.get_eq_sign, avxb.get_eq_sign]
    show (a l ^^^ b l).testBit 31 = ((a l).testBit 31 != (b l).testBit 31)
    rcases ha l with h | h <;> rcases hb l with h' | h' <;> rw [h, h'] <;> decide
  · intro l
    show (a l ^^^ b l) ^^^ avxb.ofTrue l = 0 ∨ (a l ^^^ b l) ^^^ avxb.ofTrue l = ones32
    rw [avxb.ofTrue_lane]
    rcases ha l with h | h <;> rcases hb l with h' | h' <;> rw [h, h'] <;> decide
  · intro l
    rw [avxb.get_eq_sign, avxb.get_eq_sign, avxb.get_eq_sign]
    show ((a l ^^^ b l) ^^^ avxb.ofTrue l).testBit 31
      = ((a l).testBit 31 == (b l).testBit 31)
    rw [avxb.ofTrue_lane]
    rcases ha l with h | h <;> rcases hb l with h' | h' <;> rw [h, h'] <;> decide
  · intro l
    show a l ^^^ b l = 0 ∨ a l ^^^ b l = ones32
    rcases ha l with h | h <;> rcases hb l with h' | h' <;> rw [h, h'] <;> decide
  · intro l
    rw [avxb.get_eq_sign, avxb.get_eq_sign, avxb.get_eq_sign]
    show (a l ^^^ b l).testBit 31 = ((a l).testBit 31 != (b l).testBit 31)
    rcases ha l with h | h <;> rcases hb l with h' | h' <;> rw [h, h'] <;> decide
  · intro l
    show (if (mask l).testBit 31 = true then t l else f l) = 0
      ∨ (if (mask l).testBit 31 = true then t l else f l) = ones32
    split
    · exact ht l
    · exact hf l
  · intro l
    rw [avxb.get_eq_sign, avxb.get_eq_sign, avxb.get_eq_sign, avxb.get_eq_sign]
    show (if (mask l).testBit 31 = true then t l else f l).testBit 31 = _
    split <;> rfl
  · intro n hn l
    rw [avxb.ofInt_lane avx2 lookupmask_ps htab n hn]
    split
    · exact Or.inr rfl
    · exact Or.inl rfl
  · intro c
    refine ⟨fun l => ?_, fun l => ?_⟩
    · rw [hbool]
      cases c
      · exact Or.inl rfl
      · exact Or.inr rfl
    · rw [avxb.get_eq_sign, hbool, sign_ite_ones32]
  · exact fun l => Or.inl rfl
  · intro l
    rw [avxb.get_eq_sign]
    exact Nat.zero_testBit 31
  · exact fun l => Or.inr (avxb.ofTrue_lane l)
  · intro l
    rw [avxb.get_eq_sign, avxb.ofTrue_lane]
    decide

/-- Witness for C24: the masks `avxb(0x0F)`, `avxb(0x33)`, `avxb(0x55)` and the canonical
table and `sseb(bool)`. -/
theorem C24_canonical_lanes_witness :
    avxb.Canonical (avxb.operator_eq
        (avxb.ofInt true (fun k j => if k.testBit j.val then ones32 else 0) 0x0F)
        (avxb.ofInt true (fun k j => if k.testBit j.val then ones32 else 0) 0x33)) ∧
    avxb.Canonical (avxb.select
        (avxb.ofInt true (fun k j => if k.testBit j.val then ones32 else 0) 0x55)
        (avxb.ofInt true (fun k j => if k.testBit j.val then ones32 else 0) 0x0F)
        (avxb.ofInt true (fun k j => if k.testBit j.val then ones32 else 0) 0x33)) :=
  have hc : ∀ n, n ≤ 255 →
      avxb.Canonical (avxb.ofInt true (fun k j => if k.testBit j.val then ones32 else 0) n) :=
    fun n hn l => by
      rw [avxb.ofInt_lane true _ (fun _ _ _ => rfl) n hn]
      split
      · exact Or.inr rfl
      · exact Or.inl rfl
  have h := C24_canonical_lanes true (fun k j => if k.testBit j.val then ones32 else 0)
    (fun c _ => if c then ones32 else 0) (fun _ _ _ => rfl) (fun _ _ => rfl)
    (avxb.ofInt true (fun k j => if k.testBit j.val then ones32 else 0) 0x0F)
    (avxb.ofInt true (fun k j => if k.testBit j.val then ones32 else 0) 0x33)
    (avxb.ofInt true (fun k j => if k.testBit j.val then ones32 else 0) 0x55)
    (avxb.ofInt true (fun k j => if k.testBit j.val then ones32 else 0) 0x0F)
    (avxb.ofInt true (fun k j => if k.testBit j.val then ones32 else 0) 0x33)
    (hc _ (by decide)) (hc _ (by decide)) (hc _ (by decide)) (hc _ (by decide))
  ⟨h.2.2.2.2.1.1, h.2.2.2.2.2.2.1.1⟩

/-- Claim C25.  For every stored mask `m` and vectors `t`, `f`, `select(m, t, f)` has in
lane `i` the value `t[i]` when `m[i]` is true and `f[i]` otherwise (it is the lane-level
`select` of the traversal); and for `0 <= imm <= 255` both variants of
`select(int, t, f)` return the vector `select(avxb(imm), t, f)`, whose lane `i` is `t[i]`
when bit `i` of `imm` is set and `f[i]` otherwise. -/
theorem C25_select (workaround avx2 : Bool) (lookupmask_ps : Nat → m128)
    (htab : ∀ k, k < 16 → ∀ j : Fin 4,
      lookupmask_ps k j = if k.testBit j.val then ones32 else 0)
    (m : m256) (t f : avxf) (imm : Nat) (himm : imm ≤ 255) :
    (∀ i : Fin 8, avxf.select m t f i = if avxb.get m i.val then t i else f i) ∧
    avxf.select m t f = embree.select (avxb.lanes m) t f ∧
    avxf.select_int workaround avx2 lookupmask_ps imm t f
      = avxf.select (avxb.ofInt avx2 lookupmask_ps imm) t f ∧
    (∀ i : Fin 8, avxf.select_int workaround avx2 lookupmask_ps imm t f i
      = if imm.testBit i.val then t i else f i) := by
  have hsel : ∀ (m : m256) (i : Fin 8),
      avxf.select m t f i = if avxb.get m i.val then t i else f i := by
    intro m i
    rw [avxb.get_eq_sign]
    rfl
  have hint : ∀ i : Fin 8, avxf.select (avxb.ofInt avx2 lookupmask_ps imm) t f i
      = if imm.testBit i.val then t i else f i := by
    intro i
    rw [hsel, avxb.get_eq_sign, avxb.ofInt_lane avx2 lookupmask_ps htab imm himm,
      sign_ite_ones32]
  have hboth : avxf.select_int workaround avx2 lookupmask_ps imm t f
      = avxf.select (avxb.ofInt avx2 lookupmask_ps imm) t f := by
    cases workaround
    · funext i
      rw [hint]
      rfl
    · rfl
  refine ⟨hsel m, ?_, hboth, ?_⟩
  · funext i
    rw [hsel]
    rfl
  · intro i
    rw [hboth, hint]

/-- Witness for C25: the immediate `0x0F` in the `_mm256_blend_ps` variant. -/
theorem C25_select_witness :
    (∀ i : Fin 8, avxf.select avxb.ofTrue (fun _ => (1 : ℚ)) (fun _ => 2) i
      = if avxb.get avxb.ofTrue i.val then (1 : ℚ) else 2) ∧
    avxf.select avxb.ofTrue (fun _ => (1 : ℚ)) (fun _ => 2)
      = embree.select (avxb.lanes avxb.ofTrue) (fun _ => (1 : ℚ)) (fun _ => 2) ∧
    avxf.select_int false true (fun k j => if k.testBit j.val then ones32 else 0) 0x0F
        (fun _ => (1 : ℚ)) (fun _ => 2)
      = avxf.select (avxb.ofInt true (fun k j => if k.testBit j.val then ones32 else 0) 0x0F)
        (fun _ => (1 : ℚ)) (fun _ => 2) ∧
    (∀ i : Fin 8, avxf.select_int false true
        (fun k j => if k.testBit j.val then ones32 else 0) 0x0F
        (fun _ => (1 : ℚ)) (fun _ => 2) i
      = if Nat.testBit 0x0F i.val then (1 : ℚ) else 2) :=
  C25_select false true (fun k j => if k.testBit j.val then ones32 else 0)
    (fun _ _ _ => rfl) avxb.ofTrue (fun _ => 1) (fun _ => 2) 0x0F (by decide)

/-- Claim C26.  For every stored mask `m`, destination `dst` and value vector `f`, after
`store8f(m, &dst, f)` lane `i` of `dst` holds `f[i]` if `m[i]` is true and its previous
value otherwise (the lane-level `store8f` of the traversal); with an all-false mask, in
particular `avxb(False)`, the destination is unchanged. -/
theorem C26_masked_store (m : m256) (dst f : avxf) :
    (∀ i : Fin 8, avxf.store8f m dst f i = if avxb.get m i.val then f i else dst i) ∧
    avxf.store8f m dst f = embree.store8f (avxb.lanes m) dst f ∧
    ((∀ i : Fin 8, avxb.get m i.val = false) → avxf.store8f m dst f = dst) ∧
    avxf.store8f avxb.ofFalse dst f = dst := by
  have hst : ∀ (m : m256) (i : Fin 8),
      avxf.store8f m dst f i = if avxb.get m i.val then f i else dst i := by
    intro m i
    rw [avxb.get_eq_sign]
    rfl
  refine ⟨hst m, ?_, ?_, ?_⟩
  · funext i
    rw [hst]
    rfl
  · intro h
    funext i
    rw [hst, h i]
    rfl
  · funext i
    rw [hst, avxb.get_eq_sign]
    show (if (0 : Nat).testBit 31 = true then f i else dst i) = dst i
    rw [if_neg (by decide)]

/-! ## Transposes -/

/-- The function `shuffle<0,2>(a, b)` joins the low halves of `a` and `b`. -/
theorem avxf.shuffle_halves_0_2 (a b : avxf) :
    avxf.shuffle_halves 0 2 a b = ![a 0, a 1, a 2, a 3, b 0, b 1, b 2, b 3] := by
  funext l
  fin_cases l <;> rfl

/-- The function `shuffle<1,3>(a, b)` joins the high halves of `a` and `b`. -/
theorem avxf.shuffle_halves_1_3 (a b : avxf) :
    avxf.shuffle_halves 1 3 a b = ![a 4, a 5, a 6, a 7, b 4, b 5, b 6, b 7] := by
  funext l
  fin_cases l <;> rfl

/-- The four outputs of the four-row transpose, lane by lane. -/
theorem avxf.transpose4_eq (r0 r1 r2 r3 : avxf) :
    avxf.transpose4 r0 r1 r2 r3 =
      ![![r0 0, r1 0, r2 0, r3 0, r0 4, r1 4, r2 4, r3 4],
        ![r0 1, r1 1, r2 1, r3 1, r0 5, r1 5, r2 5, r3 5],
        ![r0 2, r1 2, r2 2, r3 2, r0 6, r1 6, r2 6, r3 6],
        ![r0 3, r1 3, r2 3, r3 3, r0 7, r1 7, r2 7, r3 7]] := by
  funext j l
  fin_cases j <;> fin_cases l <;> rfl

/-- The eight outputs of the eight-row transpose, lane by lane. -/
theorem avxf.transpose8_eq (r0 r1 r2 r3 r4 r5 r6 r7 : avxf) :
    avxf.transpose8 r0 r1 r2 r3 r4 r5 r6 r7 =
      ![![r0 0, r1 0, r2 0, r3 0, r4 0, r5 0, r6 0, r7 0],
        ![r0 1, r1 1, r2 1, r3 1, r4 1, r5 1, r6 1, r7 1],
        ![r0 2, r1 2, r2 2, r3 2, r4 2, r5 2, r6 2, r7 2],
        ![r0 3, r1 3, r2 3, r3 3, r4 3, r5 3, r6 3, r7 3],
        ![r0 4, r1 4, r2 4, r3 4, r4 4, r5 4, r6 4, r7 4],
        ![r0 5, r1 5, r2 5, r3 5, r4 5, r5 5, r6 5, r7 5],
        ![r0 6, r1 6, r2 6, r3 6, r4 6, r5 6, r6 6, r7 6],
        ![r0 7, r1 7, r2 7, r3 7, r4 7, r5 7, r6 7, r7 7]] := by
  unfold avxf.transpose8
  simp only [avxf.transpose4_eq, avxf.shuffle_halves_0_2, avxf.shuffle_halves_1_3]
  rfl

/-- Claim C27.  For eight rows `r 0, ..., r 7` the eight-row transpose writes `c0..c7` with
`c_j[i] = r_i[j]` for all `i, j` in `0..7`, so that applying it to its own outputs returns
the original rows; the four-row transpose transposes each 128-bit half on its own,
`c_j[4h+i] = r_i[4h+j]` for `h` in `{0,1}` and `i, j` in `0..3`, and its three-output
overload returns the same `c0, c1, c2`. -/
theorem C27_transpose (r : Fin 8 → avxf) (s : Fin 4 → avxf) :
    (∀ i j : Fin 8,
      avxf.transpose8 (r 0) (r 1) (r 2) (r 3) (r 4) (r 5) (r 6) (r 7) j i = r i j) ∧
    (∀ i j : Fin 8,
      avxf.transpose8
        (avxf.transpose8 (r 0) (r 1) (r 2) (r 3) (r 4) (r 5) (r 6) (r 7) 0)
        (avxf.transpose8 (r 0) (r 1) (r 2) (r 3) (r 4) (r 5) (r 6) (r 7) 1)
        (avxf.transpose8 (r 0) (r 1) (r 2) (r 3) (r 4) (r 5) (r 6) (r 7) 2)
        (avxf.transpose8 (r 0) (r 1) (r 2) (r 3) (r 4) (r 5) (r 6) (r 7) 3)
        (avxf.transpose8 (r 0) (r 1) (r 2) (r 3) (r 4) (r 5) (r 6) (r 7) 4)
        (avxf.transpose8 (r 0) (r 1) (r 2) (r 3) (r 4) (r 5) (r 6) (r 7) 5)
        (avxf.transpose8 (r 0) (r 1) (r 2) (r 3) (r 4) (r 5) (r 6) (r 7) 6)
        (avxf.transpose8 (r 0) (r 1) (r 2) (r 3) (r 4) (r 5) (r 6) (r 7) 7) i j
        = r i j) ∧
    (∀ (h : Fin 2) (i j : Fin 4),
      avxf.transpose4 (s 0) (s 1) (s 2) (s 3) j ⟨4 * h.val + i.val, by omega⟩
        = s i ⟨4 * h.val + j.val, by omega⟩) ∧
    (∀ j : Fin 3, avxf.transpose3 (s 0) (s 1) (s 2) (s 3) j
      = avxf.transpose4 (s 0) (s 1) (s 2) (s 3) ⟨j.val, by omega⟩) := by
  have h8 : ∀ (r : Fin 8 → avxf) (i j : Fin 8),
      avxf.transpose8 (r 0) (r 1) (r 2) (r 3) (r 4) (r 5) (r 6) (r 7) j i = r i j := by
    intro r i j
    refine (congrFun (congrFun (avxf.transpose8_eq _ _ _ _ _ _ _ _) j) i).trans ?_
    fin_cases i <;> fin_cases j <;> rfl
  refine ⟨h8 r, ?_, ?_, ?_⟩
  · intro i j
    exact (h8 (avxf.transpose8 (r 0) (r 1) (r 2) (r 3) (r 4) (r 5) (r 6) (r 7)) j i).trans
      (h8 r i j)
  · intro h i j
    refine (congrFun (congrFun (avxf.transpose4_eq _ _ _ _) j) _).trans ?_
    fin_cases h <;> fin_cases i <;> fin_cases j <;> rfl
  · intro j
    fin_cases j <;> rfl

/-! ## Horizontal reductions -/

/-- The lane index `l xor k`. -/
theorem xor_lane_lt (l k : Fin 8) : l.val ^^^ k.val < 8 :=
  Nat.xor_lt_two_pow (n := 3) l.isLt k.isLt

/-- Every lane index is `l xor k` for some `k`. -/
theorem xor_lane_surj :
    ∀ l i : Fin 8, ∃ k : Fin 8, l.val ^^^ k.val = i.val := by
  decide

/-- The minimum of eight values, grouped as the reduction groups them, is below each of
them and is one of them. -/
theorem min8_spec {α : Type} [LinearOrder α] (a : Fin 8 → α) :
    (∀ k, Min.min (Min.min (Min.min (a 0) (a 1)) (Min.min (a 2) (a 3))) (Min.min (Min.min (a 4) (a 5)) (Min.min (a 6) (a 7))) ≤ a k) ∧
    ∃ k, a k = Min.min (Min.min (Min.min (a 0) (a 1)) (Min.min (a 2) (a 3))) (Min.min (Min.min (a 4) (a 5)) (Min.min (a 6) (a 7))) := by
  constructor
  · intro k
    fin_cases k <;> simp only [min_le_iff] <;> simp only [Fin.zero_eta, Fin.mk_one,
      Fin.reduceFinMk, le_refl, true_or, or_true]
  · have hP : ∀ x y : α, (∃ k, a k = x) → (∃ k, a k = y) → ∃ k, a k = Min.min x y := by
      intro x y hx hy
      rcases min_choice x y with h | h <;> rw [h] <;> assumption
    exact hP _ _ (hP _ _ (hP _ _ ⟨_, rfl⟩ ⟨_, rfl⟩) (hP _ _ ⟨_, rfl⟩ ⟨_, rfl⟩))
      (hP _ _ (hP _ _ ⟨_, rfl⟩ ⟨_, rfl⟩) (hP _ _ ⟨_, rfl⟩ ⟨_, rfl⟩))

/-- The maximum of eight values, grouped as the reduction groups them, is above each of
them and is one of them. -/
theorem max8_spec {α : Type} [LinearOrder α] (a : Fin 8 → α) :
    (∀ k, a k ≤ Max.max (Max.max (Max.max (a 0) (a 1)) (Max.max (a 2) (a 3))) (Max.max (Max.max (a 4) (a 5)) (Max.max (a 6) (a 7)))) ∧
    ∃ k, a k = Max.max (Max.max (Max.max (a 0) (a 1)) (Max.max (a 2) (a 3))) (Max.max (Max.max (a 4) (a 5)) (Max.max (a 6) (a 7))) := by
  constructor
  · intro k
    fin_cases k <;> simp only [le_max_iff] <;> simp only [Fin.zero_eta, Fin.mk_one,
      Fin.reduceFinMk, le_refl, true_or, or_true]
  · have hP : ∀ x y : α, (∃ k, a k = x) → (∃ k, a k = y) → ∃ k, a k = Max.max x y := by
      intro x y hx hy
      rcases max_choice x y with h | h <;> rw [h] <;> assumption
    exact hP _ _ (hP _ _ (hP _ _ ⟨_, rfl⟩ ⟨_, rfl⟩) (hP _ _ ⟨_, rfl⟩ ⟨_, rfl⟩))
      (hP _ _ (hP _ _ ⟨_, rfl⟩ ⟨_, rfl⟩) (hP _ _ ⟨_, rfl⟩ ⟨_, rfl⟩))

/-- Lane `l` of `vreduce_min(v)` is the minimum of the lanes `l xor 0, ..., l xor 7`. -/
theorem avxf.vreduce_min_lane {α : Type} [LinearOrder α] [Zero α] (v : Fin 8 → α)
    (l : Fin 8) :
    avxf.vreduce_min v l = Min.min (Min.min (Min.min (v ⟨l.val ^^^ 0, xor_lane_lt l 0⟩) (v ⟨l.val ^^^ 1, xor_lane_lt l 1⟩)) (Min.min (v ⟨l.val ^^^ 2, xor_lane_lt l 2⟩) (v ⟨l.val ^^^ 3, xor_lane_lt l 3⟩))) (Min.min (Min.min (v ⟨l.val ^^^ 4, xor_lane_lt l 4⟩) (v ⟨l.val ^^^ 5, xor_lane_lt l 5⟩)) (Min.min (v ⟨l.val ^^^ 6, xor_lane_lt l 6⟩) (v ⟨l.val ^^^ 7, xor_lane_lt l 7⟩))) := by
  fin_cases l <;> rfl

/-- Lane `l` of `vreduce_max(v)` is the maximum of the lanes `l xor 0, ..., l xor 7`. -/
theorem avxf.vreduce_max_lane {α : Type} [LinearOrder α] [Zero α] (v : Fin 8 → α)
    (l : Fin 8) :
    avxf.vreduce_max v l = Max.max (Max.max (Max.max (v ⟨l.val ^^^ 0, xor_lane_lt l 0⟩) (v ⟨l.val ^^^ 1, xor_lane_lt l 1⟩)) (Max.max (v ⟨l.val ^^^ 2, xor_lane_lt l 2⟩) (v ⟨l.val ^^^ 3, xor_lane_lt l 3⟩))) (Max.max (Max.max (v ⟨l.val ^^^ 4, xor_lane_lt l 4⟩) (v ⟨l.val ^^^ 5, xor_lane_lt l 5⟩)) (Max.max (v ⟨l.val ^^^ 6, xor_lane_lt l 6⟩) (v ⟨l.val ^^^ 7, xor_lane_lt l 7⟩))) := by
  fin_cases l <;> rfl

/-- Every lane of `vreduce_min(v)` is below all lanes of `v` and is one of them. -/
theorem avxf.vreduce_min_spec {α : Type} [LinearOrder α] [Zero α] (v : Fin 8 → α)
    (l : Fin 8) :
    (∀ i, avxf.vreduce_min v l ≤ v i) ∧ ∃ i, v i = avxf.vreduce_min v l := by
  rw [avxf.vreduce_min_lane]
  obtain ⟨h1, k, h2⟩ := min8_spec (fun k => v ⟨l.val ^^^ k.val, xor_lane_lt l k⟩)
  refine ⟨fun i => ?_, ⟨_, h2⟩⟩
  obtain ⟨k, hk⟩ := xor_lane_surj l i
  have hi : i = ⟨l.val ^^^ k.val, xor_lane_lt l k⟩ := Fin.ext hk.symm
  rw [hi]
  exact h1 k

/-- Every lane of `vreduce_max(v)` is above all lanes of `v` and is one of them. -/
theorem avxf.vreduce_max_spec {α : Type} [LinearOrder α] [Zero α] (v : Fin 8 → α)
    (l : Fin 8) :
    (∀ i, v i ≤ avxf.vreduce_max v l) ∧ ∃ i, v i = avxf.vreduce_max v l := by
  rw [avxf.vreduce_max_lane]
  obtain ⟨h1, k, h2⟩ := max8_spec (fun k => v ⟨l.val ^^^ k.val, xor_lane_lt l k⟩)
  refine ⟨fun i => ?_, ⟨_, h2⟩⟩
  obtain ⟨k, hk⟩ := xor_lane_surj l i
  have hi : i = ⟨l.val ^^^ k.val, xor_lane_lt l k⟩ := Fin.ext hk.symm
  rw [hi]
  exact h1 k

/-- The lowest set bit of eight packed bits, found by `__bsf`: it is one of the listed
bits, it is set, and no bit below it is set. -/
theorem bsf_packBits (b0 b1 b2 b3 b4 b5 b6 b7 : Bool)
    (h : (b0 || b1 || b2 || b3 || b4 || b5 || b6 || b7) = true) :
    __bsf (packBits [b0, b1, b2, b3, b4, b5, b6, b7]) < 8 ∧
    [b0, b1, b2, b3, b4, b5, b6, b7].getD
      (__bsf (packBits [b0, b1, b2, b3, b4, b5, b6, b7])) false = true ∧
    ∀ j, j < __bsf (packBits [b0, b1, b2, b3, b4, b5, b6, b7]) →
      [b0, b1, b2, b3, b4, b5, b6, b7].getD j false = false := by
  revert b0 b1 b2 b3 b4 b5 b6 b7
  decide

/-- Reading a list of eight lanes at an index below eight. -/
theorem getD_lanes (s : Fin 8 → Bool) (k : Nat) (h : k < 8) :
    [s 0, s 1, s 2, s 3, s 4, s 5, s 6, s 7].getD k false = s ⟨k, h⟩ := by
  interval_cases k <;> rfl

/-- The lowest lane whose sign bit is set, found by `__bsf(movemask(m))`. -/
theorem bsf_movemask (m : m256) (h : ∃ i : Fin 8, (m i).testBit 31 = true) :
    ∃ hk : __bsf (avxb.movemask m) < 8,
      (m ⟨__bsf (avxb.movemask m), hk⟩).testBit 31 = true ∧
      ∀ i : Fin 8, (m i).testBit 31 = true → __bsf (avxb.movemask m) ≤ i.val := by
  have hor : ((m 0).testBit 31 || (m 1).testBit 31 || (m 2).testBit 31 || (m 3).testBit 31
      || (m 4).testBit 31 || (m 5).testBit 31 || (m 6).testBit 31 || (m 7).testBit 31)
      = true := by
    obtain ⟨i, hi⟩ := h
    fin_cases i <;> simp only [Fin.zero_eta, Fin.mk_one, Fin.reduceFinMk] at hi <;>
      simp [hi]
  obtain ⟨h1, h2, h3⟩ := bsf_packBits _ _ _ _ _ _ _ _ hor
  rw [getD_lanes (fun i => (m i).testBit 31) _ h1] at h2
  refine ⟨h1, h2, fun i hi => ?_⟩
  by_contra hlt
  have h4 := h3 i.val (not_le.1 hlt)
  rw [getD_lanes (fun i => (m i).testBit 31) _ i.isLt, hi] at h4
  exact Bool.noConfusion h4

/-- Claim C28.  For every 8-lane vector `v` of exact values (totally ordered, no NaN):
`reduce_min(v)` is the smallest and `reduce_max(v)` the largest of the eight lanes,
`vreduce_min(v)` and `vreduce_max(v)` hold that value in all eight lanes, and
`select_min(v)` (`select_max(v)`) is the lowest lane index `i` in `0..7` with
`v[i] = reduce_min(v)` (`reduce_max(v)`). -/
theorem C28_reductions (v : avxf) :
    ((∀ i, avxf.reduce_min v ≤ v i) ∧ ∃ i, v i = avxf.reduce_min v) ∧
    ((∀ i, v i ≤ avxf.reduce_max v) ∧ ∃ i, v i = avxf.reduce_max v) ∧
    (∀ l, avxf.vreduce_min v l = avxf.reduce_min v) ∧
    (∀ l, avxf.vreduce_max v l = avxf.reduce_max v) ∧
    (∃ hk : avxf.select_min v < 8,
      v ⟨avxf.select_min v, hk⟩ = avxf.reduce_min v ∧
      ∀ i : Fin 8, v i = avxf.reduce_min v → avxf.select_min v ≤ i.val) ∧
    (∃ hk : avxf.select_max v < 8,
      v ⟨avxf.select_max v, hk⟩ = avxf.reduce_max v ∧
      ∀ i : Fin 8, v i = avxf.reduce_max v → avxf.select_max v ≤ i.val) := by
  have hmin0 : avxf.reduce_min v = avxf.vreduce_min v 0 := rfl
  have hmax0 : avxf.reduce_max v = avxf.vreduce_max v 0 := rfl
  have hminl : ∀ l, avxf.vreduce_min v l = avxf.reduce_min v := by
    intro l
    rw [hmin0]
    obtain ⟨i, hi⟩ := (avxf.vreduce_min_spec v l).2
    obtain ⟨j, hj⟩ := (avxf.vreduce_min_spec v 0).2
    exact le_antisymm (hj ▸ (avxf.vreduce_min_spec v l).1 j)
      (hi ▸ (avxf.vreduce_min_spec v 0).1 i)
  have hmaxl : ∀ l, avxf.vreduce_max v l = avxf.reduce_max v := by
    intro l
    rw [hmax0]
    obtain ⟨i, hi⟩ := (avxf.vreduce_max_spec v l).2
    obtain ⟨j, hj⟩ := (avxf.vreduce_max_spec v 0).2
    exact le_antisymm (hi ▸ (avxf.vreduce_max_spec v 0).1 i)
      (hj ▸ (avxf.vreduce_max_spec v l).1 j)
  have hsmin : ∀ i : Fin 8, (avxf.operator_eq v (avxf.vreduce_min v) i).testBit 31 = true
      ↔ v i = avxf.reduce_min v := by
    intro i
    show (if v i = avxf.vreduce_min v i then ones32 else 0).testBit 31 = true ↔ _
    rw [hminl]
    by_cases h : v i = avxf.reduce_min v
    · rw [if_pos h]
      exact ⟨fun _ => h, fun _ => by decide⟩
    · rw [if_neg h]
      exact ⟨fun h0 => absurd h0 (by decide), fun h1 => absurd h1 h⟩
  have hsmax : ∀ i : Fin 8, (avxf.operator_eq v (avxf.vreduce_max v) i).testBit 31 = true
      ↔ v i = avxf.reduce_max v := by
    intro i
    show (if v i = avxf.vreduce_max v i then ones32 else 0).testBit 31 = true ↔ _
    rw [hmaxl]
    by_cases h : v i = avxf.reduce_max v
    · rw [if_pos h]
      exact ⟨fun _ => h, fun _ => by decide⟩
    · rw [if_neg h]
      exact ⟨fun h0 => absurd h0 (by decide), fun h1 => absurd h1 h⟩
  refine ⟨hmin0 ▸ avxf.vreduce_min_spec v 0, hmax0 ▸ avxf.vreduce_max_spec v 0, hminl, hmaxl,
    ?_, ?_⟩
  · obtain ⟨i, hi⟩ := (avxf.vreduce_min_spec v 0).2
    obtain ⟨hk, h1, h2⟩ := bsf_movemask (avxf.operator_eq v (avxf.vreduce_min v))
      ⟨i, (hsmin i).2 hi⟩
    exact ⟨hk, (hsmin _).1 h1, fun j hj => h2 j ((hsmin j).2 hj)⟩
  · obtain ⟨i, hi⟩ := (avxf.vreduce_max_spec v 0).2
    obtain ⟨hk, h1, h2⟩ := bsf_movemask (avxf.operator_eq v (avxf.vreduce_max v))
      ⟨i, (hsmax i).2 hi⟩
    exact ⟨hk, (hsmax _).1 h1, fun j hj => h2 j ((hsmax j).2 hj)⟩

/-! ## Leaf references: encoding and decoding -/

/-- Clearing the low four bits of `16 * q + r` with `r < 16` and `q < 2 ^ 60` by the mask
`~align_mask` leaves `16 * q`. -/
theorem and_not_align_mask (q r : Nat) (hq : q < 2 ^ 60) (hr : r < 2 ^ 4) :
    (2 ^ 4 * q + r) &&& (BVH4.sizeMod - 1 - BVH4.align_mask) = 2 ^ 4 * q := by
  have hM : BVH4.sizeMod - 1 - BVH4.align_mask = 2 ^ 4 * (2 ^ 60 - 1) := by decide
  rw [hM]
  apply Nat.eq_of_testBit_eq
  intro j
  rw [Nat.testBit_and, Nat.testBit_mul_pow_two_add _ hr, Nat.testBit_mul_pow_two,
    Nat.testBit_mul_pow_two, Nat.testBit_two_pow_sub_one]
  by_cases hj : j < 4
  · have h4 : ¬ j ≥ 4 := by omega
    simp [hj, h4]
  · have h4 : j ≥ 4 := by omega
    by_cases h60 : j - 4 < 60
    · simp [hj, h4, h60]
    · have hz : q.testBit (j - 4) = false :=
        Nat.testBit_lt_two_pow (lt_of_lt_of_le hq (Nat.pow_le_pow_right (by decide) (by omega)))
      simp [hj, h4, hz]

/-- The low four bits of `16 * q + r` with `r < 16` are `r`. -/
theorem and_items_mask (q r : Nat) (hr : r < 2 ^ 4) :
    (2 ^ 4 * q + r) &&& BVH4.items_mask = r := by
  have hM : BVH4.items_mask = 2 ^ 4 - 1 := by decide
  rw [hM, Nat.and_pow_two_sub_one_eq_mod]
  omega

/-- Claim C29.  Leaf encoding round trip: for a base address `b` (a `size_t` value) whose low
four bits are zero and an item count `n ≤ maxLeafBlocks = 7`, the reference with
`ptr = b | (tyLeaf + n)` is a leaf (`isLeaf() != 0`), is not a node, and `leaf(num)`
returns `b` and sets `num = n`. -/
theorem C29_leaf_round_trip (b n : Nat) (hb : b < BVH4.sizeMod) (halign : b % 16 = 0)
    (hn : n ≤ BVH4.maxLeafBlocks) :
    BVH4.maxLeafBlocks = 7 ∧
    (NodeRef.mk (b ||| (BVH4.tyLeaf + n))).isLeaf ≠ 0 ∧
    (NodeRef.mk (b ||| (BVH4.tyLeaf + n))).isNode = false ∧
    (NodeRef.mk (b ||| (BVH4.tyLeaf + n))).leaf = (b, n) := by
  have hmax : BVH4.maxLeafBlocks = 7 := by decide
  rw [hmax] at hn
  have hsz : BVH4.sizeMod = 2 ^ 64 := rfl
  have hty : BVH4.tyLeaf = 8 := rfl
  have hr : 8 + n < 2 ^ 4 := by omega
  obtain ⟨q, hq⟩ : ∃ q, b = 2 ^ 4 * q := ⟨b / 16, by omega⟩
  have hq60 : q < 2 ^ 60 := by rw [hsz] at hb; omega
  have hptr : b ||| (BVH4.tyLeaf + n) = 2 ^ 4 * q + (8 + n) := by
    rw [hty, hq, Nat.mul_add_lt_is_or hr]
  have hlow : (2 ^ 4 * q + (8 + n)) &&& BVH4.items_mask = 8 + n := and_items_mask q _ hr
  refine ⟨hmax, ?_, ?_, ?_⟩
  · show (b ||| (BVH4.tyLeaf + n)) &&& BVH4.tyLeaf ≠ 0
    rw [hptr, hty]
    intro h0
    have h3 : ((2 ^ 4 * q + (8 + n)) &&& 8).testBit 3 = true := by
      rw [Nat.testBit_and, Nat.testBit_mul_pow_two_add _ hr]
      have : (8 + n).testBit 3 = true := by
        interval_cases n <;> decide
      rw [if_pos (by decide), this]
      decide
    rw [h0, Nat.zero_testBit] at h3
    exact Bool.false_ne_true h3
  · show ((b ||| (BVH4.tyLeaf + n)) &&& BVH4.align_mask == BVH4.tyNode) = false
    have ham : BVH4.align_mask = BVH4.items_mask := rfl
    rw [hptr, ham, hlow]
    have : BVH4.tyNode = 0 := rfl
    rw [this]
    simp
  · show ((b ||| (BVH4.tyLeaf + n)) &&& (BVH4.sizeMod - 1 - BVH4.align_mask),
      (((b ||| (BVH4.tyLeaf + n)) &&& BVH4.items_mask) + BVH4.sizeMod - BVH4.tyLeaf)
        % BVH4.sizeMod) = (b, n)
    rw [hptr, hlow, and_not_align_mask q _ hq60 hr, ← hq]
    have hnum : (8 + n + BVH4.sizeMod - BVH4.tyLeaf) % BVH4.sizeMod = n := by
      have h1 : 8 + n + BVH4.sizeMod - BVH4.tyLeaf = n + BVH4.sizeMod := by
        rw [hty]; omega
      rw [h1, Nat.add_mod_right]
      exact Nat.mod_eq_of_lt (lt_of_le_of_lt hn (by decide))
    rw [hnum]

/-- Witness for C29: base address 4096 with five items. -/
theorem C29_leaf_round_trip_witness :
    BVH4.maxLeafBlocks = 7 ∧
    (NodeRef.mk (4096 ||| (BVH4.tyLeaf + 5))).isLeaf ≠ 0 ∧
    (NodeRef.mk (4096 ||| (BVH4.tyLeaf + 5))).isNode = false ∧
    (NodeRef.mk (4096 ||| (BVH4.tyLeaf + 5))).leaf = (4096, 5) :=
  C29_leaf_round_trip 4096 5 (by decide) (by decide) (by decide)

/-- Claim C30.  The sentinels `emptyNode` (`= 8`) and `invalidNode` (all bits above the low
four set, low four bits `= 8`) are distinct references; both are leaves (`isLeaf() != 0`),
neither is a node, both decode through `leaf(num)` to the item count `0`, and the base
address returned for `emptyNode` is the null address. -/
theorem C30_sentinels :
    BVH4.emptyNode.ptr = 8 ∧
    BVH4.invalidNode.ptr = 2 ^ 4 * (2 ^ 60 - 1) + 8 ∧
    BVH4.emptyNode ≠ BVH4.invalidNode ∧
    BVH4.emptyNode.isLeaf ≠ 0 ∧ BVH4.invalidNode.isLeaf ≠ 0 ∧
    BVH4.emptyNode.isNode = false ∧ BVH4.invalidNode.isNode = false ∧
    BVH4.emptyNode.leaf = (0, 0) ∧
    BVH4.invalidNode.leaf = (2 ^ 4 * (2 ^ 60 - 1), 0) := by
  decide

/-! ## The `__AVX2__` fast path behind the ray origin: C1 and C18 -/

/-- The only triangle beneath the leaf of `thickBVH`. -/
theorem thickBVH_beneath_leaf (tri : Triangle4) (i : Fin 4)
    (h : BVH4.Beneath thickBVH ⟨41⟩ tri i) : tri = exTri ∧ i = 0 := by
  obtain ⟨j, -, rfl, hv⟩ := BVH4.Beneath.of_leaf h (by decide)
  exact ⟨rfl, of_decide_eq_true hv⟩

/-- The tree `thickBVH` is well-formed: the box of the child contains the triangle. -/
theorem thickBVH_wellFormed : BVH4.WellFormed thickBVH thickBVH.root 1 := by
  refine BVH4.WellFormed.node ⟨16⟩ 0 (by decide) (by decide) ?_ ?_
  · intro c hc
    have h0 : thickNode.children c = ⟨41⟩ := by
      revert hc; fin_cases c <;> decide
    show BVH4.WellFormed thickBVH (thickNode.children c) 0
    rw [h0]
    refine BVH4.WellFormed.leaf ⟨41⟩ 0 (by decide) (by decide) (by decide) ?_
    intro j _
    refine ⟨?_, ?_⟩
    · show Triangle4Intersector8MoellerTrumbore.leftPacked exTri
      unfold Triangle4Intersector8MoellerTrumbore.leftPacked
      decide
    · intro i _
      show exTri.normalOK i
      norm_num [Triangle4.normalOK, exTri]
  · intro c hc tri i hb
    have h0 : thickNode.children c = ⟨41⟩ := by
      revert hc; fin_cases c <;> decide
    have hb1 : BVH4.Beneath thickBVH ⟨41⟩ tri i := by rw [← h0]; exact hb
    obtain ⟨rfl, rfl⟩ := thickBVH_beneath_leaf tri i hb1
    show thickNode.contains c exTri 0
    norm_num [Node.contains, thickNode, exTri]

/-- Claim C1 on the `__AVX2__` code path.  The tree `thickBVH` is well-formed, the ray
`backRay` has non-zero direction components and exact reciprocals, lane 0 is active, and
the triangle of the tree is accepted for lane 0 on the input interval `[-17/4, 0]`, at
`t = -4`.  The traversal without `__AVX2__` returns `tfar = -4` in lane 0, the minimum the
claim states.  The traversal on the `__AVX2__` code path returns the packet unchanged, with
`tfar = 0`: the integer `mini`/`maxi` of the slab test miss the box of the leaf. -/
theorem C1_avx2_missed_hit :
    BVH4.WellFormed thickBVH thickBVH.root 1 ∧
    BVH4.Beneath thickBVH thickBVH.root exTri 0 ∧
    (backRay.dir.x 0 ≠ 0 ∧ backRay.dir.y 0 ≠ 0 ∧ backRay.dir.z 0 ≠ 0) ∧
    Triangle4Intersector8MoellerTrumbore.accepts exCfg backRay exTri 0 0 = true ∧
    Triangle4Intersector8MoellerTrumbore.hitT backRay exTri 0 0 = -4 ∧
    BVH4Intersector8Chunk.StackSafe
      (BVH4Triangle4Intersector8ChunkMoellerNoFilter exCfg true (fun x => x⁻¹))
      (fun _ => true) thickBVH backRay ∧
    (∃ r, BVH4Intersector8Chunk.intersect
        (BVH4Triangle4Intersector8ChunkMoellerNoFilter exCfg false (fun x => x⁻¹)) 10
        (fun _ => true) thickBVH backRay = Except.ok r ∧ r.tfar 0 = Dist.fin (-4)) ∧
    (∃ r, BVH4Intersector8Chunk.intersect
        (BVH4Triangle4Intersector8ChunkMoellerNoFilter exCfg true (fun x => x⁻¹)) 10
        (fun _ => true) thickBVH backRay = Except.ok r ∧
      r.lane 0 = backRay.lane 0 ∧ r.tfar 0 = Dist.fin 0) := by
  refine ⟨thickBVH_wellFormed,
    BVH4.Beneath.node ⟨16⟩ 0 exTri 0 (by decide) (by decide)
      (BVH4.Beneath.leaf ⟨41⟩ 0 0 (by decide) (by decide) (by decide) (by decide)),
    ⟨by decide!, by decide!, by decide!⟩, by decide!, by decide!,
    BVH4Intersector8Chunk.stackSafe_of_ok _ _ _ _ 10 (by decide!), ?_, ?_⟩
  · exact ok_of_toOption_map
      (BVH4Intersector8Chunk.intersect
        (BVH4Triangle4Intersector8ChunkMoellerNoFilter exCfg false (fun x => x⁻¹)) 10
        (fun _ => true) thickBVH backRay)
      (fun r => r.tfar 0) (Dist.fin (-4)) (by decide!)
  · obtain ⟨r, hr, h⟩ := ok_of_toOption_map
      (BVH4Intersector8Chunk.intersect
        (BVH4Triangle4Intersector8ChunkMoellerNoFilter exCfg true (fun x => x⁻¹)) 10
        (fun _ => true) thickBVH backRay)
      (fun r => r.lane 0) (backRay.lane 0) (by decide!)
    exact ⟨r, hr, h, congrArg LaneHit.tfar h⟩

/-- Claim C18 on the `__AVX2__` code path.  For the box `[0,4] × [0,4] × [0,2]` of
`thickNode` (lower ≤ upper), the ray from `(5,5,9)` in direction `(1,1,2)` with exact
reciprocals and `org_rdir = org * rdir`, and `tnear = -17/4`, `tfar = 0`: the point at
`t = -4` lies inside the box and in the interval, and the fast test without `__AVX2__`
reports the lane with `dist = -9/2`, the entry distance; the fast test on the `__AVX2__`
code path reports no hit, and its `dist` is `-7/2`, the exit distance. -/
theorem C18_avx2_missed_box :
    (thickNode.lower_x 0 ≤ thickNode.upper_x 0 ∧ thickNode.lower_y 0 ≤ thickNode.upper_y 0 ∧
      thickNode.lower_z 0 ≤ thickNode.upper_z 0) ∧
    ((-17 / 4 : ℚ) ≤ -4 ∧ (-4 : ℚ) ≤ 0 ∧ thickNode.inside 0 5 5 9 1 1 2 (-4)) ∧
    (thickNode.intersect8 false false 0 0 ⟨fun _ => 5, fun _ => 5, fun _ => 9⟩
      ⟨fun _ => 1, fun _ => 1, fun _ => 1 / 2⟩ ⟨fun _ => 5, fun _ => 5, fun _ => 9 / 2⟩
      (fun _ => Dist.fin (-17 / 4)) (fun _ => Dist.fin 0)).1 0 = true ∧
    (thickNode.intersect8 false false 0 0 ⟨fun _ => 5, fun _ => 5, fun _ => 9⟩
      ⟨fun _ => 1, fun _ => 1, fun _ => 1 / 2⟩ ⟨fun _ => 5, fun _ => 5, fun _ => 9 / 2⟩
      (fun _ => Dist.fin (-17 / 4)) (fun _ => Dist.fin 0)).2 0 = -9 / 2 ∧
    (thickNode.intersect8 false true 0 0 ⟨fun _ => 5, fun _ => 5, fun _ => 9⟩
      ⟨fun _ => 1, fun _ => 1, fun _ => 1 / 2⟩ ⟨fun _ => 5, fun _ => 5, fun _ => 9 / 2⟩
      (fun _ => Dist.fin (-17 / 4)) (fun _ => Dist.fin 0)).1 0 = false ∧
    (thickNode.intersect8 false true 0 0 ⟨fun _ => 5, fun _ => 5, fun _ => 9⟩
      ⟨fun _ => 1, fun _ => 1, fun _ => 1 / 2⟩ ⟨fun _ => 5, fun _ => 5, fun _ => 9 / 2⟩
      (fun _ => Dist.fin (-17 / 4)) (fun _ => Dist.fin 0)).2 0 = -7 / 2 := by
  refine ⟨⟨by decide!, by decide!, by decide!⟩, ⟨by norm_num, by norm_num, ?_⟩,
    by decide!, by decide!, by decide!, by decide!⟩
  norm_num [Node.inside, thickNode]

/-! ## BaseNode::verify -/

/-- A property of four slots is left-packed when it passes from every slot to the later
ones; spelled out for the four slots. -/
theorem leftPacked_four (P : Fin 4 → Prop) :
    (∀ i j : Fin 4, i < j → P i → P j) ↔
      ((P 0 → P 1 ∧ P 2 ∧ P 3) ∧ (P 1 → P 2 ∧ P 3) ∧ (P 2 → P 3)) := by
  constructor
  · intro h
    exact ⟨fun h0 => ⟨h 0 1 (by decide) h0, h 0 2 (by decide) h0, h 0 3 (by decide) h0⟩,
      fun h1 => ⟨h 1 2 (by decide) h1, h 1 3 (by decide) h1⟩, fun h2 => h 2 3 (by decide) h2⟩
  · rintro ⟨h0, h1, h2⟩ i j hij hi
    fin_cases i <;> fin_cases j <;>
      first
      | exact absurd hij (by decide)
      | exact (h0 hi).1
      | exact (h0 hi).2.1
      | exact (h0 hi).2.2
      | exact (h1 hi).1
      | exact (h1 hi).2
      | exact h2 hi

/-- Claim C31.  For every array of four child references, `BaseNode::verify()` returns
true if and only if the children are left-packed: for all slots `i < j`, `children[i] ==
emptyNode` implies `children[j] == emptyNode`; in particular it returns true after
`clear()`. -/
theorem C31_verify_left_packed (children : Fin 4 → NodeRef) :
    (BaseNode.verify children = true ↔
      ∀ i j : Fin 4, i < j → children i = BVH4.emptyNode → children j = BVH4.emptyNode) ∧
    BaseNode.verify (BaseNode.clear children) = true := by
  constructor
  · have hN : BVH4.N = 4 := rfl
    rw [leftPacked_four (fun i => children i = BVH4.emptyNode)]
    by_cases h0 : children 0 = BVH4.emptyNode <;>
    by_cases h1 : children 1 = BVH4.emptyNode <;>
    by_cases h2 : children 2 = BVH4.emptyNode <;>
    by_cases h3 : children 3 = BVH4.emptyNode <;>
    simp [BaseNode.verify, BaseNode.verifyFrom, BaseNode.verifyRest, hN, h0, h1, h2, h3]
  · rfl

/-! ## Newton step of `rcp` -/

/-- Claim C32.  Newton step of `rcp` in exact arithmetic: for a non-zero lane `a` and every
estimate `r` of the instruction, the lane `r' = 2r - r*r*a` that `rcp` returns satisfies
`1 - a*r' = (1 - a*r)^2`; hence `a*r' <= 1`, and if the estimate has relative error
`|1 - a*r| <= 1.5 * 2^-12` then `r'` has relative error at most `2.25 * 2^-24`
(`|1 - a*r'|` and `|r' - 1/a| <= 2.25 * 2^-24 * |1/a|`), which is below `2^-22`. -/
theorem C32_rcp_newton (est : avxf → avxf) (a : avxf) (l : Fin 8) (ha : a l ≠ 0) :
    avxf.rcp est a l = 2 * est a l - est a l * est a l * a l ∧
    1 - a l * avxf.rcp est a l = (1 - a l * est a l) ^ 2 ∧
    a l * avxf.rcp est a l ≤ 1 ∧
    (|1 - a l * est a l| ≤ 3 / 2 * (1 / 2 ^ 12) →
      |1 - a l * avxf.rcp est a l| ≤ 9 / 4 * (1 / 2 ^ 24) ∧
      |avxf.rcp est a l - (a l)⁻¹| ≤ 9 / 4 * (1 / 2 ^ 24) * |(a l)⁻¹|) ∧
    (9 / 4 * (1 / 2 ^ 24) : ℚ) < 1 / 2 ^ 22 := by
  have hval : avxf.rcp est a l = 2 * est a l - est a l * est a l * a l := by
    show (est a l + est a l) - (est a l * est a l) * a l = _
    ring
  have hid : 1 - a l * avxf.rcp est a l = (1 - a l * est a l) ^ 2 := by
    rw [hval]
    ring
  refine ⟨hval, hid, ?_, ?_, by norm_num⟩
  · have h := sq_nonneg (1 - a l * est a l)
    rw [← hid] at h
    linarith
  · intro he
    have h1 : |1 - a l * avxf.rcp est a l| ≤ 9 / 4 * (1 / 2 ^ 24) := by
      rw [hid, abs_pow]
      have h0 := abs_nonneg (1 - a l * est a l)
      calc |1 - a l * est a l| ^ 2 ≤ (3 / 2 * (1 / 2 ^ 12)) ^ 2 :=
            pow_le_pow_left₀ h0 he 2
        _ = 9 / 4 * (1 / 2 ^ 24) := by norm_num
    refine ⟨h1, ?_⟩
    have h2 : avxf.rcp est a l - (a l)⁻¹ = -((1 - a l * avxf.rcp est a l) * (a l)⁻¹) := by
      field_simp
      ring
    rw [h2, abs_neg, abs_mul]
    exact mul_le_mul_of_nonneg_right h1 (abs_nonneg _)

/-- Witness for C32: the lane `a = 3` with the estimate `r = 1/3 + 1/30000`. -/
theorem C32_rcp_newton_witness :
    avxf.rcp (fun _ _ => 1 / 3 + 1 / 30000) (fun _ => 3) 0
      = 2 * (1 / 3 + 1 / 30000) - (1 / 3 + 1 / 30000) * (1 / 3 + 1 / 30000) * 3 ∧
    1 - 3 * avxf.rcp (fun _ _ => 1 / 3 + 1 / 30000) (fun _ => 3) 0
      = (1 - 3 * (1 / 3 + 1 / 30000)) ^ 2 ∧
    3 * avxf.rcp (fun _ _ => 1 / 3 + 1 / 30000) (fun _ => 3) 0 ≤ 1 ∧
    (|(1 : ℚ) - 3 * (1 / 3 + 1 / 30000)| ≤ 3 / 2 * (1 / 2 ^ 12) →
      |1 - 3 * avxf.rcp (fun _ _ => 1 / 3 + 1 / 30000) (fun _ => 3) 0|
        ≤ 9 / 4 * (1 / 2 ^ 24) ∧
      |avxf.rcp (fun _ _ => 1 / 3 + 1 / 30000) (fun _ => 3) 0 - (3 : ℚ)⁻¹|
        ≤ 9 / 4 * (1 / 2 ^ 24) * |(3 : ℚ)⁻¹|) ∧
    (9 / 4 * (1 / 2 ^ 24) : ℚ) < 1 / 2 ^ 22 :=
  C32_rcp_newton (fun _ _ => 1 / 3 + 1 / 30000) (fun _ => 3) 0 (by norm_num)

/-! ## The integer minimum and maximum on bit patterns: C35 -/

namespace binary32

/-- The sign bit of a 32-bit pattern is set exactly from `2^31` on. -/
theorem sign_iff (p : Nat) (hp : p < 2 ^ 32) : sign p = true ↔ 2 ^ 31 ≤ p := by
  unfold sign
  rw [Nat.testBit_to_div_mod, decide_eq_true_eq]
  omega

/-- The magnitude in units grows with exponent and fraction. -/
theorem units_le (p q : Nat) (hpq : p % 2 ^ 31 ≤ q % 2 ^ 31) : units p ≤ units q := by
  have he : exponent p ≤ exponent q := by unfold exponent; omega
  have hfp : fraction p < 2 ^ 23 := Nat.mod_lt _ (by decide)
  rcases Nat.lt_or_ge (exponent p) (exponent q) with hlt | hge
  · have hq0 : exponent q ≠ 0 := by omega
    have hq : units q = (2 ^ 23 + fraction q) * 2 ^ (exponent q - 1) := if_neg hq0
    have hlow : 2 ^ 23 * 2 ^ (exponent q - 1) ≤ units q := by
      rw [hq]
      exact Nat.mul_le_mul_right _ (Nat.le_add_right _ _)
    by_cases hp0 : exponent p = 0
    · have hpu : units p = fraction p := if_pos hp0
      rw [hpu]
      have : 2 ^ 23 * 1 ≤ 2 ^ 23 * 2 ^ (exponent q - 1) :=
        Nat.mul_le_mul_left _ (Nat.one_le_two_pow)
      omega
    · have hpu : units p = (2 ^ 23 + fraction p) * 2 ^ (exponent p - 1) := if_neg hp0
      rw [hpu]
      have h1 : (2 ^ 23 + fraction p) * 2 ^ (exponent p - 1)
          ≤ (2 ^ 23 * 2) * 2 ^ (exponent p - 1) :=
        Nat.mul_le_mul_right _ (by omega)
      have h2 : (2 ^ 23 * 2) * 2 ^ (exponent p - 1) = 2 ^ 23 * 2 ^ exponent p := by
        rw [Nat.mul_assoc, ← Nat.pow_succ']
        congr 2
        omega
      have h3 : 2 ^ 23 * 2 ^ exponent p ≤ 2 ^ 23 * 2 ^ (exponent q - 1) :=
        Nat.mul_le_mul_left _ (Nat.pow_le_pow_right (by decide) (by omega))
      omega
  · have heq : exponent p = exponent q := le_antisymm he hge
    have hf : fraction p ≤ fraction q := by
      unfold exponent at heq
      unfold fraction
      omega
    unfold units
    rw [heq]
    split_ifs
    · exact hf
    · exact Nat.mul_le_mul_right _ (Nat.add_le_add_left hf _)

/-- The magnitude grows with the pattern without its sign bit. -/
theorem magnitude_le (p q : Nat) (hpq : p % 2 ^ 31 ≤ q % 2 ^ 31) :
    magnitude p ≤ magnitude q := by
  have he : exponent p ≤ exponent q := by unfold exponent; omega
  have hq255 : exponent q ≤ 255 := by unfold exponent; omega
  unfold magnitude
  by_cases h2 : exponent q = 255
  · rw [if_pos h2]
    exact Dist.le_pos_inf _
  · rw [if_neg h2, if_neg (by omega)]
    refine Dist.fin_le_fin.2 ?_
    have := units_le p q hpq
    exact div_le_div_of_nonneg_right (by exact_mod_cast this) (by positivity)

end binary32

/-- The integer order of two 32-bit patterns. -/
theorem int32_le_iff (p q : Nat) (hp : p < 2 ^ 32) (hq : q < 2 ^ 32) :
    int32 p ≤ int32 q ↔
      ((2 ^ 31 ≤ p ∧ q < 2 ^ 31) ∨ ((p < 2 ^ 31 ↔ q < 2 ^ 31) ∧ p ≤ q)) := by
  unfold int32
  split_ifs <;> omega

/-- The values denoted by the integer minimum and maximum of two 32-bit patterns (meant
for patterns that are not NaN, the only ones that denote a value): the minimum and maximum
of the values, unless both sign bits are set, when `mini` denotes the maximum and `maxi` the
minimum. -/
theorem value_mini_maxi (a b : m256) (l : Fin 8) (ha : a l < 2 ^ 32) (hb : b l < 2 ^ 32) :
    binary32.value (avxf.mini a b l) =
      (if binary32.sign (a l) = true ∧ binary32.sign (b l) = true
        then max (binary32.value (a l)) (binary32.value (b l))
        else min (binary32.value (a l)) (binary32.value (b l))) ∧
    binary32.value (avxf.maxi a b l) =
      (if binary32.sign (a l) = true ∧ binary32.sign (b l) = true
        then min (binary32.value (a l)) (binary32.value (b l))
        else max (binary32.value (a l)) (binary32.value (b l))) := by
  have hz : ∀ p, binary32.sign p = false → ∀ q, binary32.sign q = true →
        binary32.value q ≤ binary32.value p := by
    intro p hsp q hsq
    unfold binary32.value
    rw [hsp, hsq]
    simp only [if_true, Bool.false_eq_true, if_false]
    have h0 : binary32.magnitude 0 ≤ binary32.magnitude p :=
      binary32.magnitude_le 0 p (Nat.zero_le _)
    have h1 : binary32.magnitude 0 ≤ binary32.magnitude q :=
      binary32.magnitude_le 0 q (Nat.zero_le _)
    have h2 : (binary32.magnitude q).neg ≤ (binary32.magnitude 0).neg :=
      (Dist.neg_le_swap _ _).2 h1
    have h3 : binary32.magnitude 0 = Dist.fin 0 := by
      simp [binary32.magnitude, binary32.exponent, binary32.units, binary32.fraction]
    have h4 : (binary32.magnitude 0).neg = binary32.magnitude 0 := by
      rw [h3]
      show Dist.fin (-0) = Dist.fin 0
      rw [neg_zero]
    rw [h4] at h2
    exact le_trans h2 h0
  have hpos : ∀ p q, p < 2 ^ 32 → q < 2 ^ 32 → binary32.sign p = false →
      binary32.sign q = false → p ≤ q → binary32.value p ≤ binary32.value q := by
    intro p q hp hq hsp hsq hpq
    unfold binary32.value
    rw [hsp, hsq]
    simp only [Bool.false_eq_true, if_false]
    have h1 : ¬ 2 ^ 31 ≤ p := fun h => by
      rw [(binary32.sign_iff p hp).2 h] at hsp; exact Bool.noConfusion hsp
    have h2 : ¬ 2 ^ 31 ≤ q := fun h => by
      rw [(binary32.sign_iff q hq).2 h] at hsq; exact Bool.noConfusion hsq
    exact binary32.magnitude_le p q (by omega)
  have hneg : ∀ p q, p < 2 ^ 32 → q < 2 ^ 32 → binary32.sign p = true →
      binary32.sign q = true → p ≤ q → binary32.value q ≤ binary32.value p := by
    intro p q hp hq hsp hsq hpq
    unfold binary32.value
    rw [hsp, hsq]
    simp only [if_true]
    have h1 := (binary32.sign_iff p hp).1 hsp
    have h2 := (binary32.sign_iff q hq).1 hsq
    exact (Dist.neg_le_swap _ _).2 (binary32.magnitude_le p q (by omega))
  have hle := int32_le_iff (a l) (b l) ha hb
  have hsa := binary32.sign_iff (a l) ha
  have hsb := binary32.sign_iff (b l) hb
  show binary32.value (if int32 (a l) ≤ int32 (b l) then a l else b l) = _ ∧
    binary32.value (if int32 (a l) ≤ int32 (b l) then b l else a l) = _
  cases hA : binary32.sign (a l) <;> cases hB : binary32.sign (b l) <;>
    simp only [Bool.false_eq_true, false_and, and_false, and_self, if_false, if_true]
  · -- both sign bits clear
    have h1 : ¬ 2 ^ 31 ≤ a l := fun h => by rw [hsa.2 h] at hA; exact Bool.noConfusion hA
    have h2 : ¬ 2 ^ 31 ≤ b l := fun h => by rw [hsb.2 h] at hB; exact Bool.noConfusion hB
    by_cases h : int32 (a l) ≤ int32 (b l)
    · have hab : a l ≤ b l := by rcases hle.1 h with h3 | h3 <;> omega
      have hv := hpos _ _ ha hb hA hB hab
      rw [if_pos h, if_pos h, min_eq_left hv, max_eq_right hv]
      exact ⟨rfl, rfl⟩
    · have hab : b l ≤ a l := by
        by_contra hc
        exact h (hle.2 (Or.inr ⟨by omega, by omega⟩))
      have hv := hpos _ _ hb ha hB hA hab
      rw [if_neg h, if_neg h, min_eq_right hv, max_eq_left hv]
      exact ⟨rfl, rfl⟩
  · -- only the sign bit of `b` is set
    have h1 : ¬ 2 ^ 31 ≤ a l := fun h => by rw [hsa.2 h] at hA; exact Bool.noConfusion hA
    have h2 : 2 ^ 31 ≤ b l := hsb.1 hB
    have h : ¬ int32 (a l) ≤ int32 (b l) := fun h => by
      rcases hle.1 h with h3 | h3 <;> omega
    have hv := hz _ hA _ hB
    rw [if_neg h, if_neg h, min_eq_right hv, max_eq_left hv]
    exact ⟨rfl, rfl⟩
  · -- only the sign bit of `a` is set
    have h1 : 2 ^ 31 ≤ a l := hsa.1 hA
    have h2 : ¬ 2 ^ 31 ≤ b l := fun h => by rw [hsb.2 h] at hB; exact Bool.noConfusion hB
    have h : int32 (a l) ≤ int32 (b l) := hle.2 (Or.inl ⟨h1, by omega⟩)
    have hv := hz _ hB _ hA
    rw [if_pos h, if_pos h, min_eq_left hv, max_eq_right hv]
    exact ⟨rfl, rfl⟩
  · -- both sign bits set
    have h1 : 2 ^ 31 ≤ a l := hsa.1 hA
    have h2 : 2 ^ 31 ≤ b l := hsb.1 hB
    by_cases h : int32 (a l) ≤ int32 (b l)
    · have hab : a l ≤ b l := by rcases hle.1 h with h3 | h3 <;> omega
      have hv := hneg _ _ ha hb hA hB hab
      rw [if_pos h, if_pos h, max_eq_left hv, min_eq_right hv]
      exact ⟨rfl, rfl⟩
    · have hab : b l ≤ a l := by
        by_contra hc
        exact h (hle.2 (Or.inr ⟨by omega, by omega⟩))
      have hv := hneg _ _ hb ha hB hA hab
      rw [if_neg h, if_neg h, max_eq_right hv, min_eq_left hv]
      exact ⟨rfl, rfl⟩

/-- A pattern other than that of `-0` denotes a negative value exactly when its sign bit is
set. -/
theorem binary32.value_neg_iff (p : Nat) (hp : p < 2 ^ 32) (h0 : p ≠ 2 ^ 31) :
    binary32.value p < Dist.fin 0 ↔ binary32.sign p = true := by
  have hm0 : binary32.magnitude 0 = Dist.fin 0 := by
    simp [binary32.magnitude, binary32.exponent, binary32.units, binary32.fraction]
  have hge : Dist.fin 0 ≤ binary32.magnitude p := by
    rw [← hm0]
    exact binary32.magnitude_le 0 p (Nat.zero_le _)
  constructor
  · intro h
    by_contra hs
    rw [Bool.not_eq_true] at hs
    unfold binary32.value at h
    rw [hs] at h
    exact not_lt.2 hge h
  · intro hs
    have h31 : 2 ^ 31 ≤ p := (binary32.sign_iff p hp).1 hs
    unfold binary32.value
    rw [hs]
    simp only [if_true]
    unfold binary32.magnitude
    split_ifs with he
    · exact Dist.neg_inf_lt_fin 0
    · show Dist.fin (-((binary32.units p : ℚ) / 2 ^ 149)) < Dist.fin 0
      refine Dist.fin_lt_fin.2 ?_
      have hu : 0 < binary32.units p := by
        unfold binary32.units
        split_ifs with h1
        · unfold binary32.exponent at h1
          unfold binary32.fraction
          omega
        · exact Nat.mul_pos (by omega) (Nat.two_pow_pos _)
      have hq : (0 : ℚ) < (binary32.units p : ℚ) / 2 ^ 149 :=
        div_pos (by exact_mod_cast hu) (by positivity)
      linarith

/-- The functions `mini` and `maxi` on exact values follow the functions of the source on
bit patterns: for two 32-bit patterns other than that of `-0`, the value denoted by the
integer minimum (maximum) of the patterns is `Dist.mini` (`Dist.maxi`) of the values. -/
theorem value_mini_eq (a b : m256) (l : Fin 8) (ha : a l < 2 ^ 32) (hb : b l < 2 ^ 32)
    (ha0 : a l ≠ 2 ^ 31) (hb0 : b l ≠ 2 ^ 31) :
    binary32.value (avxf.mini a b l)
      = Dist.mini (binary32.value (a l)) (binary32.value (b l)) ∧
    binary32.value (avxf.maxi a b l)
      = Dist.maxi (binary32.value (a l)) (binary32.value (b l)) := by
  obtain ⟨h1, h2⟩ := value_mini_maxi a b l ha hb
  rw [h1, h2]
  unfold Dist.mini Dist.maxi
  refine ⟨?_, ?_⟩ <;>
    simp only [binary32.value_neg_iff _ ha ha0, binary32.value_neg_iff _ hb hb0]

/-- Claim C35.  The integer minimum and maximum of two 32-bit patterns denote the minimum and
maximum of the values unless both sign bits are set; then `mini` denotes the maximum and
`maxi` the minimum.  For the patterns `0xBF800000` of `-1` and `0xC0000000` of `-2`, neither
a NaN, `mini` returns the pattern of `-1` and `maxi` that of `-2`, while `min(-1,-2) = -2` and
`max(-1,-2) = -1`.  And the two fast paths of `Node::intersect8` differ on the same clip
distances: for the box `[0,4] × [0,4] × [0,2]`, the ray from `(5,5,9)` with reciprocal
direction `(1,1,1/2)`, `tnear = -17/4` and `tfar = 0`, the path without `__AVX2__` returns
`lhit = true` and `dist = -9/2`, the `__AVX2__` path `lhit = false` and `dist = -7/2`. -/
theorem C35_integer_min_max :
    (∀ (a b : m256) (l : Fin 8), a l < 2 ^ 32 → b l < 2 ^ 32 →
      binary32.value (avxf.mini a b l) =
        (if binary32.sign (a l) = true ∧ binary32.sign (b l) = true
          then max (binary32.value (a l)) (binary32.value (b l))
          else min (binary32.value (a l)) (binary32.value (b l))) ∧
      binary32.value (avxf.maxi a b l) =
        (if binary32.sign (a l) = true ∧ binary32.sign (b l) = true
          then min (binary32.value (a l)) (binary32.value (b l))
          else max (binary32.value (a l)) (binary32.value (b l)))) ∧
    (binary32.isNaN 0xBF800000 = false ∧ binary32.isNaN 0xC0000000 = false ∧
      binary32.value 0xBF800000 = Dist.fin (-1) ∧
      binary32.value 0xC0000000 = Dist.fin (-2) ∧
      avxf.mini (fun _ => 0xBF800000) (fun _ => 0xC0000000) 0 = 0xBF800000 ∧
      avxf.maxi (fun _ => 0xBF800000) (fun _ => 0xC0000000) 0 = 0xC0000000 ∧
      binary32.value (avxf.mini (fun _ => 0xBF800000) (fun _ => 0xC0000000) 0)
        ≠ min (binary32.value 0xBF800000) (binary32.value 0xC0000000) ∧
      binary32.value (avxf.maxi (fun _ => 0xBF800000) (fun _ => 0xC0000000) 0)
        ≠ max (binary32.value 0xBF800000) (binary32.value 0xC0000000)) ∧
    ((thickNode.intersect8 false false 0 0 ⟨fun _ => 5, fun _ => 5, fun _ => 9⟩
        ⟨fun _ => 1, fun _ => 1, fun _ => 1 / 2⟩ ⟨fun _ => 5, fun _ => 5, fun _ => 9 / 2⟩
        (fun _ => Dist.fin (-17 / 4)) (fun _ => Dist.fin 0)).1 0 = true ∧
      (thickNode.intersect8 false true 0 0 ⟨fun _ => 5, fun _ => 5, fun _ => 9⟩
        ⟨fun _ => 1, fun _ => 1, fun _ => 1 / 2⟩ ⟨fun _ => 5, fun _ => 5, fun _ => 9 / 2⟩
        (fun _ => Dist.fin (-17 / 4)) (fun _ => Dist.fin 0)).1 0 = false ∧
      (thickNode.intersect8 false false 0 0 ⟨fun _ => 5, fun _ => 5, fun _ => 9⟩
        ⟨fun _ => 1, fun _ => 1, fun _ => 1 / 2⟩ ⟨fun _ => 5, fun _ => 5, fun _ => 9 / 2⟩
        (fun _ => Dist.fin (-17 / 4)) (fun _ => Dist.fin 0)).2 0 = -9 / 2 ∧
      (thickNode.intersect8 false true 0 0 ⟨fun _ => 5, fun _ => 5, fun _ => 9⟩
        ⟨fun _ => 1, fun _ => 1, fun _ => 1 / 2⟩ ⟨fun _ => 5, fun _ => 5, fun _ => 9 / 2⟩
        (fun _ => Dist.fin (-17 / 4)) (fun _ => Dist.fin 0)).2 0 = -7 / 2) := by
  refine ⟨fun a b l ha hb => value_mini_maxi a b l ha hb,
    ⟨by decide, by decide, by decide!, by decide!, by decide, by decide, by decide!,
      by decide!⟩,
    ⟨by decide!, by decide!, by decide!, by decide!⟩⟩

/-! ## Masked selection of the minimum and maximum lane -/

/-- The sign bit of a lane of `a & b` is set when it is set in both. -/
theorem sign_and_ps (a b : m256) (l : Fin 8) :
    (avxb.operator_and a b l).testBit 31 = ((a l).testBit 31 && (b l).testBit 31) :=
  Nat.testBit_and _ _ _

/-- Sign bit of a lane of the comparison `a == b`. -/
theorem sign_operator_eq {α : Type} [DecidableEq α] (a b : Fin 8 → α) (l : Fin 8) :
    (avxf.operator_eq a b l).testBit 31 = true ↔ a l = b l := by
  show (if a l = b l then ones32 else 0).testBit 31 = true ↔ _
  by_cases h : a l = b l
  · rw [if_pos h]
    exact ⟨fun _ => h, fun _ => by decide⟩
  · rw [if_neg h]
    exact ⟨fun h0 => absurd h0 (by decide), fun h1 => absurd h1 h⟩

/-- All lanes of `vreduce_min(a)` hold one value, which is below all lanes of `a` and is
one of them. -/
theorem avxf.vreduce_min_const {α : Type} [LinearOrder α] [Zero α] (a : Fin 8 → α) :
    ∃ m : α, (∀ l, avxf.vreduce_min a l = m) ∧ (∀ i, m ≤ a i) ∧ ∃ i, a i = m := by
  refine ⟨avxf.vreduce_min a 0, fun l => ?_, (avxf.vreduce_min_spec a 0).1,
    (avxf.vreduce_min_spec a 0).2⟩
  obtain ⟨i, hi⟩ := (avxf.vreduce_min_spec a l).2
  obtain ⟨j, hj⟩ := (avxf.vreduce_min_spec a 0).2
  exact le_antisymm (hj ▸ (avxf.vreduce_min_spec a l).1 j)
    (hi ▸ (avxf.vreduce_min_spec a 0).1 i)

/-- All lanes of `vreduce_max(a)` hold one value, which is above all lanes of `a` and is
one of them. -/
theorem avxf.vreduce_max_const {α : Type} [LinearOrder α] [Zero α] (a : Fin 8 → α) :
    ∃ m : α, (∀ l, avxf.vreduce_max a l = m) ∧ (∀ i, a i ≤ m) ∧ ∃ i, a i = m := by
  refine ⟨avxf.vreduce_max a 0, fun l => ?_, (avxf.vreduce_max_spec a 0).1,
    (avxf.vreduce_max_spec a 0).2⟩
  obtain ⟨i, hi⟩ := (avxf.vreduce_max_spec a l).2
  obtain ⟨j, hj⟩ := (avxf.vreduce_max_spec a 0).2
  exact le_antisymm (hi ▸ (avxf.vreduce_max_spec a 0).1 i)
    (hj ▸ (avxf.vreduce_max_spec a l).1 j)

/-- The masked `select_min`: the lowest lane of the mask whose value is below the values
of all lanes of the mask. -/
theorem avxf.select_min_valid_spec (valid : m256) (v : avxd)
    (hv : ∃ l : Fin 8, (valid l).testBit 31 = true) :
    ∃ hk : avxf.select_min_valid valid v < 8,
      (valid ⟨avxf.select_min_valid valid v, hk⟩).testBit 31 = true ∧
      (∀ j : Fin 8, (valid j).testBit 31 = true →
        v ⟨avxf.select_min_valid valid v, hk⟩ ≤ v j) ∧
      ∀ i : Fin 8, (valid i).testBit 31 = true →
        (∀ j : Fin 8, (valid j).testBit 31 = true → v i ≤ v j) →
        avxf.select_min_valid valid v ≤ i.val := by
  obtain ⟨m, hm, hle, i0, hi0⟩ :=
    avxf.vreduce_min_const (avxf.select valid v (fun _ => Dist.pos_inf))
  have ha : ∀ l : Fin 8, avxf.select valid v (fun _ => Dist.pos_inf) l =
      if (valid l).testBit 31 = true then v l else Dist.pos_inf := fun l => rfl
  have hsign : ∀ l : Fin 8,
      (avxb.operator_and valid (avxf.operator_eq (avxf.select valid v (fun _ => Dist.pos_inf))
        (avxf.vreduce_min (avxf.select valid v (fun _ => Dist.pos_inf)))) l).testBit 31 = true
      ↔ (valid l).testBit 31 = true ∧ v l = m := by
    intro l
    rw [sign_and_ps, Bool.and_eq_true, sign_operator_eq, hm, ha]
    constructor
    · rintro ⟨h1, h2⟩
      rw [if_pos h1] at h2
      exact ⟨h1, h2⟩
    · rintro ⟨h1, h2⟩
      exact ⟨h1, by rw [if_pos h1]; exact h2⟩
  -- the minimum over the lanes of the mask
  have hmv : ∀ j : Fin 8, (valid j).testBit 31 = true → m ≤ v j := by
    intro j hj
    have := hle j
    rw [ha, if_pos hj] at this
    exact this
  have hex : ∃ i : Fin 8, (valid i).testBit 31 = true ∧ v i = m := by
    rw [ha] at hi0
    by_cases h : (valid i0).testBit 31 = true
    · rw [if_pos h] at hi0
      exact ⟨i0, h, hi0⟩
    · rw [if_neg h] at hi0
      obtain ⟨l, hl⟩ := hv
      refine ⟨l, hl, le_antisymm ?_ (hmv l hl)⟩
      rw [← hi0]
      exact Dist.le_pos_inf _
  obtain ⟨i, hi⟩ := hex
  obtain ⟨hk, h1, h2⟩ := bsf_movemask _ ⟨i, (hsign i).2 hi⟩
  refine ⟨hk, ((hsign _).1 h1).1, fun j hj => ?_, fun i1 hi1 hmin => ?_⟩
  · show v ⟨_, hk⟩ ≤ v j
    exact (le_of_eq ((hsign _).1 h1).2).trans (hmv j hj)
  · refine h2 i1 ((hsign i1).2 ⟨hi1, le_antisymm ?_ (hmv i1 hi1)⟩)
    rw [← hi.2]
    exact hmin i hi.1

/-- The masked `select_max`: the lowest lane of the mask whose value is above the values
of all lanes of the mask. -/
theorem avxf.select_max_valid_spec (valid : m256) (v : avxd)
    (hv : ∃ l : Fin 8, (valid l).testBit 31 = true) :
    ∃ hk : avxf.select_max_valid valid v < 8,
      (valid ⟨avxf.select_max_valid valid v, hk⟩).testBit 31 = true ∧
      (∀ j : Fin 8, (valid j).testBit 31 = true →
        v j ≤ v ⟨avxf.select_max_valid valid v, hk⟩) ∧
      ∀ i : Fin 8, (valid i).testBit 31 = true →
        (∀ j : Fin 8, (valid j).testBit 31 = true → v j ≤ v i) →
        avxf.select_max_valid valid v ≤ i.val := by
  obtain ⟨m, hm, hle, i0, hi0⟩ :=
    avxf.vreduce_max_const (avxf.select valid v (fun _ => Dist.neg_inf))
  have ha : ∀ l : Fin 8, avxf.select valid v (fun _ => Dist.neg_inf) l =
      if (valid l).testBit 31 = true then v l else Dist.neg_inf := fun l => rfl
  have hsign : ∀ l : Fin 8,
      (avxb.operator_and valid (avxf.operator_eq (avxf.select valid v (fun _ => Dist.neg_inf))
        (avxf.vreduce_max (avxf.select valid v (fun _ => Dist.neg_inf)))) l).testBit 31 = true
      ↔ (valid l).testBit 31 = true ∧ v l = m := by
    intro l
    rw [sign_and_ps, Bool.and_eq_true, sign_operator_eq, hm, ha]
    constructor
    · rintro ⟨h1, h2⟩
      rw [if_pos h1] at h2
      exact ⟨h1, h2⟩
    · rintro ⟨h1, h2⟩
      exact ⟨h1, by rw [if_pos h1]; exact h2⟩
  have hmv : ∀ j : Fin 8, (valid j).testBit 31 = true → v j ≤ m := by
    intro j hj
    have := hle j
    rw [ha, if_pos hj] at this
    exact this
  have hex : ∃ i : Fin 8, (valid i).testBit 31 = true ∧ v i = m := by
    rw [ha] at hi0
    by_cases h : (valid i0).testBit 31 = true
    · rw [if_pos h] at hi0
      exact ⟨i0, h, hi0⟩
    · rw [if_neg h] at hi0
      obtain ⟨l, hl⟩ := hv
      refine ⟨l, hl, le_antisymm (hmv l hl) ?_⟩
      rw [← hi0]
      exact Dist.neg_inf_le _
  obtain ⟨i, hi⟩ := hex
  obtain ⟨hk, h1, h2⟩ := bsf_movemask _ ⟨i, (hsign i).2 hi⟩
  refine ⟨hk, ((hsign _).1 h1).1, fun j hj => ?_, fun i1 hi1 hmax => ?_⟩
  · show v j ≤ v ⟨_, hk⟩
    exact (hmv j hj).trans (le_of_eq ((hsign _).1 h1).2.symm)
  · refine h2 i1 ((hsign i1).2 ⟨hi1, le_antisymm (hmv i1 hi1) ?_⟩)
    rw [← hi.2]
    exact hmax i hi.1

/-- Claim C37.  For every mask `valid` with at least one lane set (a lane of a mask is set
when `valid[i]` reads true: its sign bit) and every vector `v` of totally ordered lane
values (finite or infinite, no NaN): `select_min(valid, v)` is a lane index below 8 that is
set in `valid`, its value is `<=` the value of every lane set in `valid`, and it is the
lowest such lane; symmetrically `select_max(valid, v)` with `>=`. -/
theorem C37_masked_select (valid : m256) (v : avxd)
    (hv : ∃ l : Fin 8, avxb.get valid l.val = true) :
    (∃ hk : avxf.select_min_valid valid v < 8,
      avxb.get valid (avxf.select_min_valid valid v) = true ∧
      (∀ j : Fin 8, avxb.get valid j.val = true →
        v ⟨avxf.select_min_valid valid v, hk⟩ ≤ v j) ∧
      ∀ i : Fin 8, avxb.get valid i.val = true →
        (∀ j : Fin 8, avxb.get valid j.val = true → v i ≤ v j) →
        avxf.select_min_valid valid v ≤ i.val) ∧
    (∃ hk : avxf.select_max_valid valid v < 8,
      avxb.get valid (avxf.select_max_valid valid v) = true ∧
      (∀ j : Fin 8, avxb.get valid j.val = true →
        v j ≤ v ⟨avxf.select_max_valid valid v, hk⟩) ∧
      ∀ i : Fin 8, avxb.get valid i.val = true →
        (∀ j : Fin 8, avxb.get valid j.val = true → v j ≤ v i) →
        avxf.select_max_valid valid v ≤ i.val) := by
  simp only [avxb.get_eq_sign] at hv ⊢
  obtain ⟨hk, h1, h2, h3⟩ := avxf.select_min_valid_spec valid v hv
  obtain ⟨hk', h1', h2', h3'⟩ := avxf.select_max_valid_spec valid v hv
  refine ⟨⟨hk, ?_, h2, h3⟩, ⟨hk', ?_, h2', h3'⟩⟩
  · rw [← h1]
    exact avxb.get_eq_sign valid ⟨_, hk⟩
  · rw [← h1']
    exact avxb.get_eq_sign valid ⟨_, hk'⟩

/-- C37 on the mask with lanes 2, 5 and 6 set and the values
`(0, 9, 7, 1, 2, 3, 7, -inf)`: lanes 0 and 7 hold the smallest values but are not in the
mask; `select_min` returns lane 5 and `select_max` lane 2, the lower of the two lanes with
the value 7. -/
theorem C37_masked_select_witness :
    (∃ l : Fin 8, avxb.get ![0, 0, ones32, 0, 0, ones32, ones32, 0] l.val = true) ∧
    avxf.select_min_valid ![0, 0, ones32, 0, 0, ones32, ones32, 0]
      ![Dist.fin 0, Dist.fin 9, Dist.fin 7, Dist.fin 1, Dist.fin 2, Dist.fin 3, Dist.fin 7,
        Dist.neg_inf] = 5 ∧
    avxf.select_max_valid ![0, 0, ones32, 0, 0, ones32, ones32, 0]
      ![Dist.fin 0, Dist.fin 9, Dist.fin 7, Dist.fin 1, Dist.fin 2, Dist.fin 3, Dist.fin 7,
        Dist.neg_inf] = 2 ∧
    avxf.select_min_valid ![0, 0, ones32, 0, 0, ones32, ones32, 0]
      ![Dist.fin 0, Dist.fin 9, Dist.fin 7, Dist.fin 1, Dist.fin 2, Dist.fin 3, Dist.fin 7,
        Dist.neg_inf] < 8 ∧
    avxb.get ![0, 0, ones32, 0, 0, ones32, ones32, 0]
      (avxf.select_min_valid ![0, 0, ones32, 0, 0, ones32, ones32, 0]
        ![Dist.fin 0, Dist.fin 9, Dist.fin 7, Dist.fin 1, Dist.fin 2, Dist.fin 3,
          Dist.fin 7, Dist.neg_inf]) = true :=
  ⟨⟨2, by decide⟩, by decide!, by decide!,
    (C37_masked_select ![0, 0, ones32, 0, 0, ones32, ones32, 0]
      ![Dist.fin 0, Dist.fin 9, Dist.fin 7, Dist.fin 1, Dist.fin 2, Dist.fin 3, Dist.fin 7,
        Dist.neg_inf] ⟨2, by decide⟩).1.elim (fun hk h => ⟨hk, h.1⟩)⟩

/-! ## The register `ray_tfar`: C33 -/

/-- An optional value whose image under `f` is `some b` is `some s` with `f s = b`. -/
theorem some_of_map {α β : Type} (o : Option α) (f : α → β) (b : β)
    (h : o.map f = some b) : ∃ s, o = some s ∧ f s = b := by
  cases o with
  | none => exact Option.noConfusion h
  | some s => exact ⟨s, rfl, Option.some.inj h⟩

/-- The leaf adapter over the unfiltered block intersector leaves the `tfar` of a lane
outside the mask as it was. -/
theorem primIntersect_tfar_of_disabled (cfg : Config) (avx2 : Bool) (rcp_safe : ℚ → ℚ)
    (valid : avxb) (ray : Ray8) (prim : Nat → Triangle4) (items : Nat) (scene : Scene)
    (l : Fin 8) (hv : valid l = false) :
    ((BVH4Triangle4Intersector8ChunkMoellerNoFilter cfg avx2 rcp_safe).primIntersect valid
      ray prim items scene).tfar l = ray.tfar l := by
  have himp := BVH4Intersector8Chunk.primIntersect_improves cfg avx2 rcp_safe valid ray prim
    items scene l
  rw [hv] at himp
  exact congrArg LaneHit.tfar himp.eq_of_disabled

/-- Claim C33.  For every kernel whose primitive intersector leaves `ray.tfar` of lane `l`
as it is when the lane is not in the mask it is given, every mask `valid_i`, BVH4 and
packet: in every state the traversal reaches (at every pop of the main loop and inside the
inner loop) the register `ray_tfar` of lane `l` equals the current `ray.tfar` of the lane
when the lane is set in `valid_i`, and is `-inf` when it is not; and `ray_tnear`, which is
loaded once before the loop and is not part of what a step changes, is `ray.tnear` of the
input for a lane of `valid_i` and `+inf` otherwise. -/
theorem C33_ray_tfar_register (k : BVH4Intersector8Chunk.Kernel) (valid_i : avxb) (bvh : BVH4)
    (ray : Ray8) (l : Fin 8)
    (hprim : ∀ (valid : avxb) (r : Ray8) (prim : Nat → Triangle4) (items : Nat),
      valid l = false → (k.primIntersect valid r prim items bvh.scene).tfar l = r.tfar l) :
    (∀ n s, BVH4Intersector8Chunk.reach k (BVH4Intersector8Chunk.setup k valid_i ray) bvh n
        (BVH4Intersector8Chunk.init k valid_i bvh ray) = some s →
      (valid_i l = true → s.ray_tfar l = s.ray.tfar l) ∧
      (valid_i l = false → s.ray_tfar l = Dist.neg_inf)) ∧
    (BVH4Intersector8Chunk.setup k valid_i ray).ray_tnear l =
      (if valid_i l = true then ray.tnear l else Dist.pos_inf) := by
  refine ⟨fun n s hs => ?_, rfl⟩
  refine BVH4Intersector8Chunk.reach_preserves k _ bvh
    (fun r rt => (valid_i l = true → rt l = r.tfar l) ∧
      (valid_i l = false → rt l = Dist.neg_inf)) ?_ n _ s ?_ hs
  · intro r rt cd prim items hP
    by_cases hm : decide (rt l > cd l) = true
    · have hsel : select (fun l => decide (rt l > cd l))
          (k.primIntersect (fun l => decide (rt l > cd l)) r prim items bvh.scene).tfar rt l =
          (k.primIntersect (fun l => decide (rt l > cd l)) r prim items bvh.scene).tfar l := by
        unfold select
        exact if_pos hm
      refine ⟨fun _ => hsel, fun hv => ?_⟩
      exfalso
      have h1 := hP.2 hv
      rw [h1] at hm
      exact Dist.not_lt_neg_inf _ (of_decide_eq_true hm)
    · have hsel : select (fun l => decide (rt l > cd l))
          (k.primIntersect (fun l => decide (rt l > cd l)) r prim items bvh.scene).tfar rt l =
          rt l := by
        unfold select
        exact if_neg hm
      refine ⟨fun hv => ?_, fun hv => ?_⟩
      · rw [hsel, hP.1 hv]
        exact (hprim _ r prim items (Bool.eq_false_iff.2 hm)).symm
      · rw [hsel]
        exact hP.2 hv
  · constructor
    · intro hv
      show select valid_i ray.tfar (fun _ => Dist.neg_inf) l = ray.tfar l
      unfold select
      exact if_pos hv
    · intro hv
      show select valid_i ray.tfar (fun _ => Dist.neg_inf) l = Dist.neg_inf
      unfold select
      exact if_neg (by rw [hv]; exact Bool.false_ne_true)

/-- C33 on the small scene with lane 0 switched off and the unfiltered Triangle4
intersector: that intersector leaves `tfar` alone outside its mask; after the three steps
that end with the leaf, the packet holds the hit at `t = 1` in lane 1 and the register `ray_tfar` of lane 1 holds the same value, while in lane 0 the
register is `-inf` and the packet still has `tfar = 10`. -/
theorem C33_ray_tfar_register_witness :
    (∀ (valid : avxb) (r : Ray8) (prim : Nat → Triangle4) (items : Nat),
      valid 1 = false →
      ((BVH4Triangle4Intersector8ChunkMoellerNoFilter exCfg false
        (fun x => x⁻¹)).primIntersect valid r prim items exBVH.scene).tfar 1 = r.tfar 1) ∧
    ∃ s, BVH4Intersector8Chunk.reach
        (BVH4Triangle4Intersector8ChunkMoellerNoFilter exCfg false (fun x => x⁻¹))
        (BVH4Intersector8Chunk.setup
          (BVH4Triangle4Intersector8ChunkMoellerNoFilter exCfg false (fun x => x⁻¹))
          (fun m => decide (m ≠ 0)) (exRay (Dist.fin 10)))
        exBVH 3
        (BVH4Intersector8Chunk.init
          (BVH4Triangle4Intersector8ChunkMoellerNoFilter exCfg false (fun x => x⁻¹))
          (fun m => decide (m ≠ 0)) exBVH (exRay (Dist.fin 10))) = some s ∧
      (s.ray.tfar 1 = Dist.fin 1 ∧ s.ray_tfar 0 = Dist.neg_inf ∧ s.ray.tfar 0 = Dist.fin 10) ∧
      s.ray_tfar 1 = s.ray.tfar 1 := by
  have hprim : ∀ (valid : avxb) (r : Ray8) (prim : Nat → Triangle4) (items : Nat),
      valid 1 = false →
      ((BVH4Triangle4Intersector8ChunkMoellerNoFilter exCfg false
        (fun x => x⁻¹)).primIntersect valid r prim items exBVH.scene).tfar 1 = r.tfar 1 :=
    fun valid r prim items hv =>
      primIntersect_tfar_of_disabled exCfg false _ valid r prim items _ 1 hv
  obtain ⟨s, hs, h⟩ := some_of_map
    (BVH4Intersector8Chunk.reach
      (BVH4Triangle4Intersector8ChunkMoellerNoFilter exCfg false (fun x => x⁻¹))
      (BVH4Intersector8Chunk.setup
        (BVH4Triangle4Intersector8ChunkMoellerNoFilter exCfg false (fun x => x⁻¹))
        (fun m => decide (m ≠ 0)) (exRay (Dist.fin 10)))
      exBVH 3
      (BVH4Intersector8Chunk.init
        (BVH4Triangle4Intersector8ChunkMoellerNoFilter exCfg false (fun x => x⁻¹))
        (fun m => decide (m ≠ 0)) exBVH (exRay (Dist.fin 10))))
    (fun s => (s.ray.tfar 1, s.ray_tfar 0, s.ray.tfar 0))
    (Dist.fin 1, Dist.neg_inf, Dist.fin 10) (by decide!)
  refine ⟨hprim, s, hs, ?_, ?_⟩
  · exact ⟨congrArg Prod.fst h, congrArg (fun p => p.2.1) h, congrArg (fun p => p.2.2) h⟩
  · exact ((C33_ray_tfar_register
      (BVH4Triangle4Intersector8ChunkMoellerNoFilter exCfg false (fun x => x⁻¹))
      (fun m => decide (m ≠ 0)) exBVH (exRay (Dist.fin 10)) 1 hprim).1 3 s hs).1 rfl

/-! ## The nearest entry with one active lane: C34 -/

namespace BVH4Intersector8Chunk

/-- The loop over the children when the slab tests miss in every lane other than `l`: the
entry the loop ends with has, in lane `l`, a near distance not above that of the entry it
started with and of every hit child, and the loop pushes each of the other ones of these
entries once, on top of the stack it started with. -/
theorem children_single_lane (k : Kernel) (su : Setup) (ray_tfar : avxd) (node : Node)
    (l : Fin 8)
    (hmiss : ∀ (i : Fin 4) (m : Fin 8), m ≠ l →
      (node.intersect8 k.robust k.avx2 k.ulp i su.org su.rdir su.org_rdir su.ray_tnear
        ray_tfar).1 m = false) :
    ∀ (is : List (Fin 4)) (cur : NodeRef) (curDist : avxd) (stack : List (NodeRef × avxd))
      (cur2 : NodeRef) (curDist2 : avxd) (stack2 : List (NodeRef × avxd)),
      children k su ray_tfar node is cur curDist stack = Except.ok (cur2, curDist2, stack2) →
      curDist2 l ≤ curDist l ∧
      (∀ e ∈ hitChildren k su ray_tfar node is, curDist2 l ≤ e.2 l) ∧
      ∃ pushed, stack2 = pushed ++ stack ∧
        List.Perm ((cur2, curDist2) :: pushed)
          ((cur, curDist) :: hitChildren k su ray_tfar node is) := by
  intro is
  induction is with
  | nil =>
    intro cur curDist stack cur2 curDist2 stack2 h
    unfold children at h
    injection h with h
    injection h with h1 h
    injection h with h2 h3
    subst h1 h2 h3
    exact ⟨le_refl _, fun e he => by simp [hitChildren] at he, [], rfl, by simp [hitChildren]⟩
  | cons i is ih =>
    intro cur curDist stack cur2 curDist2 stack2 h
    unfold children at h
    unfold hitChildren
    by_cases hc : node.children i = BVH4.emptyNode
    · simp only [hc, if_true] at h ⊢
      injection h with h
      injection h with h1 h
      injection h with h2 h3
      subst h1 h2 h3
      exact ⟨le_refl _, fun e he => by simp at he, [], rfl, by simp⟩
    · simp only [hc, if_false] at h ⊢
      by_cases ha : any (node.intersect8 k.robust k.avx2 k.ulp i su.org su.rdir su.org_rdir
          su.ray_tnear ray_tfar).1 = true
      · simp only [ha, if_true] at h ⊢
        by_cases hl : stack.length < stackSize
        · simp only [hl, if_true] at h
          split at h
          · rename_i hlt
            obtain ⟨h1, h2, pushed, h3, h4⟩ := ih _ _ _ _ _ _ h
            have hlt1 : select (node.intersect8 k.robust k.avx2 k.ulp i su.org su.rdir
                su.org_rdir su.ray_tnear ray_tfar).1
                (fun l => Dist.fin ((node.intersect8 k.robust k.avx2 k.ulp i su.org su.rdir
                  su.org_rdir su.ray_tnear ray_tfar).2 l)) (fun _ => Dist.pos_inf) l
                < curDist l := by
              obtain ⟨m, hm⟩ := (any_iff _).1 hlt
              have hm1 := of_decide_eq_true hm
              by_cases hml : m = l
              · rw [← hml]; exact hm1
              · exfalso
                have hf := hmiss i m hml
                simp only [select, hf, Bool.false_eq_true, if_false] at hm1
                exact Dist.not_pos_inf_lt _ hm1
            refine ⟨le_trans h1 (le_of_lt hlt1), ?_, pushed ++ [(cur, curDist)], ?_, ?_⟩
            · intro e he
              rcases List.mem_cons.1 he with he | he
              · rw [he]; exact h1
              · exact h2 e he
            · rw [h3, List.append_assoc]; rfl
            · rw [← List.cons_append]
              exact (List.perm_append_comm.trans (List.Perm.cons _ h4))
          · rename_i hlt
            obtain ⟨h1, h2, pushed, h3, h4⟩ := ih _ _ _ _ _ _ h
            have hge : curDist l ≤ select (node.intersect8 k.robust k.avx2 k.ulp i su.org
                su.rdir su.org_rdir su.ray_tnear ray_tfar).1
                (fun l => Dist.fin ((node.intersect8 k.robust k.avx2 k.ulp i su.org su.rdir
                  su.org_rdir su.ray_tnear ray_tfar).2 l)) (fun _ => Dist.pos_inf) l := by
              by_contra hn
              exact hlt ((any_iff _).2 ⟨l, decide_eq_true (not_le.1 hn)⟩)
            refine ⟨h1, ?_, pushed ++ [(node.children i,
              select (node.intersect8 k.robust k.avx2 k.ulp i su.org su.rdir su.org_rdir
                su.ray_tnear ray_tfar).1
                (fun l => Dist.fin ((node.intersect8 k.robust k.avx2 k.ulp i su.org su.rdir
                  su.org_rdir su.ray_tnear ray_tfar).2 l)) (fun _ => Dist.pos_inf))], ?_, ?_⟩
            · intro e he
              rcases List.mem_cons.1 he with he | he
              · rw [he]; exact le_trans h1 hge
              · exact h2 e he
            · rw [h3, List.append_assoc]; rfl
            · rw [← List.cons_append]
              refine (List.perm_append_comm.trans (List.Perm.cons _ h4)).trans ?_
              exact List.Perm.swap _ _ _
        · simp only [hl, if_false] at h
          exact Except.noConfusion h
      · simp only [ha, Bool.false_eq_true, if_false] at h ⊢
        exact ih _ _ _ _ _ _ h

/-- A child that the loop over the children reaches (no slot up to it holds `emptyNode`)
and whose box is hit in lane `l` is among the hit children, with the near distance of
lane `l`. -/
theorem hitChildren_of_prefix (k : Kernel) (su : Setup) (ray_tfar : avxd) (node : Node)
    (l : Fin 8) (i : Fin 4) :
    ∀ (is : List (Fin 4)), List.Pairwise (· ≤ ·) is → i ∈ is →
      (∀ j ∈ is, j ≤ i → node.children j ≠ BVH4.emptyNode) →
      (node.intersect8 k.robust k.avx2 k.ulp i su.org su.rdir su.org_rdir
        su.ray_tnear ray_tfar).1 l = true →
      ∃ d : avxd, (node.children i, d) ∈ hitChildren k su ray_tfar node is ∧
        d l = Dist.fin ((node.intersect8 k.robust k.avx2 k.ulp i su.org su.rdir su.org_rdir
          su.ray_tnear ray_tfar).2 l) := by
  intro is
  induction is with
  | nil => intro _ hi; simp at hi
  | cons i0 is ih =>
    intro hs hi hne hl
    have h0 : node.children i0 ≠ BVH4.emptyNode := by
      rcases List.mem_cons.1 hi with h | h
      · exact hne i0 (List.mem_cons_self _ _) (le_of_eq h.symm)
      · exact hne i0 (List.mem_cons_self _ _) (List.rel_of_pairwise_cons hs h)
    unfold hitChildren
    simp only [h0, if_false]
    rcases List.mem_cons.1 hi with h | h
    · subst h
      have ha := (any_iff _).2 ⟨l, hl⟩
      simp only [ha, if_true]
      exact ⟨_, List.mem_cons_self _ _, by simp [select, hl]⟩
    · obtain ⟨d, hd, hd1⟩ := ih (List.Pairwise.of_cons hs) h
        (fun j hj hji => hne j (List.mem_cons_of_mem _ hj) hji) hl
      split
      · exact ⟨d, List.mem_cons_of_mem _ hd, hd1⟩
      · exact ⟨d, hd, hd1⟩

/-- The state before the last of `n + 1` steps. -/
theorem reach_succ_last (k : Kernel) (su : Setup) (bvh : BVH4) :
    ∀ (n : Nat) (s0 s2 : State), reach k su bvh (n + 1) s0 = some s2 →
      ∃ s, reach k su bvh n s0 = some s ∧ step k su bvh s = Step.next s2 := by
  intro n
  induction n with
  | zero =>
    intro s0 s2 h
    unfold reach at h
    cases hs : step k su bvh s0 with
    | next s1 =>
      rw [hs] at h
      unfold reach at h
      exact ⟨s0, rfl, by rw [← Option.some.inj h]; exact hs⟩
    | done r => rw [hs] at h; exact Option.noConfusion h
    | fault f => rw [hs] at h; exact Option.noConfusion h
  | succ n ih =>
    intro s0 s2 h
    unfold reach at h
    cases hs : step k su bvh s0 with
    | next s1 =>
      rw [hs] at h
      obtain ⟨s, h1, h2⟩ := ih s1 s2 h
      refine ⟨s, ?_, h2⟩
      unfold reach
      rw [hs]
      exact h1
    | done r => rw [hs] at h; exact Option.noConfusion h
    | fault f => rw [hs] at h; exact Option.noConfusion h

end BVH4Intersector8Chunk

/-- Claim C34.  For every kernel (fast slab test, or robust with `|ulp| < 1/2`), BVH4 and
packet, when exactly lane `l` is set in `valid_i`: in every state the traversal reaches in
which the inner loop processes an inner node `cur` and the round of the loop completes
(no push finds the stack full), the round pops the entry `(cur1, curDist1)` from the stack
`rest` below it, and the entry `(cur2, curDist2)` it continues with has in lane `l` a near
distance `<=` that of the popped entry and of every child whose box was hit (every entry of
`hitChildren`; every child in a slot `i` that the loop reaches and whose slab test hits in
lane `l`, with the `lnearP` of that test); the stack afterwards is `pushed ++ rest`, where
`(cur2, curDist2) :: pushed` is a rearrangement of the popped entry and the hit children:
each of them other than the one continued with is pushed exactly once. -/
theorem C34_closest_child_first (k : BVH4Intersector8Chunk.Kernel) (valid_i : avxb)
    (bvh : BVH4) (ray : Ray8) (l : Fin 8)
    (hone : ∀ m : Fin 8, valid_i m = true ↔ m = l)
    (hu : k.robust = true → -(1 / 2) < k.ulp ∧ k.ulp < 1 / 2)
    (n : Nat) (s s1 : BVH4Intersector8Chunk.State) (cur : NodeRef) (curDist : avxd)
    (hs : BVH4Intersector8Chunk.reach k (BVH4Intersector8Chunk.setup k valid_i ray) bvh n
      (BVH4Intersector8Chunk.init k valid_i bvh ray) = some s)
    (hc : s.control = BVH4Intersector8Chunk.Control.inner cur curDist)
    (hn : cur.isNode = true)
    (hstep : BVH4Intersector8Chunk.step k (BVH4Intersector8Chunk.setup k valid_i ray) bvh s =
      BVH4Intersector8Chunk.Step.next s1) :
    ∃ (cur1 : NodeRef) (curDist1 : avxd) (rest : List (NodeRef × avxd)) (cur2 : NodeRef)
      (curDist2 : avxd) (pushed : List (NodeRef × avxd)),
      s.stack = (cur1, curDist1) :: rest ∧
      s1.control = BVH4Intersector8Chunk.Control.inner cur2 curDist2 ∧
      s1.stack = pushed ++ rest ∧
      List.Perm ((cur2, curDist2) :: pushed)
        ((cur1, curDist1) :: BVH4Intersector8Chunk.hitChildren k
          (BVH4Intersector8Chunk.setup k valid_i ray) s.ray_tfar (bvh.node cur.ptr)
          [0, 1, 2, 3]) ∧
      (∀ e ∈ (cur1, curDist1) :: BVH4Intersector8Chunk.hitChildren k
          (BVH4Intersector8Chunk.setup k valid_i ray) s.ray_tfar (bvh.node cur.ptr)
          [0, 1, 2, 3], curDist2 l ≤ e.2 l) ∧
      (∀ i : Fin 4, (∀ j : Fin 4, j ≤ i → (bvh.node cur.ptr).children j ≠ BVH4.emptyNode) →
        ((bvh.node cur.ptr).intersect8 k.robust k.avx2 k.ulp i
          (BVH4Intersector8Chunk.setup k valid_i ray).org
          (BVH4Intersector8Chunk.setup k valid_i ray).rdir
          (BVH4Intersector8Chunk.setup k valid_i ray).org_rdir
          (BVH4Intersector8Chunk.setup k valid_i ray).ray_tnear s.ray_tfar).1 l = true →
        curDist2 l ≤ Dist.fin (((bvh.node cur.ptr).intersect8 k.robust k.avx2 k.ulp i
          (BVH4Intersector8Chunk.setup k valid_i ray).org
          (BVH4Intersector8Chunk.setup k valid_i ray).rdir
          (BVH4Intersector8Chunk.setup k valid_i ray).org_rdir
          (BVH4Intersector8Chunk.setup k valid_i ray).ray_tnear s.ray_tfar).2 l)) := by
  -- the other lanes are switched off: their slab tests miss
  have hmiss : ∀ (i : Fin 4) (m : Fin 8), m ≠ l →
      ((bvh.node cur.ptr).intersect8 k.robust k.avx2 k.ulp i
        (BVH4Intersector8Chunk.setup k valid_i ray).org
        (BVH4Intersector8Chunk.setup k valid_i ray).rdir
        (BVH4Intersector8Chunk.setup k valid_i ray).org_rdir
        (BVH4Intersector8Chunk.setup k valid_i ray).ray_tnear s.ray_tfar).1 m = false := by
    intro i m hm
    have hv : valid_i m = false := by
      cases hvm : valid_i m with
      | false => rfl
      | true => exact absurd ((hone m).1 hvm) hm
    have hnv : ¬ (valid_i m = true) := by rw [hv]; exact Bool.false_ne_true
    have h1 : (BVH4Intersector8Chunk.setup k valid_i ray).ray_tnear m = Dist.pos_inf := by
      show select valid_i ray.tnear (fun _ => Dist.pos_inf) m = Dist.pos_inf
      unfold select
      rw [if_neg hnv]
    have h2 : (BVH4Intersector8Chunk.init k valid_i bvh ray).ray_tfar m = Dist.neg_inf := by
      show select valid_i ray.tfar (fun _ => Dist.neg_inf) m = Dist.neg_inf
      unfold select
      rw [if_neg hnv]
    have h3 : s.ray_tfar m = Dist.neg_inf :=
      BVH4Intersector8Chunk.reach_preserves k _ bvh (fun _ rt => rt m = Dist.neg_inf)
        (fun ray1 rt cd prim items hP => by
          show select (fun l => decide (rt l > cd l)) _ rt m = Dist.neg_inf
          unfold select
          rw [if_neg (by
            show ¬ (decide (rt m > cd m) = true)
            rw [hP]
            exact fun h => Dist.not_lt_neg_inf _ (of_decide_eq_true h))]
          exact hP)
        n _ s h2 hs
    exact Node.intersect8_inactive _ _ _ _ i _ _ _ _ _ m h1 h3 hu
  obtain ⟨ray1, rt, stack, control⟩ := s
  simp only [] at hc
  subst hc
  unfold BVH4Intersector8Chunk.step at hstep
  simp only [] at hstep
  rw [if_pos hn] at hstep
  cases stack with
  | nil => exact BVH4Intersector8Chunk.Step.noConfusion hstep
  | cons e rest =>
    obtain ⟨cur1, curDist1⟩ := e
    simp only [] at hstep
    cases hch : BVH4Intersector8Chunk.children k (BVH4Intersector8Chunk.setup k valid_i ray) rt
        (bvh.node cur.ptr) [0, 1, 2, 3] cur1 curDist1 rest with
    | error f => rw [hch] at hstep; exact BVH4Intersector8Chunk.Step.noConfusion hstep
    | ok res =>
      obtain ⟨cur2, curDist2, stack2⟩ := res
      rw [hch] at hstep
      simp only [] at hstep
      injection hstep with hstep
      subst hstep
      obtain ⟨h1, h2, pushed, h3, h4⟩ := BVH4Intersector8Chunk.children_single_lane k _ rt
        (bvh.node cur.ptr) l hmiss [0, 1, 2, 3] cur1 curDist1 rest cur2 curDist2 stack2 hch
      have hall : ∀ e ∈ (cur1, curDist1) :: BVH4Intersector8Chunk.hitChildren k
          (BVH4Intersector8Chunk.setup k valid_i ray) rt (bvh.node cur.ptr) [0, 1, 2, 3],
          curDist2 l ≤ e.2 l := by
        intro e he
        rcases List.mem_cons.1 he with he | he
        · rw [he]; exact h1
        · exact h2 e he
      refine ⟨cur1, curDist1, rest, cur2, curDist2, pushed, rfl, rfl, h3, h4, hall, ?_⟩
      intro i hne hl
      obtain ⟨d, hd, hd1⟩ := BVH4Intersector8Chunk.hitChildren_of_prefix k _ rt
        (bvh.node cur.ptr) l i [0, 1, 2, 3] (by decide) (by fin_cases i <;> simp)
        (fun j _ hji => hne j hji) hl
      rw [← hd1]
      exact h2 _ hd

/-- C34 on the node `rowNodeDesc`, whose four children are entered at the distances
`7, 5, 3, 1`, with lane 0 as the only active lane: after the pop of the root the round of
the inner loop on the root completes; it continues with the child of slot 3 at distance
`1`, the stack holds the children of the slots `2, 1, 0` above the sentinel, and the near
distance of the continued entry is not above that of any hit child. -/
theorem C34_closest_child_first_witness :
    (∀ m : Fin 8, (fun m : Fin 8 => decide (m = 0)) m = true ↔ m = 0) ∧
    ∃ (s s1 : BVH4Intersector8Chunk.State) (cur : NodeRef) (curDist : avxd),
      BVH4Intersector8Chunk.reach noHitKernel
        (BVH4Intersector8Chunk.setup noHitKernel (fun m => decide (m = 0))
          (exRay Dist.pos_inf)) rowBVHDesc 1
        (BVH4Intersector8Chunk.init noHitKernel (fun m => decide (m = 0)) rowBVHDesc
          (exRay Dist.pos_inf)) = some s ∧
      s.control = BVH4Intersector8Chunk.Control.inner cur curDist ∧
      cur.isNode = true ∧
      BVH4Intersector8Chunk.step noHitKernel
        (BVH4Intersector8Chunk.setup noHitKernel (fun m => decide (m = 0))
          (exRay Dist.pos_inf)) rowBVHDesc s = BVH4Intersector8Chunk.Step.next s1 ∧
      ∃ (cur2 : NodeRef) (curDist2 : avxd),
        s1.control = BVH4Intersector8Chunk.Control.inner cur2 curDist2 ∧
        cur2 = rowNodeDesc.children 3 ∧ curDist2 0 = Dist.fin 1 ∧
        s1.stack.map Prod.fst = [rowNodeDesc.children 2, rowNodeDesc.children 1,
          rowNodeDesc.children 0, BVH4.invalidNode] ∧
        ∀ e ∈ BVH4Intersector8Chunk.hitChildren noHitKernel
            (BVH4Intersector8Chunk.setup noHitKernel (fun m => decide (m = 0))
              (exRay Dist.pos_inf)) s.ray_tfar (rowBVHDesc.node cur.ptr) [0, 1, 2, 3],
          curDist2 0 ≤ e.2 0 := by
  have hone : ∀ m : Fin 8, (fun m : Fin 8 => decide (m = 0)) m = true ↔ m = 0 :=
    fun m => decide_eq_true_iff
  obtain ⟨s1, hs1, hf2⟩ := some_of_map
    (BVH4Intersector8Chunk.reach noHitKernel
      (BVH4Intersector8Chunk.setup noHitKernel (fun m => decide (m = 0))
        (exRay Dist.pos_inf)) rowBVHDesc 2
      (BVH4Intersector8Chunk.init noHitKernel (fun m => decide (m = 0)) rowBVHDesc
        (exRay Dist.pos_inf)))
    (fun s => match s.control with
      | BVH4Intersector8Chunk.Control.inner c d => some (c, d 0, s.stack.map Prod.fst)
      | BVH4Intersector8Chunk.Control.pop => Option.none)
    (some (rowNodeDesc.children 3, Dist.fin 1, [rowNodeDesc.children 2,
      rowNodeDesc.children 1, rowNodeDesc.children 0, BVH4.invalidNode])) (by decide!)
  obtain ⟨s, hs, hstep⟩ := BVH4Intersector8Chunk.reach_succ_last _ _ _ 1 _ s1 hs1
  obtain ⟨s', hs', hf1⟩ := some_of_map
    (BVH4Intersector8Chunk.reach noHitKernel
      (BVH4Intersector8Chunk.setup noHitKernel (fun m => decide (m = 0))
        (exRay Dist.pos_inf)) rowBVHDesc 1
      (BVH4Intersector8Chunk.init noHitKernel (fun m => decide (m = 0)) rowBVHDesc
        (exRay Dist.pos_inf)))
    (fun s => match s.control with
      | BVH4Intersector8Chunk.Control.inner c _ => c.isNode
      | BVH4Intersector8Chunk.Control.pop => false)
    true (by decide!)
  have hss : s' = s := Option.some.inj (hs'.symm.trans hs)
  subst hss
  cases hctl : s'.control with
  | pop =>
    rw [hctl] at hf1
    exact Bool.noConfusion hf1
  | inner cur curDist =>
    rw [hctl] at hf1
    have hn : cur.isNode = true := hf1
    obtain ⟨cur1, curDist1, rest, cur2, curDist2, pushed, -, e2, -, -, e5, -⟩ :=
      C34_closest_child_first noHitKernel (fun m => decide (m = 0)) rowBVHDesc
        (exRay Dist.pos_inf) 0 hone (fun h => Bool.noConfusion h) 1 s' s1 cur curDist hs hctl
        hn hstep
    rw [e2] at hf2
    have hf3 := Option.some.inj hf2
    refine ⟨hone, s', s1, cur, curDist, hs, hctl, hn, hstep, cur2, curDist2, e2,
      congrArg Prod.fst hf3, congrArg (fun p => p.2.1) hf3, congrArg (fun p => p.2.2) hf3,
      fun e he => e5 e (List.mem_cons_of_mem _ he)⟩

/-! ## The sentinel of the traversal stack: C14, C36, C17 -/

namespace BVH4Intersector8Chunk

/-- A property of the states that every continuing step preserves holds in every state the
traversal reaches. -/
theorem reach_invariant (k : Kernel) (su : Setup) (bvh : BVH4) (P : State → Prop)
    (hstep : ∀ s s1, P s → step k su bvh s = Step.next s1 → P s1) :
    ∀ (n : Nat) (s s1 : State), P s → reach k su bvh n s = some s1 → P s1 := by
  intro n
  induction n with
  | zero =>
    intro s s1 hP h
    injection h with h
    rw [← h]; exact hP
  | succ n ih =>
    intro s s1 hP h
    unfold reach at h
    cases hs : step k su bvh s with
    | next s2 =>
      rw [hs] at h
      exact ih s2 s1 (hstep s s2 hP hs) h
    | done ray => rw [hs] at h; exact Option.noConfusion h
    | fault f => rw [hs] at h; exact Option.noConfusion h

/-- An entry list above the sentinel whose head is not `invalidNode` has its tail above the
sentinel. -/
theorem tail_above_sentinel (e : NodeRef × avxd) (rest es : List (NodeRef × avxd))
    (h : e :: rest = es ++ [sentinel]) (hne : e.1 ≠ BVH4.invalidNode) :
    ∃ es1, es = e :: es1 ∧ rest = es1 ++ [sentinel] := by
  cases es with
  | nil =>
    exfalso
    have h1 : e = sentinel := List.head_eq_of_cons_eq h
    exact hne (by rw [h1]; rfl)
  | cons e0 es1 =>
    have h1 : e = e0 := List.head_eq_of_cons_eq h
    have h2 : rest = es1 ++ [sentinel] := List.tail_eq_of_cons_eq h
    exact ⟨es1, by rw [h1], h2⟩

/-- Every continuing step keeps the pending entries above the sentinel, in a tree whose
inner nodes have no `invalidNode` child, for a property `Q` that holds of every child other
than `emptyNode`. -/
theorem step_sentinel (k : Kernel) (su : Setup) (bvh : BVH4) (Q : NodeRef → Prop)
    (hnode : ∀ r, BVH4.Reachable bvh r → r.isNode = true →
      ∀ i, (bvh.node r.ptr).children i ≠ BVH4.invalidNode)
    (hQ : ∀ r, BVH4.Reachable bvh r → r.isNode = true →
      ∀ i, (bvh.node r.ptr).children i ≠ BVH4.emptyNode → Q ((bvh.node r.ptr).children i))
    (s s1 : State) (hP : Sentinel bvh Q s) (h : step k su bvh s = Step.next s1) :
    Sentinel bvh Q s1 := by
  obtain ⟨ray, ray_tfar, stack, control⟩ := s
  obtain ⟨es, hes, hall⟩ := hP
  cases control with
  | pop =>
    have hes1 : stack = es ++ [sentinel] := hes
    unfold step at h
    simp only [] at h
    cases stack with
    | nil => exact Step.noConfusion h
    | cons e rest =>
      obtain ⟨cur, curDist⟩ := e
      simp only [] at h
      by_cases hinv : cur = BVH4.invalidNode
      · rw [if_pos hinv] at h
        split at h <;> exact Step.noConfusion h
      · rw [if_neg hinv] at h
        obtain ⟨es1, he1, he2⟩ := tail_above_sentinel (cur, curDist) rest es hes1 hinv
        split at h
        · injection h with h
          subst h
          refine ⟨es1, he2, fun e he => hall e ?_⟩
          rw [he1]
          exact List.mem_cons_of_mem _ he
        · injection h with h
          subst h
          exact ⟨es, hes1, hall⟩
  | inner cur curDist =>
    have hes1 : (cur, curDist) :: stack = es ++ [sentinel] := hes
    unfold step at h
    simp only [] at h
    by_cases hn : cur.isNode = true
    · rw [if_pos hn] at h
      have hinv : cur ≠ BVH4.invalidNode := by
        intro hc
        rw [hc, BVH4.invalidNode_isNode] at hn
        exact Bool.noConfusion hn
      obtain ⟨es1, he1, he2⟩ := tail_above_sentinel (cur, curDist) stack es hes1 hinv
      have hcur : BVH4.Reachable bvh cur :=
        (hall (cur, curDist) (by rw [he1]; exact List.mem_cons_self _ _)).2.1
      cases stack with
      | nil => exact Step.noConfusion h
      | cons e rest =>
        obtain ⟨cur1, curDist1⟩ := e
        simp only [] at h
        rcases children_spec k su ray_tfar (bvh.node cur.ptr) [0, 1, 2, 3] cur1 curDist1 rest
          es1 he2 with hov | ⟨cur2, curDist2, stack2, es2, hch, hsh, hperm⟩
        · rw [hov] at h
          exact Step.noConfusion h
        · rw [hch] at h
          simp only [] at h
          injection h with h
          subst h
          refine ⟨es2, hsh, fun e he => ?_⟩
          rcases List.mem_append.1 (hperm.subset he) with hm | hm
          · obtain ⟨i, -, hne, hi⟩ := mem_hitChildren k su ray_tfar _ _ e hm
            rw [hi]
            exact ⟨hnode cur hcur hn i, BVH4.Reachable.child cur i hcur hn,
              hQ cur hcur hn i hne⟩
          · exact hall e (by rw [he1]; exact List.mem_cons_of_mem _ hm)
    · rw [if_neg hn] at h
      by_cases hinv : cur = BVH4.invalidNode
      · rw [if_pos hinv] at h
        split at h <;> exact Step.noConfusion h
      · rw [if_neg hinv] at h
        obtain ⟨es1, he1, he2⟩ := tail_above_sentinel (cur, curDist) stack es hes1 hinv
        split at h
        · exact Step.noConfusion h
        injection h with h
        subst h
        refine ⟨es1, he2, fun e he => hall e ?_⟩
        rw [he1]
        exact List.mem_cons_of_mem _ he

/-- In a stack that consists of entries other than `invalidNode` above the sentinel, only
slot 0 holds `invalidNode`, and it does. -/
theorem slot_above_sentinel (es : List (NodeRef × avxd))
    (hall : ∀ e ∈ es, e.1 ≠ BVH4.invalidNode) :
    (((es ++ [sentinel]).reverse.get? 0).map Prod.fst = some BVH4.invalidNode) ∧
    ∀ j, ((es ++ [sentinel]).reverse.get? j).map Prod.fst = some BVH4.invalidNode →
      j = 0 := by
  have hrev : (es ++ [sentinel]).reverse = sentinel :: es.reverse := by
    rw [List.reverse_append]; rfl
  rw [hrev]
  refine ⟨rfl, fun j hj => ?_⟩
  cases j with
  | zero => rfl
  | succ j =>
    exfalso
    rw [List.get?_cons_succ] at hj
    cases hg : es.reverse.get? j with
    | none => rw [hg] at hj; exact Option.noConfusion hj
    | some e =>
      rw [hg] at hj
      have he : e ∈ es := List.mem_reverse.1 (List.get?_mem hg)
      exact hall e he (Option.some.inj hj)

end BVH4Intersector8Chunk

/-- The sentinel invariant for a root other than `invalidNode`.  For every kernel, mask and
packet and every BVH4 whose root is not `invalidNode` and whose inner nodes (those among
the references of the tree) have no `invalidNode` child: in every state the traversal
reaches, the assertion `sptr_node == stack_node` holds where the loop finds
`cur == invalidNode` (after the pop of the outer loop and after the inner loop), slot 0 of
a non-empty stack holds `invalidNode`, and no other slot below `sptr_node` does. -/
theorem sentinel_at_base (k : BVH4Intersector8Chunk.Kernel) (valid_i : avxb) (bvh : BVH4)
    (ray : Ray8) (hroot : bvh.root ≠ BVH4.invalidNode)
    (hnode : ∀ r, BVH4.Reachable bvh r → r.isNode = true →
      ∀ i, (bvh.node r.ptr).children i ≠ BVH4.invalidNode) :
    ∀ n s, BVH4Intersector8Chunk.reach k (BVH4Intersector8Chunk.setup k valid_i ray) bvh n
        (BVH4Intersector8Chunk.init k valid_i bvh ray) = some s →
      s.atBase = true ∧
      (s.stack ≠ [] → s.slot 0 = some BVH4.invalidNode) ∧
      (∀ j, s.slot j = some BVH4.invalidNode → j = 0) := by
  intro n s hs
  have hinit : BVH4Intersector8Chunk.Sentinel bvh (fun _ => True)
      (BVH4Intersector8Chunk.init k valid_i bvh ray) := by
    refine ⟨[(bvh.root, (BVH4Intersector8Chunk.setup k valid_i ray).ray_tnear)], rfl, ?_⟩
    intro e he
    rw [List.mem_singleton] at he
    rw [he]
    exact ⟨hroot, BVH4.Reachable.root, trivial⟩
  have hP := BVH4Intersector8Chunk.reach_invariant k _ bvh
    (BVH4Intersector8Chunk.Sentinel bvh (fun _ => True))
    (fun s s1 hP h => BVH4Intersector8Chunk.step_sentinel k _ bvh _ hnode
      (fun _ _ _ _ _ => trivial) s s1 hP h) n _ s hinit
    hs
  obtain ⟨ray1, rt, stack, control⟩ := s
  obtain ⟨es, hes, hall⟩ := hP
  have hall1 : ∀ e ∈ es, e.1 ≠ BVH4.invalidNode := fun e he => (hall e he).1
  -- an entry `invalidNode` at the head of the pending entries is the sentinel
  have hhead : ∀ (cur : NodeRef) (cd : avxd) (rest : List (NodeRef × avxd)),
      (cur, cd) :: rest = es ++ [BVH4Intersector8Chunk.sentinel] → cur = BVH4.invalidNode →
      rest = [] := by
    intro cur cd rest h hc
    cases es with
    | nil => exact List.tail_eq_of_cons_eq h
    | cons e0 es1 =>
      exfalso
      have h1 : (cur, cd) = e0 := List.head_eq_of_cons_eq h
      exact hall1 e0 (List.mem_cons_self _ _) (by rw [← h1]; exact hc)
  cases control with
  | pop =>
    have hes1 : stack = es ++ [BVH4Intersector8Chunk.sentinel] := hes
    refine ⟨?_, fun _ => ?_, fun j hj => ?_⟩
    · unfold BVH4Intersector8Chunk.State.atBase
      simp only []
      cases stack with
      | nil => rfl
      | cons e rest =>
        obtain ⟨cur, cd⟩ := e
        simp only []
        by_cases hc : cur = BVH4.invalidNode
        · rw [if_pos hc, hhead cur cd rest hes1 hc]
          rfl
        · rw [if_neg hc]
    · show ((stack.reverse.get? 0).map Prod.fst) = some BVH4.invalidNode
      rw [hes1]
      exact (BVH4Intersector8Chunk.slot_above_sentinel es hall1).1
    · have hj1 : ((stack.reverse.get? j).map Prod.fst) = some BVH4.invalidNode := hj
      rw [hes1] at hj1
      exact (BVH4Intersector8Chunk.slot_above_sentinel es hall1).2 j hj1
  | inner cur cd =>
    have hes1 : (cur, cd) :: stack = es ++ [BVH4Intersector8Chunk.sentinel] := hes
    have hst : stack = [] ∨ ∃ es1, stack = es1 ++ [BVH4Intersector8Chunk.sentinel] ∧
        ∀ e ∈ es1, e.1 ≠ BVH4.invalidNode := by
      cases es with
      | nil => exact Or.inl (List.tail_eq_of_cons_eq hes1)
      | cons e0 es1 =>
        exact Or.inr ⟨es1, List.tail_eq_of_cons_eq hes1,
          fun e he => hall1 e (List.mem_cons_of_mem _ he)⟩
    refine ⟨?_, fun hne => ?_, fun j hj => ?_⟩
    · unfold BVH4Intersector8Chunk.State.atBase
      simp only []
      by_cases hn : cur.isNode = true
      · rw [if_pos hn]
      · rw [if_neg hn]
        by_cases hc : cur = BVH4.invalidNode
        · rw [if_pos hc, hhead cur cd stack hes1 hc]
          rfl
        · rw [if_neg hc]
    · rcases hst with h0 | ⟨es1, h1, h2⟩
      · exact absurd h0 hne
      · show ((stack.reverse.get? 0).map Prod.fst) = some BVH4.invalidNode
        rw [h1]
        exact (BVH4Intersector8Chunk.slot_above_sentinel es1 h2).1
    · have hj1 : ((stack.reverse.get? j).map Prod.fst) = some BVH4.invalidNode := hj
      rcases hst with h0 | ⟨es1, h1, h2⟩
      · rw [h0] at hj1
        exact Option.noConfusion hj1
      · rw [h1] at hj1
        exact (BVH4Intersector8Chunk.slot_above_sentinel es1 h2).2 j hj1

/-- Claim C36, on the tree with root `invalidNode` (whose nodes have no `invalidNode`
child).  The state before the first pop has `invalidNode` in slot 1 as well as in slot 0;
the first pop finds `cur == invalidNode` with one entry left below `sptr_node`: the
assertion `sptr_node == stack_node` of source line 650 is false there, and the run ends
with that failed assertion, for every kernel, mask and packet. -/
theorem C36_sentinel_assertion (k : BVH4Intersector8Chunk.Kernel) (valid_i : avxb)
    (ray : Ray8) :
    emptyBVH.root = BVH4.invalidNode ∧
    (∀ (p : Nat) (i : Fin 4), (emptyBVH.node p).children i ≠ BVH4.invalidNode) ∧
    (BVH4Intersector8Chunk.init k valid_i emptyBVH ray).slot 0 = some BVH4.invalidNode ∧
    (BVH4Intersector8Chunk.init k valid_i emptyBVH ray).slot 1 = some BVH4.invalidNode ∧
    (BVH4Intersector8Chunk.init k valid_i emptyBVH ray).atBase = false ∧
    BVH4Intersector8Chunk.step k (BVH4Intersector8Chunk.setup k valid_i ray) emptyBVH
      (BVH4Intersector8Chunk.init k valid_i emptyBVH ray) =
        BVH4Intersector8Chunk.Step.fault BVH4Intersector8Chunk.Fault.stackNotEmpty ∧
    (∀ fuel, BVH4Intersector8Chunk.intersect k (fuel + 1) valid_i emptyBVH ray =
      Except.error BVH4Intersector8Chunk.Fault.stackNotEmpty) := by
  refine ⟨rfl, ?_, rfl, rfl, rfl, ?_, ?_⟩
  · intro p i
    have h : ∀ i : Fin 4, exNode.children i ≠ BVH4.invalidNode := by decide
    exact h i
  · exact BVH4Intersector8Chunk.step_pop_invalid_fault _ _ _ _ _ _ _ rfl
  · intro fuel
    unfold BVH4Intersector8Chunk.intersect
    rw [BVH4Intersector8Chunk.run_succ]
    have hs : BVH4Intersector8Chunk.step k (BVH4Intersector8Chunk.setup k valid_i ray)
        emptyBVH (BVH4Intersector8Chunk.init k valid_i emptyBVH ray) =
        BVH4Intersector8Chunk.Step.fault BVH4Intersector8Chunk.Fault.stackNotEmpty :=
      BVH4Intersector8Chunk.step_pop_invalid_fault _ _ _ _ _ _ _ rfl
    rw [hs]

/-- The sentinel invariant on the small scene (root the inner node at address 16, whose
children are a leaf and `emptyNode`): after the three steps that end with the leaf the stack holds the
sentinel alone, in slot 0, and the assertion holds at the pop that follows and finds
`cur == invalidNode`. -/
theorem sentinel_at_base_example :
    exBVH.root ≠ BVH4.invalidNode ∧
    (∀ r, BVH4.Reachable exBVH r → r.isNode = true →
      ∀ i, (exBVH.node r.ptr).children i ≠ BVH4.invalidNode) ∧
    ∃ s, BVH4Intersector8Chunk.reach exKernel
        (BVH4Intersector8Chunk.setup exKernel (fun _ => true) (exRay (Dist.fin 10))) exBVH 3
        (BVH4Intersector8Chunk.init exKernel (fun _ => true) exBVH (exRay (Dist.fin 10)))
        = some s ∧
      s.stack.map Prod.fst = [BVH4.invalidNode] ∧
      s.atBase = true ∧ s.slot 0 = some BVH4.invalidNode ∧
      ∀ j, s.slot j = some BVH4.invalidNode → j = 0 := by
  have hroot : exBVH.root ≠ BVH4.invalidNode := by decide
  have hnode : ∀ r, BVH4.Reachable exBVH r → r.isNode = true →
      ∀ i, (exBVH.node r.ptr).children i ≠ BVH4.invalidNode := by
    intro r _ _ i
    have h : ∀ i : Fin 4, exNode.children i ≠ BVH4.invalidNode := by decide
    exact h i
  obtain ⟨s, hs, h⟩ := some_of_map
    (BVH4Intersector8Chunk.reach exKernel
      (BVH4Intersector8Chunk.setup exKernel (fun _ => true) (exRay (Dist.fin 10))) exBVH 3
      (BVH4Intersector8Chunk.init exKernel (fun _ => true) exBVH (exRay (Dist.fin 10))))
    (fun s => s.stack.map Prod.fst) [BVH4.invalidNode] (by decide!)
  have h3 := sentinel_at_base exKernel (fun _ => true) exBVH (exRay (Dist.fin 10)) hroot
    hnode 3 s hs
  refine ⟨hroot, hnode, s, hs, h, h3.1, h3.2.1 ?_, h3.2.2⟩
  intro h0
  rw [h0] at h
  exact List.noConfusion h

namespace BVH4Intersector8Chunk

end BVH4Intersector8Chunk

end embree
